import Mathlib

/-! # Indic syllable reordering

A shallow embedding of the reordering core of `hb-ot-shape-complex-indic.cc`
(`initial_reordering_consonant_syllable`, `final_reordering_syllable` and their
helpers) together with theorems about it.

Conventions of the embedding

* `buffer->info` is a `List hb_glyph_info_t`; `buffer->len` is its length.
  A read `info[i]` is `getInfo info i`, which yields the default glyph when `i`
  is not an index of the list.
* `unsigned int` indices are `Nat`.  All index arithmetic of the source stays
  below `buffer->len + 4`, so no 32-bit wrap-around can arise.
* `hb_mask_t` is `Nat`; the only width-sensitive operation, `~m`, is
  `hb_mask_not`, computed modulo `2^32`.
* `indic_options ()` is the record `indic_options_t` passed as an argument.
-/

namespace Indic

/-! ## Data model -/

/-- Modelled from the spec: `indic_category_t` is declared in
`hb-ot-shape-complex-indic-private.hh`, which is not among the sources; this is
the closed enumeration of spec §3.1 with the names the source uses. -/
inductive indic_category_t
  | OT_X | OT_C | OT_Ra | OT_V | OT_N | OT_H | OT_ZWNJ | OT_ZWJ | OT_M | OT_SM
  | OT_VD | OT_A | OT_NBSP | OT_DOTTEDCIRCLE | OT_RS | OT_Coeng | OT_Repha
  deriving DecidableEq, Repr, Inhabited

/-- Modelled from the spec: `indic_position_t` is declared in
`hb-ot-shape-complex-indic-private.hh`, which is not among the sources; this is
the ordered enumeration of spec §3.2. -/
inductive indic_position_t
  | POS_RA_TO_BECOME_REPH | POS_PRE_M | POS_PRE_C | POS_BASE_C | POS_BELOW_C
  | POS_ABOVE_C | POS_POST_C | POS_ABOVE_M | POS_BELOW_M | POS_POST_M
  | POS_FINAL_C | POS_SMVD
  deriving DecidableEq, Repr, Inhabited

open indic_category_t indic_position_t

/-- The integer value of a position: the enumeration order of spec §3.2
(smaller means earlier in the syllable). -/
def indic_position_t.toNat : indic_position_t → Nat
  | POS_RA_TO_BECOME_REPH => 0
  | POS_PRE_M => 1
  | POS_PRE_C => 2
  | POS_BASE_C => 3
  | POS_BELOW_C => 4
  | POS_ABOVE_C => 5
  | POS_POST_C => 6
  | POS_ABOVE_M => 7
  | POS_BELOW_M => 8
  | POS_POST_M => 9
  | POS_FINAL_C => 10
  | POS_SMVD => 11

/-- Modelled from the spec: `hb_unicode_general_category_t` is declared in
`hb-unicode.h`, which is not among the sources; the Unicode general categories. -/
inductive hb_unicode_general_category_t
  | CONTROL | FORMAT | UNASSIGNED | PRIVATE_USE | SURROGATE
  | LOWERCASE_LETTER | MODIFIER_LETTER | OTHER_LETTER | TITLECASE_LETTER
  | UPPERCASE_LETTER | SPACING_MARK | ENCLOSING_MARK | NON_SPACING_MARK
  | DECIMAL_NUMBER | LETTER_NUMBER | OTHER_NUMBER | CONNECT_PUNCTUATION
  | DASH_PUNCTUATION | CLOSE_PUNCTUATION | FINAL_PUNCTUATION
  | INITIAL_PUNCTUATION | OTHER_PUNCTUATION | OPEN_PUNCTUATION
  | CURRENCY_SYMBOL | MODIFIER_SYMBOL | MATH_SYMBOL | OTHER_SYMBOL
  | LINE_SEPARATOR | PARAGRAPH_SEPARATOR | SPACE_SEPARATOR
  deriving DecidableEq, Repr, Inhabited

/-- The core-visible fields of one buffer slot (spec §3.3). -/
structure hb_glyph_info_t where
  codepoint : Nat
  general_category : hb_unicode_general_category_t
  indic_category : indic_category_t
  indic_position : indic_position_t
  mask : Nat
  syllable : Nat
  cluster : Nat
  deriving DecidableEq, Repr, Inhabited

/-- The process-wide option record; only the compatibility flag is observable. -/
structure indic_options_t where
  uniscribe_bug_compatible : Bool
  deriving DecidableEq, Repr

/-- `HB_TAG (a, b, c, d)`: four bytes packed big-endian into a 32-bit tag. -/
def HB_TAG (a b c d : Char) : Nat :=
  a.toNat * 16777216 + b.toNat * 65536 + c.toNat * 256 + d.toNat

/-- Modelled from the spec: the `HB_SCRIPT_*` constants are declared in
`hb-common.h`, which is not among the sources; they are the ISO 15924 tags of
the ten scripts of spec §6. -/
def HB_SCRIPT_BENGALI : Nat := HB_TAG 'B' 'e' 'n' 'g'
/-- Modelled from the spec: see `HB_SCRIPT_BENGALI`. -/
def HB_SCRIPT_DEVANAGARI : Nat := HB_TAG 'D' 'e' 'v' 'a'
/-- Modelled from the spec: see `HB_SCRIPT_BENGALI`. -/
def HB_SCRIPT_GUJARATI : Nat := HB_TAG 'G' 'u' 'j' 'r'
/-- Modelled from the spec: see `HB_SCRIPT_BENGALI`. -/
def HB_SCRIPT_GURMUKHI : Nat := HB_TAG 'G' 'u' 'r' 'u'
/-- Modelled from the spec: see `HB_SCRIPT_BENGALI`. -/
def HB_SCRIPT_KANNADA : Nat := HB_TAG 'K' 'n' 'd' 'a'
/-- Modelled from the spec: see `HB_SCRIPT_BENGALI`. -/
def HB_SCRIPT_KHMER : Nat := HB_TAG 'K' 'h' 'm' 'r'
/-- Modelled from the spec: see `HB_SCRIPT_BENGALI`. -/
def HB_SCRIPT_MALAYALAM : Nat := HB_TAG 'M' 'l' 'y' 'm'
/-- Modelled from the spec: see `HB_SCRIPT_BENGALI`. -/
def HB_SCRIPT_ORIYA : Nat := HB_TAG 'O' 'r' 'y' 'a'
/-- Modelled from the spec: see `HB_SCRIPT_BENGALI`. -/
def HB_SCRIPT_TAMIL : Nat := HB_TAG 'T' 'a' 'm' 'l'
/-- Modelled from the spec: see `HB_SCRIPT_BENGALI`. -/
def HB_SCRIPT_TELUGU : Nat := HB_TAG 'T' 'e' 'l' 'u'

/-- `OLD_INDIC_TAG (script)`: the tag OR-ed with `0x20000000`. -/
def OLD_INDIC_TAG (script : Nat) : Nat := script ||| 0x20000000

/-- `IS_OLD_INDIC_TAG (tag)`. -/
def IS_OLD_INDIC_TAG (tag : Nat) : Bool :=
  tag == OLD_INDIC_TAG HB_SCRIPT_BENGALI ||
  tag == OLD_INDIC_TAG HB_SCRIPT_DEVANAGARI ||
  tag == OLD_INDIC_TAG HB_SCRIPT_GUJARATI ||
  tag == OLD_INDIC_TAG HB_SCRIPT_GURMUKHI ||
  tag == OLD_INDIC_TAG HB_SCRIPT_KANNADA ||
  tag == OLD_INDIC_TAG HB_SCRIPT_MALAYALAM ||
  tag == OLD_INDIC_TAG HB_SCRIPT_ORIYA ||
  tag == OLD_INDIC_TAG HB_SCRIPT_TAMIL ||
  tag == OLD_INDIC_TAG HB_SCRIPT_TELUGU

/-! Indices into `basic_mask_array`, in the order of `indic_basic_features`. -/

def _NUKT : Nat := 0
def AKHN : Nat := 1
def RPHF : Nat := 2
def _RKRF : Nat := 3
def PREF : Nat := 4
def BLWF : Nat := 5
def HALF : Nat := 6
def ABVF : Nat := 7
def PSTF : Nat := 8
def CFAR : Nat := 9
def CJCT : Nat := 10
def VATU : Nat := 11

/-- The complement `~m` of a 32-bit `hb_mask_t`. -/
def hb_mask_not (m : Nat) : Nat := (m % 4294967296) ^^^ 4294967295

/-! ## Category predicates -/

/-- `is_joiner`: `FLAG (category) & (FLAG (OT_ZWJ) | FLAG (OT_ZWNJ))`. -/
def is_joiner (info : hb_glyph_info_t) : Bool :=
  info.indic_category == OT_ZWJ || info.indic_category == OT_ZWNJ

/-- `is_consonant`: vowels and placeholders count as consonants. -/
def is_consonant (info : hb_glyph_info_t) : Bool :=
  info.indic_category == OT_C || info.indic_category == OT_Ra ||
  info.indic_category == OT_V || info.indic_category == OT_NBSP ||
  info.indic_category == OT_DOTTEDCIRCLE

/-- `is_halant_or_coeng`. -/
def is_halant_or_coeng (info : hb_glyph_info_t) : Bool :=
  info.indic_category == OT_H || info.indic_category == OT_Coeng

/-- The category test of the attachment pass:
`FLAG (OT_ZWNJ) | FLAG (OT_ZWJ) | FLAG (OT_N) | FLAG (OT_RS) | FLAG (OT_H)`. -/
def is_attached_category (c : indic_category_t) : Bool :=
  c == OT_ZWNJ || c == OT_ZWJ || c == OT_N || c == OT_RS || c == OT_H

/-- The category test of the final-reordering scans:
`FLAG (OT_M) | FLAG (OT_H) | FLAG (OT_Coeng)`. -/
def is_matra_halant_coeng (c : indic_category_t) : Bool :=
  c == OT_M || c == OT_H || c == OT_Coeng

/-! ## Buffer primitives -/

/-- The read `info[i]`. -/
def getInfo (info : List hb_glyph_info_t) (i : Nat) : hb_glyph_info_t :=
  info.getD i default

/-- The write `info[i].indic_position() = p`. -/
def setPos (info : List hb_glyph_info_t) (i : Nat) (p : indic_position_t) :
    List hb_glyph_info_t :=
  info.set i { getInfo info i with indic_position := p }

/-- The write `info[i].mask |= m`. -/
def orMask (info : List hb_glyph_info_t) (i : Nat) (m : Nat) : List hb_glyph_info_t :=
  info.set i { getInfo info i with mask := (getInfo info i).mask ||| m }

/-- The write `info[i].mask &= ~m`. -/
def clearMask (info : List hb_glyph_info_t) (i : Nat) (m : Nat) : List hb_glyph_info_t :=
  info.set i { getInfo info i with mask := (getInfo info i).mask &&& hb_mask_not m }

/-- The rotation `t = info[i]; memmove (&info[i], &info[i + 1], (j - i) * sizeof (info[0]));
info[j] = t`: the glyph at `i` moves to `j`, the glyphs in `(i, j]` shift left by one. -/
def move_forward (info : List hb_glyph_info_t) (i j : Nat) : List hb_glyph_info_t :=
  info.take i ++ ((info.drop (i + 1)).take (j - i) ++ (getInfo info i :: info.drop (j + 1)))

/-- The rotation `tmp = info[old_pos]; memmove (&info[new_pos + 1], &info[new_pos],
(old_pos - new_pos) * sizeof (info[0])); info[new_pos] = tmp`: the glyph at `old_pos`
moves to `new_pos`, the glyphs in `[new_pos, old_pos)` shift right by one. -/
def move_backward (info : List hb_glyph_info_t) (new_pos old_pos : Nat) :
    List hb_glyph_info_t :=
  info.take new_pos ++
    (getInfo info old_pos :: ((info.drop new_pos).take (old_pos - new_pos) ++
      info.drop (old_pos + 1)))

/-! ## Loop forms -/

/-- The loop `for (i = lo; i < hi; i++) s = body i s`. -/
def forRange {σ : Type} (lo hi : Nat) (body : Nat → σ → σ) (s : σ) : σ :=
  (List.range' lo (hi - lo)).foldl (fun s i => body i s) s

/-- The first index `i` with `lo ≤ i < hi` and `p i`, scanning upwards. -/
def findFrom (p : Nat → Bool) (lo hi : Nat) : Option Nat :=
  (List.range' lo (hi - lo)).find? p

/-- The loop `while (j > lo && !p (j)) j--`, started at the given `j`. -/
def scanDown (p : Nat → Bool) (lo : Nat) : Nat → Nat
  | 0 => 0
  | j + 1 => if lo < j + 1 ∧ p (j + 1) = false then scanDown p lo j else j + 1

/-- The loop `while (j < hi && !p (j)) j++`, started at the given `j`; the first
argument bounds the number of iterations (`hi - j` suffices). -/
def scanUp (p : Nat → Bool) (hi : Nat) : Nat → Nat → Nat
  | 0, j => j
  | n + 1, j => if j < hi ∧ p j = false then scanUp p hi n (j + 1) else j

/-! ## The sort

`hb_bubble_sort` lives in `hb-private.hh`, which is not among the sources. -/

/-- `compare_indic_order (pa, pb) > 0`: the first glyph sorts after the second. -/
def compare_indic_order_gt (a b : hb_glyph_info_t) : Bool :=
  decide (b.indic_position.toNat < a.indic_position.toNat)

/-- One left-to-right pass of adjacent exchanges, carrying the glyph `a`: the
neighbour is exchanged with it when `compare_indic_order` is positive. -/
def bubble_carry (a : hb_glyph_info_t) : List hb_glyph_info_t → List hb_glyph_info_t
  | [] => [a]
  | b :: rest =>
    if compare_indic_order_gt a b then b :: bubble_carry a rest
    else a :: bubble_carry b rest

/-- One pass over the whole array. -/
def bubble_pass : List hb_glyph_info_t → List hb_glyph_info_t
  | [] => []
  | a :: rest => bubble_carry a rest

/-- Modelled from the spec: `hb_bubble_sort (array, len, compare_indic_order)` is defined in
`hb-private.hh`, which is not among the sources.  Spec §4.4.5 calls it a bubble sort that
stable-sorts by `indic_position`: passes of adjacent exchanges, an exchange being made
only when `compare_indic_order` is positive, repeated `len` times. -/
def hb_bubble_sort (array : List hb_glyph_info_t) : List hb_glyph_info_t :=
  Nat.iterate bubble_pass array.length array

/-- The call `hb_bubble_sort (info + start, end - start, compare_indic_order)`. -/
def sort_range (info : List hb_glyph_info_t) (start end_ : Nat) : List hb_glyph_info_t :=
  info.take start ++ (hb_bubble_sort ((info.drop start).take (end_ - start)) ++ info.drop end_)

/-! ## Initial reordering -/

/-- The reph precondition of base selection (source lines 357–361). -/
def reph_precondition (basic_mask_array : Nat → Nat) (info : List hb_glyph_info_t)
    (start end_ : Nat) : Bool :=
  basic_mask_array RPHF != 0 &&
  decide (start + 3 ≤ end_) &&
  (getInfo info start).indic_category == OT_Ra &&
  (getInfo info (start + 1)).indic_category == OT_H &&
  !is_joiner (getInfo info (start + 2))

/-- The body of the `do … while (i > limit)` loop of the `BASE_LAST` scan, entered with `i`
already decremented; `base` is the candidate so far. -/
def find_base_last (info : List hb_glyph_info_t) (limit : Nat) : Nat → Nat → Nat
  | 0, base =>
    if is_consonant (getInfo info 0) then 0 else base
  | i + 1, base =>
    if is_consonant (getInfo info (i + 1)) then
      if (getInfo info (i + 1)).indic_position ≠ POS_BELOW_C ∧
          (getInfo info (i + 1)).indic_position ≠ POS_POST_C then i + 1
      else if limit < i + 1 then find_base_last info limit i (i + 1) else i + 1
    else if is_joiner (getInfo info (i + 1)) then base
    else if limit < i + 1 then find_base_last info limit i base else base

/-- Step 1, base selection (source lines 349–438): the pair `(base, has_reph)`. -/
def find_base (script : Nat) (basic_mask_array : Nat → Nat) (info : List hb_glyph_info_t)
    (start end_ : Nat) : Nat × Bool :=
  let pre := reph_precondition basic_mask_array info start end_
  let limit := if pre then start + 2 else start
  let base := if pre then start else end_
  let has_reph := pre
  let base :=
    if script = HB_SCRIPT_KHMER then
      (if !has_reph then limit else base)
    else find_base_last info limit (end_ - 1) base
  let base := if base < start then start else base
  let has_reph := if has_reph && decide (base = start) then false else has_reph
  (base, has_reph)

/-- Marking of final consonants (source lines 483–491). -/
def mark_final_consonant (info : List hb_glyph_info_t) (base end_ : Nat) :
    List hb_glyph_info_t :=
  match findFrom (fun i => (getInfo info i).indic_category == OT_M) (base + 1) end_ with
  | none => info
  | some i =>
    match findFrom (fun j => is_consonant (getInfo info j)) (i + 1) end_ with
    | none => info
    | some j => setPos info j POS_FINAL_C

/-- Position assignment (source lines 475–495). -/
def assign_positions (info : List hb_glyph_info_t) (start end_ base : Nat) (has_reph : Bool) :
    List hb_glyph_info_t :=
  let info := forRange start base (fun i info => setPos info i POS_PRE_C) info
  let info := if base < end_ then setPos info base POS_BASE_C else info
  let info := mark_final_consonant info base end_
  if has_reph then setPos info start POS_RA_TO_BECOME_REPH else info

/-- The old-spec halant move (source lines 499–514). -/
def old_spec_halant_move (chosen_script : Nat) (info : List hb_glyph_info_t) (base end_ : Nat) :
    List hb_glyph_info_t :=
  if IS_OLD_INDIC_TAG chosen_script then
    match findFrom (fun i => (getInfo info i).indic_category == OT_H) (base + 1) end_ with
    | none => info
    | some i =>
      let j := scanDown (fun j => is_consonant (getInfo info j)) i (end_ - 1)
      if i < j then move_forward info i j else info
  else info

/-- The inner loop of the Uniscribe branch of the attachment pass (source lines 533–537). -/
def attach_uniscribe_halant (info : List hb_glyph_info_t) (start i : Nat) :
    List hb_glyph_info_t :=
  let j := scanDown (fun j => (getInfo info (j - 1)).indic_position != POS_PRE_M) start i
  if start < j then setPos info i (getInfo info (j - 1)).indic_position else info

/-- Attachment of ZWJ, ZWNJ, nukta, RS and halant to the previous glyph (source lines 517–539). -/
def attach_marks (opts : indic_options_t) (info : List hb_glyph_info_t) (start end_ : Nat) :
    List hb_glyph_info_t :=
  if !opts.uniscribe_bug_compatible then
    forRange (start + 1) end_ (fun i info =>
      if is_attached_category (getInfo info i).indic_category then
        setPos info i (getInfo info (i - 1)).indic_position
      else info) info
  else
    forRange (start + 1) end_ (fun i info =>
      if is_attached_category (getInfo info i).indic_category then
        let info := setPos info i (getInfo info (i - 1)).indic_position
        if (getInfo info i).indic_category == OT_H ∧
            (getInfo info i).indic_position == POS_PRE_M then
          attach_uniscribe_halant info start i
        else info
      else info) info

/-- Re-attachment of halants to the following consonant, after the base (source lines 541–550);
the state is `(last_halant, info)`. -/
def reattach_halants (info : List hb_glyph_info_t) (base end_ : Nat) : List hb_glyph_info_t :=
  (forRange (base + 1) end_ (fun i (s : Nat × List hb_glyph_info_t) =>
    if is_halant_or_coeng (getInfo s.2 i) then (i, s.2)
    else if is_consonant (getInfo s.2 i) then
      (s.1, forRange s.1 i (fun j info => setPos info j (getInfo info i).indic_position) s.2)
    else s) (end_, info)).2

/-- The state of the syllable just before the sort: base selection, position assignment,
old-spec halant move and both attachment passes; the pair `(info, base)`. -/
def initial_reordering_before_sort (opts : indic_options_t) (chosen_script script : Nat)
    (basic_mask_array : Nat → Nat) (info : List hb_glyph_info_t) (start end_ : Nat) :
    List hb_glyph_info_t × Nat :=
  let bh := find_base script basic_mask_array info start end_
  let info := assign_positions info start end_ bh.1 bh.2
  let info := old_spec_halant_move chosen_script info bh.1 end_
  let info := attach_marks opts info start end_
  let info := reattach_halants info bh.1 end_
  (info, bh.1)

/-- The sort step with its cut-off and the search for the base (source lines 553–564). -/
def sort_syllable (info : List hb_glyph_info_t) (start end_ base : Nat) :
    List hb_glyph_info_t × Nat :=
  if end_ - start < 64 then
    let info := sort_range info start end_
    (info, (findFrom (fun i => (getInfo info i).indic_position == POS_BASE_C) start end_).getD end_)
  else (info, base)

/-- The reph mask loop (source lines 572–573); the first argument bounds the iterations. -/
def reph_mask_loop (m end_ : Nat) : Nat → Nat → List hb_glyph_info_t → List hb_glyph_info_t
  | 0, _, info => info
  | n + 1, i, info =>
    if i < end_ ∧ (getInfo info i).indic_position = POS_RA_TO_BECOME_REPH then
      reph_mask_loop m end_ n (i + 1) (orMask info i m)
    else info

/-- Mask set-up for pre-base, base and post-base glyphs (source lines 575–586). -/
def setup_zone_masks (basic_mask_array : Nat → Nat) (info : List hb_glyph_info_t)
    (start end_ base : Nat) : List hb_glyph_info_t :=
  let mask := basic_mask_array HALF ||| basic_mask_array AKHN ||| basic_mask_array CJCT
  let info := forRange start base (fun i info => orMask info i mask) info
  let mask := basic_mask_array AKHN ||| basic_mask_array CJCT
  let info := if base < end_ then orMask info base mask else info
  let mask := basic_mask_array BLWF ||| basic_mask_array ABVF ||| basic_mask_array PSTF |||
    basic_mask_array CJCT
  forRange (base + 1) end_ (fun i info => orMask info i mask) info

/-- Mask set-up for reph, pre-base, base and post-base glyphs (source lines 568–587). -/
def setup_syllable_masks (basic_mask_array : Nat → Nat) (info : List hb_glyph_info_t)
    (start end_ base : Nat) : List hb_glyph_info_t :=
  let info := reph_mask_loop (basic_mask_array RPHF) end_ (end_ - start) start info
  setup_zone_masks basic_mask_array info start end_ base

/-- Marking of a halant,Ra pair with `pref` and of what follows with `cfar`
(source lines 590–611). -/
def mark_pref_cfar (basic_mask_array : Nat → Nat) (info : List hb_glyph_info_t)
    (end_ base : Nat) : List hb_glyph_info_t :=
  if basic_mask_array PREF ≠ 0 ∧ base + 3 ≤ end_ then
    match findFrom (fun i => is_halant_or_coeng (getInfo info i) &&
        (getInfo info (i + 1)).indic_category == OT_Ra) (base + 1) (end_ - 1) with
    | none => info
    | some i =>
      let info := orMask info i (basic_mask_array PREF)
      let info := orMask info (i + 1) (basic_mask_array PREF)
      forRange (i + 2) end_ (fun k info => orMask info k (basic_mask_array CFAR)) info
  else info

/-- The `do … while (j > start && !is_consonant (info[j]))` loop of the joiner pass, entered
with `j` already decremented (source lines 619–626). -/
def joiner_walk_back (basic_mask_array : Nat → Nat) (non_joiner : Bool) (start : Nat) :
    Nat → List hb_glyph_info_t → List hb_glyph_info_t
  | 0, info =>
    let info := clearMask info 0 (basic_mask_array CJCT)
    if non_joiner then clearMask info 0 (basic_mask_array HALF) else info
  | j + 1, info =>
    let info := clearMask info (j + 1) (basic_mask_array CJCT)
    let info := if non_joiner then clearMask info (j + 1) (basic_mask_array HALF) else info
    if start < j + 1 ∧ is_consonant (getInfo info (j + 1)) = false then
      joiner_walk_back basic_mask_array non_joiner start j info
    else info

/-- The ZWJ/ZWNJ pass (source lines 614–627). -/
def apply_joiner_effects (basic_mask_array : Nat → Nat) (info : List hb_glyph_info_t)
    (start end_ : Nat) : List hb_glyph_info_t :=
  forRange (start + 1) end_ (fun i info =>
    if is_joiner (getInfo info i) then
      joiner_walk_back basic_mask_array ((getInfo info i).indic_category == OT_ZWNJ) start
        (i - 1) info
    else info) info

/-- The masks part of initial reordering: everything after the sort. -/
def initial_reordering_masks (basic_mask_array : Nat → Nat) (info : List hb_glyph_info_t)
    (start end_ base : Nat) : List hb_glyph_info_t :=
  let info := setup_syllable_masks basic_mask_array info start end_ base
  let info := mark_pref_cfar basic_mask_array info end_ base
  apply_joiner_effects basic_mask_array info start end_

/-- `initial_reordering_consonant_syllable (map, buffer, basic_mask_array, start, end)`:
`chosen_script` is `map->get_chosen_script (0)`, `script` is `buffer->props.script`. -/
def initial_reordering_consonant_syllable (opts : indic_options_t) (chosen_script script : Nat)
    (basic_mask_array : Nat → Nat) (info : List hb_glyph_info_t) (start end_ : Nat) :
    List hb_glyph_info_t :=
  let s := initial_reordering_before_sort opts chosen_script script basic_mask_array info
    start end_
  let s := sort_syllable s.1 start end_ s.2
  initial_reordering_masks basic_mask_array s.1 start end_ s.2

/-- `initial_reordering_vowel_syllable`: the consonant logic. -/
def initial_reordering_vowel_syllable (opts : indic_options_t) (chosen_script script : Nat)
    (basic_mask_array : Nat → Nat) (info : List hb_glyph_info_t) (start end_ : Nat) :
    List hb_glyph_info_t :=
  initial_reordering_consonant_syllable opts chosen_script script basic_mask_array info start end_

/-- `initial_reordering_standalone_cluster`: in compatibility mode a cluster ending in a
dotted circle is left alone. -/
def initial_reordering_standalone_cluster (opts : indic_options_t) (chosen_script script : Nat)
    (basic_mask_array : Nat → Nat) (info : List hb_glyph_info_t) (start end_ : Nat) :
    List hb_glyph_info_t :=
  if opts.uniscribe_bug_compatible ∧
      (getInfo info (end_ - 1)).indic_category = OT_DOTTEDCIRCLE then info
  else
    initial_reordering_consonant_syllable opts chosen_script script basic_mask_array info
      start end_

/-- `initial_reordering_non_indic` (source lines 662–670): the body is empty, the buffer is
left as it is. -/
def initial_reordering_non_indic (_chosen_script _script : Nat)
    (_basic_mask_array : Nat → Nat) (info : List hb_glyph_info_t) (_start _end_ : Nat) :
    List hb_glyph_info_t :=
  info

/-! ## Final reordering -/

/-- Modelled from the spec: `hb_buffer_t::merge_clusters (start, end)` is defined in
`hb-buffer.cc`, which is not among the sources.  It sets every cluster value in
`[start, end)` to the minimum over that range; an empty range is left alone. -/
def merge_clusters (info : List hb_glyph_info_t) (start end_ : Nat) : List hb_glyph_info_t :=
  if start < end_ then
    let cluster := ((info.drop (start + 1)).take (end_ - (start + 1))).foldl
      (fun c g => min c g.cluster) (getInfo info start).cluster
    info.take start ++ (((info.drop start).take (end_ - start)).map
      (fun g => { g with cluster := cluster }) ++ info.drop end_)
  else info

/-- The search for the base at the head of final reordering (source lines 704–709). -/
def final_find_base (info : List hb_glyph_info_t) (start end_ : Nat) : Nat :=
  (findFrom (fun i => (getInfo info i).indic_position == POS_BASE_C) start end_).getD end_

/-- The state threaded through the passes of final reordering. -/
structure final_state_t where
  info : List hb_glyph_info_t
  start_of_last_cluster : Nat

/-- The loop `for (i = new_pos; i > start; i--)` of the pre-base matra pass (source lines
738–747); the state is `(info, new_pos, start_of_last_cluster)`. -/
def matra_move_loop (start : Nat) :
    Nat → List hb_glyph_info_t × Nat × Nat → List hb_glyph_info_t × Nat × Nat
  | 0, s => s
  | i + 1, s =>
    if start < i + 1 then
      matra_move_loop start i
        (if (getInfo s.1 i).indic_position = POS_PRE_M then
          (move_forward s.1 i s.2.1, s.2.1 - 1, min s.2.1 s.2.2)
        else s)
    else s

/-- The pre-base matra pass (source lines 723–749). -/
def final_reorder_matras (s : final_state_t) (start end_ base : Nat) : final_state_t :=
  if start < base then
    let new_pos := scanDown
      (fun j => is_matra_halant_coeng (getInfo s.info j).indic_category) start (base - 1)
    if is_halant_or_coeng (getInfo s.info new_pos) ∧
        (getInfo s.info new_pos).indic_position ≠ POS_PRE_M then
      let new_pos :=
        if new_pos + 1 < end_ ∧ is_joiner (getInfo s.info (new_pos + 1)) then new_pos + 1
        else new_pos
      let r := matra_move_loop start new_pos (s.info, new_pos, s.start_of_last_cluster)
      { info := r.1, start_of_last_cluster := r.2.2 }
    else s
  else s

/-- The reph placement classes. -/
inductive reph_position_t
  | REPH_AFTER_MAIN | REPH_BEFORE_SUBSCRIPT | REPH_AFTER_SUBSCRIPT
  | REPH_BEFORE_POSTSCRIPT | REPH_AFTER_POSTSCRIPT
  deriving DecidableEq, Repr

open reph_position_t

/-- The `switch` on `buffer->props.script` choosing the reph class (source lines 779–805). -/
def reph_pos_of_script (script : Nat) : reph_position_t :=
  if script = HB_SCRIPT_MALAYALAM ∨ script = HB_SCRIPT_ORIYA then REPH_AFTER_MAIN
  else if script = HB_SCRIPT_GURMUKHI then REPH_BEFORE_SUBSCRIPT
  else if script = HB_SCRIPT_BENGALI then REPH_AFTER_SUBSCRIPT
  else if script = HB_SCRIPT_KANNADA ∨ script = HB_SCRIPT_TAMIL ∨ script = HB_SCRIPT_TELUGU then
    REPH_AFTER_POSTSCRIPT
  else REPH_BEFORE_POSTSCRIPT

/-- The loop of reph step 6 that walks back over matras (source lines 898–902); the first
argument bounds the iterations. -/
def reph_step_6_loop (info : List hb_glyph_info_t) : Nat → Nat → Nat → Nat
  | 0, _, new_reph_pos => new_reph_pos
  | n + 1, i, new_reph_pos =>
    if i < new_reph_pos then
      reph_step_6_loop info n (i + 1)
        (if (getInfo info i).indic_category = OT_M then new_reph_pos - 1 else new_reph_pos)
    else new_reph_pos

/-- Reph step 6 (source lines 884–905). -/
def reph_step_6 (opts : indic_options_t) (info : List hb_glyph_info_t) (start end_ base : Nat) :
    Nat :=
  let new_reph_pos :=
    scanDown (fun j => (getInfo info j).indic_position != POS_SMVD) start (end_ - 1)
  if !opts.uniscribe_bug_compatible ∧ is_halant_or_coeng (getInfo info new_reph_pos) then
    reph_step_6_loop info end_ (base + 1) new_reph_pos
  else new_reph_pos

/-- The position test of reph step 3:
`FLAG (POS_BELOW_C) | FLAG (POS_POST_C) | FLAG (POS_POST_M) | FLAG (POS_SMVD)`. -/
def reph_step_3_stop (p : indic_position_t) : Bool :=
  p == POS_BELOW_C || p == POS_POST_C || p == POS_POST_M || p == POS_SMVD

/-- The position test of reph step 4:
`FLAG (POS_POST_C) | FLAG (POS_POST_M) | FLAG (POS_SMVD)`. -/
def reph_step_4_stop (p : indic_position_t) : Bool :=
  p == POS_POST_C || p == POS_POST_M || p == POS_SMVD

/-- The target `new_reph_pos` reached by the chain of steps 1–6 (source lines 810–905). -/
def find_new_reph_pos (opts : indic_options_t) (script : Nat) (info : List hb_glyph_info_t)
    (start end_ base : Nat) : Nat :=
  let reph_pos := reph_pos_of_script script
  if reph_pos = REPH_AFTER_POSTSCRIPT then reph_step_6 opts info start end_ base
  else
    let p2 := scanUp (fun j => is_halant_or_coeng (getInfo info j)) base (base - (start + 1))
      (start + 1)
    if p2 < base ∧ is_halant_or_coeng (getInfo info p2) then
      (if p2 + 1 < base ∧ is_joiner (getInfo info (p2 + 1)) then p2 + 1 else p2)
    else
      let p3 := scanUp (fun j => reph_step_3_stop (getInfo info (j + 1)).indic_position) end_
        (end_ - base) base
      if reph_pos = REPH_AFTER_MAIN ∧ p3 < end_ then p3
      else
        let p4 := scanUp (fun j => reph_step_4_stop (getInfo info (j + 1)).indic_position) end_
          (end_ - base) base
        if reph_pos = REPH_AFTER_SUBSCRIPT ∧ p4 < end_ then p4
        else reph_step_6 opts info start end_ base

/-- The reph pass (source lines 764–915). -/
def final_reorder_reph (opts : indic_options_t) (script : Nat) (s : final_state_t)
    (start end_ base : Nat) : final_state_t :=
  if start + 1 < end_ ∧
      (getInfo s.info start).indic_position = POS_RA_TO_BECOME_REPH ∧
      (getInfo s.info (start + 1)).indic_position ≠ POS_RA_TO_BECOME_REPH then
    { info := move_forward s.info start (find_new_reph_pos opts script s.info start end_ base),
      start_of_last_cluster := start }
  else s

/-- The target of the pre-base reordering consonant (source lines 943–951). -/
def find_pref_target (info : List hb_glyph_info_t) (start end_ base : Nat) : Nat :=
  let new_pos := scanDown
    (fun j => is_matra_halant_coeng (getInfo info (j - 1)).indic_category) (start + 1) base
  if start < new_pos ∧ is_halant_or_coeng (getInfo info (new_pos - 1)) then
    (if new_pos < end_ ∧ is_joiner (getInfo info new_pos) then new_pos + 1 else new_pos)
  else new_pos

/-- The pre-base reordering consonant pass (source lines 924–964). -/
def final_reorder_pref (pref_mask : Nat) (s : final_state_t) (start end_ base : Nat) :
    final_state_t :=
  if pref_mask ≠ 0 ∧ base + 1 < end_ then
    match findFrom (fun i => (getInfo s.info i).mask &&& pref_mask != 0) (base + 1) end_ with
    | none => s
    | some i =>
      if i + 1 = end_ ∨ (getInfo s.info (i + 1)).mask &&& pref_mask = 0 then
        let new_pos := find_pref_target s.info start end_ base
        { info := move_backward s.info new_pos i,
          start_of_last_cluster := min new_pos s.start_of_last_cluster }
      else s
  else s

/-- The general-category test of the `init` pass (source lines 970–978). -/
def is_letter_or_mark (c : hb_unicode_general_category_t) : Bool :=
  open hb_unicode_general_category_t in
  c == LOWERCASE_LETTER || c == MODIFIER_LETTER || c == OTHER_LETTER ||
  c == TITLECASE_LETTER || c == UPPERCASE_LETTER || c == SPACING_MARK ||
  c == ENCLOSING_MARK || c == NON_SPACING_MARK

/-- The `init` pass (source lines 968–979). -/
def final_apply_init (init_mask : Nat) (info : List hb_glyph_info_t) (start : Nat) :
    List hb_glyph_info_t :=
  if (getInfo info start).indic_position = POS_PRE_M ∧
      (start = 0 ∨ is_letter_or_mark (getInfo info (start - 1)).general_category = false) then
    orMask info start init_mask
  else info

/-- The loop that emits cluster boundaries after halant,ZWNJ (source lines 992–997); the state
is `(info, cluster_start)` and the first argument bounds the iterations. -/
def cluster_boundary_loop (start_of_last_cluster : Nat) :
    Nat → Nat → List hb_glyph_info_t × Nat → List hb_glyph_info_t × Nat
  | 0, _, s => s
  | n + 1, i, s =>
    if i < start_of_last_cluster then
      if is_halant_or_coeng (getInfo s.1 (i - 1)) ∧ (getInfo s.1 i).indic_category = OT_ZWNJ then
        cluster_boundary_loop start_of_last_cluster n (i + 2)
          (merge_clusters s.1 s.2 (i + 1), i + 1)
      else cluster_boundary_loop start_of_last_cluster n (i + 1) s
    else s

/-- Cluster finalization (source lines 985–1001). -/
def finish_clusters (opts : indic_options_t) (s : final_state_t) (start end_ : Nat) :
    List hb_glyph_info_t :=
  if !opts.uniscribe_bug_compatible then
    let r := cluster_boundary_loop s.start_of_last_cluster
      (s.start_of_last_cluster - (start + 1)) (start + 1) (s.info, start)
    merge_clusters r.1 r.2 end_
  else merge_clusters s.info s.start_of_last_cluster end_

/-- The state after the three glyph moves of final reordering (source lines 704–964), before
the `init` pass and cluster finalization. -/
def final_reordering_rotations (opts : indic_options_t) (script : Nat)
    (info : List hb_glyph_info_t) (pref_mask : Nat) (start end_ : Nat) : final_state_t :=
  let base := final_find_base info start end_
  let s : final_state_t := { info := info, start_of_last_cluster := base }
  let s := final_reorder_matras s start end_ base
  let s := final_reorder_reph opts script s start end_ base
  final_reorder_pref pref_mask s start end_ base

/-- The three glyph moves and the `init` pass of final reordering, before cluster
finalization. -/
def final_reordering_moves (opts : indic_options_t) (script : Nat) (info : List hb_glyph_info_t)
    (init_mask pref_mask : Nat) (start end_ : Nat) : final_state_t :=
  let s := final_reordering_rotations opts script info pref_mask start end_
  { s with info := final_apply_init init_mask s.info start }

/-- `final_reordering_syllable (buffer, init_mask, pref_mask, start, end)`; `script` is
`buffer->props.script`. -/
def final_reordering_syllable (opts : indic_options_t) (script : Nat)
    (info : List hb_glyph_info_t) (init_mask pref_mask : Nat) (start end_ : Nat) :
    List hb_glyph_info_t :=
  finish_clusters opts (final_reordering_moves opts script info init_mask pref_mask start end_)
    start end_

/-! ## Relations between buffers used in the statements -/

/-- The glyphs of the syllable: `info[start], …, info[end_ - 1]`. -/
def syllable_glyphs (info : List hb_glyph_info_t) (start end_ : Nat) : List hb_glyph_info_t :=
  (info.drop start).take (end_ - start)

/-- Nothing outside `[start, end_)` differs between `a` and `b`, and the length is kept. -/
def SameOutside (start end_ : Nat) (a b : List hb_glyph_info_t) : Prop :=
  b.length = a.length ∧ b.take start = a.take start ∧ b.drop end_ = a.drop end_

/-- The buffer `b` differs from `a` only inside `[start, end_)`, and there slot by slot within
the relation `R`: no glyph moved. -/
def ChangedWithin (R : hb_glyph_info_t → hb_glyph_info_t → Prop) (start end_ : Nat)
    (a b : List hb_glyph_info_t) : Prop :=
  b.length = a.length ∧
  ∀ i, (start ≤ i → i < end_ → R (getInfo a i) (getInfo b i)) ∧
    (¬ (start ≤ i ∧ i < end_) → getInfo b i = getInfo a i)

/-- The buffer `b` arises from `a` by reordering the glyphs of `[start, end_)` among themselves
and changing each of them within `R`: there is a rearrangement `l` of the glyphs of the syllable
in `a` that is related by `R`, slot by slot, to the syllable in `b`. -/
def Reordered (R : hb_glyph_info_t → hb_glyph_info_t → Prop) (start end_ : Nat)
    (a b : List hb_glyph_info_t) : Prop :=
  SameOutside start end_ a b ∧
  ∃ l, l.Perm (syllable_glyphs a start end_) ∧ List.Forall₂ R l (syllable_glyphs b start end_)

/-- What a relation between a glyph and its later state must allow for the mask steps of
initial reordering after the reph mask to stay within it: OR-ing the pre-base, base and
post-base masks and the `pref` and `cfar` masks, and clearing the `cjct` and `half` bits. -/
structure MaskStepRel (basic_mask_array : Nat → Nat)
    (R : hb_glyph_info_t → hb_glyph_info_t → Prop) : Prop where
  refl : ∀ g, R g g
  trans : ∀ x y z, R x y → R y z → R x z
  or_pre_base : ∀ g, R g { g with mask := g.mask |||
    (basic_mask_array HALF ||| basic_mask_array AKHN ||| basic_mask_array CJCT) }
  or_base : ∀ g, R g { g with mask := g.mask |||
    (basic_mask_array AKHN ||| basic_mask_array CJCT) }
  or_post_base : ∀ g, R g { g with mask := g.mask |||
    (basic_mask_array BLWF ||| basic_mask_array ABVF ||| basic_mask_array PSTF |||
      basic_mask_array CJCT) }
  or_pref : ∀ g, R g { g with mask := g.mask ||| basic_mask_array PREF }
  or_cfar : ∀ g, R g { g with mask := g.mask ||| basic_mask_array CFAR }
  clear_cjct : ∀ g, R g { g with mask := g.mask &&& hb_mask_not (basic_mask_array CJCT) }
  clear_half : ∀ g, R g { g with mask := g.mask &&& hb_mask_not (basic_mask_array HALF) }

/-- What a relation between a glyph and its later state must allow for the steps of initial
reordering before the sort to stay within it: any change of `indic_position`. -/
structure PositionStepRel (R : hb_glyph_info_t → hb_glyph_info_t → Prop) : Prop where
  refl : ∀ g, R g g
  trans : ∀ x y z, R x y → R y z → R x z
  set_position : ∀ g p, R g { g with indic_position := p }

/-- What a relation between a glyph and its later state must allow for all the steps of initial
reordering to stay within it: the position steps, the mask steps and the reph mask. -/
structure InitialStepRel (basic_mask_array : Nat → Nat)
    (R : hb_glyph_info_t → hb_glyph_info_t → Prop) extends MaskStepRel basic_mask_array R,
    PositionStepRel R : Prop where
  or_rphf : ∀ g, R g { g with mask := g.mask ||| basic_mask_array RPHF }

/-- The glyph `h` is the glyph `g` with, at most, another `indic_position` and another `mask`:
codepoint, general category, `indic_category`, syllable value and cluster are those of `g`. -/
def KeepsAllButPositionAndMask (g h : hb_glyph_info_t) : Prop :=
  h.codepoint = g.codepoint ∧ h.general_category = g.general_category ∧
  h.indic_category = g.indic_category ∧ h.syllable = g.syllable ∧ h.cluster = g.cluster

/-- The glyph `h` is the glyph `g` with, at most, another `mask`. -/
def KeepsAllButMask (g h : hb_glyph_info_t) : Prop :=
  KeepsAllButPositionAndMask g h ∧ h.indic_position = g.indic_position

/-- The glyph `h` is a later state of the glyph `g` in which every bit (of the 32 of an
`hb_mask_t`) set in the mask of `g` and lying outside `cjct | half` is still set. -/
def KeepsMaskBitsOutside (cjct_half : Nat) (g h : hb_glyph_info_t) : Prop :=
  KeepsAllButPositionAndMask g h ∧
  ∀ b, b < 32 → g.mask.testBit b = true → cjct_half.testBit b = false →
    h.mask.testBit b = true

/-! ## Concrete inputs -/

/-- A glyph as the categorizer leaves it: letter, mask 0, syllable value 16. -/
def mk_glyph (codepoint : Nat) (category : indic_category_t) (position : indic_position_t)
    (cluster : Nat) : hb_glyph_info_t :=
  { codepoint := codepoint
    general_category := hb_unicode_general_category_t.OTHER_LETTER
    indic_category := category
    indic_position := position
    mask := 0
    syllable := 16
    cluster := cluster }

/-- A mask table with one bit per basic feature: entry `i` is `1 << (i + 1)`. -/
def example_masks : Nat → Nat := fun i => 2 ^ (i + 1)

/-- Scenario S1: U+0930 U+094D U+0915 (Ra, H, C) as categorized. -/
def example_ra_h_ka : List hb_glyph_info_t :=
  [mk_glyph 0x0930 OT_Ra POS_BASE_C 0, mk_glyph 0x094D OT_H POS_BELOW_M 1,
   mk_glyph 0x0915 OT_C POS_BASE_C 2]

/-- The run `ka, halant, ka, halant, …` of `n` pairs U+0915 U+094D. -/
def ka_halant_run : Nat → List hb_glyph_info_t
  | 0 => []
  | n + 1 => mk_glyph 0x0915 OT_C POS_BASE_C 0 :: mk_glyph 0x094D OT_H POS_BELOW_M 0 ::
      ka_halant_run n

/-- An overlong syllable of 66 glyphs: 32 pairs U+0915 U+094D, then U+0915 and the pre-base
matra U+093F. -/
def example_long_syllable : List hb_glyph_info_t :=
  ka_halant_run 32 ++ [mk_glyph 0x0915 OT_C POS_BASE_C 0, mk_glyph 0x093F OT_M POS_PRE_M 0]

/-- The feature mask OR-ed into the glyph at index `i` by the pre-base, base and post-base
loops of the mask set-up, given the index `base` of the base glyph. -/
def zone_mask (basic_mask_array : Nat → Nat) (base i : Nat) : Nat :=
  if i < base then
    basic_mask_array HALF ||| basic_mask_array AKHN ||| basic_mask_array CJCT
  else if i = base then basic_mask_array AKHN ||| basic_mask_array CJCT
  else basic_mask_array BLWF ||| basic_mask_array ABVF ||| basic_mask_array PSTF |||
    basic_mask_array CJCT

/-- Scenario: U+0915 U+094D (C, H) as categorized. -/
def example_ka_halant : List hb_glyph_info_t :=
  [mk_glyph 0x0915 OT_C POS_BASE_C 0, mk_glyph 0x094D OT_H POS_BELOW_M 1]

/-- The glyph carries `POS_BASE_C` and is not of one of the categories ZWNJ, ZWJ, N, RS, H that
the attachment pass gives the position of the glyph before them. -/
def is_unattached_base (g : hb_glyph_info_t) : Bool :=
  decide (g.indic_position = POS_BASE_C) && !is_attached_category g.indic_category

/-- Scenario S5: U+092E U+0947 U+0952 (C, M above, VD) as categorized. -/
def example_ma_e_vd : List hb_glyph_info_t :=
  [mk_glyph 0x092E OT_C POS_BASE_C 0, mk_glyph 0x0947 OT_M POS_ABOVE_M 1,
   mk_glyph 0x0952 OT_VD POS_SMVD 2]

/-- The syllable U+0930 U+094D U+0915 U+094D U+200D (Ra, H, C, H, ZWJ) as categorized. -/
def example_ra_h_ka_h_zwj : List hb_glyph_info_t :=
  [mk_glyph 0x0930 OT_Ra POS_BASE_C 0, mk_glyph 0x094D OT_H POS_BELOW_M 1,
   mk_glyph 0x0915 OT_C POS_BASE_C 2, mk_glyph 0x094D OT_H POS_BELOW_M 3,
   mk_glyph 0x200D OT_ZWJ POS_RA_TO_BECOME_REPH 4]

/-- The syllable U+0915 U+094D U+200C U+0915 (C, H, ZWNJ, C) as categorized. -/
def example_ka_h_zwnj_ka : List hb_glyph_info_t :=
  [mk_glyph 0x0915 OT_C POS_BASE_C 0, mk_glyph 0x094D OT_H POS_BELOW_M 1,
   mk_glyph 0x200C OT_ZWNJ POS_RA_TO_BECOME_REPH 2, mk_glyph 0x0915 OT_C POS_BASE_C 3]

/-- The glyph `h` is the glyph `g` with, at most, another `mask`, whose bits within `m` are
those of `g`. -/
def KeepsMaskBitsOf (m : Nat) (g h : hb_glyph_info_t) : Prop :=
  KeepsAllButMask g h ∧ h.mask &&& m = g.mask &&& m

/-- The glyph `h` is the glyph `g` with, at most, another `indic_position`. -/
def KeepsAllButPosition (g h : hb_glyph_info_t) : Prop :=
  KeepsAllButPositionAndMask g h ∧ h.mask = g.mask

/-- The glyph `h` is the glyph `g` with, at most, the `init` mask OR-ed into its mask and
another cluster value: codepoint, general category, `indic_category`, `indic_position` and
syllable value are those of `g`. -/
def KeepsAllButInitAndCluster (init_mask : Nat) (g h : hb_glyph_info_t) : Prop :=
  h.codepoint = g.codepoint ∧ h.general_category = g.general_category ∧
  h.indic_category = g.indic_category ∧ h.indic_position = g.indic_position ∧
  h.syllable = g.syllable ∧ (h.mask = g.mask ∨ h.mask = g.mask ||| init_mask)

/-- What a relation between a glyph and its later state must allow for the slot-wise steps of
final reordering to stay within it: OR-ing the `init` mask and any change of cluster. -/
structure FinalStepRel (init_mask : Nat) (R : hb_glyph_info_t → hb_glyph_info_t → Prop) :
    Prop where
  refl : ∀ g, R g g
  trans : ∀ x y z, R x y → R y z → R x z
  or_init : ∀ g, R g { g with mask := g.mask ||| init_mask }
  set_cluster : ∀ g c, R g { g with cluster := c }

/-- The buffer `b` arises from `a` by a chain of rotations `move_forward` and `move_backward`,
each of which touches only indices within `[start, end_)`. -/
inductive RotatedWithin (start end_ : Nat) :
    List hb_glyph_info_t → List hb_glyph_info_t → Prop
  | refl (a : List hb_glyph_info_t) : RotatedWithin start end_ a a
  | forward {a b : List hb_glyph_info_t} (i j : Nat) : RotatedWithin start end_ a b →
      start ≤ i → i ≤ j → j < end_ → RotatedWithin start end_ a (move_forward b i j)
  | backward {a b : List hb_glyph_info_t} (n o : Nat) : RotatedWithin start end_ a b →
      start ≤ n → n ≤ o → o < end_ → RotatedWithin start end_ a (move_backward b n o)

/-- A ligated reph before its base: the glyph of U+0930 U+094D after `rphf` applied, then
U+0915, with the positions initial reordering gave them. -/
def example_reph_ka : List hb_glyph_info_t :=
  [mk_glyph 0x0930 OT_Ra POS_RA_TO_BECOME_REPH 0, mk_glyph 0x0915 OT_C POS_BASE_C 2]

/-- The syllable U+0915 U+094D U+200C U+0915 as initial reordering leaves it, with one cluster
value per character: the input of final reordering when no substitution applied. -/
def example_ka_h_zwnj_ka_reordered : List hb_glyph_info_t :=
  initial_reordering_consonant_syllable ⟨false⟩ 0 HB_SCRIPT_DEVANAGARI example_masks
    example_ka_h_zwnj_ka 0 4

/-- The loop of `cluster_boundary_loop` with a log of the calls `merge_clusters (cluster_start, i)`
it issues (source lines 992–997); the state is `(info, cluster_start, calls)`. -/
def cluster_boundary_calls (start_of_last_cluster : Nat) :
    Nat → Nat → List hb_glyph_info_t × Nat × List (Nat × Nat) →
      List hb_glyph_info_t × Nat × List (Nat × Nat)
  | 0, _, s => s
  | n + 1, i, s =>
    if i < start_of_last_cluster then
      if is_halant_or_coeng (getInfo s.1 (i - 1)) ∧ (getInfo s.1 i).indic_category = OT_ZWNJ then
        cluster_boundary_calls start_of_last_cluster n (i + 2)
          (merge_clusters s.1 s.2.1 (i + 1), i + 1, s.2.2 ++ [(s.2.1, i + 1)])
      else cluster_boundary_calls start_of_last_cluster n (i + 1) s
    else s

/-- The ranges `(a, b)` of the calls `merge_clusters (a, b)` that cluster finalization issues,
in the order of the calls (source lines 985–1001). -/
def finish_clusters_calls (opts : indic_options_t) (s : final_state_t) (start end_ : Nat) :
    List (Nat × Nat) :=
  if !opts.uniscribe_bug_compatible then
    let r := cluster_boundary_calls s.start_of_last_cluster
      (s.start_of_last_cluster - (start + 1)) (start + 1) (s.info, start, [])
    r.2.2 ++ [(r.2.1, end_)]
  else [(s.start_of_last_cluster, end_)]

/-- The consecutive half-open ranges `[a, c₁), [c₁, c₂), …, [cₖ, e)` cut by the boundaries
`c₁, …, cₖ`. -/
def tiles : Nat → List Nat → Nat → List (Nat × Nat)
  | a, [], e => [(a, e)]
  | a, c :: cs, e => (a, c) :: tiles c cs e

/-- The calls of `merge_clusters` that `final_reordering_syllable` issues, in order. -/
def final_reordering_merge_calls (opts : indic_options_t) (script : Nat)
    (info : List hb_glyph_info_t) (init_mask pref_mask : Nat) (start end_ : Nat) :
    List (Nat × Nat) :=
  finish_clusters_calls opts
    (final_reordering_moves opts script info init_mask pref_mask start end_) start end_

/-- Scenario S3: U+0915 U+094D U+0937 U+093F (C, H, C, pre-base M) as categorized; `p` is the
position the category table gives the halant. -/
def example_ka_h_ssa_i (p : indic_position_t) : List hb_glyph_info_t :=
  [mk_glyph 0x0915 OT_C POS_BASE_C 0, mk_glyph 0x094D OT_H p 1,
   mk_glyph 0x0937 OT_C POS_BASE_C 2, mk_glyph 0x093F OT_M POS_PRE_M 3]

/-- Scenario S4: U+1780 U+17D2 U+1781 (C, Coeng, C) as categorized; `p` is the position the
category table gives the coeng. -/
def example_khmer_ka_coeng_kha (p : indic_position_t) : List hb_glyph_info_t :=
  [mk_glyph 0x1780 OT_C POS_BELOW_C 0, mk_glyph 0x17D2 OT_Coeng p 1,
   mk_glyph 0x1781 OT_C POS_BELOW_C 2]

/-- Scenario S6 after GSUB: the ligated reph of U+0930 U+094D, the base U+092E and the
post-base glyph into which U+094D U+092F ligated. -/
def example_reph_ma_ya : List hb_glyph_info_t :=
  [mk_glyph 0x0930 OT_Ra POS_RA_TO_BECOME_REPH 0, mk_glyph 0x092E OT_C POS_BASE_C 2,
   mk_glyph 0x092F OT_C POS_POST_C 3]

/-! ## The categorizer -/

/-- The static tables the categorizer reads.  They are defined in
`hb-ot-shape-complex-indic-table.hh` and `hb-ot-shape-complex-indic-private.hh`, which are not
among the sources, and are parameters here.  `get_indic_categories u` stands for the pair
`(type & 0x0F, type >> 4)` of the table value `type` of the code point `u`, read as the two
enumerations; `consonant_positions` is the sorted exception table of `consonant_position` and
`ra_chars` the sorted table of `is_ra`. -/
structure indic_tables_t where
  get_indic_categories : Nat → indic_category_t × indic_position_t
  consonant_positions : List (Nat × indic_position_t)
  ra_chars : List Nat

/-- `consonant_position (u)`; the `bsearch` over the table sorted by code point is the look-up
of the record of `u`. -/
def consonant_position (t : indic_tables_t) (u : Nat) : indic_position_t :=
  if 0x1780 ≤ u ∧ u ≤ 0x17FF then POS_BELOW_C
  else
    match t.consonant_positions.find? (fun record => record.1 == u) with
    | some record => record.2
    | none => POS_BASE_C

/-- `is_ra (u)`: whether `bsearch` finds `u` in `ra_chars`. -/
def is_ra (t : indic_tables_t) (u : Nat) : Bool :=
  t.ra_chars.contains u

/-- The first half of the loop body of `_hb_ot_shape_complex_setup_masks_indic` (source lines
261–294): the table look-up and the overrides of the category.  `hb_in_range (u, lo, hi)` is
`lo ≤ u ∧ u ≤ hi`. -/
def setup_masks_category (t : indic_tables_t) (info : hb_glyph_info_t) : hb_glyph_info_t :=
  let type := t.get_indic_categories info.codepoint
  let category := type.1
  let category :=
    if 0x0951 ≤ info.codepoint ∧ info.codepoint ≤ 0x0954 then OT_VD else category
  let category :=
    if category = OT_X ∧ (0x17CB ≤ info.codepoint ∧ info.codepoint ≤ 0x17D2) then OT_N
    else category
  let category := if info.codepoint = 0x17D2 then OT_Coeng else category
  let category :=
    if category = OT_Repha ∧
        info.general_category = hb_unicode_general_category_t.NON_SPACING_MARK then OT_N
    else category
  { info with indic_category := category, indic_position := type.2 }

/-- The second half of the loop body (source lines 297–313): position assignment and the
`else if` chain that ends with the joiners and the dotted circle. -/
def setup_masks_position (t : indic_tables_t) (info : hb_glyph_info_t) : hb_glyph_info_t :=
  if is_consonant info then
    let info := { info with indic_position := consonant_position t info.codepoint }
    if is_ra t info.codepoint then { info with indic_category := OT_Ra } else info
  else if info.indic_category = OT_RS then { info with indic_position := POS_ABOVE_M }
  else if info.indic_category = OT_SM ∨ info.indic_category = OT_VD then
    { info with indic_position := POS_SMVD }
  else if info.codepoint = 0x200C then { info with indic_category := OT_ZWNJ }
  else if info.codepoint = 0x200D then { info with indic_category := OT_ZWJ }
  else if info.codepoint = 0x25CC then { info with indic_category := OT_DOTTEDCIRCLE }
  else info

/-- The loop body of `_hb_ot_shape_complex_setup_masks_indic` for one glyph. -/
def setup_masks_glyph (t : indic_tables_t) (info : hb_glyph_info_t) : hb_glyph_info_t :=
  setup_masks_position t (setup_masks_category t info)

/-- `_hb_ot_shape_complex_setup_masks_indic (map, buffer, font)`: the categorizer. -/
def setup_masks_indic (t : indic_tables_t) (buffer : List hb_glyph_info_t) :
    List hb_glyph_info_t :=
  buffer.map (setup_masks_glyph t)

/-- A glyph as it enters the categorizer: code point, general category and cluster set, the
two Indic fields not yet allocated. -/
def raw_glyph (codepoint : Nat) (general_category : hb_unicode_general_category_t)
    (cluster : Nat) : hb_glyph_info_t :=
  { codepoint := codepoint
    general_category := general_category
    indic_category := OT_X
    indic_position := POS_RA_TO_BECOME_REPH
    mask := 0
    syllable := 16
    cluster := cluster }

/-- Table values for the code points of the scenarios, as spec §8 describes them: U+092E a
consonant, U+0947 a matra above, U+0952 listed as `A`, everything else `X`; no exception to
`POS_BASE_C`; U+0930 the only Ra. -/
def example_tables : indic_tables_t :=
  { get_indic_categories := fun u =>
      if u = 0x092E then (OT_C, POS_RA_TO_BECOME_REPH)
      else if u = 0x0947 then (OT_M, POS_ABOVE_M)
      else if u = 0x0952 then (OT_A, POS_RA_TO_BECOME_REPH)
      else (OT_X, POS_RA_TO_BECOME_REPH)
    consonant_positions := []
    ra_chars := [0x0930] }

/-- Scenario S5 before categorization: U+092E U+0947 U+0952. -/
def example_raw_ma_e_vd : List hb_glyph_info_t :=
  [raw_glyph 0x092E hb_unicode_general_category_t.OTHER_LETTER 0,
   raw_glyph 0x0947 hb_unicode_general_category_t.NON_SPACING_MARK 1,
   raw_glyph 0x0952 hb_unicode_general_category_t.NON_SPACING_MARK 2]

/-! ## The feature plan -/

/-- `feature_list_t`. -/
structure feature_list_t where
  tag : Nat
  is_global : Bool
  deriving DecidableEq, Repr

/-- `indic_basic_features`: applied one at a time, in this order. -/
def indic_basic_features : List feature_list_t :=
  [⟨HB_TAG 'n' 'u' 'k' 't', true⟩,
   ⟨HB_TAG 'a' 'k' 'h' 'n', false⟩,
   ⟨HB_TAG 'r' 'p' 'h' 'f', false⟩,
   ⟨HB_TAG 'r' 'k' 'r' 'f', true⟩,
   ⟨HB_TAG 'p' 'r' 'e' 'f', false⟩,
   ⟨HB_TAG 'b' 'l' 'w' 'f', false⟩,
   ⟨HB_TAG 'h' 'a' 'l' 'f', false⟩,
   ⟨HB_TAG 'a' 'b' 'v' 'f', false⟩,
   ⟨HB_TAG 'p' 's' 't' 'f', false⟩,
   ⟨HB_TAG 'c' 'f' 'a' 'r', false⟩,
   ⟨HB_TAG 'c' 'j' 'c' 't', false⟩,
   ⟨HB_TAG 'v' 'a' 't' 'u', true⟩]

/-- `indic_other_features`: applied all at once. -/
def indic_other_features : List feature_list_t :=
  [⟨HB_TAG 'i' 'n' 'i' 't', false⟩,
   ⟨HB_TAG 'p' 'r' 'e' 's', true⟩,
   ⟨HB_TAG 'a' 'b' 'v' 's', true⟩,
   ⟨HB_TAG 'b' 'l' 'w' 's', true⟩,
   ⟨HB_TAG 'p' 's' 't' 's', true⟩,
   ⟨HB_TAG 'h' 'a' 'l' 'n', true⟩,
   ⟨HB_TAG 'd' 'i' 's' 't', true⟩,
   ⟨HB_TAG 'a' 'b' 'v' 'm', true⟩,
   ⟨HB_TAG 'b' 'l' 'w' 'm', true⟩]

/-- The two pause callbacks of the shaper. -/
inductive pause_callback_t
  | initial_reordering | final_reordering
  deriving DecidableEq, Repr

/-- A call on the map builder `hb_ot_map_builder_t`, whose methods are declared in
`hb-ot-map-private.hh`, not among the sources: the plan is the sequence of calls made.
`add_bool_feature tag none` is the call with the flag argument left out,
`add_gsub_pause none` the call with a `NULL` callback. -/
inductive map_builder_call_t
  | add_bool_feature (tag : Nat) (global : Option Bool)
  | add_gsub_pause (callback : Option pause_callback_t)
  | add_feature (tag : Nat) (value : Nat) (global : Bool)
  deriving DecidableEq, Repr

/-- `_hb_ot_shape_complex_collect_features_indic (map, props)`: the calls it makes on `map`,
in order. -/
def collect_features_indic : List map_builder_call_t :=
  [map_builder_call_t.add_bool_feature (HB_TAG 'l' 'o' 'c' 'l') none,
   map_builder_call_t.add_bool_feature (HB_TAG 'c' 'c' 'm' 'p') none,
   map_builder_call_t.add_gsub_pause (some pause_callback_t.initial_reordering)] ++
  indic_basic_features.flatMap (fun f =>
    [map_builder_call_t.add_bool_feature f.tag (some f.is_global),
     map_builder_call_t.add_gsub_pause none]) ++
  [map_builder_call_t.add_gsub_pause (some pause_callback_t.final_reordering)] ++
  indic_other_features.map (fun f =>
    map_builder_call_t.add_bool_feature f.tag (some f.is_global))

/-- `_hb_ot_shape_complex_override_features_indic (map, props)`: Uniscribe does not apply
`kern`. -/
def override_features_indic (opts : indic_options_t) : List map_builder_call_t :=
  if opts.uniscribe_bug_compatible then
    [map_builder_call_t.add_feature (HB_TAG 'k' 'e' 'r' 'n') 0 true]
  else []

/-- Table values under which U+25CC, as every code point, is listed as `X` with the first
position value; no exception to `POS_BASE_C`, U+0930 the only Ra. -/
def example_tables_other : indic_tables_t :=
  { get_indic_categories := fun _ => (OT_X, POS_RA_TO_BECOME_REPH)
    consonant_positions := []
    ra_chars := [0x0930] }

/-- Table values that list every code point as a consonant. -/
def example_tables_consonant : indic_tables_t :=
  { get_indic_categories := fun _ => (OT_C, POS_RA_TO_BECOME_REPH)
    consonant_positions := []
    ra_chars := [0x0930] }

/-- The test that ends the base scan (source lines 391–396): a consonant-like glyph whose
position is neither `POS_BELOW_C` nor `POS_POST_C`. -/
def stops_base_scan (g : hb_glyph_info_t) : Bool :=
  is_consonant g && decide (g.indic_position ≠ POS_BELOW_C) &&
    decide (g.indic_position ≠ POS_POST_C)

/-- The `limit` of the base scan (source lines 356–366). -/
def base_scan_limit (basic_mask_array : Nat → Nat) (info : List hb_glyph_info_t)
    (start end_ : Nat) : Nat :=
  if reph_precondition basic_mask_array info start end_ then start + 2 else start

/-! ## Running both passes twice -/

/-- Initial reordering followed by final reordering of one syllable. -/
def reorder_syllable (opts : indic_options_t) (chosen_script script : Nat)
    (basic_mask_array : Nat → Nat) (init_mask pref_mask : Nat) (info : List hb_glyph_info_t)
    (start end_ : Nat) : List hb_glyph_info_t :=
  final_reordering_syllable opts script
    (initial_reordering_consonant_syllable opts chosen_script script basic_mask_array info
      start end_) init_mask pref_mask start end_

/-- The position is none of `POS_RA_TO_BECOME_REPH`, `POS_PRE_M`, `POS_PRE_C`, `POS_BELOW_C`
and `POS_POST_C`. -/
def is_settled_position (p : indic_position_t) : Bool :=
  p != POS_RA_TO_BECOME_REPH && p != POS_PRE_M && p != POS_PRE_C && p != POS_BELOW_C &&
    p != POS_POST_C

/-- Scenario S2: U+0915 U+093F (C, pre-base matra) as categorized. -/
def example_ka_i : List hb_glyph_info_t :=
  [mk_glyph 0x0915 OT_C POS_BASE_C 0, mk_glyph 0x093F OT_M POS_PRE_M 1]

/-- The position that position assignment writes at an index `k ≤ base` when no final consonant
is marked there: reph at `start` when there is one, `POS_BASE_C` at the base, `POS_PRE_C`
before it. -/
def assigned_position (start base : Nat) (has_reph : Bool) (k : Nat) : indic_position_t :=
  if has_reph = true ∧ k = start then POS_RA_TO_BECOME_REPH
  else if k = base then POS_BASE_C
  else POS_PRE_C

/-- A syllable in the state in which a run of both passes leaves it, for the inputs considered
here: `base` and `has_reph` are what base selection finds, no joiner and no consonant after the
base, every glyph up to the base that is not attached to its predecessor has the position that
position assignment writes, every attached glyph has the position of its predecessor, the
positions are in order when the syllable is short enough to be sorted, the masks of the zones
and of the reph are set, and no glyph after the base has a bit of `pref_mask`. -/
structure SettledSyllable (script : Nat) (basic_mask_array : Nat → Nat) (pref_mask : Nat)
    (info : List hb_glyph_info_t) (start end_ base : Nat) (has_reph : Bool) : Prop where
  range : start < end_ ∧ end_ ≤ info.length
  find : find_base script basic_mask_array info start end_ = (base, has_reph)
  no_joiner : ∀ k, start ≤ k → k < end_ → is_joiner (getInfo info k) = false
  no_consonant : ∀ k, base < k → k < end_ → is_consonant (getInfo info k) = false
  assigned : ∀ k, start ≤ k → k ≤ base → k < end_ →
    (k = start ∨ is_attached_category (getInfo info k).indic_category = false) →
    (getInfo info k).indic_position = assigned_position start base has_reph k
  attached : ∀ k, start < k → k < end_ →
    is_attached_category (getInfo info k).indic_category = true →
    (getInfo info k).indic_position = (getInfo info (k - 1)).indic_position
  no_pre_m : ∀ k, start ≤ k → k < end_ → (getInfo info k).indic_position ≠ POS_PRE_M
  sorted : end_ - start < 64 → ∀ i j, start ≤ i → i < j → j < end_ →
    (getInfo info i).indic_position.toNat ≤ (getInfo info j).indic_position.toNat
  before_base : ∀ k, start ≤ k → k < base → (getInfo info k).indic_position ≠ POS_BASE_C
  at_base : base < end_ → (getInfo info base).indic_position = POS_BASE_C
  zone : ∀ k, start ≤ k → k < end_ →
    (getInfo info k).mask ||| zone_mask basic_mask_array base k = (getInfo info k).mask
  reph : ∀ k, start ≤ k → (∀ j, start ≤ j → j ≤ k →
      j < end_ ∧ (getInfo info j).indic_position = POS_RA_TO_BECOME_REPH) →
    (getInfo info k).mask ||| basic_mask_array RPHF = (getInfo info k).mask
  pref : ∀ k, base < k → k < end_ → (getInfo info k).mask &&& pref_mask = 0

/-- Along the list, every glyph of an attached category has the position of the glyph before
it; `prev` is the position of the glyph that precedes the list, `none` when the head of the
list must not be of an attached category. -/
def AttachedChain : Option indic_position_t → List hb_glyph_info_t → Prop
  | _, [] => True
  | prev, g :: l =>
    (is_attached_category g.indic_category = true → prev = some g.indic_position) ∧
      AttachedChain (some g.indic_position) l

/-- Scenario: U+1780 U+17B7 U+1781 U+17D2 (C, above-base M, C, Coeng), a Khmer syllable whose
glyphs enter with settled positions. -/
def example_khmer_ka_i_kha_coeng : List hb_glyph_info_t :=
  [mk_glyph 0x1780 OT_C POS_BASE_C 0, mk_glyph 0x17B7 OT_M POS_ABOVE_M 1,
   mk_glyph 0x1781 OT_C POS_BASE_C 2, mk_glyph 0x17D2 OT_Coeng POS_BASE_C 3]

/-- Scenario: U+0915 U+093E U+092F (C, post-base M, C), the last consonant entering with
`POS_BELOW_C`. -/
def example_ka_aa_below : List hb_glyph_info_t :=
  [mk_glyph 0x0915 OT_C POS_BASE_C 0, mk_glyph 0x093E OT_M POS_POST_M 1,
   mk_glyph 0x092F OT_C POS_BELOW_C 2]

/-! ## Further concrete inputs -/

/-- Scenario: U+0915 U+200D (C, ZWJ) as categorized. -/
def example_ka_zwj : List hb_glyph_info_t :=
  [mk_glyph 0x0915 OT_C POS_BASE_C 0, mk_glyph 0x200D OT_ZWJ POS_BASE_C 1]

/-- Two pre-base consonants with no halant left between them, the base, and a glyph after the
base that carries the `pref` bit of `example_masks` (U+0D15 U+0D16 U+0D17 and the `pref` form
of U+0D30), with the positions initial reordering gives them. -/
def example_pref_without_anchor : List hb_glyph_info_t :=
  [mk_glyph 0x0D15 OT_C POS_PRE_C 0, mk_glyph 0x0D16 OT_C POS_PRE_C 1,
   mk_glyph 0x0D17 OT_C POS_BASE_C 2,
   { mk_glyph 0x0D30 OT_Ra POS_POST_C 3 with mask := example_masks PREF }]

/-- An Oriya syllable after GSUB, the ligated reph of U+0B30 U+0B4D, the base U+0B15, the
above-base matra U+0B3F and a halant U+0B4D attached to it, followed at index 4 by a glyph that
belongs to the next syllable and has position `p`. -/
def example_reph_ka_i_h_then (p : indic_position_t) : List hb_glyph_info_t :=
  [mk_glyph 0x0B30 OT_Ra POS_RA_TO_BECOME_REPH 0, mk_glyph 0x0B15 OT_C POS_BASE_C 2,
   mk_glyph 0x0B3F OT_M POS_ABOVE_M 3, mk_glyph 0x0B4D OT_H POS_ABOVE_M 4,
   mk_glyph 0x0B2F OT_C p 5]

/-- The Khmer word U+1781 U+17D2 U+1798 U+17C2 U+179A (C, Coeng, C, pre-base M, final
consonant of category `c`) as categorized: Khmer consonants enter with `POS_BELOW_C`. -/
def example_khmer_word (c : indic_category_t) : List hb_glyph_info_t :=
  [mk_glyph 0x1781 OT_C POS_BELOW_C 0, mk_glyph 0x17D2 OT_Coeng POS_BASE_C 1,
   mk_glyph 0x1798 OT_C POS_BELOW_C 2, mk_glyph 0x17C2 OT_M POS_PRE_M 3,
   mk_glyph 0x179A c POS_BELOW_C 4]

/-- Scenario: a pre-base matra and a halant with `POS_PRE_C` in a syllable `[0, 2)` that has no
base, followed at index 2 by a ZWJ that belongs to the next syllable. -/
def example_matra_h_then_zwj : List hb_glyph_info_t :=
  [mk_glyph 0x093F OT_M POS_PRE_M 0, mk_glyph 0x094D OT_H POS_PRE_C 1,
   mk_glyph 0x200D OT_ZWJ POS_PRE_C 2]

/-- The test sequence of source line 526: U+092B U+093F U+094D (C, pre-base M, H) as
categorized; `p` is the position the category table gives the halant. -/
def example_pha_i_h (p : indic_position_t) : List hb_glyph_info_t :=
  [mk_glyph 0x092B OT_C POS_BASE_C 0, mk_glyph 0x093F OT_M POS_PRE_M 1,
   mk_glyph 0x094D OT_H p 2]

/-- The state of the syllable when the attachment pass starts: base selection, position
assignment and the old-spec halant move (source lines 349–514); the pair `(info, base)`. -/
def initial_reordering_before_attach (chosen_script script : Nat)
    (basic_mask_array : Nat → Nat) (info : List hb_glyph_info_t) (start end_ : Nat) :
    List hb_glyph_info_t × Nat :=
  let bh := find_base script basic_mask_array info start end_
  let info := assign_positions info start end_ bh.1 bh.2
  (old_spec_halant_move chosen_script info bh.1 end_, bh.1)

/-- The syllable U+0930 U+094D U+0915 U+094D U+200D U+0916 after GSUB ligated the reph: the reph
glyph, a half consonant whose halant stayed explicit, the ZWJ after it, and the base. -/
def example_reph_ka_h_zwj_kha : List hb_glyph_info_t :=
  [mk_glyph 0x0930 OT_Ra POS_RA_TO_BECOME_REPH 0, mk_glyph 0x0915 OT_C POS_PRE_C 2,
   mk_glyph 0x094D OT_H POS_PRE_C 3, mk_glyph 0x200D OT_ZWJ POS_PRE_C 4,
   mk_glyph 0x0916 OT_C POS_BASE_C 5]

/-- The syllable U+0915 U+094D U+200D U+0937 U+093F as initial reordering leaves it when the
half form did not ligate: the pre-base matra in front, the half consonant with its explicit
halant and the ZWJ, then the base. -/
def example_i_ka_h_zwj_ssa : List hb_glyph_info_t :=
  [mk_glyph 0x093F OT_M POS_PRE_M 0, mk_glyph 0x0915 OT_C POS_PRE_C 0,
   mk_glyph 0x094D OT_H POS_PRE_C 0, mk_glyph 0x200D OT_ZWJ POS_PRE_C 0,
   mk_glyph 0x0937 OT_C POS_BASE_C 0]

/-- A syllable `[1, 3)` made of the pre-base matra U+093F, already in front, and the base
U+0915, preceded at index 0 by a glyph of general category `c` that belongs to what stands
before the syllable (U+0020 when `c` is `SPACE_SEPARATOR`). -/
def example_i_ka_after (c : hb_unicode_general_category_t) : List hb_glyph_info_t :=
  [{ mk_glyph 0x0020 OT_X POS_SMVD 0 with general_category := c },
   mk_glyph 0x093F OT_M POS_PRE_M 1, mk_glyph 0x0915 OT_C POS_BASE_C 1]

/-- The standalone cluster U+0930 U+094D U+25CC (Ra, H, dotted circle) as categorized. -/
def example_ra_h_dotted_circle : List hb_glyph_info_t :=
  [mk_glyph 0x0930 OT_Ra POS_BASE_C 0, mk_glyph 0x094D OT_H POS_BELOW_M 1,
   mk_glyph 0x25CC OT_DOTTEDCIRCLE POS_BASE_C 2]

/-- The run U+093E U+093F (two stray matras, post-base and pre-base) as categorized. -/
def example_stray_matras : List hb_glyph_info_t :=
  [mk_glyph 0x093E OT_M POS_POST_M 0, mk_glyph 0x093F OT_M POS_PRE_M 1]

/-- An overlong syllable of 67 glyphs that begins with a reph: U+0930 U+094D, then 32 pairs
U+0915 U+094D, then U+0915. -/
def example_long_reph_syllable : List hb_glyph_info_t :=
  mk_glyph 0x0930 OT_Ra POS_BASE_C 0 :: mk_glyph 0x094D OT_H POS_BELOW_M 0 ::
    (ka_halant_run 32 ++ [mk_glyph 0x0915 OT_C POS_BASE_C 0])

/-- The syllable U+0915 U+094D U+092F (C, H, post-base C) as categorized. -/
def example_ka_h_ya : List hb_glyph_info_t :=
  [mk_glyph 0x0915 OT_C POS_BASE_C 0, mk_glyph 0x094D OT_H POS_BELOW_M 1,
   mk_glyph 0x092F OT_C POS_POST_C 2]

/-! # Theorems -/

/-! ## The primitives -/

theorem getInfo_eq_getElem {l : List hb_glyph_info_t} {i : Nat} (h : i < l.length) :
    getInfo l i = l[i] := by
  unfold getInfo
  exact List.getD_eq_getElem l default h

theorem getInfo_of_le {l : List hb_glyph_info_t} {i : Nat} (h : l.length ≤ i) :
    getInfo l i = default := by
  unfold getInfo
  exact List.getD_eq_default l default h

theorem getInfo_set (l : List hb_glyph_info_t) (i j : Nat) (g : hb_glyph_info_t) :
    getInfo (l.set i g) j = if i = j ∧ i < l.length then g else getInfo l j := by
  unfold getInfo
  simp only [List.getD_eq_getElem?_getD, List.getElem?_set]
  by_cases hij : i = j
  · subst hij
    by_cases hi : i < l.length
    · simp [hi]
    · simp [hi, List.getElem?_eq_none (Nat.le_of_not_lt hi)]
  · simp [hij]

theorem getInfo_set_self {l : List hb_glyph_info_t} {i : Nat} (g : hb_glyph_info_t)
    (h : i < l.length) : getInfo (l.set i g) i = g := by
  simp [getInfo_set, h]

theorem getInfo_set_ne {l : List hb_glyph_info_t} {i j : Nat} (g : hb_glyph_info_t)
    (h : i ≠ j) : getInfo (l.set i g) j = getInfo l j := by
  simp [getInfo_set, h]

theorem list_ext_getInfo {a b : List hb_glyph_info_t} (hl : b.length = a.length)
    (h : ∀ i, i < a.length → getInfo b i = getInfo a i) : b = a := by
  apply List.ext_getElem hl
  intro i h1 h2
  have := h i h2
  rwa [getInfo_eq_getElem h1, getInfo_eq_getElem h2] at this

theorem length_setPos (l : List hb_glyph_info_t) (i : Nat) (p : indic_position_t) :
    (setPos l i p).length = l.length := by
  simp [setPos]

theorem length_orMask (l : List hb_glyph_info_t) (i m : Nat) :
    (orMask l i m).length = l.length := by
  simp [orMask]

theorem length_clearMask (l : List hb_glyph_info_t) (i m : Nat) :
    (clearMask l i m).length = l.length := by
  simp [clearMask]

/-! ## The loop forms -/

theorem foldl_range'_induction {σ : Type} (P : Nat → σ → Prop) (body : Nat → σ → σ) :
    ∀ (n lo : Nat) (s : σ), P lo s →
      (∀ i s, lo ≤ i → i < lo + n → P i s → P (i + 1) (body i s)) →
      P (lo + n) ((List.range' lo n).foldl (fun s i => body i s) s) := by
  intro n
  induction n with
  | zero => intro lo s h0 _; simpa using h0
  | succ n ih =>
    intro lo s h0 hstep
    rw [List.range'_succ, List.foldl_cons]
    have h1 := ih (lo + 1) (body lo s) (hstep lo s (Nat.le_refl _) (by omega) h0)
      (fun i s hi1 hi2 hp => hstep i s (by omega) (by omega) hp)
    have e : lo + 1 + n = lo + (n + 1) := by omega
    rw [e] at h1
    exact h1

/-- Loop rule with an invariant that may mention the loop index. -/
theorem forRange_induction_idx {σ : Type} (P : Nat → σ → Prop) (lo hi : Nat) (body : Nat → σ → σ)
    (s : σ) (hle : lo ≤ hi) (h0 : P lo s)
    (hstep : ∀ i s, lo ≤ i → i < hi → P i s → P (i + 1) (body i s)) :
    P hi (forRange lo hi body s) := by
  have := foldl_range'_induction P body (hi - lo) lo s h0
    (fun i s h1 h2 hp => hstep i s h1 (by omega) hp)
  have e : lo + (hi - lo) = hi := by omega
  rw [e] at this
  exact this

/-- Loop rule with an invariant on the state alone. -/
theorem forRange_induction {σ : Type} (P : σ → Prop) (lo hi : Nat) (body : Nat → σ → σ)
    (s : σ) (h0 : P s) (hstep : ∀ i s, lo ≤ i → i < hi → P s → P (body i s)) :
    P (forRange lo hi body s) :=
  foldl_range'_induction (fun _ s => P s) body (hi - lo) lo s h0
    (fun i s h1 h2 hp => hstep i s h1 (by omega) hp)

theorem forRange_of_le {σ : Type} {lo hi : Nat} (body : Nat → σ → σ) (s : σ) (h : hi ≤ lo) :
    forRange lo hi body s = s := by
  unfold forRange
  have : hi - lo = 0 := by omega
  simp [this]

theorem findFrom_some {p : Nat → Bool} {lo hi i : Nat} (h : findFrom p lo hi = some i) :
    lo ≤ i ∧ i < hi ∧ p i = true ∧ ∀ k, lo ≤ k → k < i → p k = false := by
  unfold findFrom at h
  generalize hn : hi - lo = n at h
  have key : ∀ (n lo : Nat), (List.range' lo n).find? p = some i →
      lo ≤ i ∧ i < lo + n ∧ p i = true ∧ ∀ k, lo ≤ k → k < i → p k = false := by
    intro n
    induction n with
    | zero => intro lo h; simp at h
    | succ n ih =>
      intro lo h
      rw [List.range'_succ, List.find?_cons] at h
      cases hp : p lo with
      | true =>
        rw [hp] at h
        simp only [Option.some.injEq] at h
        subst h
        exact ⟨Nat.le_refl _, by omega, hp, fun k h1 h2 => by omega⟩
      | false =>
        rw [hp] at h
        obtain ⟨h1, h2, h3, h4⟩ := ih (lo + 1) h
        refine ⟨by omega, by omega, h3, fun k hk1 hk2 => ?_⟩
        by_cases hk : k = lo
        · subst hk; exact hp
        · exact h4 k (by omega) hk2
  obtain ⟨h1, h2, h3, h4⟩ := key n lo h
  exact ⟨h1, by omega, h3, h4⟩

theorem findFrom_none {p : Nat → Bool} {lo hi : Nat} (h : findFrom p lo hi = none) :
    ∀ k, lo ≤ k → k < hi → p k = false := by
  unfold findFrom at h
  intro k h1 h2
  rw [List.find?_eq_none] at h
  have := h k (by rw [List.mem_range']; exact ⟨k - lo, by omega, by omega⟩)
  simpa using this

theorem scanDown_le (p : Nat → Bool) (lo : Nat) : ∀ j, scanDown p lo j ≤ j := by
  intro j
  induction j with
  | zero => simp [scanDown]
  | succ j ih =>
    unfold scanDown
    split_ifs
    · omega
    · omega

theorem scanDown_ge (p : Nat → Bool) (lo : Nat) : ∀ j, lo ≤ j → lo ≤ scanDown p lo j := by
  intro j
  induction j with
  | zero => intro h; simpa [scanDown] using h
  | succ j ih =>
    intro h
    unfold scanDown
    split_ifs with hc
    · exact ih (by omega)
    · exact h

theorem scanUp_ge (p : Nat → Bool) (hi : Nat) : ∀ n j, j ≤ scanUp p hi n j := by
  intro n
  induction n with
  | zero => intro j; simp [scanUp]
  | succ n ih =>
    intro j
    unfold scanUp
    split_ifs
    · have := ih (j + 1); omega
    · omega

theorem scanUp_le (p : Nat → Bool) (hi : Nat) : ∀ n j, j ≤ hi → scanUp p hi n j ≤ hi := by
  intro n
  induction n with
  | zero => intro j h; simpa [scanUp] using h
  | succ n ih =>
    intro j h
    unfold scanUp
    split_ifs with hc
    · exact ih (j + 1) (by omega)
    · exact h

/-! ## Slices of the buffer -/

theorem buffer_split (a : List hb_glyph_info_t) {start end_ : Nat} (h : start ≤ end_) :
    a = a.take start ++ (syllable_glyphs a start end_ ++ a.drop end_) := by
  unfold syllable_glyphs
  have e : a.drop end_ = (a.drop start).drop (end_ - start) := by
    rw [List.drop_drop]; congr 1; omega
  rw [e, List.take_append_drop, List.take_append_drop]

theorem length_syllable_glyphs (a : List hb_glyph_info_t) {start end_ : Nat}
    (h : end_ ≤ a.length) : (syllable_glyphs a start end_).length = end_ - start := by
  unfold syllable_glyphs
  simp only [List.length_take, List.length_drop]
  omega

theorem getElem_syllable_glyphs (a : List hb_glyph_info_t) {start end_ k : Nat}
    (h : k < (syllable_glyphs a start end_).length) :
    (syllable_glyphs a start end_)[k] = getInfo a (start + k) := by
  have h2 : start + k < a.length := by
    unfold syllable_glyphs at h
    simp only [List.length_take, List.length_drop] at h
    omega
  rw [getInfo_eq_getElem h2]
  unfold syllable_glyphs
  simp

/-- A buffer assembled from a prefix of length `start`, a middle of length `end_ - start` and a
suffix has these as its three parts. -/
theorem parts_of_append {pre mid : List hb_glyph_info_t} (post : List hb_glyph_info_t)
    {start end_ : Nat}
    (h1 : pre.length = start) (h2 : mid.length = end_ - start) (h3 : start ≤ end_) :
    (pre ++ (mid ++ post)).take start = pre ∧
    syllable_glyphs (pre ++ (mid ++ post)) start end_ = mid ∧
    (pre ++ (mid ++ post)).drop end_ = post := by
  subst h1
  refine ⟨?_, ?_, ?_⟩
  · simp
  · unfold syllable_glyphs
    rw [List.drop_left, ← h2]; simp
  · have e : end_ = (pre ++ mid).length := by simp; omega
    rw [← List.append_assoc, e, List.drop_left]

theorem sameOutside_refl (start end_ : Nat) (a : List hb_glyph_info_t) :
    SameOutside start end_ a a := ⟨rfl, rfl, rfl⟩

theorem sameOutside_trans {start end_ : Nat} {a b c : List hb_glyph_info_t}
    (h1 : SameOutside start end_ a b) (h2 : SameOutside start end_ b c) :
    SameOutside start end_ a c :=
  ⟨h2.1.trans h1.1, h2.2.1.trans h1.2.1, h2.2.2.trans h1.2.2⟩

/-- Outside the syllable the two buffers hold the same glyph at every index. -/
theorem sameOutside_getInfo_eq {start end_ : Nat} {a b : List hb_glyph_info_t}
    (h : SameOutside start end_ a b) {i : Nat} (hi : i < start ∨ end_ ≤ i) :
    getInfo b i = getInfo a i := by
  obtain ⟨hl, ht, hd⟩ := h
  unfold getInfo
  simp only [List.getD_eq_getElem?_getD]
  congr 1
  rcases hi with hi | hi
  · have e1 : (b.take start)[i]? = b[i]? := List.getElem?_take_of_lt hi
    have e2 : (a.take start)[i]? = a[i]? := List.getElem?_take_of_lt hi
    rw [← e1, ← e2, ht]
  · have e1 : (b.drop end_)[i - end_]? = b[end_ + (i - end_)]? := List.getElem?_drop b _ _
    have e2 : (a.drop end_)[i - end_]? = a[end_ + (i - end_)]? := List.getElem?_drop a _ _
    have e : end_ + (i - end_) = i := by omega
    rw [e] at e1 e2
    rw [← e1, ← e2, hd]

theorem sameOutside_perm_syllable {start end_ : Nat} {a b : List hb_glyph_info_t}
    (h : SameOutside start end_ a b) (hse : start ≤ end_) (hp : b.Perm a) :
    (syllable_glyphs b start end_).Perm (syllable_glyphs a start end_) := by
  obtain ⟨_, ht, hd⟩ := h
  have ea := buffer_split a hse
  have eb := buffer_split b hse
  rw [ea, eb, ht, hd] at hp
  rw [List.perm_append_left_iff, List.perm_append_right_iff] at hp
  exact hp

/-! ## Slot-by-slot changes -/

/-- The two properties every glyph relation of the development has. -/
theorem changedWithin_refl {R : hb_glyph_info_t → hb_glyph_info_t → Prop}
    (hr : ∀ g, R g g) (start end_ : Nat) (a : List hb_glyph_info_t) :
    ChangedWithin R start end_ a a :=
  ⟨rfl, fun _ => ⟨fun _ _ => hr _, fun _ => rfl⟩⟩

theorem changedWithin_trans {R : hb_glyph_info_t → hb_glyph_info_t → Prop}
    (ht : ∀ x y z, R x y → R y z → R x z) {start end_ : Nat} {a b c : List hb_glyph_info_t}
    (h1 : ChangedWithin R start end_ a b) (h2 : ChangedWithin R start end_ b c) :
    ChangedWithin R start end_ a c := by
  refine ⟨h2.1.trans h1.1, fun i => ⟨fun hs he => ?_, fun hn => ?_⟩⟩
  · exact ht _ _ _ ((h1.2 i).1 hs he) ((h2.2 i).1 hs he)
  · rw [(h2.2 i).2 hn, (h1.2 i).2 hn]

/-- Transitivity with the last step first, for reasoning backwards from the result. -/
theorem changedWithin_step {R : hb_glyph_info_t → hb_glyph_info_t → Prop}
    (ht : ∀ x y z, R x y → R y z → R x z) {start end_ : Nat} {a b c : List hb_glyph_info_t}
    (h2 : ChangedWithin R start end_ b c) (h1 : ChangedWithin R start end_ a b) :
    ChangedWithin R start end_ a c :=
  changedWithin_trans ht h1 h2

theorem changedWithin_set {R : hb_glyph_info_t → hb_glyph_info_t → Prop}
    (hr : ∀ g, R g g) {start end_ i : Nat} (a : List hb_glyph_info_t) (g : hb_glyph_info_t)
    (hs : start ≤ i) (he : i < end_) (hg : R (getInfo a i) g) :
    ChangedWithin R start end_ a (a.set i g) := by
  refine ⟨by simp, fun k => ⟨fun _ _ => ?_, fun hn => ?_⟩⟩
  · rw [getInfo_set]
    split_ifs with hc
    · rw [← hc.1]; exact hg
    · exact hr _
  · rw [getInfo_set_ne]
    omega

theorem changedWithin_mono {R : hb_glyph_info_t → hb_glyph_info_t → Prop}
    {s e s' e' : Nat} {a b : List hb_glyph_info_t} (hr : ∀ g, R g g)
    (h : ChangedWithin R s e a b) (hs : s' ≤ s) (he : e ≤ e') :
    ChangedWithin R s' e' a b := by
  refine ⟨h.1, fun i => ⟨fun h1 h2 => ?_, fun hn => ?_⟩⟩
  · by_cases hc : s ≤ i ∧ i < e
    · exact (h.2 i).1 hc.1 hc.2
    · rw [(h.2 i).2 hc]; exact hr _
  · exact (h.2 i).2 (by omega)

theorem changedWithin_sameOutside {R : hb_glyph_info_t → hb_glyph_info_t → Prop}
    {start end_ : Nat} {a b : List hb_glyph_info_t} (h : ChangedWithin R start end_ a b) :
    SameOutside start end_ a b := by
  obtain ⟨hl, hp⟩ := h
  refine ⟨hl, ?_, ?_⟩
  · apply List.ext_getElem
    · simp [hl]
    · intro i h1 h2
      simp only [List.length_take] at h1 h2
      have := (hp i).2 (by omega)
      rw [getInfo_eq_getElem (by omega), getInfo_eq_getElem (by omega)] at this
      simpa using this
  · apply List.ext_getElem
    · simp [hl]
    · intro i h1 h2
      simp only [List.length_drop] at h1 h2
      have := (hp (end_ + i)).2 (by omega)
      rw [getInfo_eq_getElem (by omega), getInfo_eq_getElem (by omega)] at this
      simpa using this

theorem changedWithin_forall₂ {R : hb_glyph_info_t → hb_glyph_info_t → Prop}
    {start end_ : Nat} {a b : List hb_glyph_info_t} (h : ChangedWithin R start end_ a b) :
    List.Forall₂ R (syllable_glyphs a start end_) (syllable_glyphs b start end_) := by
  obtain ⟨hl, hp⟩ := h
  rw [List.forall₂_iff_get]
  have hlen : (syllable_glyphs a start end_).length = (syllable_glyphs b start end_).length := by
    unfold syllable_glyphs
    simp [hl]
  refine ⟨hlen, fun i h1 h2 => ?_⟩
  simp only [List.get_eq_getElem]
  rw [getElem_syllable_glyphs a h1, getElem_syllable_glyphs b h2]
  have hb : i < end_ - start := by
    unfold syllable_glyphs at h1
    simp only [List.length_take] at h1
    omega
  exact (hp (start + i)).1 (by omega) (by omega)

/-! ## Reordering -/

theorem forall₂_trans' {R : hb_glyph_info_t → hb_glyph_info_t → Prop}
    (ht : ∀ x y z, R x y → R y z → R x z) :
    ∀ {a b c : List hb_glyph_info_t}, List.Forall₂ R a b → List.Forall₂ R b c →
      List.Forall₂ R a c := by
  intro a b c h1
  induction h1 generalizing c with
  | nil => intro h2; cases h2; exact List.Forall₂.nil
  | cons hxy _ ih =>
    intro h2
    cases h2 with
    | cons hyz h2' => exact List.Forall₂.cons (ht _ _ _ hxy hyz) (ih h2')

theorem reordered_refl {R : hb_glyph_info_t → hb_glyph_info_t → Prop}
    (hr : ∀ g, R g g) (start end_ : Nat) (a : List hb_glyph_info_t) :
    Reordered R start end_ a a :=
  ⟨sameOutside_refl _ _ _, _, List.Perm.refl _, List.forall₂_same.mpr (fun _ _ => hr _)⟩

theorem reordered_trans {R : hb_glyph_info_t → hb_glyph_info_t → Prop}
    (ht : ∀ x y z, R x y → R y z → R x z) {start end_ : Nat} {a b c : List hb_glyph_info_t}
    (h1 : Reordered R start end_ a b) (h2 : Reordered R start end_ b c) :
    Reordered R start end_ a c := by
  obtain ⟨o1, l1, p1, f1⟩ := h1
  obtain ⟨o2, l2, p2, f2⟩ := h2
  refine ⟨sameOutside_trans o1 o2, ?_⟩
  have hc : Relation.Comp (List.Forall₂ R) List.Perm l1 l2 := ⟨_, f1, p2.symm⟩
  rw [List.forall₂_comp_perm_eq_perm_comp_forall₂] at hc
  obtain ⟨m, pm, fm⟩ := hc
  exact ⟨m, pm.symm.trans p1, forall₂_trans' ht fm f2⟩

theorem changedWithin_reordered {R : hb_glyph_info_t → hb_glyph_info_t → Prop}
    {start end_ : Nat} {a b : List hb_glyph_info_t} (h : ChangedWithin R start end_ a b) :
    Reordered R start end_ a b :=
  ⟨changedWithin_sameOutside h, _, List.Perm.refl _, changedWithin_forall₂ h⟩

theorem reordered_of_perm {R : hb_glyph_info_t → hb_glyph_info_t → Prop}
    (hr : ∀ g, R g g) {start end_ : Nat} {a b : List hb_glyph_info_t}
    (ho : SameOutside start end_ a b)
    (hp : (syllable_glyphs b start end_).Perm (syllable_glyphs a start end_)) :
    Reordered R start end_ a b :=
  ⟨ho, _, hp, List.forall₂_same.mpr (fun _ _ => hr _)⟩

theorem reordered_imp {R S : hb_glyph_info_t → hb_glyph_info_t → Prop}
    (hi : ∀ x y, R x y → S x y) {start end_ : Nat} {a b : List hb_glyph_info_t}
    (h : Reordered R start end_ a b) : Reordered S start end_ a b := by
  obtain ⟨o, l, p, f⟩ := h
  exact ⟨o, l, p, f.imp hi⟩

/-! ## The rotations -/

theorem drop_append_of_length_le {l₁ l₂ : List hb_glyph_info_t} {n : Nat}
    (h : l₁.length ≤ n) : (l₁ ++ l₂).drop n = l₂.drop (n - l₁.length) := by
  rw [List.drop_append_eq_append_drop, List.drop_eq_nil_of_le h, List.nil_append]

theorem move_forward_perm (a : List hb_glyph_info_t) {i j : Nat} (hij : i ≤ j)
    (hi : i < a.length) : (move_forward a i j).Perm a := by
  unfold move_forward
  have e : a = a.take i ++ (a[i] :: a.drop (i + 1)) := by
    rw [← List.drop_eq_getElem_cons, List.take_append_drop]
  have e2 : a.drop (i + 1) =
      (a.drop (i + 1)).take (j - i) ++ a.drop (j + 1) := by
    conv_lhs => rw [← List.take_append_drop (j - i) (a.drop (i + 1))]
    rw [List.drop_drop]
    congr 2
    omega
  rw [getInfo_eq_getElem hi]
  conv_rhs => rw [e, e2]
  apply List.Perm.append_left
  exact List.perm_middle

theorem move_forward_sameOutside (a : List hb_glyph_info_t) {start end_ i j : Nat}
    (hs : start ≤ i) (hij : i ≤ j) (hj : j < end_) (he : end_ ≤ a.length) :
    SameOutside start end_ a (move_forward a i j) := by
  have hlen : (move_forward a i j).length = a.length :=
    (move_forward_perm a hij (by omega)).length_eq
  refine ⟨hlen, ?_, ?_⟩
  · unfold move_forward
    rw [List.take_append_of_le_length (by simp; omega), List.take_take]
    congr 1
    omega
  · unfold move_forward
    have e : a.take i ++ ((a.drop (i + 1)).take (j - i) ++ (getInfo a i :: a.drop (j + 1))) =
        (a.take i ++ ((a.drop (i + 1)).take (j - i) ++ [getInfo a i])) ++ a.drop (j + 1) := by
      simp
    rw [e]
    have hl : (a.take i ++ ((a.drop (i + 1)).take (j - i) ++ [getInfo a i])).length = j + 1 := by
      simp only [List.length_append, List.length_take, List.length_drop, List.length_singleton]
      omega
    rw [drop_append_of_length_le (by omega), hl, List.drop_drop]
    congr 1
    omega

theorem move_forward_reordered {R : hb_glyph_info_t → hb_glyph_info_t → Prop}
    (hr : ∀ g, R g g) (a : List hb_glyph_info_t) {start end_ i j : Nat}
    (hs : start ≤ i) (hij : i ≤ j) (hj : j < end_) (he : end_ ≤ a.length) :
    Reordered R start end_ a (move_forward a i j) := by
  have ho := move_forward_sameOutside a hs hij hj he
  exact reordered_of_perm hr ho
    (sameOutside_perm_syllable ho (by omega) (move_forward_perm a hij (by omega)))

theorem move_backward_perm (a : List hb_glyph_info_t) {n o : Nat} (hno : n ≤ o)
    (ho : o < a.length) : (move_backward a n o).Perm a := by
  unfold move_backward
  have e : a = a.take n ++ ((a.drop n).take (o - n) ++ (a[o] :: a.drop (o + 1))) := by
    rw [← List.drop_eq_getElem_cons]
    have e1 : a.drop o = (a.drop n).drop (o - n) := by
      rw [List.drop_drop]; congr 1; omega
    rw [e1, List.take_append_drop, List.take_append_drop]
  rw [getInfo_eq_getElem ho]
  conv_rhs => rw [e]
  apply List.Perm.append_left
  exact List.perm_middle.symm

theorem move_backward_sameOutside (a : List hb_glyph_info_t) {start end_ n o : Nat}
    (hs : start ≤ n) (hno : n ≤ o) (ho : o < end_) (he : end_ ≤ a.length) :
    SameOutside start end_ a (move_backward a n o) := by
  have hlen : (move_backward a n o).length = a.length :=
    (move_backward_perm a hno (by omega)).length_eq
  refine ⟨hlen, ?_, ?_⟩
  · unfold move_backward
    rw [List.take_append_of_le_length (by simp; omega), List.take_take]
    congr 1
    omega
  · unfold move_backward
    have e : a.take n ++ (getInfo a o :: ((a.drop n).take (o - n) ++ a.drop (o + 1))) =
        (a.take n ++ (getInfo a o :: (a.drop n).take (o - n))) ++ a.drop (o + 1) := by
      simp
    rw [e]
    have hl : (a.take n ++ (getInfo a o :: (a.drop n).take (o - n))).length = o + 1 := by
      simp only [List.length_append, List.length_take, List.length_drop, List.length_cons]
      omega
    rw [drop_append_of_length_le (by omega), hl, List.drop_drop]
    congr 1
    omega

theorem move_backward_reordered {R : hb_glyph_info_t → hb_glyph_info_t → Prop}
    (hr : ∀ g, R g g) (a : List hb_glyph_info_t) {start end_ n o : Nat}
    (hs : start ≤ n) (hno : n ≤ o) (ho : o < end_) (he : end_ ≤ a.length) :
    Reordered R start end_ a (move_backward a n o) := by
  have h := move_backward_sameOutside a hs hno ho he
  exact reordered_of_perm hr h
    (sameOutside_perm_syllable h (by omega) (move_backward_perm a hno (by omega)))

/-! ## The sort is a stable sort -/

theorem bubble_carry_perm (a : hb_glyph_info_t) (l : List hb_glyph_info_t) :
    (bubble_carry a l).Perm (a :: l) := by
  induction l generalizing a with
  | nil => simp [bubble_carry]
  | cons b rest ih =>
    unfold bubble_carry
    split_ifs
    · exact ((ih a).cons b).trans (List.Perm.swap a b rest)
    · exact (ih b).cons a

theorem bubble_pass_perm (l : List hb_glyph_info_t) : (bubble_pass l).Perm l := by
  cases l with
  | nil => simp [bubble_pass]
  | cons a rest => exact bubble_carry_perm a rest

theorem iterate_bubble_pass_perm (k : Nat) (l : List hb_glyph_info_t) :
    (Nat.iterate bubble_pass k l).Perm l := by
  induction k generalizing l with
  | zero => exact List.Perm.refl _
  | succ k ih =>
    rw [Function.iterate_succ_apply]
    exact (ih (bubble_pass l)).trans (bubble_pass_perm l)

theorem hb_bubble_sort_perm (l : List hb_glyph_info_t) : (hb_bubble_sort l).Perm l :=
  iterate_bubble_pass_perm _ l

theorem length_hb_bubble_sort (l : List hb_glyph_info_t) :
    (hb_bubble_sort l).length = l.length :=
  (hb_bubble_sort_perm l).length_eq

/-- A pass never exchanges two glyphs of equal position: the glyphs of any one position keep
their order. -/
theorem bubble_carry_filter (p : indic_position_t) (a : hb_glyph_info_t)
    (l : List hb_glyph_info_t) :
    (bubble_carry a l).filter (fun g => decide (g.indic_position = p)) =
      (a :: l).filter (fun g => decide (g.indic_position = p)) := by
  induction l generalizing a with
  | nil => simp [bubble_carry]
  | cons b rest ih =>
    unfold bubble_carry
    split_ifs with hc
    · have hne : a.indic_position ≠ b.indic_position := by
        intro he
        simp [compare_indic_order_gt, he] at hc
      rw [List.filter_cons, ih a]
      by_cases ha : a.indic_position = p
      · have hb : ¬ b.indic_position = p := fun hb => hne (ha.trans hb.symm)
        simp [List.filter_cons, ha, hb]
      · simp [List.filter_cons, ha]
    · rw [List.filter_cons, ih b]
      simp only [List.filter_cons]

theorem bubble_pass_filter (p : indic_position_t) (l : List hb_glyph_info_t) :
    (bubble_pass l).filter (fun g => decide (g.indic_position = p)) =
      l.filter (fun g => decide (g.indic_position = p)) := by
  cases l with
  | nil => simp [bubble_pass]
  | cons a rest => exact bubble_carry_filter p a rest

theorem hb_bubble_sort_filter (p : indic_position_t) (l : List hb_glyph_info_t) :
    (hb_bubble_sort l).filter (fun g => decide (g.indic_position = p)) =
      l.filter (fun g => decide (g.indic_position = p)) := by
  unfold hb_bubble_sort
  generalize l.length = k
  induction k generalizing l with
  | zero => rfl
  | succ k ih =>
    rw [Function.iterate_succ_apply, ih, bubble_pass_filter]

theorem bubble_carry_of_sorted (a : hb_glyph_info_t) (l : List hb_glyph_info_t)
    (h : (a :: l).Pairwise (fun x y => x.indic_position.toNat ≤ y.indic_position.toNat)) :
    bubble_carry a l = a :: l := by
  induction l generalizing a with
  | nil => simp [bubble_carry]
  | cons b rest ih =>
    unfold bubble_carry
    have hab : a.indic_position.toNat ≤ b.indic_position.toNat :=
      (List.pairwise_cons.mp h).1 b (List.mem_cons_self _ _)
    have hc : compare_indic_order_gt a b = false := by
      simp [compare_indic_order_gt, hab]
    rw [hc]
    simp only [Bool.false_eq_true, if_false]
    rw [ih b (List.pairwise_cons.mp h).2]

/-- A pass that carries `a` through `l₁ ++ l₂` first carries it through `l₁`, leaving a front
part no greater than the glyph `c` it hands on to `l₂`. -/
theorem bubble_carry_append (a : hb_glyph_info_t) (l₁ : List hb_glyph_info_t) :
    ∃ front c, bubble_carry a l₁ = front ++ [c] ∧
      (∀ x ∈ front, x.indic_position.toNat ≤ c.indic_position.toNat) ∧
      a.indic_position.toNat ≤ c.indic_position.toNat ∧
      ∀ l₂, bubble_carry a (l₁ ++ l₂) = front ++ bubble_carry c l₂ := by
  induction l₁ generalizing a with
  | nil => exact ⟨[], a, by simp [bubble_carry], by simp, Nat.le_refl _, fun l₂ => by simp⟩
  | cons b rest ih =>
    by_cases hc : compare_indic_order_gt a b = true
    · obtain ⟨front, c, h1, h2, h3, h4⟩ := ih a
      have hba : b.indic_position.toNat < a.indic_position.toNat := by
        simpa [compare_indic_order_gt] using hc
      refine ⟨b :: front, c, ?_, ?_, h3, fun l₂ => ?_⟩
      · simp [bubble_carry, hc, h1]
      · intro x hx
        rcases List.mem_cons.mp hx with hx | hx
        · subst hx; omega
        · exact h2 x hx
      · simp [bubble_carry, hc, h4]
    · obtain ⟨front, c, h1, h2, h3, h4⟩ := ih b
      have hab : a.indic_position.toNat ≤ b.indic_position.toNat := by
        simpa [compare_indic_order_gt] using hc
      refine ⟨a :: front, c, ?_, ?_, by omega, fun l₂ => ?_⟩
      · simp [bubble_carry, hc, h1]
      · intro x hx
        rcases List.mem_cons.mp hx with hx | hx
        · subst hx; omega
        · exact h2 x hx
      · simp [bubble_carry, hc, h4]

/-- One pass lengthens the sorted tail by one glyph. -/
theorem bubble_pass_tail (init tail : List hb_glyph_info_t)
    (hs : tail.Pairwise (fun x y => x.indic_position.toNat ≤ y.indic_position.toNat))
    (hle : ∀ x ∈ init, ∀ y ∈ tail, x.indic_position.toNat ≤ y.indic_position.toNat) :
    ∃ init' tail', bubble_pass (init ++ tail) = init' ++ tail' ∧
      init'.length = init.length - 1 ∧
      tail'.Pairwise (fun x y => x.indic_position.toNat ≤ y.indic_position.toNat) ∧
      ∀ x ∈ init', ∀ y ∈ tail', x.indic_position.toNat ≤ y.indic_position.toNat := by
  cases init with
  | nil =>
    refine ⟨[], tail, ?_, rfl, hs, by simp⟩
    cases tail with
    | nil => simp [bubble_pass]
    | cons t ts => simpa [bubble_pass] using bubble_carry_of_sorted t ts hs
  | cons a rest =>
    obtain ⟨front, c, h1, h2, _, h4⟩ := bubble_carry_append a rest
    have hperm : (front ++ [c]).Perm (a :: rest) := h1 ▸ bubble_carry_perm a rest
    have hc_mem : c ∈ a :: rest := hperm.subset (by simp)
    have hfront_mem : ∀ x ∈ front, x ∈ a :: rest := fun x hx => hperm.subset (by simp [hx])
    have hct : (c :: tail).Pairwise
        (fun x y => x.indic_position.toNat ≤ y.indic_position.toNat) :=
      List.pairwise_cons.mpr ⟨fun y hy => hle c hc_mem y hy, hs⟩
    refine ⟨front, c :: tail, ?_, ?_, hct, ?_⟩
    · show bubble_carry a (rest ++ tail) = front ++ c :: tail
      rw [h4 tail, bubble_carry_of_sorted c tail hct]
    · have := hperm.length_eq
      simp at this
      simp
      omega
    · intro x hx y hy
      rcases List.mem_cons.mp hy with hy | hy
      · subst hy; exact h2 x hx
      · exact hle x (hfront_mem x hx) y hy

theorem iterate_bubble_pass_sorted (k : Nat) :
    ∀ (init tail : List hb_glyph_info_t), init.length ≤ k →
      tail.Pairwise (fun x y => x.indic_position.toNat ≤ y.indic_position.toNat) →
      (∀ x ∈ init, ∀ y ∈ tail, x.indic_position.toNat ≤ y.indic_position.toNat) →
      (Nat.iterate bubble_pass k (init ++ tail)).Pairwise
        (fun x y => x.indic_position.toNat ≤ y.indic_position.toNat) := by
  induction k with
  | zero =>
    intro init tail hl hs _
    have : init = [] := List.length_eq_zero.mp (by omega)
    subst this
    simpa using hs
  | succ k ih =>
    intro init tail hl hs hle
    obtain ⟨init', tail', h1, h2, h3, h4⟩ := bubble_pass_tail init tail hs hle
    rw [Function.iterate_succ_apply, h1]
    exact ih init' tail' (by omega) h3 h4

/-- The sort leaves the positions non-decreasing. -/
theorem hb_bubble_sort_sorted (l : List hb_glyph_info_t) :
    (hb_bubble_sort l).Pairwise
      (fun x y => x.indic_position.toNat ≤ y.indic_position.toNat) := by
  have := iterate_bubble_pass_sorted l.length l [] (Nat.le_refl _) List.Pairwise.nil (by simp)
  simpa [hb_bubble_sort] using this

theorem sort_range_parts (a : List hb_glyph_info_t) {start end_ : Nat} (hse : start ≤ end_)
    (he : end_ ≤ a.length) :
    SameOutside start end_ a (sort_range a start end_) ∧
    syllable_glyphs (sort_range a start end_) start end_ =
      hb_bubble_sort (syllable_glyphs a start end_) := by
  have h1 : (a.take start).length = start := by simp; omega
  have h2 : (hb_bubble_sort (syllable_glyphs a start end_)).length = end_ - start := by
    rw [length_hb_bubble_sort, length_syllable_glyphs a he]
  obtain ⟨p1, p2, p3⟩ := parts_of_append (a.drop end_) h1 h2 hse
  refine ⟨⟨?_, p1, p3⟩, p2⟩
  show (a.take start ++ (hb_bubble_sort (syllable_glyphs a start end_) ++ a.drop end_)).length
    = a.length
  simp only [List.length_append, h1, h2, List.length_drop]
  omega

theorem sort_range_reordered {R : hb_glyph_info_t → hb_glyph_info_t → Prop}
    (hr : ∀ g, R g g) (a : List hb_glyph_info_t) {start end_ : Nat} (hse : start ≤ end_)
    (he : end_ ≤ a.length) : Reordered R start end_ a (sort_range a start end_) := by
  obtain ⟨h1, h2⟩ := sort_range_parts a hse he
  exact reordered_of_perm hr h1 (h2 ▸ hb_bubble_sort_perm _)

/-! ## Base selection stays inside the syllable -/

theorem find_base_last_spec (info : List hb_glyph_info_t) (limit : Nat) :
    ∀ i base, limit ≤ i →
      find_base_last info limit i base = base ∨
      (limit ≤ find_base_last info limit i base ∧ find_base_last info limit i base ≤ i ∧
        is_consonant (getInfo info (find_base_last info limit i base)) = true) := by
  intro i
  induction i with
  | zero =>
    intro base hl
    unfold find_base_last
    split_ifs with h
    · exact Or.inr ⟨hl, Nat.le_refl _, h⟩
    · exact Or.inl rfl
  | succ i ih =>
    intro base hl
    unfold find_base_last
    split_ifs with h1 h2 h3 h4 h5
    · exact Or.inr ⟨hl, Nat.le_refl _, h1⟩
    · rcases ih (i + 1) (by omega) with h | ⟨ha, hb, hc⟩
      · rw [h]; exact Or.inr ⟨hl, Nat.le_refl _, h1⟩
      · exact Or.inr ⟨ha, by omega, hc⟩
    · exact Or.inr ⟨hl, Nat.le_refl _, h1⟩
    · exact Or.inl rfl
    · rcases ih base (by omega) with h | ⟨ha, hb, hc⟩
      · exact Or.inl h
      · exact Or.inr ⟨ha, by omega, hc⟩
    · exact Or.inl rfl

theorem reph_precondition_bound {basic_mask_array : Nat → Nat} {info : List hb_glyph_info_t}
    {start end_ : Nat} (h : reph_precondition basic_mask_array info start end_ = true) :
    start + 3 ≤ end_ := by
  unfold reph_precondition at h
  simp only [Bool.and_eq_true, decide_eq_true_eq] at h
  exact h.1.1.1.2

theorem find_base_bounds (script : Nat) (basic_mask_array : Nat → Nat)
    (info : List hb_glyph_info_t) {start end_ : Nat} (hse : start < end_) :
    start ≤ (find_base script basic_mask_array info start end_).1 ∧
    (find_base script basic_mask_array info start end_).1 ≤ end_ := by
  unfold find_base
  simp only
  cases hpre : reph_precondition basic_mask_array info start end_ with
  | true =>
    have hb := reph_precondition_bound hpre
    simp only [if_true, Bool.not_true, Bool.false_eq_true, if_false]
    by_cases hk : script = HB_SCRIPT_KHMER
    · simp only [hk, if_true]
      split_ifs <;> omega
    · simp only [hk, if_false]
      rcases find_base_last_spec info (start + 2) (end_ - 1) start (by omega) with h | ⟨h1, h2, _⟩
      · rw [h]; split_ifs <;> omega
      · split_ifs <;> omega
  | false =>
    simp only [Bool.false_eq_true, if_false, Bool.not_false, if_true]
    by_cases hk : script = HB_SCRIPT_KHMER
    · simp only [hk, if_true]
      split_ifs <;> omega
    · simp only [hk, if_false]
      rcases find_base_last_spec info start (end_ - 1) end_ (by omega) with h | ⟨h1, h2, _⟩
      · rw [h]; split_ifs <;> omega
      · split_ifs <;> omega

theorem find_base_has_reph {script : Nat} {basic_mask_array : Nat → Nat}
    {info : List hb_glyph_info_t} {start end_ : Nat}
    (h : (find_base script basic_mask_array info start end_).2 = true) :
    reph_precondition basic_mask_array info start end_ = true ∧
    (find_base script basic_mask_array info start end_).1 ≠ start := by
  unfold find_base at h ⊢
  simp only at h ⊢
  cases hpre : reph_precondition basic_mask_array info start end_ with
  | true =>
    rw [hpre] at h
    refine ⟨rfl, ?_⟩
    intro hb
    simp only [if_true, Bool.not_true, Bool.false_eq_true, if_false] at h hb
    simp [hb] at h
  | false =>
    rw [hpre] at h
    simp at h

/-! ## The steps of initial reordering, one by one -/

section steps

variable {basic_mask_array : Nat → Nat} {R : hb_glyph_info_t → hb_glyph_info_t → Prop}

theorem setPos_changed (hR : PositionStepRel R) (a : List hb_glyph_info_t)
    {start end_ i : Nat} (p : indic_position_t) (hs : start ≤ i) (he : i < end_) :
    ChangedWithin R start end_ a (setPos a i p) :=
  changedWithin_set hR.refl a _ hs he (hR.set_position _ p)

theorem orMask_changed (hR : MaskStepRel basic_mask_array R) (a : List hb_glyph_info_t)
    {start end_ i : Nat} (m : Nat) (hm : ∀ g, R g { g with mask := g.mask ||| m })
    (hs : start ≤ i) (he : i < end_) :
    ChangedWithin R start end_ a (orMask a i m) :=
  changedWithin_set hR.refl a _ hs he (hm _)

theorem clearMask_cjct_changed (hR : MaskStepRel basic_mask_array R)
    (a : List hb_glyph_info_t) {start end_ i : Nat} (hs : start ≤ i) (he : i < end_) :
    ChangedWithin R start end_ a (clearMask a i (basic_mask_array CJCT)) :=
  changedWithin_set hR.refl a _ hs he (hR.clear_cjct _)

theorem clearMask_half_changed (hR : MaskStepRel basic_mask_array R)
    (a : List hb_glyph_info_t) {start end_ i : Nat} (hs : start ≤ i) (he : i < end_) :
    ChangedWithin R start end_ a (clearMask a i (basic_mask_array HALF)) :=
  changedWithin_set hR.refl a _ hs he (hR.clear_half _)

/-- A loop whose every iteration stays within `ChangedWithin` does so as a whole. -/
theorem forRange_changed (hr : ∀ g, R g g) (ht : ∀ x y z, R x y → R y z → R x z)
    {start end_ : Nat}
    (lo hi : Nat) (body : Nat → List hb_glyph_info_t → List hb_glyph_info_t)
    (a : List hb_glyph_info_t)
    (hbody : ∀ i s, lo ≤ i → i < hi → ChangedWithin R start end_ s (body i s)) :
    ChangedWithin R start end_ a (forRange lo hi body a) :=
  forRange_induction (fun s => ChangedWithin R start end_ a s) lo hi body a
    (changedWithin_refl hr _ _ _)
    (fun i s h1 h2 hp => changedWithin_trans ht hp (hbody i s h1 h2))

theorem mark_final_consonant_changed (hR : PositionStepRel R)
    (a : List hb_glyph_info_t) (start end_ base : Nat) (hb : start ≤ base + 1) :
    ChangedWithin R start end_ a (mark_final_consonant a base end_) := by
  unfold mark_final_consonant
  split
  · exact changedWithin_refl hR.refl _ _ _
  · next i hi =>
    split
    · exact changedWithin_refl hR.refl _ _ _
    · next j hj =>
      have h1 := findFrom_some hi
      have h2 := findFrom_some hj
      exact setPos_changed hR _ _ (by omega) h2.2.1

theorem assign_positions_changed (hR : PositionStepRel R)
    (a : List hb_glyph_info_t) {start end_ base : Nat} (has_reph : Bool)
    (hse : start < end_) (hb1 : start ≤ base) (hb2 : base ≤ end_) :
    ChangedWithin R start end_ a (assign_positions a start end_ base has_reph) := by
  unfold assign_positions
  simp only
  have s1 : ChangedWithin R start end_ a
      (forRange start base (fun i info => setPos info i POS_PRE_C) a) :=
    forRange_changed hR.refl hR.trans _ _ _ _ (fun i s h1 h2 => setPos_changed hR _ _ h1 (by omega))
  have s2 : ChangedWithin R start end_ a
      (if base < end_ then
        setPos (forRange start base (fun i info => setPos info i POS_PRE_C) a) base POS_BASE_C
       else forRange start base (fun i info => setPos info i POS_PRE_C) a) := by
    split_ifs with h
    · exact changedWithin_trans hR.trans s1 (setPos_changed hR _ _ hb1 h)
    · exact s1
  have s3 := changedWithin_trans hR.trans s2
    (mark_final_consonant_changed hR _ start end_ base (by omega))
  cases has_reph with
  | true =>
    rw [if_pos rfl]
    exact changedWithin_trans hR.trans s3 (setPos_changed hR _ _ (Nat.le_refl _) hse)
  | false =>
    rw [if_neg (by simp)]
    exact s3

theorem length_of_changed {start end_ : Nat} {a b : List hb_glyph_info_t}
    (h : ChangedWithin R start end_ a b) : b.length = a.length := h.1

theorem old_spec_halant_move_reordered (hR : PositionStepRel R)
    (chosen_script : Nat) (a : List hb_glyph_info_t) (start end_ base : Nat)
    (hb : start ≤ base + 1) (he : end_ ≤ a.length) :
    Reordered R start end_ a (old_spec_halant_move chosen_script a base end_) := by
  unfold old_spec_halant_move
  split_ifs with h
  · split
    · exact reordered_refl hR.refl _ _ _
    · next i hi =>
      have h1 := findFrom_some hi
      simp only
      split_ifs with hij
      · have hj := scanDown_le (fun j => is_consonant (getInfo a j)) i (end_ - 1)
        exact move_forward_reordered hR.refl a (by omega) (by omega) (by omega) he
      · exact reordered_refl hR.refl _ _ _
  · exact reordered_refl hR.refl _ _ _

theorem attach_uniscribe_halant_changed (hR : PositionStepRel R)
    (a : List hb_glyph_info_t) {lo start end_ i : Nat} (hs : lo ≤ i) (he : i < end_) :
    ChangedWithin R lo end_ a (attach_uniscribe_halant a start i) := by
  unfold attach_uniscribe_halant
  simp only
  split_ifs
  · exact setPos_changed hR _ _ hs he
  · exact changedWithin_refl hR.refl _ _ _

theorem attach_marks_changed (hR : PositionStepRel R) (opts : indic_options_t)
    (a : List hb_glyph_info_t) (lo start end_ : Nat) (hlo : lo ≤ start + 1) :
    ChangedWithin R lo end_ a (attach_marks opts a start end_) := by
  unfold attach_marks
  split_ifs with h
  · apply forRange_changed hR.refl hR.trans
    intro i s h1 h2
    split_ifs
    · exact setPos_changed hR _ _ (by omega) h2
    · exact changedWithin_refl hR.refl _ _ _
  · apply forRange_changed hR.refl hR.trans
    intro i s h1 h2
    simp only
    split_ifs
    · exact changedWithin_trans hR.trans (setPos_changed hR _ _ (by omega) h2)
        (attach_uniscribe_halant_changed hR _ (by omega) h2)
    · exact setPos_changed hR _ _ (by omega) h2
    · exact changedWithin_refl hR.refl _ _ _

theorem reattach_halants_changed (hR : PositionStepRel R)
    (a : List hb_glyph_info_t) (start end_ base : Nat) (hb : start ≤ base + 1) :
    ChangedWithin R start end_ a (reattach_halants a base end_) := by
  unfold reattach_halants
  have key := forRange_induction
    (fun s : Nat × List hb_glyph_info_t => base + 1 ≤ s.1 ∧ ChangedWithin R start end_ a s.2)
    (base + 1) end_ (fun i (s : Nat × List hb_glyph_info_t) =>
      if is_halant_or_coeng (getInfo s.2 i) then (i, s.2)
      else if is_consonant (getInfo s.2 i) then
        (s.1, forRange s.1 i (fun j info => setPos info j (getInfo info i).indic_position) s.2)
      else s) (end_, a)
  by_cases hbe : base + 1 ≤ end_
  · refine (key ⟨hbe, changedWithin_refl hR.refl _ _ _⟩ ?_).2
    intro i s h1 h2 ⟨hp1, hp2⟩
    split_ifs
    · exact ⟨h1, hp2⟩
    · refine ⟨hp1, changedWithin_trans hR.trans hp2 ?_⟩
      apply forRange_changed hR.refl hR.trans
      intro j t hj1 hj2
      exact setPos_changed hR _ _ (by omega) (by omega)
    · exact ⟨hp1, hp2⟩
  · rw [forRange_of_le _ _ (by omega)]
    exact changedWithin_refl hR.refl _ _ _

theorem initial_reordering_before_sort_reordered (hR : PositionStepRel R)
    (opts : indic_options_t) (chosen_script script : Nat) (basic_mask_array : Nat → Nat)
    (a : List hb_glyph_info_t)
    {start end_ : Nat} (hse : start < end_) (he : end_ ≤ a.length) :
    Reordered R start end_ a
      (initial_reordering_before_sort opts chosen_script script basic_mask_array a
        start end_).1 := by
  unfold initial_reordering_before_sort
  simp only
  obtain ⟨hb1, hb2⟩ := find_base_bounds script basic_mask_array a hse
  have s1 := assign_positions_changed hR a
    (find_base script basic_mask_array a start end_).2 hse hb1 hb2
  have s2 := old_spec_halant_move_reordered hR chosen_script
    (assign_positions a start end_ (find_base script basic_mask_array a start end_).1
      (find_base script basic_mask_array a start end_).2) start end_
    (find_base script basic_mask_array a start end_).1 (by omega)
    (by rw [s1.1]; exact he)
  have s3 := attach_marks_changed hR opts
    (old_spec_halant_move chosen_script
      (assign_positions a start end_ (find_base script basic_mask_array a start end_).1
        (find_base script basic_mask_array a start end_).2)
      (find_base script basic_mask_array a start end_).1 end_) start start end_ (by omega)
  have s4 := reattach_halants_changed hR
    (attach_marks opts
      (old_spec_halant_move chosen_script
        (assign_positions a start end_ (find_base script basic_mask_array a start end_).1
          (find_base script basic_mask_array a start end_).2)
        (find_base script basic_mask_array a start end_).1 end_) start end_)
    start end_ (find_base script basic_mask_array a start end_).1 (by omega)
  exact reordered_trans hR.trans
    (reordered_trans hR.trans (changedWithin_reordered s1) s2)
    (reordered_trans hR.trans (changedWithin_reordered s3) (changedWithin_reordered s4))

end steps

section mask_steps

variable {basic_mask_array : Nat → Nat} {R : hb_glyph_info_t → hb_glyph_info_t → Prop}

theorem sort_syllable_reordered (hR : InitialStepRel basic_mask_array R)
    (a : List hb_glyph_info_t) {start end_ : Nat} (base : Nat) (hse : start ≤ end_)
    (he : end_ ≤ a.length) : Reordered R start end_ a (sort_syllable a start end_ base).1 := by
  unfold sort_syllable
  split_ifs
  · exact sort_range_reordered hR.refl a hse he
  · exact reordered_refl hR.refl _ _ _

theorem sort_syllable_base_bounds (a : List hb_glyph_info_t) {start end_ base : Nat}
    (hse : start ≤ end_) (hb1 : start ≤ base) (hb2 : base ≤ end_) :
    start ≤ (sort_syllable a start end_ base).2 ∧ (sort_syllable a start end_ base).2 ≤ end_ := by
  unfold sort_syllable
  split_ifs
  · simp only
    cases hf : findFrom (fun i => (getInfo (sort_range a start end_) i).indic_position ==
        POS_BASE_C) start end_ with
    | none => simp; omega
    | some i =>
      have := findFrom_some hf
      simp; omega
  · exact ⟨hb1, hb2⟩

theorem reph_mask_loop_changed (hR : MaskStepRel basic_mask_array R) (m : Nat)
    (hm : ∀ g, R g { g with mask := g.mask ||| m }) (start end_ : Nat) :
    ∀ (n i : Nat) (a : List hb_glyph_info_t), start ≤ i →
      ChangedWithin R start end_ a (reph_mask_loop m end_ n i a) := by
  intro n
  induction n with
  | zero => intro i a _; exact changedWithin_refl hR.refl _ _ _
  | succ n ih =>
    intro i a hi
    unfold reph_mask_loop
    split_ifs with h
    · exact changedWithin_trans hR.trans (orMask_changed hR a m hm hi h.1)
        (ih (i + 1) _ (by omega))
    · exact changedWithin_refl hR.refl _ _ _

theorem setup_zone_masks_changed (hR : MaskStepRel basic_mask_array R)
    (a : List hb_glyph_info_t) {start end_ base : Nat} (hb1 : start ≤ base)
    (hb2 : base ≤ end_) :
    ChangedWithin R start end_ a (setup_zone_masks basic_mask_array a start end_ base) := by
  unfold setup_zone_masks
  simp only
  refine changedWithin_step hR.trans
    (forRange_changed hR.refl hR.trans _ _ _ _
      (fun i s h1 h2 => orMask_changed hR _ _ hR.or_post_base (by omega) h2)) ?_
  have s2 : ChangedWithin R start end_ a (forRange start base
      (fun i info => orMask info i
        (basic_mask_array HALF ||| basic_mask_array AKHN ||| basic_mask_array CJCT)) a) :=
    forRange_changed hR.refl hR.trans start base _ _
      (fun i s h1 h2 => orMask_changed hR _ _ hR.or_pre_base h1 (by omega))
  split_ifs with h
  · exact changedWithin_step hR.trans (orMask_changed hR _ _ hR.or_base hb1 h) s2
  · exact s2

theorem setup_syllable_masks_changed (hR : MaskStepRel basic_mask_array R)
    (hm : ∀ g, R g { g with mask := g.mask ||| basic_mask_array RPHF })
    (a : List hb_glyph_info_t) {start end_ base : Nat} (hb1 : start ≤ base)
    (hb2 : base ≤ end_) :
    ChangedWithin R start end_ a (setup_syllable_masks basic_mask_array a start end_ base) := by
  unfold setup_syllable_masks
  simp only
  exact changedWithin_step hR.trans (setup_zone_masks_changed hR _ hb1 hb2)
    (reph_mask_loop_changed hR (basic_mask_array RPHF) hm start end_
      (end_ - start) start a (Nat.le_refl _))

theorem mark_pref_cfar_changed (hR : MaskStepRel basic_mask_array R)
    (a : List hb_glyph_info_t) {start end_ base : Nat} (hb1 : start ≤ base) :
    ChangedWithin R start end_ a (mark_pref_cfar basic_mask_array a end_ base) := by
  unfold mark_pref_cfar
  split_ifs with h
  · split
    · exact changedWithin_refl hR.refl _ _ _
    · next i hi =>
      have h1 := findFrom_some hi
      simp only
      refine changedWithin_step hR.trans (forRange_changed hR.refl hR.trans _ _ _ _
        (fun k s h1 h2 => orMask_changed hR _ _ hR.or_cfar (by omega) h2)) ?_
      refine changedWithin_step hR.trans
        (orMask_changed hR _ _ hR.or_pref (i := i + 1) (by omega) (by omega)) ?_
      exact orMask_changed hR a _ hR.or_pref (i := i) (by omega) (by omega)
  · exact changedWithin_refl hR.refl _ _ _

theorem joiner_walk_back_changed (hR : MaskStepRel basic_mask_array R) (non_joiner : Bool)
    {start end_ : Nat} :
    ∀ (j : Nat) (a : List hb_glyph_info_t), start ≤ j → j < end_ →
      ChangedWithin R start end_ a (joiner_walk_back basic_mask_array non_joiner start j a) := by
  intro j
  induction j with
  | zero =>
    intro a hs he
    unfold joiner_walk_back
    simp only
    split_ifs
    · exact changedWithin_trans hR.trans (clearMask_cjct_changed hR a hs he)
        (clearMask_half_changed hR _ hs he)
    · exact clearMask_cjct_changed hR a hs he
  | succ j ih =>
    intro a hs he
    unfold joiner_walk_back
    simp only
    have s1 : ChangedWithin R start end_ a
        (if non_joiner = true then
          clearMask (clearMask a (j + 1) (basic_mask_array CJCT)) (j + 1) (basic_mask_array HALF)
         else clearMask a (j + 1) (basic_mask_array CJCT)) := by
      split_ifs
      · exact changedWithin_trans hR.trans (clearMask_cjct_changed hR a hs he)
          (clearMask_half_changed hR _ hs he)
      · exact clearMask_cjct_changed hR a hs he
    by_cases hc : start < j + 1 ∧ is_consonant (getInfo
        (if non_joiner = true then
          clearMask (clearMask a (j + 1) (basic_mask_array CJCT)) (j + 1) (basic_mask_array HALF)
         else clearMask a (j + 1) (basic_mask_array CJCT)) (j + 1)) = false
    · rw [if_pos hc]
      exact changedWithin_trans hR.trans s1 (ih _ (by omega) (by omega))
    · rw [if_neg hc]
      exact s1

theorem apply_joiner_effects_changed (hR : MaskStepRel basic_mask_array R)
    (a : List hb_glyph_info_t) (start end_ : Nat) :
    ChangedWithin R start end_ a (apply_joiner_effects basic_mask_array a start end_) := by
  unfold apply_joiner_effects
  apply forRange_changed hR.refl hR.trans
  intro i s h1 h2
  split_ifs
  · exact joiner_walk_back_changed hR _ (i - 1) s (by omega) (by omega)
  · exact changedWithin_refl hR.refl _ _ _

theorem initial_reordering_masks_changed (hR : MaskStepRel basic_mask_array R)
    (hm : ∀ g, R g { g with mask := g.mask ||| basic_mask_array RPHF })
    (a : List hb_glyph_info_t) {start end_ base : Nat} (hb1 : start ≤ base)
    (hb2 : base ≤ end_) :
    ChangedWithin R start end_ a
      (initial_reordering_masks basic_mask_array a start end_ base) := by
  unfold initial_reordering_masks
  simp only
  exact changedWithin_trans hR.trans (changedWithin_trans hR.trans
    (setup_syllable_masks_changed hR hm a hb1 hb2) (mark_pref_cfar_changed hR _ hb1))
    (apply_joiner_effects_changed hR _ start end_)

/-- Initial reordering rearranges the glyphs of the syllable among themselves, changes each of
them only within `R`, and touches nothing outside the syllable. -/
theorem initial_reordering_reordered (hR : InitialStepRel basic_mask_array R)
    (opts : indic_options_t) (chosen_script script : Nat) (a : List hb_glyph_info_t)
    {start end_ : Nat} (hse : start < end_) (he : end_ ≤ a.length) :
    Reordered R start end_ a
      (initial_reordering_consonant_syllable opts chosen_script script basic_mask_array a
        start end_) := by
  unfold initial_reordering_consonant_syllable
  simp only
  have s1 := initial_reordering_before_sort_reordered hR.toPositionStepRel opts chosen_script
    script basic_mask_array a hse he
  have hb : start ≤ (initial_reordering_before_sort opts chosen_script script basic_mask_array a
      start end_).2 ∧ (initial_reordering_before_sort opts chosen_script script basic_mask_array a
      start end_).2 ≤ end_ := find_base_bounds script basic_mask_array a hse
  have hl : (initial_reordering_before_sort opts chosen_script script basic_mask_array a
      start end_).1.length = a.length := s1.1.1
  have s2 := sort_syllable_reordered hR
    (initial_reordering_before_sort opts chosen_script script basic_mask_array a start end_).1
    (initial_reordering_before_sort opts chosen_script script basic_mask_array a start end_).2
    (Nat.le_of_lt hse) (by rw [hl]; exact he)
  obtain ⟨hb1, hb2⟩ := sort_syllable_base_bounds
    (initial_reordering_before_sort opts chosen_script script basic_mask_array a start end_).1
    (Nat.le_of_lt hse) hb.1 hb.2
  have s3 := initial_reordering_masks_changed hR.toMaskStepRel hR.or_rphf
    (sort_syllable
      (initial_reordering_before_sort opts chosen_script script basic_mask_array a start end_).1
      start end_
      (initial_reordering_before_sort opts chosen_script script basic_mask_array a
        start end_).2).1 hb1 hb2
  exact reordered_trans hR.trans (reordered_trans hR.trans s1 s2) (changedWithin_reordered s3)

end mask_steps

/-! ## Frame and permutation property of initial reordering -/

theorem keepsAllButPositionAndMask_stepRel (basic_mask_array : Nat → Nat) :
    InitialStepRel basic_mask_array KeepsAllButPositionAndMask where
  refl := fun _ => ⟨rfl, rfl, rfl, rfl, rfl⟩
  trans := fun _ _ _ h1 h2 =>
    ⟨h2.1.trans h1.1, h2.2.1.trans h1.2.1, h2.2.2.1.trans h1.2.2.1,
      h2.2.2.2.1.trans h1.2.2.2.1, h2.2.2.2.2.trans h1.2.2.2.2⟩
  set_position := fun _ _ => ⟨rfl, rfl, rfl, rfl, rfl⟩
  or_rphf := fun _ => ⟨rfl, rfl, rfl, rfl, rfl⟩
  or_pre_base := fun _ => ⟨rfl, rfl, rfl, rfl, rfl⟩
  or_base := fun _ => ⟨rfl, rfl, rfl, rfl, rfl⟩
  or_post_base := fun _ => ⟨rfl, rfl, rfl, rfl, rfl⟩
  or_pref := fun _ => ⟨rfl, rfl, rfl, rfl, rfl⟩
  or_cfar := fun _ => ⟨rfl, rfl, rfl, rfl, rfl⟩
  clear_cjct := fun _ => ⟨rfl, rfl, rfl, rfl, rfl⟩
  clear_half := fun _ => ⟨rfl, rfl, rfl, rfl, rfl⟩

/-- C1: for every buffer, mask table, script, script tag and option setting and every syllable
range with `start < end ≤ len`, `initial_reordering_consonant_syllable` keeps the buffer
length, leaves the glyphs before `start` and from `end` on untouched, and leaves in
`[start, end)` a rearrangement of the glyphs that were there in which each glyph keeps its
codepoint, general category, `indic_category`, syllable value and cluster: only the order,
`indic_position` and `mask` may differ. -/
theorem initial_reordering_permutes_syllable (opts : indic_options_t)
    (chosen_script script : Nat) (basic_mask_array : Nat → Nat) (info : List hb_glyph_info_t)
    (start end_ : Nat) (hse : start < end_) (he : end_ ≤ info.length) :
    (initial_reordering_consonant_syllable opts chosen_script script basic_mask_array info
      start end_).length = info.length ∧
    (initial_reordering_consonant_syllable opts chosen_script script basic_mask_array info
      start end_).take start = info.take start ∧
    (initial_reordering_consonant_syllable opts chosen_script script basic_mask_array info
      start end_).drop end_ = info.drop end_ ∧
    ∃ l, l.Perm (syllable_glyphs info start end_) ∧
      List.Forall₂ KeepsAllButPositionAndMask l
        (syllable_glyphs (initial_reordering_consonant_syllable opts chosen_script script
          basic_mask_array info start end_) start end_) := by
  obtain ⟨⟨h1, h2, h3⟩, h4⟩ := initial_reordering_reordered
    (keepsAllButPositionAndMask_stepRel basic_mask_array) opts chosen_script script info hse he
  exact ⟨h1, h2, h3, h4⟩

/-- Witness of C1 on scenario S1. -/
theorem initial_reordering_permutes_syllable_witness :
    (0 < 3 ∧ 3 ≤ example_ra_h_ka.length) ∧
    ((initial_reordering_consonant_syllable ⟨false⟩ 0 HB_SCRIPT_DEVANAGARI example_masks
      example_ra_h_ka 0 3).length = example_ra_h_ka.length ∧
    (initial_reordering_consonant_syllable ⟨false⟩ 0 HB_SCRIPT_DEVANAGARI example_masks
      example_ra_h_ka 0 3).take 0 = example_ra_h_ka.take 0 ∧
    (initial_reordering_consonant_syllable ⟨false⟩ 0 HB_SCRIPT_DEVANAGARI example_masks
      example_ra_h_ka 0 3).drop 3 = example_ra_h_ka.drop 3 ∧
    ∃ l, l.Perm (syllable_glyphs example_ra_h_ka 0 3) ∧
      List.Forall₂ KeepsAllButPositionAndMask l
        (syllable_glyphs (initial_reordering_consonant_syllable ⟨false⟩ 0 HB_SCRIPT_DEVANAGARI
          example_masks example_ra_h_ka 0 3) 0 3)) :=
  ⟨⟨by decide, by decide⟩,
    initial_reordering_permutes_syllable ⟨false⟩ 0 HB_SCRIPT_DEVANAGARI example_masks
      example_ra_h_ka 0 3 (by decide) (by decide)⟩

/-! ## Mask bits are never lost outside `cjct | half` -/

theorem testBit_hb_mask_not (m b : Nat) (hb : b < 32) :
    (hb_mask_not m).testBit b = !m.testBit b := by
  unfold hb_mask_not
  have e1 : (4294967296 : Nat) = 2 ^ 32 := by norm_num
  have e2 : (4294967295 : Nat) = 2 ^ 32 - 1 := by norm_num
  rw [e1, e2, Nat.testBit_xor, Nat.testBit_mod_two_pow, Nat.testBit_two_pow_sub_one]
  simp [hb]

theorem keepsMaskBitsOutside_or (ch : Nat) (g : hb_glyph_info_t) (m : Nat) :
    KeepsMaskBitsOutside ch g { g with mask := g.mask ||| m } :=
  ⟨⟨rfl, rfl, rfl, rfl, rfl⟩, fun b _ h _ => by simp only [Nat.testBit_or, h, Bool.true_or]⟩

theorem keepsMaskBitsOutside_stepRel (basic_mask_array : Nat → Nat) :
    InitialStepRel basic_mask_array
      (KeepsMaskBitsOutside (basic_mask_array CJCT ||| basic_mask_array HALF)) where
  refl := fun g => ⟨(keepsAllButPositionAndMask_stepRel basic_mask_array).refl g,
    fun _ _ h _ => h⟩
  trans := fun x y z h1 h2 =>
    ⟨(keepsAllButPositionAndMask_stepRel basic_mask_array).trans x y z h1.1 h2.1,
      fun b hb hx hc => h2.2 b hb (h1.2 b hb hx hc) hc⟩
  set_position := fun g p =>
    ⟨(keepsAllButPositionAndMask_stepRel basic_mask_array).set_position g p, fun _ _ h _ => h⟩
  or_rphf := fun g => keepsMaskBitsOutside_or _ g _
  or_pre_base := fun g => keepsMaskBitsOutside_or _ g _
  or_base := fun g => keepsMaskBitsOutside_or _ g _
  or_post_base := fun g => keepsMaskBitsOutside_or _ g _
  or_pref := fun g => keepsMaskBitsOutside_or _ g _
  or_cfar := fun g => keepsMaskBitsOutside_or _ g _
  clear_cjct := fun g =>
    ⟨(keepsAllButPositionAndMask_stepRel basic_mask_array).clear_cjct g, fun b hb h hc => by
      simp only [Nat.testBit_or, Bool.or_eq_false_iff] at hc
      simp only [Nat.testBit_and, h, testBit_hb_mask_not _ _ hb, hc.1, Bool.not_false,
        Bool.and_self]⟩
  clear_half := fun g =>
    ⟨(keepsAllButPositionAndMask_stepRel basic_mask_array).clear_half g, fun b hb h hc => by
      simp only [Nat.testBit_or, Bool.or_eq_false_iff] at hc
      simp only [Nat.testBit_and, h, testBit_hb_mask_not _ _ hb, hc.2, Bool.not_false,
        Bool.and_self]⟩

/-- C9: initial reordering never clears a mask bit other than those of the `cjct` and `half`
masks.  The glyphs of the syllable after reordering are, slot by slot, later states of a
rearrangement `l` of the glyphs before it, and every bit (of the 32 of an `hb_mask_t`) set in
the incoming mask of a glyph and lying outside `mask[CJCT] | mask[HALF]` is still set in its
outgoing mask. -/
theorem initial_reordering_keeps_mask_bits (opts : indic_options_t)
    (chosen_script script : Nat) (basic_mask_array : Nat → Nat) (info : List hb_glyph_info_t)
    (start end_ : Nat) (hse : start < end_) (he : end_ ≤ info.length) :
    ∃ l, l.Perm (syllable_glyphs info start end_) ∧
      List.Forall₂
        (fun g h => KeepsAllButPositionAndMask g h ∧
          ∀ b, b < 32 → g.mask.testBit b = true →
            (basic_mask_array CJCT ||| basic_mask_array HALF).testBit b = false →
            h.mask.testBit b = true) l
        (syllable_glyphs (initial_reordering_consonant_syllable opts chosen_script script
          basic_mask_array info start end_) start end_) :=
  (initial_reordering_reordered (keepsMaskBitsOutside_stepRel basic_mask_array) opts
    chosen_script script info hse he).2

/-- Witness of C9 on scenario S1. -/
theorem initial_reordering_keeps_mask_bits_witness :
    (0 < 3 ∧ 3 ≤ example_ra_h_ka.length) ∧
    ∃ l, l.Perm (syllable_glyphs example_ra_h_ka 0 3) ∧
      List.Forall₂
        (fun g h => KeepsAllButPositionAndMask g h ∧
          ∀ b, b < 32 → g.mask.testBit b = true →
            (example_masks CJCT ||| example_masks HALF).testBit b = false →
            h.mask.testBit b = true) l
        (syllable_glyphs (initial_reordering_consonant_syllable ⟨false⟩ 0 HB_SCRIPT_DEVANAGARI
          example_masks example_ra_h_ka 0 3) 0 3) :=
  ⟨⟨by decide, by decide⟩,
    initial_reordering_keeps_mask_bits ⟨false⟩ 0 HB_SCRIPT_DEVANAGARI example_masks
      example_ra_h_ka 0 3 (by decide) (by decide)⟩

/-! ## The order after initial reordering -/

theorem keepsAllButMask_maskStepRel (basic_mask_array : Nat → Nat) :
    MaskStepRel basic_mask_array KeepsAllButMask where
  refl := fun _ => ⟨⟨rfl, rfl, rfl, rfl, rfl⟩, rfl⟩
  trans := fun x y z h1 h2 =>
    ⟨(keepsAllButPositionAndMask_stepRel basic_mask_array).trans x y z h1.1 h2.1,
      h2.2.trans h1.2⟩
  or_pre_base := fun _ => ⟨⟨rfl, rfl, rfl, rfl, rfl⟩, rfl⟩
  or_base := fun _ => ⟨⟨rfl, rfl, rfl, rfl, rfl⟩, rfl⟩
  or_post_base := fun _ => ⟨⟨rfl, rfl, rfl, rfl, rfl⟩, rfl⟩
  or_pref := fun _ => ⟨⟨rfl, rfl, rfl, rfl, rfl⟩, rfl⟩
  or_cfar := fun _ => ⟨⟨rfl, rfl, rfl, rfl, rfl⟩, rfl⟩
  clear_cjct := fun _ => ⟨⟨rfl, rfl, rfl, rfl, rfl⟩, rfl⟩
  clear_half := fun _ => ⟨⟨rfl, rfl, rfl, rfl, rfl⟩, rfl⟩

theorem forall₂_keepsAllButMask_positions {l₁ l₂ : List hb_glyph_info_t}
    (h : List.Forall₂ KeepsAllButMask l₁ l₂) :
    l₂.map (fun g => g.indic_position) = l₁.map (fun g => g.indic_position) := by
  induction h with
  | nil => rfl
  | cons hab _ ih => simp [hab.2, ih]

theorem pairwise_positions_of_keepsAllButMask {l₁ l₂ : List hb_glyph_info_t}
    (h : List.Forall₂ KeepsAllButMask l₁ l₂)
    (hs : l₁.Pairwise (fun x y => x.indic_position.toNat ≤ y.indic_position.toNat)) :
    l₂.Pairwise (fun x y => x.indic_position.toNat ≤ y.indic_position.toNat) := by
  have e := forall₂_keepsAllButMask_positions h
  have h1 : (l₁.map (fun g => g.indic_position)).Pairwise (fun p q => p.toNat ≤ q.toNat) :=
    (List.pairwise_map (f := fun g : hb_glyph_info_t => g.indic_position)
      (R := fun p q => p.toNat ≤ q.toNat)).mpr hs
  rw [← e] at h1
  exact (List.pairwise_map (f := fun g : hb_glyph_info_t => g.indic_position)
    (R := fun p q => p.toNat ≤ q.toNat)).mp h1

/-- With fewer than 64 glyphs the syllable after initial reordering is, up to the masks, the
sort of the syllable as the steps before the sort leave it. -/
theorem initial_reordering_is_sort (opts : indic_options_t) (chosen_script script : Nat)
    (basic_mask_array : Nat → Nat) (info : List hb_glyph_info_t) {start end_ : Nat}
    (hse : start < end_) (he : end_ ≤ info.length) (hlt : end_ - start < 64) :
    List.Forall₂ KeepsAllButMask
      (hb_bubble_sort (syllable_glyphs (initial_reordering_before_sort opts chosen_script script
        basic_mask_array info start end_).1 start end_))
      (syllable_glyphs (initial_reordering_consonant_syllable opts chosen_script script
        basic_mask_array info start end_) start end_) := by
  have s1 := initial_reordering_before_sort_reordered
    (keepsAllButPositionAndMask_stepRel basic_mask_array).toPositionStepRel opts chosen_script
    script basic_mask_array info hse he
  have hl : (initial_reordering_before_sort opts chosen_script script basic_mask_array info
      start end_).1.length = info.length := s1.1.1
  have hb : start ≤ (initial_reordering_before_sort opts chosen_script script basic_mask_array
      info start end_).2 ∧ (initial_reordering_before_sort opts chosen_script script
      basic_mask_array info start end_).2 ≤ end_ := find_base_bounds script basic_mask_array info hse
  obtain ⟨hb1, hb2⟩ := sort_syllable_base_bounds
    (initial_reordering_before_sort opts chosen_script script basic_mask_array info
      start end_).1 (Nat.le_of_lt hse) hb.1 hb.2
  have s3 := changedWithin_forall₂ (initial_reordering_masks_changed
    (keepsAllButMask_maskStepRel basic_mask_array) (fun _ => ⟨⟨rfl, rfl, rfl, rfl, rfl⟩, rfl⟩)
    (sort_syllable
      (initial_reordering_before_sort opts chosen_script script basic_mask_array info
        start end_).1 start end_
      (initial_reordering_before_sort opts chosen_script script basic_mask_array info
        start end_).2).1 hb1 hb2)
  have e : (sort_syllable
      (initial_reordering_before_sort opts chosen_script script basic_mask_array info
        start end_).1 start end_
      (initial_reordering_before_sort opts chosen_script script basic_mask_array info
        start end_).2).1 = sort_range (initial_reordering_before_sort opts chosen_script script
        basic_mask_array info start end_).1 start end_ := by
    unfold sort_syllable
    rw [if_pos hlt]
  show List.Forall₂ KeepsAllButMask _ (syllable_glyphs (initial_reordering_masks _
    (sort_syllable _ _ _ _).1 _ _ (sort_syllable _ _ _ _).2) _ _)
  rw [e] at s3 ⊢
  rw [(sort_range_parts _ (Nat.le_of_lt hse) (by rw [hl]; exact he)).2] at s3
  exact s3

/-- C3, as amended: for every syllable `[start, end)` of fewer than 64 glyphs, after initial
reordering by the consonant-syllable logic, by the vowel-syllable logic, or by the
standalone-cluster logic other than in the case where `uniscribe_bug_compatible` is set and the
last glyph of the cluster is a dotted circle, the `indic_position` values of the glyphs are
non-decreasing across `[start, end)`.  In that case the standalone-cluster logic returns the
buffer as it is, and so does the logic for a non-Indic run, always. -/
theorem initial_reordering_positions_sorted (opts : indic_options_t)
    (chosen_script script : Nat) (basic_mask_array : Nat → Nat) (info : List hb_glyph_info_t)
    (start end_ : Nat) (hse : start < end_) (he : end_ ≤ info.length)
    (hlt : end_ - start < 64) :
    (syllable_glyphs (initial_reordering_consonant_syllable opts chosen_script script
      basic_mask_array info start end_) start end_).Pairwise
      (fun x y => x.indic_position.toNat ≤ y.indic_position.toNat) ∧
    (syllable_glyphs (initial_reordering_vowel_syllable opts chosen_script script
      basic_mask_array info start end_) start end_).Pairwise
      (fun x y => x.indic_position.toNat ≤ y.indic_position.toNat) ∧
    (¬ (opts.uniscribe_bug_compatible = true ∧
        (getInfo info (end_ - 1)).indic_category = OT_DOTTEDCIRCLE) →
      (syllable_glyphs (initial_reordering_standalone_cluster opts chosen_script script
        basic_mask_array info start end_) start end_).Pairwise
        (fun x y => x.indic_position.toNat ≤ y.indic_position.toNat)) ∧
    (opts.uniscribe_bug_compatible = true ∧
        (getInfo info (end_ - 1)).indic_category = OT_DOTTEDCIRCLE →
      initial_reordering_standalone_cluster opts chosen_script script basic_mask_array info
        start end_ = info) ∧
    initial_reordering_non_indic chosen_script script basic_mask_array info start end_ =
      info := by
  have hc : (syllable_glyphs (initial_reordering_consonant_syllable opts chosen_script script
      basic_mask_array info start end_) start end_).Pairwise
      (fun x y => x.indic_position.toNat ≤ y.indic_position.toNat) :=
    pairwise_positions_of_keepsAllButMask
      (initial_reordering_is_sort opts chosen_script script basic_mask_array info hse he hlt)
      (hb_bubble_sort_sorted _)
  refine ⟨hc, hc, fun hn => ?_, fun hy => ?_, rfl⟩
  · unfold initial_reordering_standalone_cluster
    rw [if_neg hn]
    exact hc
  · unfold initial_reordering_standalone_cluster
    rw [if_pos hy]

/-- Witness of the amended C3 on scenario S1 and, for the standalone-cluster logic in
compatible mode, on U+0930 U+094D U+25CC, which is returned as it is. -/
theorem initial_reordering_positions_sorted_witness :
    (0 < 3 ∧ 3 ≤ example_ra_h_ka.length ∧ 3 - 0 < 64) ∧
    (syllable_glyphs (initial_reordering_consonant_syllable ⟨false⟩ 0 HB_SCRIPT_DEVANAGARI
      example_masks example_ra_h_ka 0 3) 0 3).Pairwise
      (fun x y => x.indic_position.toNat ≤ y.indic_position.toNat) ∧
    (syllable_glyphs (initial_reordering_standalone_cluster ⟨false⟩ 0 HB_SCRIPT_DEVANAGARI
      example_masks example_ra_h_dotted_circle 0 3) 0 3).Pairwise
      (fun x y => x.indic_position.toNat ≤ y.indic_position.toNat) ∧
    initial_reordering_standalone_cluster ⟨true⟩ 0 HB_SCRIPT_DEVANAGARI example_masks
      example_ra_h_dotted_circle 0 3 = example_ra_h_dotted_circle :=
  ⟨⟨by decide, by decide, by decide⟩,
    (initial_reordering_positions_sorted ⟨false⟩ 0 HB_SCRIPT_DEVANAGARI example_masks
      example_ra_h_ka 0 3 (by decide) (by decide) (by decide)).1,
    (initial_reordering_positions_sorted ⟨false⟩ 0 HB_SCRIPT_DEVANAGARI example_masks
      example_ra_h_dotted_circle 0 3 (by decide) (by decide) (by decide)).2.2.1 (by decide),
    (initial_reordering_positions_sorted ⟨true⟩ 0 HB_SCRIPT_DEVANAGARI example_masks
      example_ra_h_dotted_circle 0 3 (by decide) (by decide) (by decide)).2.2.2.1
      (by decide)⟩

/-- Counterexample to C3 as stated: in the overlong syllable of 66 glyphs the sort is skipped,
so the pre-base matra (`POS_PRE_M`) stays behind the base (`POS_BASE_C`) and the positions
are not non-decreasing. -/
theorem initial_reordering_positions_not_sorted_when_long :
    ¬ (syllable_glyphs (initial_reordering_consonant_syllable ⟨false⟩ 0 HB_SCRIPT_DEVANAGARI
      example_masks example_long_syllable 0 66) 0 66).Pairwise
      (fun x y => x.indic_position.toNat ≤ y.indic_position.toNat) := by
  decide!

/-- The other two cases in which the positions of a syllable of fewer than 64 glyphs stay
unsorted: in compatible mode the standalone cluster U+0930 U+094D U+25CC, which ends in a
dotted circle, is returned as it is, the halant (`POS_BELOW_M`) in front of the dotted circle
(`POS_BASE_C`); and a non-Indic run is never touched. -/
theorem initial_reordering_untouched_not_sorted :
    initial_reordering_standalone_cluster ⟨true⟩ 0 HB_SCRIPT_DEVANAGARI example_masks
      example_ra_h_dotted_circle 0 3 = example_ra_h_dotted_circle ∧
    ¬ (syllable_glyphs (initial_reordering_standalone_cluster ⟨true⟩ 0 HB_SCRIPT_DEVANAGARI
      example_masks example_ra_h_dotted_circle 0 3) 0 3).Pairwise
      (fun x y => x.indic_position.toNat ≤ y.indic_position.toNat) ∧
    ¬ (syllable_glyphs (initial_reordering_non_indic 0 HB_SCRIPT_DEVANAGARI example_masks
      example_stray_matras 0 2) 0 2).Pairwise
      (fun x y => x.indic_position.toNat ≤ y.indic_position.toNat) := by
  decide

/-- C4: for every syllable with fewer than 64 glyphs the glyph order produced by initial
reordering is the stable sort, by `indic_position`, of the glyph sequence as it stands after
base selection, position assignment, the old-spec halant move and the attachment steps:
positions end up non-decreasing, and for every position `p` the glyphs of position `p` are,
in the same order and up to their masks, the glyphs that had position `p` before the sort. -/
theorem initial_reordering_is_stable_sort (opts : indic_options_t)
    (chosen_script script : Nat) (basic_mask_array : Nat → Nat) (info : List hb_glyph_info_t)
    (start end_ : Nat) (hse : start < end_) (he : end_ ≤ info.length)
    (hlt : end_ - start < 64) :
    (syllable_glyphs (initial_reordering_consonant_syllable opts chosen_script script
      basic_mask_array info start end_) start end_).Pairwise
      (fun x y => x.indic_position.toNat ≤ y.indic_position.toNat) ∧
    ∀ p : indic_position_t,
      List.Forall₂ KeepsAllButMask
        ((syllable_glyphs (initial_reordering_before_sort opts chosen_script script
          basic_mask_array info start end_).1 start end_).filter
            (fun g => decide (g.indic_position = p)))
        ((syllable_glyphs (initial_reordering_consonant_syllable opts chosen_script script
          basic_mask_array info start end_) start end_).filter
            (fun g => decide (g.indic_position = p))) := by
  have h := initial_reordering_is_sort opts chosen_script script basic_mask_array info hse he hlt
  refine ⟨pairwise_positions_of_keepsAllButMask h (hb_bubble_sort_sorted _), fun p => ?_⟩
  have hf := List.rel_filter (R := KeepsAllButMask)
    (p := fun g => decide (g.indic_position = p))
    (q := fun g => decide (g.indic_position = p))
    (fun x y hxy => by simp [hxy.2]) h
  rw [hb_bubble_sort_filter] at hf
  exact hf

/-- Witness of C4 on scenario S1. -/
theorem initial_reordering_is_stable_sort_witness :
    (0 < 3 ∧ 3 ≤ example_ra_h_ka.length ∧ 3 - 0 < 64) ∧
    ((syllable_glyphs (initial_reordering_consonant_syllable ⟨false⟩ 0 HB_SCRIPT_DEVANAGARI
      example_masks example_ra_h_ka 0 3) 0 3).Pairwise
      (fun x y => x.indic_position.toNat ≤ y.indic_position.toNat) ∧
    ∀ p : indic_position_t,
      List.Forall₂ KeepsAllButMask
        ((syllable_glyphs (initial_reordering_before_sort ⟨false⟩ 0 HB_SCRIPT_DEVANAGARI
          example_masks example_ra_h_ka 0 3).1 0 3).filter
            (fun g => decide (g.indic_position = p)))
        ((syllable_glyphs (initial_reordering_consonant_syllable ⟨false⟩ 0 HB_SCRIPT_DEVANAGARI
          example_masks example_ra_h_ka 0 3) 0 3).filter
            (fun g => decide (g.indic_position = p)))) :=
  ⟨⟨by decide, by decide, by decide⟩,
    initial_reordering_is_stable_sort ⟨false⟩ 0 HB_SCRIPT_DEVANAGARI example_masks
      example_ra_h_ka 0 3 (by decide) (by decide) (by decide)⟩

/-! ## Reading a glyph after a write -/

theorem getInfo_setPos (a : List hb_glyph_info_t) (i k : Nat) (p : indic_position_t) :
    getInfo (setPos a i p) k =
      if i = k ∧ i < a.length then { getInfo a i with indic_position := p }
      else getInfo a k := by
  unfold setPos
  exact getInfo_set a i k _

theorem getInfo_orMask (a : List hb_glyph_info_t) (i k : Nat) (m : Nat) :
    getInfo (orMask a i m) k =
      if i = k ∧ i < a.length then { getInfo a i with mask := (getInfo a i).mask ||| m }
      else getInfo a k := by
  unfold orMask
  exact getInfo_set a i k _

theorem getInfo_clearMask (a : List hb_glyph_info_t) (i k : Nat) (m : Nat) :
    getInfo (clearMask a i m) k =
      if i = k ∧ i < a.length then
        { getInfo a i with mask := (getInfo a i).mask &&& hb_mask_not m }
      else getInfo a k := by
  unfold clearMask
  exact getInfo_set a i k _

/-- A loop that rewrites the glyph at its index by `f` rewrites exactly the glyphs of the
range. -/
theorem forRange_set_spec (f : hb_glyph_info_t → hb_glyph_info_t) (lo hi : Nat)
    (a : List hb_glyph_info_t) :
    (forRange lo hi (fun i s => s.set i (f (getInfo s i))) a).length = a.length ∧
    ∀ k, getInfo (forRange lo hi (fun i s => s.set i (f (getInfo s i))) a) k =
      if lo ≤ k ∧ k < hi ∧ k < a.length then f (getInfo a k) else getInfo a k := by
  by_cases hle : lo ≤ hi
  · have key := forRange_induction_idx
      (fun j (s : List hb_glyph_info_t) => s.length = a.length ∧
        ∀ k, getInfo s k =
          if lo ≤ k ∧ k < j ∧ k < a.length then f (getInfo a k) else getInfo a k)
      lo hi (fun i s => s.set i (f (getInfo s i))) a hle
      ⟨rfl, fun k => by rw [if_neg (by omega)]⟩
    apply key
    intro j s h1 h2 ⟨hl, hk⟩
    refine ⟨by simp [hl], fun k => ?_⟩
    show getInfo (s.set j (f (getInfo s j))) k = _
    have hj : getInfo s j = getInfo a j := by rw [hk j, if_neg (by omega)]
    rw [getInfo_set, hj, hl]
    by_cases hjk : j = k
    · subst hjk
      by_cases hjl : j < a.length
      · rw [if_pos ⟨rfl, hjl⟩, if_pos ⟨h1, by omega, hjl⟩]
      · rw [if_neg (by omega), hk j, if_neg (by omega), if_neg (by omega)]
    · rw [if_neg (by omega), hk k]
      by_cases hc : lo ≤ k ∧ k < j ∧ k < a.length
      · rw [if_pos hc, if_pos ⟨hc.1, by omega, hc.2.2⟩]
      · rw [if_neg hc, if_neg (by omega)]
  · rw [forRange_of_le _ _ (by omega)]
    exact ⟨rfl, fun k => by rw [if_neg (by omega)]⟩

theorem forRange_orMask_spec (m lo hi : Nat) (a : List hb_glyph_info_t) :
    (forRange lo hi (fun i s => orMask s i m) a).length = a.length ∧
    ∀ k, getInfo (forRange lo hi (fun i s => orMask s i m) a) k =
      if lo ≤ k ∧ k < hi ∧ k < a.length then
        { getInfo a k with mask := (getInfo a k).mask ||| m }
      else getInfo a k :=
  forRange_set_spec (fun g => { g with mask := g.mask ||| m }) lo hi a

theorem forRange_setPos_spec (p : indic_position_t) (lo hi : Nat) (a : List hb_glyph_info_t) :
    (forRange lo hi (fun i s => setPos s i p) a).length = a.length ∧
    ∀ k, getInfo (forRange lo hi (fun i s => setPos s i p) a) k =
      if lo ≤ k ∧ k < hi ∧ k < a.length then { getInfo a k with indic_position := p }
      else getInfo a k :=
  forRange_set_spec (fun g => { g with indic_position := p }) lo hi a

/-- The pre-base, base and post-base loops OR exactly `zone_mask` into each glyph of the
syllable. -/
theorem getInfo_setup_zone_masks (basic_mask_array : Nat → Nat) (a : List hb_glyph_info_t)
    {start end_ base i : Nat} (hb1 : start ≤ base) (his : start ≤ i) (hie : i < end_)
    (hl : i < a.length) :
    getInfo (setup_zone_masks basic_mask_array a start end_ base) i =
      { getInfo a i with
        mask := (getInfo a i).mask ||| zone_mask basic_mask_array base i } := by
  unfold setup_zone_masks zone_mask
  simp only
  obtain ⟨l1, g1⟩ := forRange_orMask_spec
    (basic_mask_array HALF ||| basic_mask_array AKHN ||| basic_mask_array CJCT) start base a
  rw [(forRange_orMask_spec _ _ _ _).2]
  by_cases hlt : i < base
  · have hbe : i ≠ base := by omega
    rw [if_neg (by omega), if_pos hlt]
    split_ifs with hbl
    · rw [getInfo_orMask, if_neg (by omega), g1, if_pos ⟨his, hlt, hl⟩]
    · rw [g1, if_pos ⟨his, hlt, hl⟩]
  · rw [if_neg hlt]
    by_cases heq : i = base
    · subst heq
      rw [if_neg (by omega), if_pos rfl, if_pos hie, getInfo_orMask, if_pos ⟨rfl, by omega⟩,
        g1, if_neg (by omega)]
    · rw [if_neg heq]
      have hl2 : (if base < end_ then
          orMask (forRange start base (fun i info => orMask info i
            (basic_mask_array HALF ||| basic_mask_array AKHN ||| basic_mask_array CJCT)) a)
            base (basic_mask_array AKHN ||| basic_mask_array CJCT)
        else forRange start base (fun i info => orMask info i
            (basic_mask_array HALF ||| basic_mask_array AKHN ||| basic_mask_array CJCT)) a).length
          = a.length := by
        split_ifs
        · rw [length_orMask, l1]
        · exact l1
      rw [if_pos ⟨by omega, hie, by omega⟩]
      split_ifs with hbl
      · rw [getInfo_orMask, if_neg (by omega), g1, if_neg (by omega)]
      · rw [g1, if_neg (by omega)]

/-! ## Rules for the attachment passes -/

/-- Whatever property every write of the attachment pass preserves holds after the pass: each
write gives a glyph of an attached category, after `start`, the position of an earlier glyph of
the syllable. -/
theorem attach_marks_rule (Inv : List hb_glyph_info_t → Prop) (opts : indic_options_t)
    (a : List hb_glyph_info_t) (start end_ : Nat) (h0 : Inv a)
    (hstep : ∀ s i k, start < i → i < end_ → start ≤ k → k < i →
      is_attached_category (getInfo s i).indic_category = true → Inv s →
      Inv (setPos s i (getInfo s k).indic_position)) :
    Inv (attach_marks opts a start end_) := by
  unfold attach_marks
  split_ifs with h
  · apply forRange_induction Inv _ _ _ _ h0
    intro i s h1 h2 hs
    split_ifs with hc
    · exact hstep s i (i - 1) (by omega) h2 (by omega) (by omega) hc hs
    · exact hs
  · apply forRange_induction Inv _ _ _ _ h0
    intro i s h1 h2 hs
    simp only
    split_ifs with hc hd
    · have hs1 := hstep s i (i - 1) (by omega) h2 (by omega) (by omega) hc hs
      unfold attach_uniscribe_halant
      simp only
      split_ifs with hj
      · have hle := scanDown_le
          (fun j => (getInfo (setPos s i (getInfo s (i - 1)).indic_position)
            (j - 1)).indic_position != POS_PRE_M) start i
        refine hstep _ i _ (by omega) h2 (by omega) (by omega) ?_ hs1
        have := hd.1
        simp only [beq_iff_eq] at this
        rw [this]
        rfl
      · exact hs1
    · exact hstep s i (i - 1) (by omega) h2 (by omega) (by omega) hc hs
    · exact hs

/-- Whatever property every write of the re-attachment pass preserves holds after the pass:
each write gives a glyph after the base the position of a later consonant of the syllable. -/
theorem reattach_halants_rule (Inv : List hb_glyph_info_t → Prop) (a : List hb_glyph_info_t)
    (base end_ : Nat) (h0 : Inv a)
    (hstep : ∀ s j i, base < j → j < i → i < end_ → is_consonant (getInfo s i) = true →
      Inv s → Inv (setPos s j (getInfo s i).indic_position)) :
    Inv (reattach_halants a base end_) := by
  unfold reattach_halants
  by_cases hbe : base + 1 ≤ end_
  · have key := forRange_induction
      (fun s : Nat × List hb_glyph_info_t => base + 1 ≤ s.1 ∧ Inv s.2)
      (base + 1) end_ (fun i (s : Nat × List hb_glyph_info_t) =>
        if is_halant_or_coeng (getInfo s.2 i) then (i, s.2)
        else if is_consonant (getInfo s.2 i) then
          (s.1, forRange s.1 i
            (fun j info => setPos info j (getInfo info i).indic_position) s.2)
        else s) (end_, a)
    refine (key ⟨hbe, h0⟩ ?_).2
    intro i s h1 h2 ⟨hp1, hp2⟩
    split_ifs with hh hc
    · exact ⟨h1, hp2⟩
    · refine ⟨hp1, ?_⟩
      have inner := forRange_induction
        (fun t : List hb_glyph_info_t => Inv t ∧ getInfo t i = getInfo s.2 i) s.1 i
        (fun j info => setPos info j (getInfo info i).indic_position) s.2 ⟨hp2, rfl⟩
      refine (inner ?_).1
      intro j t hj1 hj2 ⟨ht1, ht2⟩
      refine ⟨hstep t j i (by omega) hj2 h2 (by rw [ht2]; exact hc) ht1, ?_⟩
      rw [getInfo_setPos, if_neg (by omega)]
      exact ht2
    · exact ⟨hp1, hp2⟩
  · rw [forRange_of_le _ _ (by omega)]
    exact h0

/-! ## The base glyph before the sort -/

theorem find_base_cases (script : Nat) (basic_mask_array : Nat → Nat)
    (info : List hb_glyph_info_t) {start end_ : Nat} (hse : start < end_) :
    (find_base script basic_mask_array info start end_).1 = start ∨
    (find_base script basic_mask_array info start end_).1 = end_ ∨
    is_consonant (getInfo info (find_base script basic_mask_array info start end_).1) = true := by
  unfold find_base
  simp only
  cases hpre : reph_precondition basic_mask_array info start end_ with
  | true =>
    have hb := reph_precondition_bound hpre
    simp only [if_true, Bool.not_true, Bool.false_eq_true, if_false]
    by_cases hk : script = HB_SCRIPT_KHMER
    · simp only [hk, if_true]
      left
      split_ifs <;> rfl
    · simp only [hk, if_false]
      rcases find_base_last_spec info (start + 2) (end_ - 1) start (by omega) with h | ⟨h1, h2, h3⟩
      · rw [h]; left; split_ifs <;> rfl
      · right; right
        rw [if_neg (by omega)]
        exact h3
  | false =>
    simp only [Bool.false_eq_true, if_false, Bool.not_false, if_true]
    by_cases hk : script = HB_SCRIPT_KHMER
    · simp only [hk, if_true]
      left
      split_ifs <;> rfl
    · simp only [hk, if_false]
      rcases find_base_last_spec info start (end_ - 1) end_ (by omega) with h | ⟨h1, h2, h3⟩
      · rw [h]; right; left; rw [if_neg (by omega)]
      · right; right
        rw [if_neg (by omega)]
        exact h3

theorem not_attached_of_consonant {g : hb_glyph_info_t} (h : is_consonant g = true) :
    is_attached_category g.indic_category = false := by
  unfold is_consonant at h
  unfold is_attached_category
  cases hc : g.indic_category <;> simp_all

theorem getInfo_assign_positions_base (a : List hb_glyph_info_t) {start end_ base : Nat}
    (has_reph : Bool) (hbe : base < end_) (hl : end_ ≤ a.length)
    (hr : has_reph = true → base ≠ start) :
    getInfo (assign_positions a start end_ base has_reph) base =
      { getInfo a base with indic_position := POS_BASE_C } := by
  unfold assign_positions
  simp only
  obtain ⟨l0, g0⟩ := forRange_setPos_spec POS_PRE_C start base a
  rw [if_pos hbe]
  have h1 : getInfo (setPos (forRange start base (fun i info => setPos info i POS_PRE_C) a)
      base POS_BASE_C) base = { getInfo a base with indic_position := POS_BASE_C } := by
    rw [getInfo_setPos, if_pos ⟨rfl, by omega⟩, g0, if_neg (by omega)]
  have h2 := ((mark_final_consonant_changed
    (keepsAllButPositionAndMask_stepRel (fun _ => 0)).toPositionStepRel
    (setPos (forRange start base (fun i info => setPos info i POS_PRE_C) a) base POS_BASE_C)
    (base + 1) end_ base (Nat.le_refl _)).2 base).2 (by omega)
  cases has_reph with
  | true =>
    rw [if_pos rfl, getInfo_setPos, if_neg (fun h => hr rfl h.1.symm), h2, h1]
  | false =>
    rw [if_neg (by simp), h2, h1]

/-- When a base is selected, its glyph has `POS_BASE_C` just before the sort. -/
theorem before_sort_base_position (opts : indic_options_t) (chosen_script script : Nat)
    (basic_mask_array : Nat → Nat) (info : List hb_glyph_info_t) {start end_ : Nat}
    (hse : start < end_) (he : end_ ≤ info.length)
    (hb : (find_base script basic_mask_array info start end_).1 < end_) :
    (getInfo (initial_reordering_before_sort opts chosen_script script basic_mask_array info
      start end_).1 (find_base script basic_mask_array info start end_).1).indic_position =
      POS_BASE_C ∧
    (getInfo (initial_reordering_before_sort opts chosen_script script basic_mask_array info
      start end_).1 (find_base script basic_mask_array info start end_).1).indic_category =
      (getInfo info (find_base script basic_mask_array info start end_).1).indic_category := by
  unfold initial_reordering_before_sort
  simp only
  obtain ⟨hb1, hb2⟩ := find_base_bounds script basic_mask_array info hse
  have hR := (keepsAllButPositionAndMask_stepRel basic_mask_array).toPositionStepRel
  have hcases := find_base_cases script basic_mask_array info hse
  generalize hbase : (find_base script basic_mask_array info start end_).1 = base at *
  generalize hhr : (find_base script basic_mask_array info start end_).2 = has_reph at *
  have hreph : has_reph = true → base ≠ start := by
    intro h
    rw [← hhr] at h
    rw [← hbase]
    exact (find_base_has_reph h).2
  -- position assignment
  have hA := getInfo_assign_positions_base info has_reph hb he hreph
  have lA := (assign_positions_changed hR info has_reph hse hb1 hb2).1
  -- old-spec halant move
  have hB := sameOutside_getInfo_eq
    (old_spec_halant_move_reordered hR chosen_script
      (assign_positions info start end_ base has_reph) (base + 1) end_ base (Nat.le_refl _)
      (by rw [lA]; exact he)).1 (Or.inl (Nat.lt_succ_self base))
  rw [hA] at hB
  -- attachment
  have hnot : base = start ∨
      is_attached_category (getInfo info base).indic_category = false := by
    rcases hcases with h | h | h
    · exact Or.inl h
    · omega
    · exact Or.inr (not_attached_of_consonant h)
  have hC : getInfo (attach_marks opts
      (old_spec_halant_move chosen_script (assign_positions info start end_ base has_reph)
        base end_) start end_) base =
      { getInfo info base with indic_position := POS_BASE_C } := by
    rcases hnot with h | h
    · have := ((attach_marks_changed hR opts
        (old_spec_halant_move chosen_script (assign_positions info start end_ base has_reph)
          base end_) (start + 1) start end_ (Nat.le_refl _)).2 base).2 (by omega)
      rw [this, hB]
    · apply attach_marks_rule (fun s => getInfo s base =
        { getInfo info base with indic_position := POS_BASE_C }) opts _ start end_ hB
      intro s i k h1 h2 h3 h4 hc hs
      have hne : i ≠ base := by
        intro hib
        rw [hib, hs] at hc
        simp only at hc
        rw [h] at hc
        exact Bool.noConfusion hc
      rw [getInfo_setPos, if_neg (fun hh => hne hh.1)]
      exact hs
  -- re-attachment
  have hD := ((reattach_halants_changed hR
    (attach_marks opts
      (old_spec_halant_move chosen_script (assign_positions info start end_ base has_reph)
        base end_) start end_) (base + 1) end_ base (Nat.le_refl _)).2 base).2 (by omega)
  rw [hD, hC]
  exact ⟨rfl, rfl⟩

/-! ## Overlong syllables -/

theorem sort_syllable_of_long (a : List hb_glyph_info_t) {start end_ : Nat} (base : Nat)
    (h : 64 ≤ end_ - start) : sort_syllable a start end_ base = (a, base) := by
  unfold sort_syllable
  rw [if_neg (by omega)]

theorem old_spec_halant_move_of_new (chosen_script : Nat) (a : List hb_glyph_info_t)
    (base end_ : Nat) (h : IS_OLD_INDIC_TAG chosen_script = false) :
    old_spec_halant_move chosen_script a base end_ = a := by
  unfold old_spec_halant_move
  rw [h]
  rfl

/-- With a new-spec script tag the steps before the sort move no glyph. -/
theorem before_sort_changed_of_new
    {R : hb_glyph_info_t → hb_glyph_info_t → Prop} (hR : PositionStepRel R)
    (opts : indic_options_t) (chosen_script script : Nat) (basic_mask_array : Nat → Nat)
    (a : List hb_glyph_info_t)
    {start end_ : Nat} (hse : start < end_)
    (hnew : IS_OLD_INDIC_TAG chosen_script = false) :
    ChangedWithin R start end_ a
      (initial_reordering_before_sort opts chosen_script script basic_mask_array a
        start end_).1 := by
  unfold initial_reordering_before_sort
  simp only
  rw [old_spec_halant_move_of_new _ _ _ _ hnew]
  obtain ⟨hb1, hb2⟩ := find_base_bounds script basic_mask_array a hse
  refine changedWithin_step hR.trans
    (reattach_halants_changed hR _ start end_ _ (by omega)) ?_
  refine changedWithin_step hR.trans
    (attach_marks_changed hR opts _ start start end_ (by omega)) ?_
  exact assign_positions_changed hR a _ hse hb1 hb2

theorem getInfo_eq_getElem?_getD (l : List hb_glyph_info_t) (k : Nat) :
    getInfo l k = (l[k]?).getD default := by
  unfold getInfo
  exact List.getD_eq_getElem?_getD l k default

theorem getInfo_move_forward (a : List hb_glyph_info_t) {i j : Nat} (hij : i ≤ j)
    (hj : j < a.length) (k : Nat) :
    getInfo (move_forward a i j) k =
      if k < i then getInfo a k
      else if k < j then getInfo a (k + 1)
      else if k = j then getInfo a i
      else getInfo a k := by
  unfold move_forward
  simp only [getInfo_eq_getElem?_getD]
  by_cases h1 : k < i
  · rw [if_pos h1, List.getElem?_append_left (by simp; omega), List.getElem?_take_of_lt h1]
  · rw [if_neg h1, List.getElem?_append_right (by simp; omega)]
    have hl1 : (List.take i a).length = i := by simp; omega
    rw [hl1]
    by_cases h2 : k < j
    · rw [if_pos h2, List.getElem?_append_left (by simp; omega),
        List.getElem?_take_of_lt (by omega), List.getElem?_drop]
      congr 2
      omega
    · rw [if_neg h2, List.getElem?_append_right (by simp; omega)]
      have hl2 : (List.take (j - i) (List.drop (i + 1) a)).length = j - i := by simp; omega
      rw [hl2]
      by_cases h3 : k = j
      · subst h3
        rw [if_pos rfl]
        have : k - i - (k - i) = 0 := by omega
        rw [this]
        simp [List.getElem?_eq_getElem (show i < a.length by omega)]
      · rw [if_neg h3]
        have : k - i - (j - i) = (k - j - 1) + 1 := by omega
        rw [this, List.getElem?_cons_succ, List.getElem?_drop]
        congr 2
        omega

theorem getInfo_move_backward (a : List hb_glyph_info_t) {n o : Nat} (hno : n ≤ o)
    (ho : o < a.length) (k : Nat) :
    getInfo (move_backward a n o) k =
      if k < n then getInfo a k
      else if k = n then getInfo a o
      else if k ≤ o then getInfo a (k - 1)
      else getInfo a k := by
  unfold move_backward
  simp only [getInfo_eq_getElem?_getD]
  by_cases h1 : k < n
  · rw [if_pos h1, List.getElem?_append_left (by simp; omega), List.getElem?_take_of_lt h1]
  · rw [if_neg h1, List.getElem?_append_right (by simp; omega)]
    have hl1 : (List.take n a).length = n := by simp; omega
    rw [hl1]
    by_cases h2 : k = n
    · subst h2
      rw [if_pos rfl]
      simp [List.getElem?_eq_getElem ho]
    · rw [if_neg h2]
      have : k - n = (k - n - 1) + 1 := by omega
      rw [this, List.getElem?_cons_succ]
      by_cases h3 : k ≤ o
      · rw [if_pos h3, List.getElem?_append_left (by simp; omega),
          List.getElem?_take_of_lt (by omega), List.getElem?_drop]
        congr 2
        omega
      · rw [if_neg h3, List.getElem?_append_right (by simp; omega)]
        have hl2 : (List.take (o - n) (List.drop n a)).length = o - n := by simp; omega
        rw [hl2, List.getElem?_drop]
        congr 2
        omega


/-! ## How many glyphs carry `POS_BASE_C` -/

theorem mark_final_consonant_cases (a : List hb_glyph_info_t) (base end_ : Nat) :
    mark_final_consonant a base end_ = a ∨
    ∃ j, base + 1 < j ∧ j < end_ ∧ is_consonant (getInfo a j) = true ∧
      mark_final_consonant a base end_ = setPos a j POS_FINAL_C := by
  unfold mark_final_consonant
  split
  · left; rfl
  · next i hi =>
    split
    · left; rfl
    · next j hj =>
      right
      have h1 := findFrom_some hi
      have h2 := findFrom_some hj
      exact ⟨j, by omega, h2.2.1, h2.2.2.1, rfl⟩

theorem old_spec_halant_move_cases (chosen_script : Nat) (a : List hb_glyph_info_t)
    (base end_ : Nat) :
    old_spec_halant_move chosen_script a base end_ = a ∨
    ∃ i j, base < i ∧ i < j ∧ j < end_ ∧
      old_spec_halant_move chosen_script a base end_ = move_forward a i j := by
  unfold old_spec_halant_move
  split_ifs with h
  · split
    · left; rfl
    · next i hi =>
      have h1 := findFrom_some hi
      simp only
      split_ifs with hij
      · right
        have hj := scanDown_le (fun j => is_consonant (getInfo a j)) i (end_ - 1)
        exact ⟨i, _, by omega, hij, by omega, rfl⟩
      · left; rfl
  · left; rfl

theorem position_getInfo_setPos (a : List hb_glyph_info_t) (i k : Nat) (p : indic_position_t) :
    (getInfo (setPos a i p) k).indic_position =
      if i = k ∧ i < a.length then p else (getInfo a k).indic_position := by
  rw [getInfo_setPos]
  split_ifs <;> rfl

theorem category_getInfo_setPos (a : List hb_glyph_info_t) (i k : Nat) (p : indic_position_t) :
    (getInfo (setPos a i p) k).indic_category = (getInfo a k).indic_category := by
  rw [getInfo_setPos]
  split_ifs with h
  · rw [h.1]
  · rfl

/-- After position assignment no glyph of the syllable other than the base has `POS_BASE_C`,
provided none after the base entered with it. -/
theorem assign_positions_no_other_base (a : List hb_glyph_info_t) {start end_ base : Nat}
    (has_reph : Bool) (hl : end_ ≤ a.length)
    (hafter : ∀ i, base < i → i < end_ → (getInfo a i).indic_position ≠ POS_BASE_C) :
    ∀ i, start ≤ i → i < end_ → i ≠ base →
      (getInfo (assign_positions a start end_ base has_reph) i).indic_position ≠
        POS_BASE_C := by
  intro i h1 h2 h3
  unfold assign_positions
  simp only
  obtain ⟨l0, g0⟩ := forRange_setPos_spec POS_PRE_C start base a
  have q0 : (getInfo (forRange start base (fun i info => setPos info i POS_PRE_C) a)
      i).indic_position ≠ POS_BASE_C := by
    rw [g0]
    split_ifs with hc
    · simp
    · exact hafter i (by omega) h2
  have q1 : (getInfo (if base < end_ then
      setPos (forRange start base (fun i info => setPos info i POS_PRE_C) a) base POS_BASE_C
      else forRange start base (fun i info => setPos info i POS_PRE_C) a)
      i).indic_position ≠ POS_BASE_C := by
    split_ifs
    · rw [position_getInfo_setPos, if_neg (by omega)]
      exact q0
    · exact q0
  generalize (if base < end_ then
      setPos (forRange start base (fun i info => setPos info i POS_PRE_C) a) base POS_BASE_C
      else forRange start base (fun i info => setPos info i POS_PRE_C) a) = s1 at q1 ⊢
  have q2 : (getInfo (mark_final_consonant s1 base end_) i).indic_position ≠ POS_BASE_C := by
    rcases mark_final_consonant_cases s1 base end_ with h | ⟨j, _, _, _, h⟩
    · rw [h]; exact q1
    · rw [h, position_getInfo_setPos]
      split_ifs
      · simp
      · exact q1
  cases has_reph with
  | true =>
    rw [if_pos rfl, position_getInfo_setPos]
    split_ifs
    · simp
    · exact q2
  | false =>
    rw [if_neg (by simp)]
    exact q2

theorem old_spec_halant_move_no_other_base (chosen_script : Nat) (a : List hb_glyph_info_t)
    {start end_ base : Nat} (hsb : start ≤ base) (hl : end_ ≤ a.length)
    (h : ∀ i, start ≤ i → i < end_ → i ≠ base →
      (getInfo a i).indic_position ≠ POS_BASE_C) :
    ∀ i, start ≤ i → i < end_ → i ≠ base →
      (getInfo (old_spec_halant_move chosen_script a base end_) i).indic_position ≠
        POS_BASE_C := by
  intro i h1 h2 h3
  rcases old_spec_halant_move_cases chosen_script a base end_ with e | ⟨i', j', hb, hij, hj, e⟩
  · rw [e]; exact h i h1 h2 h3
  · rw [e, getInfo_move_forward a (Nat.le_of_lt hij) (by omega)]
    split_ifs
    · exact h i h1 h2 h3
    · exact h (i + 1) (by omega) (by omega) (by omega)
    · exact h i' (by omega) (by omega) (by omega)
    · exact h i h1 h2 h3

theorem countP_le_one_of_forall_ne (p : hb_glyph_info_t → Bool) :
    ∀ (l : List hb_glyph_info_t) (k : Nat),
      (∀ i (hi : i < l.length), i ≠ k → p l[i] = false) → l.countP p ≤ 1 := by
  intro l
  induction l with
  | nil => intro k _; simp
  | cons x xs ih =>
    intro k h
    rw [List.countP_cons]
    cases k with
    | zero =>
      have hz : xs.countP p = 0 := by
        rw [List.countP_eq_zero]
        intro a ha
        obtain ⟨n, hn, e⟩ := List.mem_iff_getElem.mp ha
        have := h (n + 1) (by simp; omega) (by omega)
        simp only [List.getElem_cons_succ] at this
        rw [← e, this]
        simp
      rw [hz]
      split_ifs <;> omega
    | succ k =>
      have hx : p x = false := by
        have := h 0 (by simp) (by omega)
        simpa using this
      have := ih k (fun i hi hne => by
        have := h (i + 1) (by simp; omega) (by omega)
        simpa using this)
      rw [hx]
      simpa using this

theorem countP_eq_of_forall₂ (p : hb_glyph_info_t → Bool)
    {R : hb_glyph_info_t → hb_glyph_info_t → Prop} (hp : ∀ x y, R x y → p x = p y)
    {l₁ l₂ : List hb_glyph_info_t} (h : List.Forall₂ R l₁ l₂) :
    l₁.countP p = l₂.countP p := by
  induction h with
  | nil => rfl
  | cons hab _ ih => rw [List.countP_cons, List.countP_cons, ih, hp _ _ hab]

theorem sort_syllable_reordered_of_refl {R : hb_glyph_info_t → hb_glyph_info_t → Prop}
    (hr : ∀ g, R g g) (a : List hb_glyph_info_t) {start end_ : Nat} (base : Nat)
    (hse : start ≤ end_) (he : end_ ≤ a.length) :
    Reordered R start end_ a (sort_syllable a start end_ base).1 := by
  unfold sort_syllable
  split_ifs
  · exact sort_range_reordered hr a hse he
  · exact reordered_refl hr _ _ _

/-- The sort and the mask steps rearrange the syllable and change masks only. -/
theorem after_sort_reordered (opts : indic_options_t) (chosen_script script : Nat)
    (basic_mask_array : Nat → Nat) (info : List hb_glyph_info_t) {start end_ : Nat}
    (hse : start < end_) (he : end_ ≤ info.length) :
    Reordered KeepsAllButMask start end_
      (initial_reordering_before_sort opts chosen_script script basic_mask_array info
        start end_).1
      (initial_reordering_consonant_syllable opts chosen_script script basic_mask_array info
        start end_) := by
  have hM := keepsAllButMask_maskStepRel basic_mask_array
  have s1 := initial_reordering_before_sort_reordered
    (keepsAllButPositionAndMask_stepRel basic_mask_array).toPositionStepRel opts chosen_script
    script basic_mask_array info hse he
  have hl : (initial_reordering_before_sort opts chosen_script script basic_mask_array info
      start end_).1.length = info.length := s1.1.1
  have hb : start ≤ (initial_reordering_before_sort opts chosen_script script basic_mask_array
      info start end_).2 ∧ (initial_reordering_before_sort opts chosen_script script
      basic_mask_array info start end_).2 ≤ end_ := find_base_bounds script basic_mask_array info hse
  have s2 := sort_syllable_reordered_of_refl hM.refl
    (initial_reordering_before_sort opts chosen_script script basic_mask_array info
      start end_).1
    (initial_reordering_before_sort opts chosen_script script basic_mask_array info
      start end_).2 (Nat.le_of_lt hse) (by rw [hl]; exact he)
  obtain ⟨hb1, hb2⟩ := sort_syllable_base_bounds
    (initial_reordering_before_sort opts chosen_script script basic_mask_array info
      start end_).1 (Nat.le_of_lt hse) hb.1 hb.2
  have s3 := initial_reordering_masks_changed hM (fun _ => ⟨⟨rfl, rfl, rfl, rfl, rfl⟩, rfl⟩)
    (sort_syllable
      (initial_reordering_before_sort opts chosen_script script basic_mask_array info
        start end_).1 start end_
      (initial_reordering_before_sort opts chosen_script script basic_mask_array info
        start end_).2).1 hb1 hb2
  exact reordered_trans hM.trans s2 (changedWithin_reordered s3)

/-- Just before the sort no glyph of the syllable other than the base is an unattached glyph
with `POS_BASE_C`, provided none after the base entered with that position. -/
theorem before_sort_no_other_base (opts : indic_options_t) (chosen_script script : Nat)
    (basic_mask_array : Nat → Nat) (info : List hb_glyph_info_t) {start end_ : Nat}
    (hse : start < end_) (he : end_ ≤ info.length)
    (hafter : ∀ i, (find_base script basic_mask_array info start end_).1 < i → i < end_ →
      (getInfo info i).indic_position ≠ POS_BASE_C) :
    ∀ i, start ≤ i → i < end_ → i ≠ (find_base script basic_mask_array info start end_).1 →
      is_unattached_base (getInfo (initial_reordering_before_sort opts chosen_script script
        basic_mask_array info start end_).1 i) = false := by
  unfold initial_reordering_before_sort
  simp only
  obtain ⟨hb1, hb2⟩ := find_base_bounds script basic_mask_array info hse
  have hR := (keepsAllButPositionAndMask_stepRel basic_mask_array).toPositionStepRel
  generalize (find_base script basic_mask_array info start end_).1 = base at *
  generalize (find_base script basic_mask_array info start end_).2 = has_reph at *
  have lA := (assign_positions_changed hR info has_reph hse hb1 hb2).1
  have qA : ∀ i, start ≤ i → i < end_ → i ≠ base →
      (getInfo (assign_positions info start end_ base has_reph) i).indic_position ≠
        POS_BASE_C := assign_positions_no_other_base info has_reph he hafter
  have qB := old_spec_halant_move_no_other_base chosen_script
    (assign_positions info start end_ base has_reph) hb1 (by rw [lA]; exact he) qA
  apply reattach_halants_rule
    (fun s => ∀ i, start ≤ i → i < end_ → i ≠ base → is_unattached_base (getInfo s i) = false)
  · apply attach_marks_rule
      (fun s => ∀ i, start ≤ i → i < end_ → i ≠ base →
        is_unattached_base (getInfo s i) = false)
    · intro i h1 h2 h3
      unfold is_unattached_base
      simp [qB i h1 h2 h3]
    · intro s i' k h1 h2 h3 h4 hc hs i hi1 hi2 hi3
      have := hs i hi1 hi2 hi3
      unfold is_unattached_base at this ⊢
      rw [category_getInfo_setPos, position_getInfo_setPos]
      split_ifs with hh
      · rw [← hh.1, hc]; simp
      · exact this
  · intro s j i' h1 h2 h3 hc hs i hi1 hi2 hi3
    have hi' := hs i' (by omega) h3 (by omega)
    have hna := not_attached_of_consonant hc
    have hpos : (getInfo s i').indic_position ≠ POS_BASE_C := by
      unfold is_unattached_base at hi'
      rw [hna] at hi'
      simpa using hi'
    have := hs i hi1 hi2 hi3
    unfold is_unattached_base at this ⊢
    rw [category_getInfo_setPos, position_getInfo_setPos]
    split_ifs with hh
    · simp [hpos]
    · exact this

/-- C6, as amended: after initial reordering of any syllable in which no glyph after the
selected base enters with `POS_BASE_C`, at most one glyph in `[start, end)` outside the
attached categories (ZWNJ, ZWJ, N, RS, H, which take the position of the glyph before them)
has `indic_position` `POS_BASE_C`. -/
theorem initial_reordering_one_unattached_base (opts : indic_options_t)
    (chosen_script script : Nat) (basic_mask_array : Nat → Nat) (info : List hb_glyph_info_t)
    (start end_ : Nat) (hse : start < end_) (he : end_ ≤ info.length)
    (hafter : ∀ i, (find_base script basic_mask_array info start end_).1 < i → i < end_ →
      (getInfo info i).indic_position ≠ POS_BASE_C) :
    (syllable_glyphs (initial_reordering_consonant_syllable opts chosen_script script
      basic_mask_array info start end_) start end_).countP is_unattached_base ≤ 1 := by
  obtain ⟨_, l, hp, hf⟩ := after_sort_reordered opts chosen_script script basic_mask_array info
    hse he
  have hq := before_sort_no_other_base opts chosen_script script basic_mask_array info hse he
    hafter
  have hl : (initial_reordering_before_sort opts chosen_script script basic_mask_array info
      start end_).1.length = info.length :=
    (initial_reordering_before_sort_reordered
      (keepsAllButPositionAndMask_stepRel basic_mask_array).toPositionStepRel opts
      chosen_script script basic_mask_array info hse he).1.1
  rw [← countP_eq_of_forall₂ is_unattached_base
    (fun x y h => by unfold is_unattached_base; rw [h.2, h.1.2.2.1]) hf, hp.countP_eq]
  apply countP_le_one_of_forall_ne _ _
    ((find_base script basic_mask_array info start end_).1 - start)
  intro i hi hne
  rw [getElem_syllable_glyphs _ hi]
  have hlen : (syllable_glyphs (initial_reordering_before_sort opts chosen_script script
      basic_mask_array info start end_).1 start end_).length = end_ - start :=
    length_syllable_glyphs _ (by rw [hl]; exact he)
  exact hq (start + i) (by omega) (by omega) (by omega)

/-- Witness of the amended C6 on scenario S5, whose matra and vedic sign follow the base. -/
theorem initial_reordering_one_unattached_base_witness :
    (0 < 3 ∧ 3 ≤ example_ma_e_vd.length ∧
      ∀ i, (find_base HB_SCRIPT_DEVANAGARI example_masks example_ma_e_vd 0 3).1 < i → i < 3 →
        (getInfo example_ma_e_vd i).indic_position ≠ POS_BASE_C) ∧
    (syllable_glyphs (initial_reordering_consonant_syllable ⟨false⟩ 0 HB_SCRIPT_DEVANAGARI
      example_masks example_ma_e_vd 0 3) 0 3).countP is_unattached_base ≤ 1 :=
  have hafter : ∀ i, (find_base HB_SCRIPT_DEVANAGARI example_masks example_ma_e_vd 0 3).1 < i →
      i < 3 → (getInfo example_ma_e_vd i).indic_position ≠ POS_BASE_C := by
    intro i h1 h2
    have hb : (find_base HB_SCRIPT_DEVANAGARI example_masks example_ma_e_vd 0 3).1 = 0 := by
      decide
    have : i = 1 ∨ i = 2 := by omega
    rcases this with rfl | rfl <;> decide
  ⟨⟨by decide, by decide, hafter⟩,
    initial_reordering_one_unattached_base ⟨false⟩ 0 HB_SCRIPT_DEVANAGARI example_masks
      example_ma_e_vd 0 3 (by decide) (by decide) hafter⟩

/-- Counterexample to C6 as stated: in U+0915 U+094D the halant takes the position of the
base before it, so two glyphs of the syllable have `POS_BASE_C`. -/
theorem initial_reordering_two_base_positions :
    ¬ ((syllable_glyphs (initial_reordering_consonant_syllable ⟨false⟩ 0 HB_SCRIPT_DEVANAGARI
      example_masks example_ka_halant 0 2) 0 2).countP
        (fun g => decide (g.indic_position = POS_BASE_C)) ≤ 1) := by
  decide

/-- Why the amended C6 needs its hypothesis: in U+0930 U+094D U+0915 U+094D U+200D the
backward scan stops at the joiner, the Ra at `start` becomes the base, and the consonant after
it keeps the `POS_BASE_C` it entered with: two unattached glyphs have `POS_BASE_C`. -/
theorem initial_reordering_two_base_consonants :
    (syllable_glyphs (initial_reordering_consonant_syllable ⟨false⟩ 0 HB_SCRIPT_DEVANAGARI
      example_masks example_ra_h_ka_h_zwj 0 5) 0 5).countP is_unattached_base = 2 := by
  decide!


/-! ## The joiner pass -/

theorem testBit_hb_mask_not_of_ge (m b : Nat) (hb : 32 ≤ b) :
    (hb_mask_not m).testBit b = false := by
  unfold hb_mask_not
  have e1 : (4294967296 : Nat) = 2 ^ 32 := by norm_num
  have e2 : (4294967295 : Nat) = 2 ^ 32 - 1 := by norm_num
  rw [e1, e2, Nat.testBit_xor, Nat.testBit_mod_two_pow, Nat.testBit_two_pow_sub_one]
  have : ¬ b < 32 := by omega
  simp [this]

/-- After `mask &= ~m` no bit of `m` is left. -/
theorem and_hb_mask_not_and (x m : Nat) : (x &&& hb_mask_not m) &&& m = 0 := by
  apply Nat.eq_of_testBit_eq
  intro b
  rw [Nat.testBit_and, Nat.testBit_and, Nat.zero_testBit]
  by_cases hb : b < 32
  · rw [testBit_hb_mask_not _ _ hb]
    cases m.testBit b <;> simp
  · rw [testBit_hb_mask_not_of_ge _ _ (by omega)]
    simp

theorem and_eq_zero_of_subset {x y m : Nat}
    (hs : ∀ b, y.testBit b = true → x.testBit b = true) (hx : x &&& m = 0) : y &&& m = 0 := by
  apply Nat.eq_of_testBit_eq
  intro b
  rw [Nat.testBit_and, Nat.zero_testBit]
  have hb : (x &&& m).testBit b = false := by rw [hx, Nat.zero_testBit]
  rw [Nat.testBit_and] at hb
  cases hy : y.testBit b
  · rfl
  · rw [hs b hy] at hb
    simpa using hb

/-- The glyph `h` is the glyph `g` with some mask bits cleared. -/
theorem shrinks_clearMask (a : List hb_glyph_info_t) (i m k : Nat) :
    KeepsAllButMask (getInfo a k) (getInfo (clearMask a i m) k) ∧
    ∀ b, (getInfo (clearMask a i m) k).mask.testBit b = true →
      (getInfo a k).mask.testBit b = true := by
  rw [getInfo_clearMask]
  split_ifs with h
  · rw [h.1]
    refine ⟨⟨⟨rfl, rfl, rfl, rfl, rfl⟩, rfl⟩, fun b hb => ?_⟩
    simp only [Nat.testBit_and, Bool.and_eq_true] at hb
    exact hb.1
  · exact ⟨⟨⟨rfl, rfl, rfl, rfl, rfl⟩, rfl⟩, fun _ h => h⟩

theorem cleared_clearMask (a : List hb_glyph_info_t) (i m : Nat) :
    (getInfo (clearMask a i m) i).mask &&& m = 0 := by
  rw [getInfo_clearMask]
  split_ifs with h
  · exact and_hb_mask_not_and _ _
  · have hd : getInfo a i = default := getInfo_of_le (by omega)
    rw [hd]
    exact Nat.zero_and m

theorem is_consonant_of_keeps {g h : hb_glyph_info_t} (hk : KeepsAllButMask g h) :
    is_consonant h = is_consonant g := by
  unfold is_consonant
  rw [hk.1.2.2.1]

/-- What one walk back from a joiner does: the glyphs keep all but mask bits, no mask bit is
set, and from the start index of the walk down to the first consonant (or `start`) the `cjct`
bits are cleared, and the `half` bits too for a non-joiner. -/
theorem joiner_walk_back_spec (basic_mask_array : Nat → Nat) (non_joiner : Bool) (start : Nat) :
    ∀ (j₀ : Nat) (a : List hb_glyph_info_t), start ≤ j₀ →
      (∀ k, KeepsAllButMask (getInfo a k)
          (getInfo (joiner_walk_back basic_mask_array non_joiner start j₀ a) k) ∧
        ∀ b, (getInfo (joiner_walk_back basic_mask_array non_joiner start j₀ a)
            k).mask.testBit b = true → (getInfo a k).mask.testBit b = true) ∧
      ∀ j, start ≤ j → j ≤ j₀ →
        (∀ k, j < k → k ≤ j₀ → is_consonant (getInfo a k) = false) →
        (getInfo (joiner_walk_back basic_mask_array non_joiner start j₀ a) j).mask &&&
            basic_mask_array CJCT = 0 ∧
        (non_joiner = true →
          (getInfo (joiner_walk_back basic_mask_array non_joiner start j₀ a) j).mask &&&
            basic_mask_array HALF = 0) := by
  intro j₀
  induction j₀ with
  | zero =>
    intro a hs
    unfold joiner_walk_back
    simp only
    cases non_joiner with
    | true =>
      simp only [if_true]
      refine ⟨fun k => ?_, fun j hj1 hj2 _ => ?_⟩
      · have h1 := shrinks_clearMask a 0 (basic_mask_array CJCT) k
        have h2 := shrinks_clearMask (clearMask a 0 (basic_mask_array CJCT)) 0
          (basic_mask_array HALF) k
        exact ⟨(keepsAllButMask_maskStepRel basic_mask_array).trans _ _ _ h1.1 h2.1,
          fun b hb => h1.2 b (h2.2 b hb)⟩
      · have hj : j = 0 := by omega
        subst hj
        refine ⟨?_, fun _ => cleared_clearMask _ _ _⟩
        exact and_eq_zero_of_subset
          (shrinks_clearMask (clearMask a 0 (basic_mask_array CJCT)) 0
            (basic_mask_array HALF) 0).2 (cleared_clearMask _ _ _)
    | false =>
      simp only [Bool.false_eq_true, if_false]
      refine ⟨fun k => shrinks_clearMask a 0 (basic_mask_array CJCT) k,
        fun j hj1 hj2 _ => ?_⟩
      have hj : j = 0 := by omega
      subst hj
      exact ⟨cleared_clearMask _ _ _, fun h => h.elim⟩
  | succ j₀ ih =>
    intro a hs
    unfold joiner_walk_back
    simp only
    -- the state after the writes at `j₀ + 1`
    have hstep : ∃ a', a' = (if non_joiner = true then
          clearMask (clearMask a (j₀ + 1) (basic_mask_array CJCT)) (j₀ + 1)
            (basic_mask_array HALF)
        else clearMask a (j₀ + 1) (basic_mask_array CJCT)) ∧
        (∀ k, KeepsAllButMask (getInfo a k) (getInfo a' k) ∧
          ∀ b, (getInfo a' k).mask.testBit b = true → (getInfo a k).mask.testBit b = true) ∧
        (getInfo a' (j₀ + 1)).mask &&& basic_mask_array CJCT = 0 ∧
        (non_joiner = true → (getInfo a' (j₀ + 1)).mask &&& basic_mask_array HALF = 0) := by
      refine ⟨_, rfl, ?_⟩
      cases non_joiner with
      | true =>
        simp only [if_true]
        refine ⟨fun k => ?_, ?_, fun _ => cleared_clearMask _ _ _⟩
        · have h1 := shrinks_clearMask a (j₀ + 1) (basic_mask_array CJCT) k
          have h2 := shrinks_clearMask (clearMask a (j₀ + 1) (basic_mask_array CJCT)) (j₀ + 1)
            (basic_mask_array HALF) k
          exact ⟨(keepsAllButMask_maskStepRel basic_mask_array).trans _ _ _ h1.1 h2.1,
            fun b hb => h1.2 b (h2.2 b hb)⟩
        · exact and_eq_zero_of_subset
            (shrinks_clearMask (clearMask a (j₀ + 1) (basic_mask_array CJCT)) (j₀ + 1)
              (basic_mask_array HALF) (j₀ + 1)).2 (cleared_clearMask _ _ _)
      | false =>
        simp only [Bool.false_eq_true, if_false]
        exact ⟨fun k => shrinks_clearMask a (j₀ + 1) (basic_mask_array CJCT) k,
          cleared_clearMask _ _ _, fun h => h.elim⟩
    obtain ⟨a', ha', hk, hc1, hc2⟩ := hstep
    rw [← ha']
    by_cases hcond : start < j₀ + 1 ∧ is_consonant (getInfo a' (j₀ + 1)) = false
    · rw [if_pos hcond]
      obtain ⟨ih1, ih2⟩ := ih a' (by omega)
      refine ⟨fun k => ⟨(keepsAllButMask_maskStepRel basic_mask_array).trans _ _ _
        (hk k).1 (ih1 k).1, fun b hb => (hk k).2 b ((ih1 k).2 b hb)⟩, fun j hj1 hj2 hnc => ?_⟩
      by_cases hj : j = j₀ + 1
      · subst hj
        exact ⟨and_eq_zero_of_subset (ih1 _).2 hc1,
          fun h => and_eq_zero_of_subset (ih1 _).2 (hc2 h)⟩
      · exact ih2 j hj1 (by omega) (fun k h1 h2 => by
          rw [is_consonant_of_keeps (hk k).1]
          exact hnc k h1 (by omega))
    · rw [if_neg hcond]
      refine ⟨hk, fun j hj1 hj2 hnc => ?_⟩
      by_cases hj : j = j₀ + 1
      · subst hj
        exact ⟨hc1, hc2⟩
      · exfalso
        apply hcond
        refine ⟨by omega, ?_⟩
        rw [is_consonant_of_keeps (hk _).1]
        exact hnc (j₀ + 1) (by omega) (Nat.le_refl _)

theorem is_joiner_of_keeps {g h : hb_glyph_info_t} (hk : KeepsAllButMask g h) :
    is_joiner h = is_joiner g := by
  unfold is_joiner
  rw [hk.1.2.2.1]

theorem or_and_of_disjoint {r m : Nat} (x : Nat) (h : r &&& m = 0) :
    (x ||| m) &&& r = x &&& r := by
  apply Nat.eq_of_testBit_eq
  intro b
  have hb : (r &&& m).testBit b = false := by rw [h, Nat.zero_testBit]
  rw [Nat.testBit_and] at hb
  simp only [Nat.testBit_and, Nat.testBit_or]
  cases hr : r.testBit b
  · simp
  · rw [hr] at hb
    simp only [Bool.true_and] at hb
    simp [hb]

theorem testBit_of_lt_two_pow_32 {r b : Nat} (hw : r < 4294967296) (hb : r.testBit b = true) :
    b < 32 := by
  by_contra hge
  have h1 : (2 : Nat) ^ 32 ≤ 2 ^ b := Nat.pow_le_pow_right (by norm_num) (by omega)
  have h2 : r < 2 ^ b := by
    have : (4294967296 : Nat) = 2 ^ 32 := by norm_num
    omega
  rw [Nat.testBit_lt_two_pow h2] at hb
  exact Bool.noConfusion hb

theorem clear_and_of_disjoint {r m : Nat} (x : Nat) (hw : r < 4294967296) (h : r &&& m = 0) :
    (x &&& hb_mask_not m) &&& r = x &&& r := by
  apply Nat.eq_of_testBit_eq
  intro b
  have hb : (r &&& m).testBit b = false := by rw [h, Nat.zero_testBit]
  rw [Nat.testBit_and] at hb
  simp only [Nat.testBit_and]
  cases hr : r.testBit b
  · simp
  · rw [hr] at hb
    simp only [Bool.true_and] at hb
    rw [testBit_hb_mask_not _ _ (testBit_of_lt_two_pow_32 hw hr), hb]
    simp

theorem or_self_and (x r : Nat) : (x ||| r) &&& r = r := by
  apply Nat.eq_of_testBit_eq
  intro b
  simp only [Nat.testBit_and, Nat.testBit_or]
  cases r.testBit b <;> simp

theorem and_or_eq_zero {r a b : Nat} (ha : r &&& a = 0) (hb : r &&& b = 0) :
    r &&& (a ||| b) = 0 := by
  apply Nat.eq_of_testBit_eq
  intro i
  have h1 : (r &&& a).testBit i = false := by rw [ha, Nat.zero_testBit]
  have h2 : (r &&& b).testBit i = false := by rw [hb, Nat.zero_testBit]
  rw [Nat.testBit_and] at h1 h2
  simp only [Nat.testBit_and, Nat.testBit_or, Nat.zero_testBit]
  cases hr : r.testBit i
  · simp
  · rw [hr] at h1 h2
    simp only [Bool.true_and] at h1 h2
    simp [h1, h2]

/-- With the `rphf` bit distinct from the bits of the other masks, the mask steps after the
reph mask leave the `rphf` bits of every glyph as they are. -/
theorem keepsMaskBitsOf_rphf_maskStepRel (basic_mask_array : Nat → Nat)
    (hw : basic_mask_array RPHF < 4294967296)
    (hd : ∀ f ∈ [AKHN, PREF, BLWF, HALF, ABVF, PSTF, CFAR, CJCT],
      basic_mask_array RPHF &&& basic_mask_array f = 0) :
    MaskStepRel basic_mask_array (KeepsMaskBitsOf (basic_mask_array RPHF)) where
  refl := fun _ => ⟨⟨⟨rfl, rfl, rfl, rfl, rfl⟩, rfl⟩, rfl⟩
  trans := fun x y z h1 h2 =>
    ⟨(keepsAllButMask_maskStepRel basic_mask_array).trans x y z h1.1 h2.1, h2.2.trans h1.2⟩
  or_pre_base := fun g => ⟨⟨⟨rfl, rfl, rfl, rfl, rfl⟩, rfl⟩,
    or_and_of_disjoint _ (and_or_eq_zero (and_or_eq_zero (hd HALF (by simp)) (hd AKHN (by simp)))
      (hd CJCT (by simp)))⟩
  or_base := fun g => ⟨⟨⟨rfl, rfl, rfl, rfl, rfl⟩, rfl⟩,
    or_and_of_disjoint _ (and_or_eq_zero (hd AKHN (by simp)) (hd CJCT (by simp)))⟩
  or_post_base := fun g => ⟨⟨⟨rfl, rfl, rfl, rfl, rfl⟩, rfl⟩,
    or_and_of_disjoint _ (and_or_eq_zero (and_or_eq_zero (and_or_eq_zero (hd BLWF (by simp))
      (hd ABVF (by simp))) (hd PSTF (by simp))) (hd CJCT (by simp)))⟩
  or_pref := fun g => ⟨⟨⟨rfl, rfl, rfl, rfl, rfl⟩, rfl⟩, or_and_of_disjoint _ (hd PREF (by simp))⟩
  or_cfar := fun g => ⟨⟨⟨rfl, rfl, rfl, rfl, rfl⟩, rfl⟩, or_and_of_disjoint _ (hd CFAR (by simp))⟩
  clear_cjct := fun g => ⟨⟨⟨rfl, rfl, rfl, rfl, rfl⟩, rfl⟩,
    clear_and_of_disjoint _ hw (hd CJCT (by simp))⟩
  clear_half := fun g => ⟨⟨⟨rfl, rfl, rfl, rfl, rfl⟩, rfl⟩,
    clear_and_of_disjoint _ hw (hd HALF (by simp))⟩

/-- The reph mask loop ORs `m` into exactly the leading run of glyphs with
`POS_RA_TO_BECOME_REPH`. -/
theorem reph_mask_loop_spec (m end_ : Nat) :
    ∀ (n i : Nat) (a : List hb_glyph_info_t),
      (reph_mask_loop m end_ n i a).length = a.length ∧
      ∀ k, getInfo (reph_mask_loop m end_ n i a) k =
        if i ≤ k ∧ k < i + n ∧ k < a.length ∧
            ∀ j, i ≤ j → j ≤ k →
              j < end_ ∧ (getInfo a j).indic_position = POS_RA_TO_BECOME_REPH then
          { getInfo a k with mask := (getInfo a k).mask ||| m }
        else getInfo a k := by
  intro n
  induction n with
  | zero =>
    intro i a
    unfold reph_mask_loop
    exact ⟨rfl, fun k => by rw [if_neg (by omega)]⟩
  | succ n ih =>
    intro i a
    unfold reph_mask_loop
    by_cases hc : i < end_ ∧ (getInfo a i).indic_position = POS_RA_TO_BECOME_REPH
    · rw [if_pos hc]
      obtain ⟨l1, g1⟩ := ih (i + 1) (orMask a i m)
      refine ⟨by rw [l1, length_orMask], fun k => ?_⟩
      rw [g1, length_orMask]
      have hpos : ∀ j, (getInfo (orMask a i m) j).indic_position =
          (getInfo a j).indic_position := by
        intro j
        rw [getInfo_orMask]
        split_ifs with h
        · rw [h.1]
        · rfl
      by_cases hk : k ≤ i
      · rw [if_neg (by omega), getInfo_orMask]
        by_cases hki : k = i
        · subst hki
          by_cases hl : k < a.length
          · rw [if_pos ⟨rfl, hl⟩, if_pos ⟨Nat.le_refl _, by omega, hl, fun j h1 h2 => by
              have : j = k := by omega
              subst this
              exact hc⟩]
          · rw [if_neg (by omega), if_neg (by omega)]
        · rw [if_neg (by omega), if_neg (by omega)]
      · have hne : ¬ (i = k ∧ i < a.length) := by omega
        rw [getInfo_orMask, if_neg hne]
        by_cases hrun : i + 1 ≤ k ∧ k < i + 1 + n ∧ k < a.length ∧
            ∀ j, i + 1 ≤ j → j ≤ k →
              j < end_ ∧ (getInfo (orMask a i m) j).indic_position = POS_RA_TO_BECOME_REPH
        · rw [if_pos hrun, if_pos ⟨by omega, by omega, hrun.2.2.1, fun j h1 h2 => by
            by_cases hji : j = i
            · subst hji; exact hc
            · have := hrun.2.2.2 j (by omega) h2
              rw [hpos] at this
              exact this⟩]
        · rw [if_neg hrun, if_neg]
          intro h
          apply hrun
          refine ⟨by omega, by omega, h.2.2.1, fun j h1 h2 => ?_⟩
          rw [hpos]
          exact h.2.2.2 j (by omega) h2
    · rw [if_neg hc]
      refine ⟨rfl, fun k => ?_⟩
      rw [if_neg]
      intro h
      exact hc (h.2.2.2 i (Nat.le_refl _) h.1)

/-! ## Positions before and after the sort -/

theorem mem_syllable_glyphs {a : List hb_glyph_info_t} {start end_ : Nat} {g : hb_glyph_info_t}
    (h : g ∈ syllable_glyphs a start end_) :
    ∃ i, start ≤ i ∧ i < end_ ∧ i < a.length ∧ getInfo a i = g := by
  obtain ⟨k, hk, e⟩ := List.mem_iff_getElem.mp h
  have hk' := hk
  unfold syllable_glyphs at hk'
  simp only [List.length_take, List.length_drop] at hk'
  rw [getElem_syllable_glyphs a hk] at e
  exact ⟨start + k, by omega, by omega, by omega, e⟩

theorem getInfo_mem_syllable_glyphs (a : List hb_glyph_info_t) {start end_ i : Nat}
    (h1 : start ≤ i) (h2 : i < end_) (h3 : i < a.length) :
    getInfo a i ∈ syllable_glyphs a start end_ := by
  have hk : i - start < (syllable_glyphs a start end_).length := by
    unfold syllable_glyphs
    simp only [List.length_take, List.length_drop]
    omega
  have e := getElem_syllable_glyphs a hk
  have e2 : start + (i - start) = i := by omega
  rw [e2] at e
  rw [← e]
  exact List.getElem_mem _

theorem forall₂_mem_right {R : hb_glyph_info_t → hb_glyph_info_t → Prop}
    {l₁ l₂ : List hb_glyph_info_t} (h : List.Forall₂ R l₁ l₂) :
    ∀ y ∈ l₂, ∃ x ∈ l₁, R x y := by
  induction h with
  | nil => intro y hy; cases hy
  | cons hab _ ih =>
    intro y hy
    rcases List.mem_cons.mp hy with e | hy'
    · subst e
      exact ⟨_, List.mem_cons_self _ _, hab⟩
    · obtain ⟨x, hx, hr⟩ := ih y hy'
      exact ⟨x, List.mem_cons_of_mem _ hx, hr⟩

/-- Every glyph of the syllable after a reordering is a later state of a glyph of the syllable
before it. -/
theorem reordered_mem {R : hb_glyph_info_t → hb_glyph_info_t → Prop} {start end_ : Nat}
    {a b : List hb_glyph_info_t} (h : Reordered R start end_ a b) :
    ∀ y ∈ syllable_glyphs b start end_, ∃ x ∈ syllable_glyphs a start end_, R x y := by
  obtain ⟨_, l, hp, hf⟩ := h
  intro y hy
  obtain ⟨x, hx, hr⟩ := forall₂_mem_right hf y hy
  exact ⟨x, hp.subset hx, hr⟩

theorem keepsAllButPosition_positionRel : PositionStepRel KeepsAllButPosition where
  refl := fun _ => ⟨⟨rfl, rfl, rfl, rfl, rfl⟩, rfl⟩
  trans := fun x y z h1 h2 =>
    ⟨(keepsAllButPositionAndMask_stepRel (fun _ => 0)).trans x y z h1.1 h2.1, h2.2.trans h1.2⟩
  set_position := fun _ _ => ⟨⟨rfl, rfl, rfl, rfl, rfl⟩, rfl⟩

theorem assign_positions_true (a : List hb_glyph_info_t) (start end_ base : Nat) :
    assign_positions a start end_ base true =
      setPos (assign_positions a start end_ base false) start POS_RA_TO_BECOME_REPH := by
  unfold assign_positions
  simp

/-- After position assignment every glyph of the syllable other than the base has a position
within `Q`, when `Q` holds of the positions the step assigns and of those that glyphs after
the base enter with. -/
theorem assign_positions_positions (Q : indic_position_t → Prop) (a : List hb_glyph_info_t)
    {start end_ base : Nat} (has_reph : Bool) (hl : end_ ≤ a.length)
    (hpre : Q POS_PRE_C) (hfinal : Q POS_FINAL_C)
    (hreph : has_reph = true → Q POS_RA_TO_BECOME_REPH)
    (hin : ∀ i, base < i → i < end_ → Q (getInfo a i).indic_position) :
    ∀ i, start ≤ i → i < end_ → i ≠ base →
      Q (getInfo (assign_positions a start end_ base has_reph) i).indic_position := by
  intro i h1 h2 h3
  unfold assign_positions
  simp only
  obtain ⟨l0, g0⟩ := forRange_setPos_spec POS_PRE_C start base a
  have q0 : Q (getInfo (forRange start base (fun i info => setPos info i POS_PRE_C) a)
      i).indic_position := by
    rw [g0]
    split_ifs with hc
    · exact hpre
    · exact hin i (by omega) h2
  have q1 : Q (getInfo (if base < end_ then
      setPos (forRange start base (fun i info => setPos info i POS_PRE_C) a) base POS_BASE_C
      else forRange start base (fun i info => setPos info i POS_PRE_C) a)
      i).indic_position := by
    split_ifs
    · rw [position_getInfo_setPos, if_neg (by omega)]
      exact q0
    · exact q0
  generalize (if base < end_ then
      setPos (forRange start base (fun i info => setPos info i POS_PRE_C) a) base POS_BASE_C
      else forRange start base (fun i info => setPos info i POS_PRE_C) a) = s1 at q1 ⊢
  have q2 : Q (getInfo (mark_final_consonant s1 base end_) i).indic_position := by
    rcases mark_final_consonant_cases s1 base end_ with h | ⟨j, _, _, _, h⟩
    · rw [h]; exact q1
    · rw [h, position_getInfo_setPos]
      split_ifs
      · exact hfinal
      · exact q1
  cases has_reph with
  | true =>
    rw [if_pos rfl, position_getInfo_setPos]
    split_ifs
    · exact hreph rfl
    · exact q2
  | false =>
    rw [if_neg (by simp)]
    exact q2

/-- Without reph, and with no glyph entering with `POS_RA_TO_BECOME_REPH`, no glyph of the
syllable has that position just before the sort. -/
theorem before_sort_no_reph (opts : indic_options_t) (chosen_script script : Nat)
    (basic_mask_array : Nat → Nat) (info : List hb_glyph_info_t) {start end_ : Nat}
    (hse : start < end_) (he : end_ ≤ info.length)
    (hno : (find_base script basic_mask_array info start end_).2 = false)
    (hpos : ∀ i, start ≤ i → i < end_ →
      (getInfo info i).indic_position ≠ POS_RA_TO_BECOME_REPH) :
    ∀ i, start ≤ i → i < end_ →
      (getInfo (initial_reordering_before_sort opts chosen_script script basic_mask_array
        info start end_).1 i).indic_position ≠ POS_RA_TO_BECOME_REPH := by
  unfold initial_reordering_before_sort
  simp only
  obtain ⟨hb1, hb2⟩ := find_base_bounds script basic_mask_array info hse
  have hR := (keepsAllButPositionAndMask_stepRel basic_mask_array).toPositionStepRel
  rw [hno]
  generalize (find_base script basic_mask_array info start end_).1 = base at *
  have lA := (assign_positions_changed hR info false hse hb1 hb2).1
  have qA : ∀ i, start ≤ i → i < end_ →
      (getInfo (assign_positions info start end_ base false) i).indic_position ≠
        POS_RA_TO_BECOME_REPH := by
    intro i h1 h2
    by_cases hib : i = base
    · subst hib
      rw [getInfo_assign_positions_base info false h2 he (fun h => Bool.noConfusion h)]
      simp
    · exact assign_positions_positions (fun p => p ≠ POS_RA_TO_BECOME_REPH) info false he
        (by simp) (by simp) (fun h => Bool.noConfusion h)
        (fun k hk1 hk2 => hpos k (by omega) hk2) i h1 h2 hib
  have qB : ∀ i, start ≤ i → i < end_ →
      (getInfo (old_spec_halant_move chosen_script
        (assign_positions info start end_ base false) base end_) i).indic_position ≠
        POS_RA_TO_BECOME_REPH := by
    intro i h1 h2
    rcases old_spec_halant_move_cases chosen_script
      (assign_positions info start end_ base false) base end_ with e | ⟨i', j', hb, hij, hj, e⟩
    · rw [e]; exact qA i h1 h2
    · rw [e, getInfo_move_forward _ (Nat.le_of_lt hij) (by omega)]
      split_ifs
      · exact qA i h1 h2
      · exact qA (i + 1) (by omega) (by omega)
      · exact qA i' (by omega) (by omega)
      · exact qA i h1 h2
  apply reattach_halants_rule
    (fun s => ∀ i, start ≤ i → i < end_ →
      (getInfo s i).indic_position ≠ POS_RA_TO_BECOME_REPH)
  · apply attach_marks_rule
      (fun s => ∀ i, start ≤ i → i < end_ →
        (getInfo s i).indic_position ≠ POS_RA_TO_BECOME_REPH)
    · exact qB
    · intro s i' k h1 h2 h3 h4 _ hs i hi1 hi2
      rw [position_getInfo_setPos]
      split_ifs
      · exact hs k h3 (by omega)
      · exact hs i hi1 hi2
  · intro s j i' h1 h2 h3 _ hs i hi1 hi2
    rw [position_getInfo_setPos]
    split_ifs
    · exact hs i' (by omega) h3
    · exact hs i hi1 hi2

/-- With reph the glyph at `start` has `POS_RA_TO_BECOME_REPH` just before the sort. -/
theorem before_sort_reph_at_start (opts : indic_options_t) (chosen_script script : Nat)
    (basic_mask_array : Nat → Nat) (info : List hb_glyph_info_t) {start end_ : Nat}
    (hse : start < end_) (he : end_ ≤ info.length)
    (hyes : (find_base script basic_mask_array info start end_).2 = true) :
    (getInfo (initial_reordering_before_sort opts chosen_script script basic_mask_array
      info start end_).1 start).indic_position = POS_RA_TO_BECOME_REPH := by
  unfold initial_reordering_before_sort
  simp only
  obtain ⟨hb1, hb2⟩ := find_base_bounds script basic_mask_array info hse
  have hR := (keepsAllButPositionAndMask_stepRel basic_mask_array).toPositionStepRel
  rw [hyes]
  generalize (find_base script basic_mask_array info start end_).1 = base at *
  have lF := (assign_positions_changed hR info false hse hb1 hb2).1
  have lA := (assign_positions_changed hR info true hse hb1 hb2).1
  have hA : (getInfo (assign_positions info start end_ base true) start).indic_position =
      POS_RA_TO_BECOME_REPH := by
    rw [assign_positions_true, position_getInfo_setPos, if_pos ⟨rfl, by omega⟩]
  have hB := sameOutside_getInfo_eq
    (old_spec_halant_move_reordered hR chosen_script
      (assign_positions info start end_ base true) (base + 1) end_ base (Nat.le_refl _)
      (by rw [lA]; exact he)).1 (Or.inl (show start < base + 1 by omega))
  have hC := ((attach_marks_changed hR opts
    (old_spec_halant_move chosen_script (assign_positions info start end_ base true)
      base end_) (start + 1) start end_ (Nat.le_refl _)).2 start).2 (by omega)
  have hD := ((reattach_halants_changed hR
    (attach_marks opts
      (old_spec_halant_move chosen_script (assign_positions info start end_ base true)
        base end_) start end_) (base + 1) end_ base (Nat.le_refl _)).2 start).2 (by omega)
  rw [hD, hC, hB, hA]

theorem position_eq_reph_of_toNat {p : indic_position_t} (h : p.toNat = 0) :
    p = POS_RA_TO_BECOME_REPH := by
  cases p <;> simp [indic_position_t.toNat] at h ⊢

/-- The sort keeps a glyph with `POS_RA_TO_BECOME_REPH` at `start`, and brings in none. -/
theorem sort_syllable_reph (a : List hb_glyph_info_t) {start end_ : Nat} (base : Nat)
    (hse : start < end_) (he : end_ ≤ a.length) :
    ((getInfo a start).indic_position = POS_RA_TO_BECOME_REPH →
      (getInfo (sort_syllable a start end_ base).1 start).indic_position =
        POS_RA_TO_BECOME_REPH) ∧
    ((∀ i, start ≤ i → i < end_ → (getInfo a i).indic_position ≠ POS_RA_TO_BECOME_REPH) →
      ∀ i, start ≤ i → i < end_ →
        (getInfo (sort_syllable a start end_ base).1 i).indic_position ≠
          POS_RA_TO_BECOME_REPH) := by
  have hre := sort_syllable_reordered_of_refl (R := Eq) (fun _ => rfl) a base
    (Nat.le_of_lt hse) he
  have hlen : (sort_syllable a start end_ base).1.length = a.length := hre.1.1
  constructor
  · intro h0
    unfold sort_syllable at hlen ⊢
    split_ifs with hlt
    · rw [if_pos hlt] at hlen
      simp only at hlen ⊢
      obtain ⟨_, hparts⟩ := sort_range_parts a (Nat.le_of_lt hse) he
      have hk : 0 < (syllable_glyphs (sort_range a start end_) start end_).length := by
        rw [length_syllable_glyphs _ (by rw [hlen]; exact he)]
        omega
      have e := getElem_syllable_glyphs (sort_range a start end_) hk
      rw [Nat.add_zero] at e
      rw [← e]
      have hmem : getInfo a start ∈ hb_bubble_sort (syllable_glyphs a start end_) :=
        (hb_bubble_sort_perm _).symm.subset
          (getInfo_mem_syllable_glyphs a (Nat.le_refl _) hse (by omega))
      have hsorted := hb_bubble_sort_sorted (syllable_glyphs a start end_)
      generalize hb_bubble_sort (syllable_glyphs a start end_) = l at hparts hmem hsorted
      generalize syllable_glyphs (sort_range a start end_) start end_ = l' at hparts hk ⊢
      subst hparts
      cases l' with
      | nil => simp at hk
      | cons y ys =>
        simp only [List.getElem_cons_zero]
        rcases List.mem_cons.mp hmem with e1 | e1
        · rw [← e1]; exact h0
        · have := (List.pairwise_cons.mp hsorted).1 _ e1
          rw [h0] at this
          exact position_eq_reph_of_toNat (by
            have h00 : POS_RA_TO_BECOME_REPH.toNat = 0 := rfl
            omega)
    · exact h0
  · intro hall i h1 h2
    obtain ⟨x, hx, e⟩ := reordered_mem hre _
      (getInfo_mem_syllable_glyphs (sort_syllable a start end_ base).1 h1 h2
        (by rw [hlen]; omega))
    obtain ⟨k, hk1, hk2, _, hk4⟩ := mem_syllable_glyphs hx
    rw [← e, ← hk4]
    exact hall k hk1 hk2

/-! ## Which glyphs carry the reph mask -/

theorem changedWithin_pointwise {R : hb_glyph_info_t → hb_glyph_info_t → Prop}
    (hr : ∀ g, R g g) {start end_ : Nat} {a b : List hb_glyph_info_t}
    (h : ChangedWithin R start end_ a b) : ∀ k, R (getInfo a k) (getInfo b k) := by
  intro k
  by_cases hc : start ≤ k ∧ k < end_
  · exact (h.2 k).1 hc.1 hc.2
  · rw [(h.2 k).2 hc]
    exact hr _

/-- After the mask steps a glyph of the syllable carries the `rphf` bit exactly when the mask is
non-zero and the glyph lies in the leading run of glyphs with `POS_RA_TO_BECOME_REPH`, provided
no glyph carried the bit before and the bit is distinct from those of the other masks. -/
theorem initial_reordering_masks_rphf (basic_mask_array : Nat → Nat)
    (hw : basic_mask_array RPHF < 4294967296)
    (hd : ∀ f ∈ [AKHN, PREF, BLWF, HALF, ABVF, PSTF, CFAR, CJCT],
      basic_mask_array RPHF &&& basic_mask_array f = 0)
    (a : List hb_glyph_info_t) {start end_ base : Nat} (hb1 : start ≤ base)
    (hb2 : base ≤ end_) (he : end_ ≤ a.length)
    (hmask : ∀ i, start ≤ i → i < end_ → (getInfo a i).mask &&& basic_mask_array RPHF = 0) :
    (∀ k, (getInfo (initial_reordering_masks basic_mask_array a start end_ base)
      k).indic_position = (getInfo a k).indic_position) ∧
    ∀ i, start ≤ i → i < end_ →
      ((getInfo (initial_reordering_masks basic_mask_array a start end_ base) i).mask &&&
          basic_mask_array RPHF ≠ 0 ↔
        basic_mask_array RPHF ≠ 0 ∧
          ∀ j, start ≤ j → j ≤ i →
            (getInfo a j).indic_position = POS_RA_TO_BECOME_REPH) := by
  have hK := keepsAllButMask_maskStepRel basic_mask_array
  have hall := changedWithin_pointwise hK.refl
    (initial_reordering_masks_changed hK (fun _ => ⟨⟨rfl, rfl, rfl, rfl, rfl⟩, rfl⟩) a hb1 hb2)
  refine ⟨fun k => (hall k).2, fun i h1 h2 => ?_⟩
  have hM := keepsMaskBitsOf_rphf_maskStepRel basic_mask_array hw hd
  unfold initial_reordering_masks setup_syllable_masks
  simp only
  obtain ⟨lL, gL⟩ := reph_mask_loop_spec (basic_mask_array RPHF) end_ (end_ - start) start a
  have hz : ChangedWithin (KeepsMaskBitsOf (basic_mask_array RPHF)) start end_
      (reph_mask_loop (basic_mask_array RPHF) end_ (end_ - start) start a)
      (setup_zone_masks basic_mask_array
        (reph_mask_loop (basic_mask_array RPHF) end_ (end_ - start) start a) start end_ base) :=
    setup_zone_masks_changed hM _ hb1 hb2
  have hp : ChangedWithin (KeepsMaskBitsOf (basic_mask_array RPHF)) start end_ _ _ :=
    mark_pref_cfar_changed hM (setup_zone_masks basic_mask_array
        (reph_mask_loop (basic_mask_array RPHF) end_ (end_ - start) start a) start end_ base)
      hb1
  have hj := apply_joiner_effects_changed hM
    (mark_pref_cfar basic_mask_array (setup_zone_masks basic_mask_array
        (reph_mask_loop (basic_mask_array RPHF) end_ (end_ - start) start a) start end_ base)
      end_ base) start end_
  have hchain := changedWithin_trans hM.trans (changedWithin_trans hM.trans hz hp) hj
  rw [((hchain.2 i).1 h1 h2).2, gL i]
  by_cases hrun : start ≤ i ∧ i < start + (end_ - start) ∧ i < a.length ∧
      ∀ j, start ≤ j → j ≤ i →
        j < end_ ∧ (getInfo a j).indic_position = POS_RA_TO_BECOME_REPH
  · rw [if_pos hrun]
    simp only
    rw [or_self_and]
    exact ⟨fun h => ⟨h, fun j hj1 hj2 => (hrun.2.2.2 j hj1 hj2).2⟩, fun h => h.1⟩
  · rw [if_neg hrun, hmask i h1 h2]
    refine ⟨fun h => absurd rfl h, fun h => ?_⟩
    exfalso
    apply hrun
    exact ⟨h1, by omega, by omega, fun j hj1 hj2 => ⟨by omega, h.2 j hj1 hj2⟩⟩

theorem find_base_has_reph_iff (script : Nat) (basic_mask_array : Nat → Nat)
    (info : List hb_glyph_info_t) (start end_ : Nat) :
    (find_base script basic_mask_array info start end_).2 = true ↔
      reph_precondition basic_mask_array info start end_ = true ∧
      (find_base script basic_mask_array info start end_).1 ≠ start := by
  constructor
  · exact find_base_has_reph
  · intro ⟨h1, h2⟩
    unfold find_base at h2 ⊢
    simp only at h2 ⊢
    rw [h1] at h2 ⊢
    simpa using h2

theorem reph_precondition_mask_ne_zero {basic_mask_array : Nat → Nat}
    {info : List hb_glyph_info_t} {start end_ : Nat}
    (h : reph_precondition basic_mask_array info start end_ = true) :
    basic_mask_array RPHF ≠ 0 := by
  unfold reph_precondition at h
  simp only [Bool.and_eq_true, bne_iff_ne, ne_eq] at h
  exact h.1.1.1.1

/-- C7: for every syllable whose glyphs enter with no `rphf` bit in their masks and with no
`indic_position` equal to `POS_RA_TO_BECOME_REPH` (the mask table giving `rphf` a bit of its
own, within the 32 of an `hb_mask_t`), the glyph at `start` carries the `rphf` mask bit after
initial reordering if and only if reph was decided for the syllable: the reph precondition
holds (the `rphf` mask is non-zero, the syllable has at least three glyphs beginning Ra, H,
then a non-joiner) and base selection found a base other than the glyph at `start`.  When it
is decided, the `rphf` bit is carried by exactly the leading run of glyphs with position
`POS_RA_TO_BECOME_REPH`.  On U+0930 U+094D U+0915 the result is (0930, Ra,
RA_TO_BECOME_REPH), (094D, H, RA_TO_BECOME_REPH), (0915, C, BASE_C) with `rphf` on the first
two glyphs only. -/
theorem initial_reordering_reph_mask (opts : indic_options_t)
    (chosen_script script : Nat) (basic_mask_array : Nat → Nat) (info : List hb_glyph_info_t)
    (start end_ : Nat) (hse : start < end_) (he : end_ ≤ info.length)
    (hw : basic_mask_array RPHF < 4294967296)
    (hd : ∀ f ∈ [AKHN, PREF, BLWF, HALF, ABVF, PSTF, CFAR, CJCT],
      basic_mask_array RPHF &&& basic_mask_array f = 0)
    (hmask : ∀ i, start ≤ i → i < end_ →
      (getInfo info i).mask &&& basic_mask_array RPHF = 0)
    (hpos : ∀ i, start ≤ i → i < end_ →
      (getInfo info i).indic_position ≠ POS_RA_TO_BECOME_REPH) :
    ((getInfo (initial_reordering_consonant_syllable opts chosen_script script
        basic_mask_array info start end_) start).mask &&& basic_mask_array RPHF ≠ 0 ↔
      reph_precondition basic_mask_array info start end_ = true ∧
      (find_base script basic_mask_array info start end_).1 ≠ start) ∧
    (reph_precondition basic_mask_array info start end_ = true ∧
      (find_base script basic_mask_array info start end_).1 ≠ start →
      ∀ i, start ≤ i → i < end_ →
        ((getInfo (initial_reordering_consonant_syllable opts chosen_script script
            basic_mask_array info start end_) i).mask &&& basic_mask_array RPHF ≠ 0 ↔
          ∀ k, start ≤ k → k ≤ i →
            (getInfo (initial_reordering_consonant_syllable opts chosen_script script
              basic_mask_array info start end_) k).indic_position =
              POS_RA_TO_BECOME_REPH)) ∧
    (initial_reordering_consonant_syllable ⟨false⟩ 0 HB_SCRIPT_DEVANAGARI example_masks
        example_ra_h_ka 0 3).map
      (fun g => (g.codepoint, g.indic_category, g.indic_position,
        g.mask &&& example_masks RPHF)) =
      [(0x0930, OT_Ra, POS_RA_TO_BECOME_REPH, example_masks RPHF),
       (0x094D, OT_H, POS_RA_TO_BECOME_REPH, example_masks RPHF),
       (0x0915, OT_C, POS_BASE_C, 0)] := by
  -- the state before the sort
  have s1 := initial_reordering_before_sort_reordered keepsAllButPosition_positionRel opts
    chosen_script script basic_mask_array info hse he
  have hl1 : (initial_reordering_before_sort opts chosen_script script basic_mask_array info
      start end_).1.length = info.length := s1.1.1
  have hb0 : start ≤ (initial_reordering_before_sort opts chosen_script script
      basic_mask_array info start end_).2 ∧ (initial_reordering_before_sort opts chosen_script
      script basic_mask_array info start end_).2 ≤ end_ :=
    find_base_bounds script basic_mask_array info hse
  have hyes := before_sort_reph_at_start opts chosen_script script basic_mask_array info hse he
  have hno := fun h => before_sort_no_reph opts chosen_script script basic_mask_array info
    hse he h hpos
  -- the state after the sort
  have s2 := sort_syllable_reordered_of_refl keepsAllButPosition_positionRel.refl
    (initial_reordering_before_sort opts chosen_script script basic_mask_array info
      start end_).1
    (initial_reordering_before_sort opts chosen_script script basic_mask_array info
      start end_).2 (Nat.le_of_lt hse) (by rw [hl1]; exact he)
  obtain ⟨hb1, hb2⟩ := sort_syllable_base_bounds
    (initial_reordering_before_sort opts chosen_script script basic_mask_array info
      start end_).1 (Nat.le_of_lt hse) hb0.1 hb0.2
  obtain ⟨hs_yes, hs_no⟩ := sort_syllable_reph
    (initial_reordering_before_sort opts chosen_script script basic_mask_array info
      start end_).1
    (initial_reordering_before_sort opts chosen_script script basic_mask_array info
      start end_).2 hse (by rw [hl1]; exact he)
  have s12 := reordered_trans keepsAllButPosition_positionRel.trans s1 s2
  have hl2 := s12.1.1
  have hPmask : ∀ i, start ≤ i → i < end_ →
      (getInfo (sort_syllable
        (initial_reordering_before_sort opts chosen_script script basic_mask_array info
          start end_).1 start end_
        (initial_reordering_before_sort opts chosen_script script basic_mask_array info
          start end_).2).1 i).mask &&& basic_mask_array RPHF = 0 := by
    intro i h1 h2
    obtain ⟨x, hx, hr⟩ := reordered_mem s12 _
      (getInfo_mem_syllable_glyphs _ h1 h2 (by rw [hl2]; omega))
    obtain ⟨k, hk1, hk2, _, hk4⟩ := mem_syllable_glyphs hx
    rw [hr.2, ← hk4]
    exact hmask k hk1 hk2
  obtain ⟨hpos_out, hbit⟩ := initial_reordering_masks_rphf basic_mask_array hw hd _ hb1 hb2
    (by rw [hl2]; exact he) hPmask
  have hout : initial_reordering_consonant_syllable opts chosen_script script basic_mask_array
      info start end_ = initial_reordering_masks basic_mask_array
        (sort_syllable
          (initial_reordering_before_sort opts chosen_script script basic_mask_array info
            start end_).1 start end_
          (initial_reordering_before_sort opts chosen_script script basic_mask_array info
            start end_).2).1 start end_
        (sort_syllable
          (initial_reordering_before_sort opts chosen_script script basic_mask_array info
            start end_).1 start end_
          (initial_reordering_before_sort opts chosen_script script basic_mask_array info
            start end_).2).2 := rfl
  rw [hout]
  generalize (sort_syllable
    (initial_reordering_before_sort opts chosen_script script basic_mask_array info
      start end_).1 start end_
    (initial_reordering_before_sort opts chosen_script script basic_mask_array info
      start end_).2).1 = p at *
  generalize (sort_syllable
    (initial_reordering_before_sort opts chosen_script script basic_mask_array info
      start end_).1 start end_
    (initial_reordering_before_sort opts chosen_script script basic_mask_array info
      start end_).2).2 = base' at *
  generalize (initial_reordering_before_sort opts chosen_script script basic_mask_array info
      start end_).1 = pre at *
  rw [← find_base_has_reph_iff]
  refine ⟨?_, ?_, by decide⟩
  · rw [hbit start (Nat.le_refl _) hse]
    constructor
    · intro ⟨_, hrun⟩
      by_contra hn
      have hf : (find_base script basic_mask_array info start end_).2 = false := by
        cases h : (find_base script basic_mask_array info start end_).2
        · rfl
        · exact absurd h hn
      exact hs_no (hno hf) start (Nat.le_refl _) hse (hrun start (Nat.le_refl _) (Nat.le_refl _))
    · intro h
      refine ⟨reph_precondition_mask_ne_zero (find_base_has_reph h).1, fun j hj1 hj2 => ?_⟩
      have : j = start := by omega
      subst this
      exact hs_yes (hyes h)
  · intro h i h1 h2
    rw [hbit i h1 h2]
    constructor
    · intro ⟨_, hrun⟩ k hk1 hk2
      rw [hpos_out]
      exact hrun k hk1 hk2
    · intro hrun
      refine ⟨reph_precondition_mask_ne_zero (find_base_has_reph h).1, fun j hj1 hj2 => ?_⟩
      rw [← hpos_out]
      exact hrun j hj1 hj2

theorem initial_reordering_reph_mask_witness :
    (0 < 3 ∧ 3 ≤ example_ra_h_ka.length ∧ example_masks RPHF < 4294967296 ∧
      (∀ f ∈ [AKHN, PREF, BLWF, HALF, ABVF, PSTF, CFAR, CJCT],
        example_masks RPHF &&& example_masks f = 0) ∧
      (∀ i, 0 ≤ i → i < 3 → (getInfo example_ra_h_ka i).mask &&& example_masks RPHF = 0) ∧
      (∀ i, 0 ≤ i → i < 3 →
        (getInfo example_ra_h_ka i).indic_position ≠ POS_RA_TO_BECOME_REPH)) ∧
    ((getInfo (initial_reordering_consonant_syllable ⟨false⟩ 0 HB_SCRIPT_DEVANAGARI
        example_masks example_ra_h_ka 0 3) 0).mask &&& example_masks RPHF ≠ 0 ↔
      reph_precondition example_masks example_ra_h_ka 0 3 = true ∧
      (find_base HB_SCRIPT_DEVANAGARI example_masks example_ra_h_ka 0 3).1 ≠ 0) :=
  have hd : ∀ f ∈ [AKHN, PREF, BLWF, HALF, ABVF, PSTF, CFAR, CJCT],
      example_masks RPHF &&& example_masks f = 0 := by decide
  have hmask : ∀ i, 0 ≤ i → i < 3 →
      (getInfo example_ra_h_ka i).mask &&& example_masks RPHF = 0 := by
    intro i _ h
    interval_cases i <;> decide
  have hpos : ∀ i, 0 ≤ i → i < 3 →
      (getInfo example_ra_h_ka i).indic_position ≠ POS_RA_TO_BECOME_REPH := by
    intro i _ h
    interval_cases i <;> decide
  ⟨⟨by decide, by decide, by decide, hd, hmask, hpos⟩,
    (initial_reordering_reph_mask ⟨false⟩ 0 HB_SCRIPT_DEVANAGARI example_masks
      example_ra_h_ka 0 3 (by decide) (by decide) (by decide) hd hmask hpos).1⟩


/-! ## Final reordering: frame and permutation -/

theorem keepsAllButInitAndCluster_stepRel (init_mask : Nat) :
    FinalStepRel init_mask (KeepsAllButInitAndCluster init_mask) where
  refl := fun _ => ⟨rfl, rfl, rfl, rfl, rfl, Or.inl rfl⟩
  trans := by
    intro x y z ⟨a1, a2, a3, a4, a5, a6⟩ ⟨b1, b2, b3, b4, b5, b6⟩
    refine ⟨b1.trans a1, b2.trans a2, b3.trans a3, b4.trans a4, b5.trans a5, ?_⟩
    rcases a6 with a6 | a6 <;> rcases b6 with b6 | b6
    · left; rw [b6, a6]
    · right; rw [b6, a6]
    · right; rw [b6, a6]
    · right; rw [b6, a6, Nat.or_assoc, Nat.or_self]
  or_init := fun _ => ⟨rfl, rfl, rfl, rfl, rfl, Or.inr rfl⟩
  set_cluster := fun _ _ => ⟨rfl, rfl, rfl, rfl, rfl, Or.inl rfl⟩

theorem rotatedWithin_reordered {R : hb_glyph_info_t → hb_glyph_info_t → Prop}
    (hr : ∀ g, R g g) (ht : ∀ x y z, R x y → R y z → R x z) {start end_ : Nat}
    {a b : List hb_glyph_info_t} (he : end_ ≤ a.length) (h : RotatedWithin start end_ a b) :
    Reordered R start end_ a b := by
  induction h with
  | refl => exact reordered_refl hr _ _ _
  | forward i j _ h1 h2 h3 ih =>
    exact reordered_trans ht ih
      (move_forward_reordered hr _ h1 h2 h3 (by rw [ih.1.1]; exact he))
  | backward n o _ h1 h2 h3 ih =>
    exact reordered_trans ht ih
      (move_backward_reordered hr _ h1 h2 h3 (by rw [ih.1.1]; exact he))

theorem rotatedWithin_trans {start end_ : Nat} {a b c : List hb_glyph_info_t}
    (h1 : RotatedWithin start end_ a b) (h2 : RotatedWithin start end_ b c) :
    RotatedWithin start end_ a c := by
  induction h2 with
  | refl => exact h1
  | forward i j _ g1 g2 g3 ih => exact RotatedWithin.forward i j ih g1 g2 g3
  | backward n o _ g1 g2 g3 ih => exact RotatedWithin.backward n o ih g1 g2 g3

theorem final_find_base_bounds (info : List hb_glyph_info_t) {start end_ : Nat}
    (h : start ≤ end_) :
    start ≤ final_find_base info start end_ ∧ final_find_base info start end_ ≤ end_ := by
  unfold final_find_base
  cases hf : findFrom (fun i => (getInfo info i).indic_position == POS_BASE_C) start end_ with
  | none => exact ⟨h, Nat.le_refl _⟩
  | some i =>
    obtain ⟨h1, h2, _⟩ := findFrom_some hf
    exact ⟨h1, Nat.le_of_lt h2⟩

theorem matra_move_loop_rotated {start end_ : Nat} {a : List hb_glyph_info_t} :
    ∀ (n : Nat) (s : List hb_glyph_info_t × Nat × Nat), n ≤ s.2.1 → s.2.1 < end_ →
      RotatedWithin start end_ a s.1 → start ≤ s.2.2 →
      RotatedWithin start end_ a (matra_move_loop start n s).1 ∧
      start ≤ (matra_move_loop start n s).2.2 ∧ (matra_move_loop start n s).2.2 ≤ s.2.2 := by
  intro n
  induction n with
  | zero =>
    intro s _ _ h3 h4
    unfold matra_move_loop
    exact ⟨h3, h4, Nat.le_refl _⟩
  | succ i ih =>
    intro s h1 h2 h3 h4
    unfold matra_move_loop
    by_cases hs : start < i + 1
    · rw [if_pos hs]
      by_cases hp : (getInfo s.1 i).indic_position = POS_PRE_M
      · rw [if_pos hp]
        obtain ⟨r1, r2, r3⟩ := ih (move_forward s.1 i s.2.1, s.2.1 - 1, min s.2.1 s.2.2)
          (by show i ≤ s.2.1 - 1; omega) (by show s.2.1 - 1 < end_; omega)
          (RotatedWithin.forward i s.2.1 h3 (by omega) (by omega) h2)
          (by show start ≤ min s.2.1 s.2.2; omega)
        refine ⟨r1, r2, Nat.le_trans r3 ?_⟩
        show min s.2.1 s.2.2 ≤ s.2.2
        omega
      · rw [if_neg hp]
        exact ih s (by omega) h2 h3 h4
    · rw [if_neg hs]
      exact ⟨h3, h4, Nat.le_refl _⟩

theorem final_reorder_matras_rotated {start end_ base : Nat} (a : List hb_glyph_info_t)
    (solc : Nat) (hb2 : base ≤ end_) (hs : start ≤ solc) :
    RotatedWithin start end_ a (final_reorder_matras ⟨a, solc⟩ start end_ base).info ∧
    start ≤ (final_reorder_matras ⟨a, solc⟩ start end_ base).start_of_last_cluster ∧
    (final_reorder_matras ⟨a, solc⟩ start end_ base).start_of_last_cluster ≤ solc := by
  unfold final_reorder_matras
  simp only
  have hsd := scanDown_le
    (fun j => is_matra_halant_coeng (getInfo a j).indic_category) start (base - 1)
  by_cases h1 : start < base
  · rw [if_pos h1]
    split_ifs with h2 h3
    · exact matra_move_loop_rotated _ _ (Nat.le_refl _) (by show _ + 1 < end_; exact h3.1)
        (RotatedWithin.refl a) hs
    · exact matra_move_loop_rotated _ _ (Nat.le_refl _)
        (by show scanDown _ _ _ < end_; omega) (RotatedWithin.refl a) hs
    · exact ⟨RotatedWithin.refl a, hs, Nat.le_refl _⟩
  · rw [if_neg h1]
    exact ⟨RotatedWithin.refl a, hs, Nat.le_refl _⟩

theorem reph_step_6_loop_bounds (info : List hb_glyph_info_t) {start : Nat} :
    ∀ n i p, start ≤ p → start ≤ i →
      start ≤ reph_step_6_loop info n i p ∧ reph_step_6_loop info n i p ≤ p := by
  intro n
  induction n with
  | zero =>
    intro i p h1 _
    unfold reph_step_6_loop
    exact ⟨h1, Nat.le_refl _⟩
  | succ n ih =>
    intro i p h1 h2
    unfold reph_step_6_loop
    split_ifs with h3 h4
    · obtain ⟨r1, r2⟩ := ih (i + 1) (p - 1) (by omega) (by omega)
      exact ⟨r1, by omega⟩
    · exact ih (i + 1) p h1 (by omega)
    · exact ⟨h1, Nat.le_refl _⟩

theorem reph_step_6_bounds (opts : indic_options_t) (info : List hb_glyph_info_t)
    {start end_ base : Nat} (hse : start < end_) (hb : start ≤ base) :
    start ≤ reph_step_6 opts info start end_ base ∧
    reph_step_6 opts info start end_ base < end_ := by
  unfold reph_step_6
  simp only
  have h1 := scanDown_le (fun j => (getInfo info j).indic_position != POS_SMVD) start
    (end_ - 1)
  have h2 := scanDown_ge (fun j => (getInfo info j).indic_position != POS_SMVD) start
    (end_ - 1) (by omega)
  split_ifs
  · obtain ⟨r1, r2⟩ := reph_step_6_loop_bounds info end_ (base + 1) _ h2 (by omega)
    exact ⟨r1, by omega⟩
  · exact ⟨h2, by omega⟩

theorem find_new_reph_pos_bounds (opts : indic_options_t) (script : Nat)
    (info : List hb_glyph_info_t) {start end_ base : Nat} (hse : start + 1 < end_)
    (hb1 : start ≤ base) (hb2 : base ≤ end_) :
    start ≤ find_new_reph_pos opts script info start end_ base ∧
    find_new_reph_pos opts script info start end_ base < end_ := by
  unfold find_new_reph_pos
  simp only
  have h6 := reph_step_6_bounds opts info (Nat.lt_of_succ_lt hse) hb1
  have h2 := scanUp_ge (fun j => is_halant_or_coeng (getInfo info j)) base
    (base - (start + 1)) (start + 1)
  have h3 := scanUp_ge (fun j => reph_step_3_stop (getInfo info (j + 1)).indic_position) end_
    (end_ - base) base
  have h4 := scanUp_ge (fun j => reph_step_4_stop (getInfo info (j + 1)).indic_position) end_
    (end_ - base) base
  split_ifs with c1 c2 c3 c4 c5
  · exact h6
  · exact ⟨by omega, by omega⟩
  · exact ⟨by omega, by omega⟩
  · exact ⟨by omega, c4.2⟩
  · exact ⟨by omega, c5.2⟩
  · exact h6

theorem final_reorder_reph_rotated (opts : indic_options_t) (script : Nat)
    {start end_ base : Nat} (s : final_state_t) (hb1 : start ≤ base) (hb2 : base ≤ end_)
    (hs : start ≤ s.start_of_last_cluster) :
    RotatedWithin start end_ s.info (final_reorder_reph opts script s start end_ base).info ∧
    start ≤ (final_reorder_reph opts script s start end_ base).start_of_last_cluster ∧
    (final_reorder_reph opts script s start end_ base).start_of_last_cluster ≤
      s.start_of_last_cluster := by
  unfold final_reorder_reph
  split_ifs with h
  · obtain ⟨r1, r2⟩ := find_new_reph_pos_bounds opts script s.info h.1 hb1 hb2
    exact ⟨RotatedWithin.forward _ _ (RotatedWithin.refl _) (Nat.le_refl _) r1 r2,
      Nat.le_refl _, hs⟩
  · exact ⟨RotatedWithin.refl _, hs, Nat.le_refl _⟩

theorem scanDown_of_le (p : Nat → Bool) {lo j : Nat} (h : j ≤ lo) : scanDown p lo j = j := by
  cases j with
  | zero => rfl
  | succ j =>
    unfold scanDown
    rw [if_neg (by omega)]

theorem find_pref_target_bounds (info : List hb_glyph_info_t) {start base : Nat}
    (end_ : Nat) (hb : start ≤ base) :
    start ≤ find_pref_target info start end_ base ∧
    find_pref_target info start end_ base ≤ base + 1 := by
  unfold find_pref_target
  simp only
  have h1 := scanDown_le
    (fun j => is_matra_halant_coeng (getInfo info (j - 1)).indic_category) (start + 1) base
  have h2 : start ≤ scanDown
      (fun j => is_matra_halant_coeng (getInfo info (j - 1)).indic_category) (start + 1)
      base := by
    by_cases hc : start + 1 ≤ base
    · have := scanDown_ge
        (fun j => is_matra_halant_coeng (getInfo info (j - 1)).indic_category) (start + 1)
        base hc
      omega
    · rw [scanDown_of_le _ (by omega)]
      exact hb
  split_ifs
  · exact ⟨by omega, by omega⟩
  · exact ⟨h2, by omega⟩
  · exact ⟨h2, by omega⟩

theorem final_reorder_pref_rotated (pref_mask : Nat) {start base : Nat} (end_ : Nat)
    (s : final_state_t) (hb1 : start ≤ base)
    (hs : start ≤ s.start_of_last_cluster) :
    RotatedWithin start end_ s.info (final_reorder_pref pref_mask s start end_ base).info ∧
    start ≤ (final_reorder_pref pref_mask s start end_ base).start_of_last_cluster ∧
    (final_reorder_pref pref_mask s start end_ base).start_of_last_cluster ≤
      s.start_of_last_cluster := by
  unfold final_reorder_pref
  by_cases h : pref_mask ≠ 0 ∧ base + 1 < end_
  · rw [if_pos h]
    cases hf : findFrom (fun i => (getInfo s.info i).mask &&& pref_mask != 0) (base + 1)
        end_ with
    | none => exact ⟨RotatedWithin.refl _, hs, Nat.le_refl _⟩
    | some i =>
      obtain ⟨f1, f2, _⟩ := findFrom_some hf
      obtain ⟨t1, t2⟩ := find_pref_target_bounds s.info end_ hb1
      simp only
      split_ifs
      · refine ⟨RotatedWithin.backward _ _ (RotatedWithin.refl _) t1 (by omega) f2, ?_, ?_⟩
        · show start ≤ min _ _
          omega
        · show min _ _ ≤ _
          omega
      · exact ⟨RotatedWithin.refl _, hs, Nat.le_refl _⟩
  · rw [if_neg h]
    exact ⟨RotatedWithin.refl _, hs, Nat.le_refl _⟩

/-- The three glyph moves of final reordering are rotations inside the syllable, and the start
of the last cluster they leave lies within it. -/
theorem final_reordering_rotations_rotated (opts : indic_options_t) (script : Nat)
    (info : List hb_glyph_info_t) (pref_mask : Nat) {start end_ : Nat} (hse : start ≤ end_) :
    RotatedWithin start end_ info
      (final_reordering_rotations opts script info pref_mask start end_).info ∧
    start ≤
      (final_reordering_rotations opts script info pref_mask start end_).start_of_last_cluster ∧
    (final_reordering_rotations opts script info pref_mask start end_).start_of_last_cluster ≤
      end_ := by
  obtain ⟨hb1, hb2⟩ := final_find_base_bounds info hse
  unfold final_reordering_rotations
  obtain ⟨m1, m2, m3⟩ := final_reorder_matras_rotated info (final_find_base info start end_)
    hb2 hb1
  obtain ⟨r1, r2, r3⟩ := final_reorder_reph_rotated opts script
    (final_reorder_matras ⟨info, final_find_base info start end_⟩ start end_
      (final_find_base info start end_)) hb1 hb2 m2
  obtain ⟨p1, p2, p3⟩ := final_reorder_pref_rotated pref_mask end_
    (final_reorder_reph opts script
      (final_reorder_matras ⟨info, final_find_base info start end_⟩ start end_
        (final_find_base info start end_)) start end_ (final_find_base info start end_))
    hb1 r2
  exact ⟨rotatedWithin_trans (rotatedWithin_trans m1 r1) p1, p2,
    Nat.le_trans p3 (Nat.le_trans r3 (Nat.le_trans m3 hb2))⟩

theorem final_apply_init_changed {init_mask : Nat}
    {R : hb_glyph_info_t → hb_glyph_info_t → Prop} (hR : FinalStepRel init_mask R)
    (a : List hb_glyph_info_t) {start end_ : Nat} (hse : start < end_) :
    ChangedWithin R start end_ a (final_apply_init init_mask a start) := by
  unfold final_apply_init
  split_ifs
  · exact changedWithin_set hR.refl a _ (Nat.le_refl _) hse (hR.or_init _)
  · exact changedWithin_refl hR.refl _ _ _

theorem length_merge_clusters (a : List hb_glyph_info_t) (x y : Nat) :
    (merge_clusters a x y).length = a.length := by
  unfold merge_clusters
  split_ifs with h
  · simp only [List.length_append, List.length_take, List.length_map, List.length_drop]
    omega
  · rfl

/-- Reading a buffer whose glyphs in `[x, y)` went through `f`. -/
theorem getInfo_map_range (a : List hb_glyph_info_t) (f : hb_glyph_info_t → hb_glyph_info_t)
    {x y : Nat} (h : x < y) (k : Nat) :
    getInfo (a.take x ++ (((a.drop x).take (y - x)).map f ++ a.drop y)) k =
      if x ≤ k ∧ k < y ∧ k < a.length then f (getInfo a k) else getInfo a k := by
  have hlen : (a.take x ++ (((a.drop x).take (y - x)).map f ++ a.drop y)).length =
      a.length := by
    simp only [List.length_append, List.length_take, List.length_map, List.length_drop]
    omega
  by_cases h2 : k < a.length
  · rw [getInfo_eq_getElem?_getD, getInfo_eq_getElem?_getD a k, List.getElem?_eq_getElem h2]
    by_cases h1 : k < x
    · rw [if_neg (by omega), List.getElem?_append_left (by rw [List.length_take]; omega),
        List.getElem?_take_of_lt h1, List.getElem?_eq_getElem h2]
    · rw [List.getElem?_append_right (by rw [List.length_take]; omega), List.length_take,
        Nat.min_eq_left (by omega)]
      by_cases h3 : k < y
      · rw [if_pos ⟨by omega, h3, h2⟩,
          List.getElem?_append_left
            (by rw [List.length_map, List.length_take, List.length_drop]; omega),
          List.getElem?_map, List.getElem?_take_of_lt (by omega), List.getElem?_drop]
        have e : x + (k - x) = k := by omega
        simp only [e, List.getElem?_eq_getElem h2, Option.map_some', Option.getD_some]
      · rw [if_neg (by omega),
          List.getElem?_append_right
            (by rw [List.length_map, List.length_take, List.length_drop]; omega),
          List.length_map, List.length_take, List.length_drop, List.getElem?_drop]
        have e : y + (k - x - min (y - x) (a.length - x)) = k := by omega
        simp only [e, List.getElem?_eq_getElem h2, Option.getD_some]
  · rw [if_neg (by omega), getInfo_of_le (by omega), getInfo_of_le (by omega)]

/-- What `merge_clusters` leaves at each index: one cluster value `c` for the glyphs of
`[x, y)`, everything else as it was. -/
theorem merge_clusters_spec (a : List hb_glyph_info_t) (x y : Nat) :
    ∃ c, ∀ k, getInfo (merge_clusters a x y) k =
      if x ≤ k ∧ k < y ∧ k < a.length then { getInfo a k with cluster := c }
      else getInfo a k := by
  unfold merge_clusters
  by_cases h : x < y
  · rw [if_pos h]
    exact ⟨((a.drop (x + 1)).take (y - (x + 1))).foldl (fun c g => min c g.cluster)
      (getInfo a x).cluster, fun k => getInfo_map_range a _ h k⟩
  · rw [if_neg h]
    exact ⟨0, fun k => by rw [if_neg (by omega)]⟩

theorem merge_clusters_changed {init_mask : Nat}
    {R : hb_glyph_info_t → hb_glyph_info_t → Prop} (hR : FinalStepRel init_mask R)
    (a : List hb_glyph_info_t) {start end_ x y : Nat} (hx : start ≤ x) (hy : y ≤ end_) :
    ChangedWithin R start end_ a (merge_clusters a x y) := by
  obtain ⟨c, hc⟩ := merge_clusters_spec a x y
  refine ⟨length_merge_clusters a x y, fun k => ⟨fun _ _ => ?_, fun hn => ?_⟩⟩
  · rw [hc k]
    split_ifs
    · exact hR.set_cluster _ _
    · exact hR.refl _
  · rw [hc k, if_neg (by omega)]

theorem cluster_boundary_loop_changed {init_mask : Nat}
    {R : hb_glyph_info_t → hb_glyph_info_t → Prop} (hR : FinalStepRel init_mask R)
    {start end_ solc : Nat} (a : List hb_glyph_info_t) (hsolc : solc ≤ end_) :
    ∀ (n i : Nat) (s : List hb_glyph_info_t × Nat), start < i → start ≤ s.2 →
      ChangedWithin R start end_ a s.1 →
      ChangedWithin R start end_ a (cluster_boundary_loop solc n i s).1 ∧
      start ≤ (cluster_boundary_loop solc n i s).2 := by
  intro n
  induction n with
  | zero =>
    intro i s _ h1 h2
    unfold cluster_boundary_loop
    exact ⟨h2, h1⟩
  | succ n ih =>
    intro i s hi h1 h2
    unfold cluster_boundary_loop
    split_ifs with c1 c2
    · exact ih (i + 2) (merge_clusters s.1 s.2 (i + 1), i + 1) (by omega)
        (by show start ≤ i + 1; omega)
        (changedWithin_trans hR.trans h2 (merge_clusters_changed hR s.1 h1 (by omega)))
    · exact ih (i + 1) s (by omega) h1 h2
    · exact ⟨h2, h1⟩

theorem finish_clusters_changed {init_mask : Nat}
    {R : hb_glyph_info_t → hb_glyph_info_t → Prop} (hR : FinalStepRel init_mask R)
    (opts : indic_options_t) (s : final_state_t) {start end_ : Nat}
    (h1 : start ≤ s.start_of_last_cluster) (h2 : s.start_of_last_cluster ≤ end_) :
    ChangedWithin R start end_ s.info (finish_clusters opts s start end_) := by
  unfold finish_clusters
  split_ifs
  · simp only
    obtain ⟨r1, r2⟩ := cluster_boundary_loop_changed hR s.info h2
      (s.start_of_last_cluster - (start + 1)) (start + 1) (s.info, start) (Nat.lt_succ_self _)
      (Nat.le_refl _) (changedWithin_refl hR.refl _ _ _)
    exact changedWithin_trans hR.trans r1 (merge_clusters_changed hR _ r2 (Nat.le_refl _))
  · exact merge_clusters_changed hR _ h1 (Nat.le_refl _)

theorem final_reordering_moves_eq (opts : indic_options_t) (script : Nat)
    (info : List hb_glyph_info_t) (init_mask pref_mask start end_ : Nat) :
    final_reordering_moves opts script info init_mask pref_mask start end_ =
      { info := final_apply_init init_mask
          (final_reordering_rotations opts script info pref_mask start end_).info start
        start_of_last_cluster :=
          (final_reordering_rotations opts script info pref_mask start end_
            ).start_of_last_cluster } := rfl

/-- After the rotations, the `init` pass and cluster finalization change glyphs in place. -/
theorem final_reordering_changed_after_rotations {init_mask : Nat}
    {R : hb_glyph_info_t → hb_glyph_info_t → Prop} (hR : FinalStepRel init_mask R)
    (opts : indic_options_t) (script : Nat) (info : List hb_glyph_info_t) (pref_mask : Nat)
    {start end_ : Nat} (hse : start < end_) :
    ChangedWithin R start end_
      (final_reordering_rotations opts script info pref_mask start end_).info
      (final_reordering_syllable opts script info init_mask pref_mask start end_) := by
  obtain ⟨_, h2, h3⟩ := final_reordering_rotations_rotated opts script info pref_mask
    (Nat.le_of_lt hse)
  unfold final_reordering_syllable
  rw [final_reordering_moves_eq]
  exact changedWithin_trans hR.trans (final_apply_init_changed hR _ hse)
    (finish_clusters_changed hR opts _ h2 h3)

/-- C2: for every buffer, `init` and `pref` masks, script and option setting, and every
syllable range with `start < end ≤ len`, `final_reordering_syllable` keeps the buffer length,
leaves the glyphs before `start` and from `end` on untouched, and leaves in `[start, end)` a
rearrangement of the glyphs that were there in which each glyph keeps its codepoint, general
category, `indic_category`, `indic_position` and syllable value, its mask being the old one
or the old one with the `init` mask OR-ed in.  The three glyph moves (pre-base matra, reph,
pre-base reordering consonant) form a chain of rotations each within `[start, end)`, and the
result differs from the rotated buffer in place only, by the `init` mask and cluster
values. -/
theorem final_reordering_permutes_syllable (opts : indic_options_t) (script : Nat)
    (info : List hb_glyph_info_t) (init_mask pref_mask : Nat) (start end_ : Nat)
    (hse : start < end_) (he : end_ ≤ info.length) :
    (final_reordering_syllable opts script info init_mask pref_mask start end_).length =
      info.length ∧
    (final_reordering_syllable opts script info init_mask pref_mask start end_).take start =
      info.take start ∧
    (final_reordering_syllable opts script info init_mask pref_mask start end_).drop end_ =
      info.drop end_ ∧
    (∃ l, l.Perm (syllable_glyphs info start end_) ∧
      List.Forall₂ (KeepsAllButInitAndCluster init_mask) l
        (syllable_glyphs
          (final_reordering_syllable opts script info init_mask pref_mask start end_)
          start end_)) ∧
    RotatedWithin start end_ info
      (final_reordering_rotations opts script info pref_mask start end_).info ∧
    ChangedWithin (KeepsAllButInitAndCluster init_mask) start end_
      (final_reordering_rotations opts script info pref_mask start end_).info
      (final_reordering_syllable opts script info init_mask pref_mask start end_) := by
  have hR := keepsAllButInitAndCluster_stepRel init_mask
  obtain ⟨h1, _, _⟩ := final_reordering_rotations_rotated opts script info pref_mask
    (Nat.le_of_lt hse)
  have h2 := final_reordering_changed_after_rotations hR opts script info pref_mask hse
  obtain ⟨⟨r1, r2, r3⟩, r4⟩ := reordered_trans hR.trans
    (rotatedWithin_reordered hR.refl hR.trans he h1) (changedWithin_reordered h2)
  exact ⟨r1, r2, r3, r4, h1, h2⟩

/-- Witness of C2 on a ligated reph before its base: the reph rotates to the end. -/
theorem final_reordering_permutes_syllable_witness :
    (0 < 2 ∧ 2 ≤ example_reph_ka.length) ∧
    ((final_reordering_syllable ⟨false⟩ HB_SCRIPT_DEVANAGARI example_reph_ka 1 0 0 2).length =
      example_reph_ka.length ∧
    (final_reordering_syllable ⟨false⟩ HB_SCRIPT_DEVANAGARI example_reph_ka 1 0 0 2).take 0 =
      example_reph_ka.take 0 ∧
    (final_reordering_syllable ⟨false⟩ HB_SCRIPT_DEVANAGARI example_reph_ka 1 0 0 2).drop 2 =
      example_reph_ka.drop 2 ∧
    (∃ l, l.Perm (syllable_glyphs example_reph_ka 0 2) ∧
      List.Forall₂ (KeepsAllButInitAndCluster 1) l
        (syllable_glyphs
          (final_reordering_syllable ⟨false⟩ HB_SCRIPT_DEVANAGARI example_reph_ka 1 0 0 2)
          0 2)) ∧
    RotatedWithin 0 2 example_reph_ka
      (final_reordering_rotations ⟨false⟩ HB_SCRIPT_DEVANAGARI example_reph_ka 0 0 2).info ∧
    ChangedWithin (KeepsAllButInitAndCluster 1) 0 2
      (final_reordering_rotations ⟨false⟩ HB_SCRIPT_DEVANAGARI example_reph_ka 0 0 2).info
      (final_reordering_syllable ⟨false⟩ HB_SCRIPT_DEVANAGARI example_reph_ka 1 0 0 2)) :=
  ⟨⟨by decide, by decide⟩,
    final_reordering_permutes_syllable ⟨false⟩ HB_SCRIPT_DEVANAGARI example_reph_ka 1 0 0 2
      (by decide) (by decide)⟩

/-- On the ligated reph before its base the reph moves behind the base and the two glyphs
end in one cluster. -/
theorem final_reordering_reph_ka :
    (final_reordering_syllable ⟨false⟩ HB_SCRIPT_DEVANAGARI example_reph_ka 1 0 0 2).map
      (fun g => (g.codepoint, g.cluster)) = [(0x0915, 0), (0x0930, 0)] := by
  decide

/-! ## Final reordering: clusters -/

theorem cluster_boundary_loop_of_no_boundary {solc : Nat} :
    ∀ (n i : Nat) (s : List hb_glyph_info_t × Nat),
      (∀ k, i ≤ k → k < solc →
        ¬ (is_halant_or_coeng (getInfo s.1 (k - 1)) = true ∧
          (getInfo s.1 k).indic_category = OT_ZWNJ)) →
      cluster_boundary_loop solc n i s = s := by
  intro n
  induction n with
  | zero =>
    intro i s _
    unfold cluster_boundary_loop
    rfl
  | succ n ih =>
    intro i s h
    unfold cluster_boundary_loop
    by_cases c1 : i < solc
    · rw [if_pos c1, if_neg (h i (Nat.le_refl _) c1)]
      exact ih (i + 1) s (fun k hk1 hk2 => h k (by omega) hk2)
    · rw [if_neg c1]

theorem keepsCategory_stepRel (init_mask : Nat) :
    FinalStepRel init_mask (fun g h => h.indic_category = g.indic_category) where
  refl := fun _ => rfl
  trans := fun _ _ _ h1 h2 => h2.trans h1
  or_init := fun _ => rfl
  set_cluster := fun _ _ => rfl

/-- C10, as amended: in default mode (`uniscribe_bug_compatible` off), with `merge_clusters`
setting every cluster value of its range to the minimum over it, after final reordering of a
syllable in whose final order no ZWNJ directly follows a halant or coeng, all glyphs in
`[start, end)` share a single cluster value. -/
theorem final_reordering_one_cluster (opts : indic_options_t) (script : Nat)
    (info : List hb_glyph_info_t) (init_mask pref_mask : Nat) (start end_ : Nat)
    (hse : start < end_) (he : end_ ≤ info.length)
    (hdef : opts.uniscribe_bug_compatible = false)
    (hno : ∀ i, start < i → i < end_ →
      ¬ (is_halant_or_coeng (getInfo
          (final_reordering_syllable opts script info init_mask pref_mask start end_)
          (i - 1)) = true ∧
        (getInfo (final_reordering_syllable opts script info init_mask pref_mask start end_)
          i).indic_category = OT_ZWNJ)) :
    ∀ i j, start ≤ i → i < end_ → start ≤ j → j < end_ →
      (getInfo (final_reordering_syllable opts script info init_mask pref_mask start end_)
        i).cluster =
      (getInfo (final_reordering_syllable opts script info init_mask pref_mask start end_)
        j).cluster := by
  obtain ⟨h1, h2, h3⟩ := final_reordering_rotations_rotated opts script info pref_mask
    (Nat.le_of_lt hse)
  have hlen : (final_reordering_moves opts script info init_mask pref_mask start end_
      ).info.length = info.length := by
    rw [final_reordering_moves_eq]
    have l1 := (final_apply_init_changed (keepsCategory_stepRel init_mask)
      (final_reordering_rotations opts script info pref_mask start end_).info hse).1
    have l2 := (rotatedWithin_reordered (R := Eq) (fun _ => rfl)
      (fun _ _ _ e1 e2 => e1.trans e2) he h1).1.1
    exact l1.trans l2
  have hcat := changedWithin_pointwise (keepsCategory_stepRel init_mask).refl
    (finish_clusters_changed (keepsCategory_stepRel init_mask) opts
      (final_reordering_moves opts script info init_mask pref_mask start end_) h2 h3)
  have hout : final_reordering_syllable opts script info init_mask pref_mask start end_ =
      finish_clusters opts
        (final_reordering_moves opts script info init_mask pref_mask start end_)
        start end_ := rfl
  rw [hout] at hno ⊢
  have hno' : ∀ k, start + 1 ≤ k →
      k < (final_reordering_moves opts script info init_mask pref_mask start end_
        ).start_of_last_cluster →
      ¬ (is_halant_or_coeng (getInfo
          (final_reordering_moves opts script info init_mask pref_mask start end_).info
          (k - 1)) = true ∧
        (getInfo (final_reordering_moves opts script info init_mask pref_mask start end_).info
          k).indic_category = OT_ZWNJ) := by
    intro k hk1 hk2 hc
    have hk3 : k < end_ :=
      Nat.lt_of_lt_of_le hk2 h3
    apply hno k hk1 hk3
    unfold is_halant_or_coeng at hc ⊢
    rw [hcat (k - 1), hcat k]
    exact hc
  have hfin : finish_clusters opts
      (final_reordering_moves opts script info init_mask pref_mask start end_) start end_ =
      merge_clusters
        (final_reordering_moves opts script info init_mask pref_mask start end_).info
        start end_ := by
    unfold finish_clusters
    rw [hdef]
    simp only [Bool.not_false, if_true]
    rw [cluster_boundary_loop_of_no_boundary _ _ _ hno']
  rw [hfin]
  obtain ⟨c, hc⟩ := merge_clusters_spec
    (final_reordering_moves opts script info init_mask pref_mask start end_).info start end_
  intro i j hi1 hi2 hj1 hj2
  rw [hc i, hc j, if_pos ⟨hi1, hi2, by omega⟩, if_pos ⟨hj1, hj2, by omega⟩]

/-- Witness of the amended C10 on the ligated reph before its base. -/
theorem final_reordering_one_cluster_witness :
    (0 < 2 ∧ 2 ≤ example_reph_ka.length ∧
      (⟨false⟩ : indic_options_t).uniscribe_bug_compatible = false ∧
      ∀ i, 0 < i → i < 2 →
        ¬ (is_halant_or_coeng (getInfo
            (final_reordering_syllable ⟨false⟩ HB_SCRIPT_DEVANAGARI example_reph_ka 1 0 0 2)
            (i - 1)) = true ∧
          (getInfo (final_reordering_syllable ⟨false⟩ HB_SCRIPT_DEVANAGARI example_reph_ka
            1 0 0 2) i).indic_category = OT_ZWNJ)) ∧
    ∀ i j, 0 ≤ i → i < 2 → 0 ≤ j → j < 2 →
      (getInfo (final_reordering_syllable ⟨false⟩ HB_SCRIPT_DEVANAGARI example_reph_ka 1 0 0 2)
        i).cluster =
      (getInfo (final_reordering_syllable ⟨false⟩ HB_SCRIPT_DEVANAGARI example_reph_ka 1 0 0 2)
        j).cluster :=
  have hno : ∀ i, 0 < i → i < 2 →
      ¬ (is_halant_or_coeng (getInfo
          (final_reordering_syllable ⟨false⟩ HB_SCRIPT_DEVANAGARI example_reph_ka 1 0 0 2)
          (i - 1)) = true ∧
        (getInfo (final_reordering_syllable ⟨false⟩ HB_SCRIPT_DEVANAGARI example_reph_ka
          1 0 0 2) i).indic_category = OT_ZWNJ) := by
    intro i h1 h2
    have : i = 1 := by omega
    subst this
    decide
  ⟨⟨by decide, by decide, rfl, hno⟩,
    final_reordering_one_cluster ⟨false⟩ HB_SCRIPT_DEVANAGARI example_reph_ka 1 0 0 2
      (by decide) (by decide) rfl hno⟩

/-- Counterexample to C10 as stated: in default mode U+0915 U+094D U+200C U+0915, entering
with the cluster values 0, 1, 2, 3, leaves final reordering with the cluster values
0, 0, 0, 3: the boundary after halant, ZWNJ is kept, so the glyphs at 0 and 3 differ. -/
theorem final_reordering_two_clusters :
    ¬ (∀ i j, 0 ≤ i → i < 4 → 0 ≤ j → j < 4 →
      (getInfo (final_reordering_syllable ⟨false⟩ HB_SCRIPT_DEVANAGARI
        example_ka_h_zwnj_ka_reordered 0 0 0 4) i).cluster =
      (getInfo (final_reordering_syllable ⟨false⟩ HB_SCRIPT_DEVANAGARI
        example_ka_h_zwnj_ka_reordered 0 0 0 4) j).cluster) := by
  intro h
  have h03 := h 0 3 (by decide) (by decide) (by decide) (by decide)
  revert h03
  decide!

/-- The cluster values final reordering leaves on U+0915 U+094D U+200C U+0915 in default
mode. -/
theorem final_reordering_clusters_ka_h_zwnj_ka :
    (final_reordering_syllable ⟨false⟩ HB_SCRIPT_DEVANAGARI example_ka_h_zwnj_ka_reordered
      0 0 0 4).map (fun g => (g.codepoint, g.cluster)) =
      [(0x0915, 0), (0x094D, 0), (0x200C, 0), (0x0915, 3)] := by
  decide!


/-! ## Final reordering: the calls of `merge_clusters` -/

theorem tiles_append (a : Nat) (cs : List Nat) (c e : Nat) :
    tiles a (cs ++ [c]) e = tiles a cs c ++ [(c, e)] := by
  induction cs generalizing a with
  | nil => rfl
  | cons x xs ih =>
    show (a, x) :: tiles x (xs ++ [c]) e = (a, x) :: tiles x xs c ++ [(c, e)]
    rw [ih]
    rfl

/-- The logging loop runs the loop of the source: same buffer, same `cluster_start`. -/
theorem cluster_boundary_calls_loop (solc : Nat) :
    ∀ (n i : Nat) (s : List hb_glyph_info_t × Nat × List (Nat × Nat)),
      ((cluster_boundary_calls solc n i s).1, (cluster_boundary_calls solc n i s).2.1) =
        cluster_boundary_loop solc n i (s.1, s.2.1) := by
  intro n
  induction n with
  | zero =>
    intro i s
    unfold cluster_boundary_calls cluster_boundary_loop
    rfl
  | succ n ih =>
    intro i s
    unfold cluster_boundary_calls cluster_boundary_loop
    split_ifs
    · exact ih (i + 2) _
    · exact ih (i + 1) s
    · rfl

/-- The buffer the loop leaves is the buffer it entered with, put through the logged calls. -/
theorem cluster_boundary_calls_foldl (solc : Nat) (a : List hb_glyph_info_t) :
    ∀ (n i : Nat) (s : List hb_glyph_info_t × Nat × List (Nat × Nat)),
      s.1 = s.2.2.foldl (fun b c => merge_clusters b c.1 c.2) a →
      (cluster_boundary_calls solc n i s).1 =
        (cluster_boundary_calls solc n i s).2.2.foldl (fun b c => merge_clusters b c.1 c.2)
          a := by
  intro n
  induction n with
  | zero =>
    intro i s h
    unfold cluster_boundary_calls
    exact h
  | succ n ih =>
    intro i s h
    unfold cluster_boundary_calls
    split_ifs
    · apply ih
      show merge_clusters s.1 s.2.1 (i + 1) = _
      rw [List.foldl_append, ← h]
      rfl
    · exact ih (i + 1) s h
    · exact h

theorem category_merge_clusters (a : List hb_glyph_info_t) (x y k : Nat) :
    (getInfo (merge_clusters a x y) k).indic_category = (getInfo a k).indic_category := by
  obtain ⟨c, hc⟩ := merge_clusters_spec a x y
  rw [hc k]
  split_ifs <;> rfl

/-- The calls logged by the loop tile `[start, cluster_start)`: each boundary lies right after a
ZWNJ that directly follows a halant or coeng, and below `start_of_last_cluster`. -/
theorem cluster_boundary_calls_tiles (start : Nat) {solc : Nat} (a : List hb_glyph_info_t) :
    ∀ (n i : Nat) (s : List hb_glyph_info_t × Nat × List (Nat × Nat)),
      s.2.1 < i →
      (∀ k, (getInfo s.1 k).indic_category = (getInfo a k).indic_category) →
      (∃ cs, (∀ e, s.2.2 ++ [(s.2.1, e)] = tiles start cs e) ∧
        (start :: cs).Chain' (fun x y => x < y) ∧ (start :: cs).getLast? = some s.2.1 ∧
        ∀ c ∈ cs, c ≤ solc ∧ start + 2 ≤ c ∧ is_halant_or_coeng (getInfo a (c - 2)) = true ∧
          (getInfo a (c - 1)).indic_category = OT_ZWNJ) →
      ∃ cs, (∀ e, (cluster_boundary_calls solc n i s).2.2 ++
            [((cluster_boundary_calls solc n i s).2.1, e)] = tiles start cs e) ∧
        (start :: cs).Chain' (fun x y => x < y) ∧
        (start :: cs).getLast? = some (cluster_boundary_calls solc n i s).2.1 ∧
        ∀ c ∈ cs, c ≤ solc ∧ start + 2 ≤ c ∧ is_halant_or_coeng (getInfo a (c - 2)) = true ∧
          (getInfo a (c - 1)).indic_category = OT_ZWNJ := by
  intro n
  induction n with
  | zero =>
    intro i s _ _ h
    unfold cluster_boundary_calls
    exact h
  | succ n ih =>
    intro i s hi hcat h
    unfold cluster_boundary_calls
    split_ifs with c1 c2
    · apply ih (i + 2) _ (by show i + 1 < i + 2; omega)
      · intro k
        show (getInfo (merge_clusters s.1 s.2.1 (i + 1)) k).indic_category = _
        rw [category_merge_clusters, hcat]
      · obtain ⟨cs, h1, h2, h3, h4⟩ := h
        have hstart : start ≤ s.2.1 := by
          have hmem : s.2.1 ∈ start :: cs := List.mem_of_getLast?_eq_some h3
          rcases List.mem_cons.mp hmem with e | e
          · omega
          · have := (h4 _ e).2.1
            omega
        refine ⟨cs ++ [i + 1], ?_, ?_, ?_, ?_⟩
        · intro e
          show (s.2.2 ++ [(s.2.1, i + 1)]) ++ [(i + 1, e)] = _
          rw [tiles_append, h1]
        · rw [← List.cons_append]
          apply List.Chain'.append h2 (List.chain'_singleton _)
          intro x hx y hy
          rw [h3] at hx
          simp only [Option.mem_def, Option.some.injEq] at hx
          simp only [List.head?_cons, Option.mem_def, Option.some.injEq] at hy
          show x < y
          omega
        · rw [← List.cons_append, List.getLast?_append]
          rfl
        · intro c hc
          rcases List.mem_append.mp hc with hc | hc
          · exact h4 c hc
          · simp only [List.mem_singleton] at hc
            subst hc
            refine ⟨by omega, by omega, ?_, ?_⟩
            · have e1 : i + 1 - 2 = i - 1 := by omega
              rw [e1]
              unfold is_halant_or_coeng at c2 ⊢
              rw [← hcat]
              exact c2.1
            · have e1 : i + 1 - 1 = i := by omega
              rw [e1, ← hcat]
              exact c2.2
    · exact ih (i + 1) s (by omega) hcat h
    · exact h

theorem getLast?_tiles (a : Nat) (cs : List Nat) (e : Nat) :
    ∃ c, (a :: cs).getLast? = some c ∧ (tiles a cs e).getLast? = some (c, e) := by
  induction cs generalizing a with
  | nil => exact ⟨a, rfl, rfl⟩
  | cons x xs ih =>
    obtain ⟨c, h1, h2⟩ := ih x
    refine ⟨c, ?_, ?_⟩
    · rw [List.getLast?_cons_cons]
      exact h1
    · show ((a, x) :: tiles x xs e).getLast? = _
      cases ht : tiles x xs e with
      | nil => rw [ht] at h2; simp at h2
      | cons y ys =>
        rw [List.getLast?_cons_cons, ← ht]
        exact h2

/-- Cluster finalization is the fold of `merge_clusters` over the logged calls. -/
theorem finish_clusters_eq_foldl (opts : indic_options_t) (s : final_state_t)
    (start end_ : Nat) :
    finish_clusters opts s start end_ =
      (finish_clusters_calls opts s start end_).foldl
        (fun b c => merge_clusters b c.1 c.2) s.info := by
  unfold finish_clusters finish_clusters_calls
  split_ifs
  · simp only
    have h1 := cluster_boundary_calls_loop s.start_of_last_cluster
      (s.start_of_last_cluster - (start + 1)) (start + 1) (s.info, start, [])
    have h2 := cluster_boundary_calls_foldl s.start_of_last_cluster s.info
      (s.start_of_last_cluster - (start + 1)) (start + 1) (s.info, start, []) rfl
    rw [List.foldl_append, ← h2, ← h1]
    rfl
  · rfl

/-- C11: in default mode (`uniscribe_bug_compatible` off) the calls of `merge_clusters` issued
by final reordering of a syllable, whose fold over the buffer left by the glyph moves and the
`init` pass is the result of `final_reordering_syllable`, are over consecutive half-open
ranges `[c₀, c₁), [c₁, c₂), …, [cₖ, end)` with `c₀ = start` and `c₀ < c₁ < … < cₖ ≤ end`;
every interior boundary `cᵢ` lies immediately after a ZWNJ that directly follows a halant or
coeng; the last call is `merge_clusters (cₖ, end)`, `cₖ` being the final
`start_of_last_cluster`; and a syllable with no ZWNJ directly after a halant or coeng is
merged by the single call `merge_clusters (start, end)`. -/
theorem final_reordering_merge_calls_tile (opts : indic_options_t) (script : Nat)
    (info : List hb_glyph_info_t) (init_mask pref_mask : Nat) (start end_ : Nat)
    (hse : start < end_) (hdef : opts.uniscribe_bug_compatible = false) :
    final_reordering_syllable opts script info init_mask pref_mask start end_ =
      (final_reordering_merge_calls opts script info init_mask pref_mask start end_).foldl
        (fun b c => merge_clusters b c.1 c.2)
        (final_reordering_moves opts script info init_mask pref_mask start end_).info ∧
    (∃ cs, final_reordering_merge_calls opts script info init_mask pref_mask start end_ =
        tiles start cs end_ ∧
      (start :: cs).Chain' (fun x y => x < y) ∧
      (∀ c ∈ cs, c ≤ end_ ∧ start + 2 ≤ c ∧
        is_halant_or_coeng (getInfo
          (final_reordering_syllable opts script info init_mask pref_mask start end_)
          (c - 2)) = true ∧
        (getInfo (final_reordering_syllable opts script info init_mask pref_mask start end_)
          (c - 1)).indic_category = OT_ZWNJ) ∧
      ∃ c, (start :: cs).getLast? = some c ∧
        (final_reordering_merge_calls opts script info init_mask pref_mask start
          end_).getLast? = some (c, end_)) ∧
    ((∀ i, start < i → i < end_ →
        ¬ (is_halant_or_coeng (getInfo
            (final_reordering_syllable opts script info init_mask pref_mask start end_)
            (i - 1)) = true ∧
          (getInfo (final_reordering_syllable opts script info init_mask pref_mask start end_)
            i).indic_category = OT_ZWNJ)) →
      final_reordering_merge_calls opts script info init_mask pref_mask start end_ =
        [(start, end_)]) := by
  obtain ⟨_, h2, h3⟩ := final_reordering_rotations_rotated opts script info pref_mask
    (Nat.le_of_lt hse)
  have hcat := changedWithin_pointwise (keepsCategory_stepRel init_mask).refl
    (finish_clusters_changed (keepsCategory_stepRel init_mask) opts
      (final_reordering_moves opts script info init_mask pref_mask start end_) h2 h3)
  have hout : final_reordering_syllable opts script info init_mask pref_mask start end_ =
      finish_clusters opts
        (final_reordering_moves opts script info init_mask pref_mask start end_)
        start end_ := rfl
  have hsolc : (final_reordering_moves opts script info init_mask pref_mask start end_
      ).start_of_last_cluster ≤ end_ := h3
  rw [hout]
  unfold final_reordering_merge_calls
  generalize final_reordering_moves opts script info init_mask pref_mask start end_ = s at *
  have key : ∃ cs, finish_clusters_calls opts s start end_ = tiles start cs end_ ∧
      (start :: cs).Chain' (fun x y => x < y) ∧
      (∀ c ∈ cs, c ≤ end_ ∧ start + 2 ≤ c ∧
        is_halant_or_coeng (getInfo (finish_clusters opts s start end_) (c - 2)) = true ∧
        (getInfo (finish_clusters opts s start end_) (c - 1)).indic_category = OT_ZWNJ) := by
    obtain ⟨cs, k1, k2, _, k4⟩ := cluster_boundary_calls_tiles start s.info
      (s.start_of_last_cluster - (start + 1)) (start + 1) (s.info, start, [])
      (Nat.lt_succ_self _) (fun _ => rfl)
      ⟨[], fun _ => rfl, List.chain'_singleton _, rfl, fun _ h => absurd h (List.not_mem_nil _)⟩
    refine ⟨cs, ?_, k2, fun c hc => ?_⟩
    · unfold finish_clusters_calls
      rw [hdef]
      exact k1 end_
    · obtain ⟨q1, q2, q3, q4⟩ := k4 c hc
      refine ⟨Nat.le_trans q1 hsolc, q2, ?_, ?_⟩
      · unfold is_halant_or_coeng at q3 ⊢
        rw [hcat]
        exact q3
      · rw [hcat]
        exact q4
  refine ⟨finish_clusters_eq_foldl opts s start end_, ?_, ?_⟩
  · obtain ⟨cs, k1, k2, k3⟩ := key
    obtain ⟨c, g1, g2⟩ := getLast?_tiles start cs end_
    exact ⟨cs, k1, k2, k3, c, g1, by rw [k1]; exact g2⟩
  · intro hno
    obtain ⟨cs, k1, _, k3⟩ := key
    cases cs with
    | nil => exact k1
    | cons c cs =>
      exfalso
      obtain ⟨q1, q2, q3, q4⟩ := k3 c (List.mem_cons_self _ _)
      apply hno (c - 1) (by omega) ?_ ⟨?_, q4⟩
      · have : c - 1 < c := by omega
        omega
      · have e : c - 1 - 1 = c - 2 := by omega
        rw [e]
        exact q3

/-- Witness of C11 on U+0915 U+094D U+200C U+0915: the calls are `merge_clusters (0, 3)` and
`merge_clusters (3, 4)`. -/
theorem final_reordering_merge_calls_tile_witness :
    (0 < 4 ∧ (⟨false⟩ : indic_options_t).uniscribe_bug_compatible = false) ∧
    final_reordering_merge_calls ⟨false⟩ HB_SCRIPT_DEVANAGARI example_ka_h_zwnj_ka_reordered
      0 0 0 4 = [(0, 3), (3, 4)] ∧
    final_reordering_syllable ⟨false⟩ HB_SCRIPT_DEVANAGARI example_ka_h_zwnj_ka_reordered
        0 0 0 4 =
      (final_reordering_merge_calls ⟨false⟩ HB_SCRIPT_DEVANAGARI
        example_ka_h_zwnj_ka_reordered 0 0 0 4).foldl
        (fun b c => merge_clusters b c.1 c.2)
        (final_reordering_moves ⟨false⟩ HB_SCRIPT_DEVANAGARI example_ka_h_zwnj_ka_reordered
          0 0 0 4).info :=
  ⟨⟨by decide, rfl⟩, by decide!,
    (final_reordering_merge_calls_tile ⟨false⟩ HB_SCRIPT_DEVANAGARI
      example_ka_h_zwnj_ka_reordered 0 0 0 4 (by decide) rfl).1⟩


/-! ## Scenario S3 -/

/-- C12, as amended: for U+0915 (C, BASE_C), U+094D (H, any table position), U+0937
(C, BASE_C), U+093F (M, PRE_M), Devanagari in default mode with the new-spec tag `dev2`,
initial reordering produces exactly (093F, M, PRE_M), (0915, C, PRE_C), (094D, H, PRE_C),
(0937, C, BASE_C): the second consonant is the base, the halant takes the position of the
consonant before it, and the matra leads the syllable, keeping its position `POS_PRE_M`. -/
theorem initial_reordering_scenario_s3 (p : indic_position_t) :
    (initial_reordering_consonant_syllable ⟨false⟩ (HB_TAG 'd' 'e' 'v' '2')
      HB_SCRIPT_DEVANAGARI example_masks (example_ka_h_ssa_i p) 0 4).map
      (fun g => (g.codepoint, g.indic_category, g.indic_position)) =
      [(0x093F, OT_M, POS_PRE_M), (0x0915, OT_C, POS_PRE_C), (0x094D, OT_H, POS_PRE_C),
       (0x0937, OT_C, POS_BASE_C)] := by
  cases p <;> decide

/-- Counterexample to C12 as stated: the matra does not end with `POS_PRE_C`. -/
theorem initial_reordering_scenario_s3_matra_not_pre_c :
    ¬ ((initial_reordering_consonant_syllable ⟨false⟩ (HB_TAG 'd' 'e' 'v' '2')
      HB_SCRIPT_DEVANAGARI example_masks (example_ka_h_ssa_i POS_BELOW_M) 0 4).map
      (fun g => (g.codepoint, g.indic_category, g.indic_position)) =
      [(0x093F, OT_M, POS_PRE_C), (0x0915, OT_C, POS_PRE_C), (0x094D, OT_H, POS_PRE_C),
       (0x0937, OT_C, POS_BASE_C)]) := by
  decide

/-! ## Khmer: the base is the first glyph -/

theorem find_base_khmer (basic_mask_array : Nat → Nat) (info : List hb_glyph_info_t)
    (start end_ : Nat) :
    find_base HB_SCRIPT_KHMER basic_mask_array info start end_ = (start, false) := by
  unfold find_base
  cases reph_precondition basic_mask_array info start end_ <;> simp

/-- After position assignment every glyph of the syllable has a position within `Q`, when `Q`
holds of the positions the step assigns and of those the glyphs enter with. -/
theorem assign_positions_within (Q : indic_position_t → Prop) (a : List hb_glyph_info_t)
    {start end_ : Nat} (base : Nat) (has_reph : Bool)
    (hpre : start < base → Q POS_PRE_C) (hbase : Q POS_BASE_C) (hfinal : Q POS_FINAL_C)
    (hreph : has_reph = true → Q POS_RA_TO_BECOME_REPH)
    (hin : ∀ i, start ≤ i → i < end_ → Q (getInfo a i).indic_position) :
    ∀ i, start ≤ i → i < end_ →
      Q (getInfo (assign_positions a start end_ base has_reph) i).indic_position := by
  intro i h1 h2
  unfold assign_positions
  simp only
  obtain ⟨l0, g0⟩ := forRange_setPos_spec POS_PRE_C start base a
  have q0 : Q (getInfo (forRange start base (fun i info => setPos info i POS_PRE_C) a)
      i).indic_position := by
    rw [g0]
    split_ifs with hc
    · exact hpre (by omega)
    · exact hin i h1 h2
  have q1 : Q (getInfo (if base < end_ then
      setPos (forRange start base (fun i info => setPos info i POS_PRE_C) a) base POS_BASE_C
      else forRange start base (fun i info => setPos info i POS_PRE_C) a)
      i).indic_position := by
    split_ifs
    · rw [position_getInfo_setPos]
      split_ifs
      · exact hbase
      · exact q0
    · exact q0
  generalize (if base < end_ then
      setPos (forRange start base (fun i info => setPos info i POS_PRE_C) a) base POS_BASE_C
      else forRange start base (fun i info => setPos info i POS_PRE_C) a) = s1 at q1 ⊢
  have q2 : Q (getInfo (mark_final_consonant s1 base end_) i).indic_position := by
    rcases mark_final_consonant_cases s1 base end_ with h | ⟨j, _, _, _, h⟩
    · rw [h]; exact q1
    · rw [h, position_getInfo_setPos]
      split_ifs
      · exact hfinal
      · exact q1
  cases has_reph with
  | true =>
    rw [if_pos rfl, position_getInfo_setPos]
    split_ifs
    · exact hreph rfl
    · exact q2
  | false =>
    rw [if_neg (by simp)]
    exact q2

/-- Just before the sort every glyph of the syllable has a position within `Q`, when `Q` holds
of the positions that are assigned (`POS_PRE_C` when the base is not at `start`, `POS_BASE_C`,
`POS_FINAL_C`, `POS_RA_TO_BECOME_REPH` with reph) and of those the glyphs enter with: the
attachment steps only copy positions within the syllable. -/
theorem before_sort_within (Q : indic_position_t → Prop) (opts : indic_options_t)
    (chosen_script script : Nat) (basic_mask_array : Nat → Nat) (info : List hb_glyph_info_t)
    {start end_ : Nat} (hse : start < end_) (he : end_ ≤ info.length)
    (hpre : start < (find_base script basic_mask_array info start end_).1 → Q POS_PRE_C)
    (hbase : Q POS_BASE_C) (hfinal : Q POS_FINAL_C)
    (hreph : (find_base script basic_mask_array info start end_).2 = true →
      Q POS_RA_TO_BECOME_REPH)
    (hin : ∀ i, start ≤ i → i < end_ → Q (getInfo info i).indic_position) :
    ∀ i, start ≤ i → i < end_ →
      Q (getInfo (initial_reordering_before_sort opts chosen_script script basic_mask_array
        info start end_).1 i).indic_position := by
  unfold initial_reordering_before_sort
  simp only
  obtain ⟨hb1, hb2⟩ := find_base_bounds script basic_mask_array info hse
  have hR := (keepsAllButPositionAndMask_stepRel basic_mask_array).toPositionStepRel
  generalize (find_base script basic_mask_array info start end_).2 = has_reph at *
  generalize (find_base script basic_mask_array info start end_).1 = base at *
  have lA := (assign_positions_changed hR info has_reph hse hb1 hb2).1
  have qA := assign_positions_within Q info base has_reph hpre hbase hfinal hreph hin
  have qB : ∀ i, start ≤ i → i < end_ →
      Q (getInfo (old_spec_halant_move chosen_script
        (assign_positions info start end_ base has_reph) base end_) i).indic_position := by
    intro i h1 h2
    rcases old_spec_halant_move_cases chosen_script
      (assign_positions info start end_ base has_reph) base end_ with
      e | ⟨i', j', hb, hij, hj, e⟩
    · rw [e]; exact qA i h1 h2
    · rw [e, getInfo_move_forward _ (Nat.le_of_lt hij) (by omega)]
      split_ifs
      · exact qA i h1 h2
      · exact qA (i + 1) (by omega) (by omega)
      · exact qA i' (by omega) (by omega)
      · exact qA i h1 h2
  apply reattach_halants_rule
    (fun s => ∀ i, start ≤ i → i < end_ → Q (getInfo s i).indic_position)
  · apply attach_marks_rule
      (fun s => ∀ i, start ≤ i → i < end_ → Q (getInfo s i).indic_position)
    · exact qB
    · intro s i' k h1 h2 h3 h4 _ hs i hi1 hi2
      rw [position_getInfo_setPos]
      split_ifs
      · exact hs k h3 (by omega)
      · exact hs i hi1 hi2
  · intro s j i' h1 h2 h3 _ hs i hi1 hi2
    rw [position_getInfo_setPos]
    split_ifs
    · exact hs i' (by omega) h3
    · exact hs i hi1 hi2

/-- After initial reordering every glyph of the syllable has a position within `Q`, under the
conditions of `before_sort_within`: the sort only rearranges and the mask steps write no
position. -/
theorem initial_reordering_within (Q : indic_position_t → Prop) (opts : indic_options_t)
    (chosen_script script : Nat) (basic_mask_array : Nat → Nat) (info : List hb_glyph_info_t)
    {start end_ : Nat} (hse : start < end_) (he : end_ ≤ info.length)
    (hpre : start < (find_base script basic_mask_array info start end_).1 → Q POS_PRE_C)
    (hbase : Q POS_BASE_C) (hfinal : Q POS_FINAL_C)
    (hreph : (find_base script basic_mask_array info start end_).2 = true →
      Q POS_RA_TO_BECOME_REPH)
    (hin : ∀ i, start ≤ i → i < end_ → Q (getInfo info i).indic_position) :
    ∀ i, start ≤ i → i < end_ →
      Q (getInfo (initial_reordering_consonant_syllable opts chosen_script script
        basic_mask_array info start end_) i).indic_position := by
  intro i h1 h2
  have hB := before_sort_within Q opts chosen_script script basic_mask_array info hse he hpre
    hbase hfinal hreph hin
  have hre := after_sort_reordered opts chosen_script script basic_mask_array info hse he
  have hl1 : (initial_reordering_before_sort opts chosen_script script basic_mask_array info
      start end_).1.length = info.length :=
    (initial_reordering_before_sort_reordered
      (keepsAllButPositionAndMask_stepRel basic_mask_array).toPositionStepRel opts
      chosen_script script basic_mask_array info hse he).1.1
  obtain ⟨x, hx, e⟩ := reordered_mem hre _
    (getInfo_mem_syllable_glyphs _ h1 h2 (by rw [hre.1.1, hl1]; omega))
  obtain ⟨k, hk1, hk2, _, hk4⟩ := mem_syllable_glyphs hx
  rw [e.2, ← hk4]
  exact hB k hk1 hk2

theorem forall₂_mem_left {R : hb_glyph_info_t → hb_glyph_info_t → Prop}
    {l₁ l₂ : List hb_glyph_info_t} (h : List.Forall₂ R l₁ l₂) :
    ∀ x ∈ l₁, ∃ y ∈ l₂, R x y := by
  induction h with
  | nil => intro x hx; cases hx
  | cons hab _ ih =>
    intro x hx
    rcases List.mem_cons.mp hx with e | hx'
    · subst e
      exact ⟨_, List.mem_cons_self _ _, hab⟩
    · obtain ⟨y, hy, hr⟩ := ih x hx'
      exact ⟨y, List.mem_cons_of_mem _ hy, hr⟩

/-- Every glyph of the syllable before a reordering has a later state in the syllable after
it. -/
theorem reordered_mem_left {R : hb_glyph_info_t → hb_glyph_info_t → Prop} {start end_ : Nat}
    {a b : List hb_glyph_info_t} (h : Reordered R start end_ a b) :
    ∀ x ∈ syllable_glyphs a start end_, ∃ y ∈ syllable_glyphs b start end_, R x y := by
  obtain ⟨_, l, hp, hf⟩ := h
  intro x hx
  exact forall₂_mem_left hf x (hp.symm.subset hx)

/-- When a base is selected, the slot of the base holds, just before the sort, the glyph it
held with `POS_BASE_C` for position. -/
theorem before_sort_base_glyph (opts : indic_options_t) (chosen_script script : Nat)
    (basic_mask_array : Nat → Nat) (info : List hb_glyph_info_t) {start end_ : Nat}
    (hse : start < end_) (he : end_ ≤ info.length)
    (hb : (find_base script basic_mask_array info start end_).1 < end_) :
    getInfo (initial_reordering_before_sort opts chosen_script script basic_mask_array info
      start end_).1 (find_base script basic_mask_array info start end_).1 =
      { getInfo info (find_base script basic_mask_array info start end_).1 with
        indic_position := POS_BASE_C } := by
  unfold initial_reordering_before_sort
  simp only
  obtain ⟨hb1, hb2⟩ := find_base_bounds script basic_mask_array info hse
  have hR := (keepsAllButPositionAndMask_stepRel basic_mask_array).toPositionStepRel
  have hcases := find_base_cases script basic_mask_array info hse
  generalize hbase : (find_base script basic_mask_array info start end_).1 = base at *
  generalize hhr : (find_base script basic_mask_array info start end_).2 = has_reph at *
  have hreph : has_reph = true → base ≠ start := by
    intro h
    rw [← hhr] at h
    rw [← hbase]
    exact (find_base_has_reph h).2
  have hA := getInfo_assign_positions_base info has_reph hb he hreph
  have lA := (assign_positions_changed hR info has_reph hse hb1 hb2).1
  have hB := sameOutside_getInfo_eq
    (old_spec_halant_move_reordered hR chosen_script
      (assign_positions info start end_ base has_reph) (base + 1) end_ base (Nat.le_refl _)
      (by rw [lA]; exact he)).1 (Or.inl (Nat.lt_succ_self base))
  rw [hA] at hB
  have hnot : base = start ∨
      is_attached_category (getInfo info base).indic_category = false := by
    rcases hcases with h | h | h
    · exact Or.inl h
    · omega
    · exact Or.inr (not_attached_of_consonant h)
  have hC : getInfo (attach_marks opts
      (old_spec_halant_move chosen_script (assign_positions info start end_ base has_reph)
        base end_) start end_) base =
      { getInfo info base with indic_position := POS_BASE_C } := by
    rcases hnot with h | h
    · have := ((attach_marks_changed hR opts
        (old_spec_halant_move chosen_script (assign_positions info start end_ base has_reph)
          base end_) (start + 1) start end_ (Nat.le_refl _)).2 base).2 (by omega)
      rw [this, hB]
    · apply attach_marks_rule (fun s => getInfo s base =
        { getInfo info base with indic_position := POS_BASE_C }) opts _ start end_ hB
      intro s i k h1 h2 h3 h4 hc hs
      have hne : i ≠ base := by
        intro hib
        rw [hib, hs] at hc
        simp only at hc
        rw [h] at hc
        exact Bool.noConfusion hc
      rw [getInfo_setPos, if_neg (fun hh => hne hh.1)]
      exact hs
  have hD := ((reattach_halants_changed hR
    (attach_marks opts
      (old_spec_halant_move chosen_script (assign_positions info start end_ base has_reph)
        base end_) start end_) (base + 1) end_ base (Nat.le_refl _)).2 base).2 (by omega)
  rw [hD, hC]

/-- C13: for every syllable (`start < end ≤ len`) of a Khmer-script buffer, whatever the mask
table, options and script tag, base selection returns the index `start` and no reph; just
before the sort the slot `start` holds the glyph it held with `POS_BASE_C`, and that glyph,
up to its mask, is in the syllable that initial reordering leaves; no glyph of the result has
`POS_PRE_C` unless a glyph entered with it, and likewise for `POS_RA_TO_BECOME_REPH`.  On
scenario S4, U+1780 U+17D2 U+1781 categorized (C, BELOW_C), Coeng, (C, BELOW_C), the result is
(1780, C, BASE_C), (17D2, Coeng, BELOW_C), (1781, C, BELOW_C), whatever position the coeng
enters with. -/
theorem initial_reordering_khmer_base (opts : indic_options_t) (chosen_script : Nat)
    (basic_mask_array : Nat → Nat) (info : List hb_glyph_info_t) (start end_ : Nat)
    (hse : start < end_) (he : end_ ≤ info.length) :
    find_base HB_SCRIPT_KHMER basic_mask_array info start end_ = (start, false) ∧
    getInfo (initial_reordering_before_sort opts chosen_script HB_SCRIPT_KHMER
        basic_mask_array info start end_).1 start =
      { getInfo info start with indic_position := POS_BASE_C } ∧
    (∃ g ∈ syllable_glyphs (initial_reordering_consonant_syllable opts chosen_script
        HB_SCRIPT_KHMER basic_mask_array info start end_) start end_,
      KeepsAllButMask { getInfo info start with indic_position := POS_BASE_C } g) ∧
    (∀ p, p = POS_PRE_C ∨ p = POS_RA_TO_BECOME_REPH →
      (∀ i, start ≤ i → i < end_ → (getInfo info i).indic_position ≠ p) →
      ∀ i, start ≤ i → i < end_ →
        (getInfo (initial_reordering_consonant_syllable opts chosen_script HB_SCRIPT_KHMER
          basic_mask_array info start end_) i).indic_position ≠ p) ∧
    (∀ p, (initial_reordering_consonant_syllable ⟨false⟩ (HB_TAG 'k' 'h' 'm' 'r')
        HB_SCRIPT_KHMER example_masks (example_khmer_ka_coeng_kha p) 0 3).map
        (fun g => (g.codepoint, g.indic_category, g.indic_position)) =
      [(0x1780, OT_C, POS_BASE_C), (0x17D2, OT_Coeng, POS_BELOW_C),
       (0x1781, OT_C, POS_BELOW_C)]) := by
  have hfb := find_base_khmer basic_mask_array info start end_
  have hb1 : (find_base HB_SCRIPT_KHMER basic_mask_array info start end_).1 = start := by
    rw [hfb]
  have hb2 : (find_base HB_SCRIPT_KHMER basic_mask_array info start end_).2 = false := by
    rw [hfb]
  have hglyph := before_sort_base_glyph opts chosen_script HB_SCRIPT_KHMER basic_mask_array
    info hse he (by rw [hb1]; exact hse)
  rw [hb1] at hglyph
  have hre := after_sort_reordered opts chosen_script HB_SCRIPT_KHMER basic_mask_array info
    hse he
  have hl1 : (initial_reordering_before_sort opts chosen_script HB_SCRIPT_KHMER
      basic_mask_array info start end_).1.length = info.length :=
    (initial_reordering_before_sort_reordered
      (keepsAllButPositionAndMask_stepRel basic_mask_array).toPositionStepRel opts
      chosen_script HB_SCRIPT_KHMER basic_mask_array info hse he).1.1
  refine ⟨hfb, hglyph, ?_, ?_, ?_⟩
  · have hmem := getInfo_mem_syllable_glyphs
      (initial_reordering_before_sort opts chosen_script HB_SCRIPT_KHMER basic_mask_array
        info start end_).1 (Nat.le_refl start) hse (by rw [hl1]; omega)
    rw [hglyph] at hmem
    exact reordered_mem_left hre _ hmem
  · intro p hp hin
    apply initial_reordering_within (fun q => q ≠ p) opts chosen_script HB_SCRIPT_KHMER
      basic_mask_array info hse he
    · intro h
      rw [hb1] at h
      exact absurd h (Nat.lt_irrefl _)
    · rcases hp with e | e <;> rw [e] <;> simp
    · rcases hp with e | e <;> rw [e] <;> simp
    · intro h
      rw [hb2] at h
      exact Bool.noConfusion h
    · exact hin
  · intro p
    cases p <;> decide

/-- Witness of C13 on scenario S4. -/
theorem initial_reordering_khmer_base_witness :
    (0 < 3 ∧ 3 ≤ (example_khmer_ka_coeng_kha POS_BELOW_M).length) ∧
    find_base HB_SCRIPT_KHMER example_masks (example_khmer_ka_coeng_kha POS_BELOW_M) 0 3 =
      (0, false) :=
  ⟨⟨by decide, by decide⟩,
    (initial_reordering_khmer_base ⟨false⟩ (HB_TAG 'k' 'h' 'm' 'r') example_masks
      (example_khmer_ka_coeng_kha POS_BELOW_M) 0 3 (by decide) (by decide)).1⟩

/-! ## Scenario S6: the reph goes to the end of the syllable -/

theorem matra_move_loop_of_no_pre_m (start : Nat) :
    ∀ (n : Nat) (s : List hb_glyph_info_t × Nat × Nat),
      (∀ k, start ≤ k → k < n → (getInfo s.1 k).indic_position ≠ POS_PRE_M) →
      matra_move_loop start n s = s := by
  intro n
  induction n with
  | zero =>
    intro s _
    unfold matra_move_loop
    rfl
  | succ i ih =>
    intro s h
    unfold matra_move_loop
    by_cases hs : start < i + 1
    · rw [if_pos hs, if_neg (h i (by omega) (by omega))]
      exact ih s (fun k hk1 hk2 => h k hk1 (by omega))
    · rw [if_neg hs]

/-- With no `POS_PRE_M` glyph before the base the pre-base matra pass changes nothing. -/
theorem final_reorder_matras_of_no_pre_m (s : final_state_t) {start base : Nat} (end_ : Nat)
    (h : ∀ k, start ≤ k → k < base → (getInfo s.info k).indic_position ≠ POS_PRE_M) :
    final_reorder_matras s start end_ base = s := by
  unfold final_reorder_matras
  by_cases h1 : start < base
  · rw [if_pos h1]
    simp only
    have hsd := scanDown_le
      (fun j => is_matra_halant_coeng (getInfo s.info j).indic_category) start (base - 1)
    split_ifs with h2 h3
    · rw [matra_move_loop_of_no_pre_m start _ _ (fun k hk1 hk2 => h k hk1 (by
        have : k < scanDown
          (fun j => is_matra_halant_coeng (getInfo s.info j).indic_category) start
          (base - 1) + 1 := hk2
        omega))]
    · rw [matra_move_loop_of_no_pre_m start _ _ (fun k hk1 hk2 => h k hk1 (by
        have : k < scanDown
          (fun j => is_matra_halant_coeng (getInfo s.info j).indic_category) start
          (base - 1) := hk2
        omega))]
    · rfl
  · rw [if_neg h1]

theorem final_find_base_s6 (info : List hb_glyph_info_t) (start : Nat)
    (h0 : (getInfo info start).indic_position = POS_RA_TO_BECOME_REPH)
    (h1 : (getInfo info (start + 1)).indic_position = POS_BASE_C) :
    final_find_base info start (start + 3) = start + 1 := by
  unfold final_find_base findFrom
  have e : start + 3 - start = 3 := by omega
  rw [e]
  simp [List.range', h0, h1]

theorem find_new_reph_pos_s6 (opts : indic_options_t) (script : Nat)
    (info : List hb_glyph_info_t) (start : Nat)
    (hs : reph_pos_of_script script = reph_position_t.REPH_BEFORE_POSTSCRIPT)
    (h2 : (getInfo info (start + 2)).indic_position = POS_POST_C) :
    find_new_reph_pos opts script info start (start + 3) (start + 1) = start + 2 := by
  have h6 : reph_step_6 opts info start (start + 3) (start + 1) = start + 2 := by
    unfold reph_step_6
    have e : start + 3 - 1 = start + 2 := by omega
    have hsd : scanDown (fun j => (getInfo info j).indic_position != POS_SMVD) start
        (start + 2) = start + 2 := by
      unfold scanDown
      simp [h2]
    simp only [e, hsd]
    split_ifs
    · unfold reph_step_6_loop
      simp
    · rfl
  unfold find_new_reph_pos
  simp only [hs]
  have e0 : start + 1 - (start + 1) = 0 := by omega
  rw [e0]
  have hsu : scanUp (fun j => is_halant_or_coeng (getInfo info j)) (start + 1) 0 (start + 1) =
      start + 1 := by
    unfold scanUp
    rfl
  rw [hsu]
  simp [h6]

/-- The buffer that the three glyph moves of final reordering leave on a syllable made of a
ligated reph, the base and one post-base glyph: the reph has moved to the last slot. -/
theorem final_reordering_rotations_s6 (opts : indic_options_t) (script : Nat)
    (info : List hb_glyph_info_t) (pref_mask start : Nat) (he : start + 3 ≤ info.length)
    (hs : reph_pos_of_script script = reph_position_t.REPH_BEFORE_POSTSCRIPT)
    (h0 : (getInfo info start).indic_position = POS_RA_TO_BECOME_REPH)
    (h1 : (getInfo info (start + 1)).indic_position = POS_BASE_C)
    (h2 : (getInfo info (start + 2)).indic_position = POS_POST_C)
    (hp : (getInfo info start).mask &&& pref_mask = 0) :
    final_reordering_rotations opts script info pref_mask start (start + 3) =
      { info := move_forward info start (start + 2), start_of_last_cluster := start } := by
  unfold final_reordering_rotations
  simp only
  rw [final_find_base_s6 info start h0 h1]
  rw [final_reorder_matras_of_no_pre_m _ (start + 3) (fun k hk1 hk2 => by
    have : k = start := by omega
    subst this
    show (getInfo info k).indic_position ≠ POS_PRE_M
    rw [h0]
    simp)]
  have hreph : final_reorder_reph opts script
      { info := info, start_of_last_cluster := start + 1 } start (start + 3) (start + 1) =
      { info := move_forward info start (start + 2), start_of_last_cluster := start } := by
    unfold final_reorder_reph
    rw [if_pos ⟨by omega, h0, by rw [h1]; simp⟩, find_new_reph_pos_s6 opts script info start hs h2]
  rw [hreph]
  unfold final_reorder_pref
  split_ifs with hc
  · have hnone : findFrom
        (fun i => (getInfo (move_forward info start (start + 2)) i).mask &&& pref_mask != 0)
        (start + 1 + 1) (start + 3) = none := by
      unfold findFrom
      have e : start + 3 - (start + 1 + 1) = 1 := by omega
      rw [e]
      have hg : getInfo (move_forward info start (start + 2)) (start + 1 + 1) =
          getInfo info start := by
        rw [getInfo_move_forward info (by omega) (by omega), if_neg (by omega),
          if_neg (by omega), if_pos (by omega)]
      simp [List.range', hg, hp]
    simp only [hnone]
  · rfl

/-- C14, as amended: for every syllable of three glyphs that consists of a ligated reph
glyph (`POS_RA_TO_BECOME_REPH`) at `start`, the base (`POS_BASE_C`) and one post-base glyph
(`POS_POST_C`), in a script of reph class `REPH_BEFORE_POSTSCRIPT` such as Devanagari, the reph
carrying no `pref` mask bit, final reordering moves the reph to the last slot of the syllable,
behind the post-base glyph: the result holds the base at `start`, the post-base glyph at
`start + 1` and the reph at `start + 2`, each glyph as it was but for the cluster value, which
is one and the same for the three. -/
theorem final_reordering_reph_after_post_base (opts : indic_options_t) (script : Nat)
    (info : List hb_glyph_info_t) (init_mask pref_mask start : Nat)
    (he : start + 3 ≤ info.length)
    (hs : reph_pos_of_script script = reph_position_t.REPH_BEFORE_POSTSCRIPT)
    (h0 : (getInfo info start).indic_position = POS_RA_TO_BECOME_REPH)
    (h1 : (getInfo info (start + 1)).indic_position = POS_BASE_C)
    (h2 : (getInfo info (start + 2)).indic_position = POS_POST_C)
    (hp : (getInfo info start).mask &&& pref_mask = 0) :
    ∃ c,
      getInfo (final_reordering_syllable opts script info init_mask pref_mask start
        (start + 3)) start = { getInfo info (start + 1) with cluster := c } ∧
      getInfo (final_reordering_syllable opts script info init_mask pref_mask start
        (start + 3)) (start + 1) = { getInfo info (start + 2) with cluster := c } ∧
      getInfo (final_reordering_syllable opts script info init_mask pref_mask start
        (start + 3)) (start + 2) = { getInfo info start with cluster := c } := by
  have hrot := final_reordering_rotations_s6 opts script info pref_mask start he hs h0 h1 h2 hp
  have hl : (move_forward info start (start + 2)).length = info.length :=
    (move_forward_sameOutside info (Nat.le_refl start) (by omega)
      (Nat.lt_succ_self (start + 2)) he).1
  have g0 : getInfo (move_forward info start (start + 2)) start = getInfo info (start + 1) := by
    rw [getInfo_move_forward info (by omega) (by omega), if_neg (by omega), if_pos (by omega)]
  have g1 : getInfo (move_forward info start (start + 2)) (start + 1) =
      getInfo info (start + 2) := by
    rw [getInfo_move_forward info (by omega) (by omega), if_neg (by omega), if_pos (by omega)]
  have g2 : getInfo (move_forward info start (start + 2)) (start + 2) = getInfo info start := by
    rw [getInfo_move_forward info (by omega) (by omega), if_neg (by omega), if_neg (by omega),
      if_pos rfl]
  have hout : final_reordering_syllable opts script info init_mask pref_mask start
      (start + 3) = merge_clusters (move_forward info start (start + 2)) start (start + 3) := by
    unfold final_reordering_syllable
    rw [final_reordering_moves_eq, hrot]
    have hinit : final_apply_init init_mask (move_forward info start (start + 2)) start =
        move_forward info start (start + 2) := by
      unfold final_apply_init
      rw [if_neg]
      rw [g0, h1]
      simp
    simp only [hinit]
    unfold finish_clusters
    split_ifs
    · simp only
      have e : start - (start + 1) = 0 := by omega
      rw [e]
      unfold cluster_boundary_loop
      rfl
    · rfl
  rw [hout]
  obtain ⟨c, hc⟩ := merge_clusters_spec (move_forward info start (start + 2)) start (start + 3)
  refine ⟨c, ?_, ?_, ?_⟩
  · rw [hc, if_pos ⟨Nat.le_refl _, by omega, by omega⟩, g0]
  · rw [hc, if_pos ⟨by omega, by omega, by omega⟩, g1]
  · rw [hc, if_pos ⟨by omega, by omega, by omega⟩, g2]

/-- Witness of the amended C14 on scenario S6. -/
theorem final_reordering_reph_after_post_base_witness :
    (0 + 3 ≤ example_reph_ma_ya.length ∧
      reph_pos_of_script HB_SCRIPT_DEVANAGARI = reph_position_t.REPH_BEFORE_POSTSCRIPT ∧
      (getInfo example_reph_ma_ya 0).indic_position = POS_RA_TO_BECOME_REPH ∧
      (getInfo example_reph_ma_ya (0 + 1)).indic_position = POS_BASE_C ∧
      (getInfo example_reph_ma_ya (0 + 2)).indic_position = POS_POST_C ∧
      (getInfo example_reph_ma_ya 0).mask &&& example_masks PREF = 0) ∧
    ∃ c,
      getInfo (final_reordering_syllable ⟨false⟩ HB_SCRIPT_DEVANAGARI example_reph_ma_ya 1
        (example_masks PREF) 0 (0 + 3)) 0 =
        { getInfo example_reph_ma_ya (0 + 1) with cluster := c } ∧
      getInfo (final_reordering_syllable ⟨false⟩ HB_SCRIPT_DEVANAGARI example_reph_ma_ya 1
        (example_masks PREF) 0 (0 + 3)) (0 + 1) =
        { getInfo example_reph_ma_ya (0 + 2) with cluster := c } ∧
      getInfo (final_reordering_syllable ⟨false⟩ HB_SCRIPT_DEVANAGARI example_reph_ma_ya 1
        (example_masks PREF) 0 (0 + 3)) (0 + 2) =
        { getInfo example_reph_ma_ya 0 with cluster := c } :=
  ⟨⟨by decide, by decide, by decide, by decide, by decide, by decide⟩,
    final_reordering_reph_after_post_base ⟨false⟩ HB_SCRIPT_DEVANAGARI example_reph_ma_ya 1
      (example_masks PREF) 0 (by decide) (by decide) (by decide) (by decide) (by decide)
      (by decide)⟩

/-- Counterexample to C14 as stated: on scenario S6 the reph (U+0930) is not at index 1,
between the base (U+092E) and the post-base glyph (U+092F); the order left is base,
post-base glyph, reph. -/
theorem final_reordering_reph_not_between :
    ¬ ((final_reordering_syllable ⟨false⟩ HB_SCRIPT_DEVANAGARI example_reph_ma_ya 1
      (example_masks PREF) 0 3).map (fun g => g.codepoint) = [0x092E, 0x0930, 0x092F]) := by
  decide

/-- The order final reordering leaves on scenario S6. -/
theorem final_reordering_scenario_s6 :
    (final_reordering_syllable ⟨false⟩ HB_SCRIPT_DEVANAGARI example_reph_ma_ya 1
      (example_masks PREF) 0 3).map (fun g => (g.codepoint, g.indic_position)) =
      [(0x092E, POS_BASE_C), (0x092F, POS_POST_C), (0x0930, POS_RA_TO_BECOME_REPH)] := by
  decide


/-! ## The categorizer -/

theorem codepoint_setup_masks_category (t : indic_tables_t) (g : hb_glyph_info_t) :
    (setup_masks_category t g).codepoint = g.codepoint := rfl

theorem codepoint_setup_masks_position (t : indic_tables_t) (g : hb_glyph_info_t) :
    (setup_masks_position t g).codepoint = g.codepoint := by
  unfold setup_masks_position
  simp only
  split_ifs <;> rfl

/-- The category that the overrides leave on a code point of U+0951..U+0954. -/
theorem setup_masks_category_vedic (t : indic_tables_t) (g : hb_glyph_info_t)
    (h1 : 0x0951 ≤ g.codepoint) (h2 : g.codepoint ≤ 0x0954) :
    (setup_masks_category t g).indic_category = OT_VD := by
  have h3 : ¬ g.codepoint = 0x17D2 := by omega
  unfold setup_masks_category
  simp [h1, h2, h3]

/-- C15: for every code point in U+0951..U+0954, whatever the tables return and whatever the
other fields of the glyph, the categorizer assigns `indic_category` `OT_VD` and
`indic_position` `POS_SMVD`.  On scenario S5, U+092E U+0947 U+0952 with the table listing
U+0952 as `A`, the categorizer yields (092E, C, BASE_C), (0947, M, ABOVE_M), (0952, VD, SMVD)
and initial reordering leaves that order and those positions. -/
theorem setup_masks_vedic (t : indic_tables_t) (g : hb_glyph_info_t)
    (h1 : 0x0951 ≤ g.codepoint) (h2 : g.codepoint ≤ 0x0954) :
    (setup_masks_glyph t g).indic_category = OT_VD ∧
    (setup_masks_glyph t g).indic_position = POS_SMVD ∧
    (setup_masks_indic example_tables example_raw_ma_e_vd).map
      (fun g => (g.codepoint, g.indic_category, g.indic_position)) =
      [(0x092E, OT_C, POS_BASE_C), (0x0947, OT_M, POS_ABOVE_M), (0x0952, OT_VD, POS_SMVD)] ∧
    (initial_reordering_consonant_syllable ⟨false⟩ (HB_TAG 'd' 'e' 'v' '2')
      HB_SCRIPT_DEVANAGARI example_masks (setup_masks_indic example_tables example_raw_ma_e_vd)
      0 3).map (fun g => (g.codepoint, g.indic_category, g.indic_position)) =
      [(0x092E, OT_C, POS_BASE_C), (0x0947, OT_M, POS_ABOVE_M),
       (0x0952, OT_VD, POS_SMVD)] := by
  have hc := setup_masks_category_vedic t g h1 h2
  have hpos : setup_masks_position t (setup_masks_category t g) =
      { setup_masks_category t g with indic_position := POS_SMVD } := by
    unfold setup_masks_position
    rw [if_neg (by unfold is_consonant; rw [hc]; decide), if_neg (by rw [hc]; simp),
      if_pos (Or.inr hc)]
  unfold setup_masks_glyph
  rw [hpos]
  exact ⟨hc, rfl, by decide, by decide⟩

/-- Witness of C15 at U+0952. -/
theorem setup_masks_vedic_witness :
    (0x0951 ≤ (raw_glyph 0x0952 hb_unicode_general_category_t.NON_SPACING_MARK 2).codepoint ∧
      (raw_glyph 0x0952 hb_unicode_general_category_t.NON_SPACING_MARK 2).codepoint ≤
        0x0954) ∧
    (setup_masks_glyph example_tables
      (raw_glyph 0x0952 hb_unicode_general_category_t.NON_SPACING_MARK 2)).indic_category =
      OT_VD ∧
    (setup_masks_glyph example_tables
      (raw_glyph 0x0952 hb_unicode_general_category_t.NON_SPACING_MARK 2)).indic_position =
      POS_SMVD :=
  have h := setup_masks_vedic example_tables
    (raw_glyph 0x0952 hb_unicode_general_category_t.NON_SPACING_MARK 2) (by decide) (by decide)
  ⟨⟨by decide, by decide⟩, h.1, h.2.1⟩

theorem is_consonant_set_position (g : hb_glyph_info_t) (p : indic_position_t) :
    is_consonant { g with indic_position := p } = is_consonant g := rfl

theorem is_consonant_ra (g : hb_glyph_info_t) :
    is_consonant { g with indic_category := OT_Ra } = true := rfl

/-- C16, as amended: for every code point, general category and table values, with `k` the
glyph as the table look-up and the category overrides of lines 261–294 leave it: if the
category of `k` is consonant-like (C, Ra, V, NBSP, DOTTEDCIRCLE), the categorizer leaves a
consonant-like category and `indic_position` equal to `consonant_position (codepoint)`; if it
is none of these and none of RS, SM, VD, then U+200C gets category ZWNJ, U+200D gets ZWJ and
U+25CC gets DOTTEDCIRCLE.  `consonant_position` is `POS_BELOW_C` for U+1780..U+17FF, the
position of the record of the code point in the exception table when there is one, and
`POS_BASE_C` otherwise. -/
theorem setup_masks_consonant_position (t : indic_tables_t) (g : hb_glyph_info_t) :
    (is_consonant (setup_masks_category t g) = true →
      is_consonant (setup_masks_glyph t g) = true ∧
      (setup_masks_glyph t g).indic_position = consonant_position t g.codepoint) ∧
    (is_consonant (setup_masks_category t g) = false →
      (setup_masks_category t g).indic_category ≠ OT_RS →
      (setup_masks_category t g).indic_category ≠ OT_SM →
      (setup_masks_category t g).indic_category ≠ OT_VD →
      (g.codepoint = 0x200C → (setup_masks_glyph t g).indic_category = OT_ZWNJ) ∧
      (g.codepoint = 0x200D → (setup_masks_glyph t g).indic_category = OT_ZWJ) ∧
      (g.codepoint = 0x25CC → (setup_masks_glyph t g).indic_category = OT_DOTTEDCIRCLE)) ∧
    (∀ u, (0x1780 ≤ u ∧ u ≤ 0x17FF → consonant_position t u = POS_BELOW_C) ∧
      (¬ (0x1780 ≤ u ∧ u ≤ 0x17FF) →
        (∀ record, t.consonant_positions.find? (fun r => r.1 == u) = some record →
          consonant_position t u = record.2) ∧
        ((∀ r ∈ t.consonant_positions, r.1 ≠ u) → consonant_position t u = POS_BASE_C))) := by
  refine ⟨?_, ?_, ?_⟩
  · intro hc
    unfold setup_masks_glyph setup_masks_position
    rw [if_pos hc, codepoint_setup_masks_category]
    simp only
    split_ifs
    · exact ⟨rfl, rfl⟩
    · exact ⟨hc, rfl⟩
  · intro hc h1 h2 h3
    unfold setup_masks_glyph setup_masks_position
    rw [if_neg (by rw [hc]; simp), if_neg h1, if_neg (by simp [h2, h3]),
      codepoint_setup_masks_category]
    refine ⟨fun e => ?_, fun e => ?_, fun e => ?_⟩
    · rw [if_pos e]
    · rw [if_neg (by omega), if_pos e]
    · rw [if_neg (by omega), if_neg (by omega), if_pos e]
  · intro u
    refine ⟨fun h => ?_, fun h => ⟨fun record hr => ?_, fun hn => ?_⟩⟩
    · unfold consonant_position
      rw [if_pos h]
    · unfold consonant_position
      rw [if_neg h, hr]
    · unfold consonant_position
      rw [if_neg h]
      have : t.consonant_positions.find? (fun r => r.1 == u) = none := by
        rw [List.find?_eq_none]
        intro r hr
        simpa using hn r hr
      rw [this]

/-- Witness of the amended C16: with a table that lists every code point as a consonant,
U+0915 gets `consonant_position`. -/
theorem setup_masks_consonant_position_witness :
    is_consonant (setup_masks_category example_tables_consonant
      (raw_glyph 0x0915 hb_unicode_general_category_t.OTHER_LETTER 0)) = true ∧
    is_consonant (setup_masks_glyph example_tables_consonant
      (raw_glyph 0x0915 hb_unicode_general_category_t.OTHER_LETTER 0)) = true ∧
    (setup_masks_glyph example_tables_consonant
      (raw_glyph 0x0915 hb_unicode_general_category_t.OTHER_LETTER 0)).indic_position =
      consonant_position example_tables_consonant
        (raw_glyph 0x0915 hb_unicode_general_category_t.OTHER_LETTER 0).codepoint :=
  have hc : is_consonant (setup_masks_category example_tables_consonant
      (raw_glyph 0x0915 hb_unicode_general_category_t.OTHER_LETTER 0)) = true := by decide
  ⟨hc, (setup_masks_consonant_position example_tables_consonant
    (raw_glyph 0x0915 hb_unicode_general_category_t.OTHER_LETTER 0)).1 hc⟩

/-- Counterexample to C16 as stated: with U+25CC listed as `X`, the categorizer leaves it the
consonant-like category DOTTEDCIRCLE with the position of the table, not with
`consonant_position (0x25CC)`, which is `POS_BASE_C`. -/
theorem setup_masks_dotted_circle_position :
    ¬ (is_consonant (setup_masks_glyph example_tables_other
        (raw_glyph 0x25CC hb_unicode_general_category_t.OTHER_SYMBOL 0)) = true →
      (setup_masks_glyph example_tables_other
        (raw_glyph 0x25CC hb_unicode_general_category_t.OTHER_SYMBOL 0)).indic_position =
        consonant_position example_tables_other 0x25CC) := by
  decide

/-- When the table lists U+200C as a consonant it stays one: the joiner branch is the end of
the `else if` chain that starts with the consonant test. -/
theorem setup_masks_zwnj_listed_as_consonant :
    (setup_masks_glyph example_tables_consonant
      (raw_glyph 0x200C hb_unicode_general_category_t.FORMAT 0)).indic_category = OT_C := by
  decide

/-! ## The feature plan -/

/-- C17: the feature plan of `collect_features` is exactly: bool feature `locl`, bool feature
`ccmp`, a pause invoking `initial_reordering`, then for each of `nukt`, `akhn`, `rphf`,
`rkrf`, `pref`, `blwf`, `half`, `abvf`, `pstf`, `cfar`, `cjct`, `vatu`, in that order, a bool
feature with its flag followed by a pause with no callback, then a pause invoking
`final_reordering`, then the other features; among the twelve basic features the global flag
is true exactly for `nukt`, `rkrf` and `vatu`; and each index constant selects the table entry
with the same-named tag. -/
theorem collect_features_plan :
    collect_features_indic =
      [map_builder_call_t.add_bool_feature (HB_TAG 'l' 'o' 'c' 'l') none,
       map_builder_call_t.add_bool_feature (HB_TAG 'c' 'c' 'm' 'p') none,
       map_builder_call_t.add_gsub_pause (some pause_callback_t.initial_reordering),
       map_builder_call_t.add_bool_feature (HB_TAG 'n' 'u' 'k' 't') (some true),
       map_builder_call_t.add_gsub_pause none,
       map_builder_call_t.add_bool_feature (HB_TAG 'a' 'k' 'h' 'n') (some false),
       map_builder_call_t.add_gsub_pause none,
       map_builder_call_t.add_bool_feature (HB_TAG 'r' 'p' 'h' 'f') (some false),
       map_builder_call_t.add_gsub_pause none,
       map_builder_call_t.add_bool_feature (HB_TAG 'r' 'k' 'r' 'f') (some true),
       map_builder_call_t.add_gsub_pause none,
       map_builder_call_t.add_bool_feature (HB_TAG 'p' 'r' 'e' 'f') (some false),
       map_builder_call_t.add_gsub_pause none,
       map_builder_call_t.add_bool_feature (HB_TAG 'b' 'l' 'w' 'f') (some false),
       map_builder_call_t.add_gsub_pause none,
       map_builder_call_t.add_bool_feature (HB_TAG 'h' 'a' 'l' 'f') (some false),
       map_builder_call_t.add_gsub_pause none,
       map_builder_call_t.add_bool_feature (HB_TAG 'a' 'b' 'v' 'f') (some false),
       map_builder_call_t.add_gsub_pause none,
       map_builder_call_t.add_bool_feature (HB_TAG 'p' 's' 't' 'f') (some false),
       map_builder_call_t.add_gsub_pause none,
       map_builder_call_t.add_bool_feature (HB_TAG 'c' 'f' 'a' 'r') (some false),
       map_builder_call_t.add_gsub_pause none,
       map_builder_call_t.add_bool_feature (HB_TAG 'c' 'j' 'c' 't') (some false),
       map_builder_call_t.add_gsub_pause none,
       map_builder_call_t.add_bool_feature (HB_TAG 'v' 'a' 't' 'u') (some true),
       map_builder_call_t.add_gsub_pause none,
       map_builder_call_t.add_gsub_pause (some pause_callback_t.final_reordering)] ++
      indic_other_features.map (fun f =>
        map_builder_call_t.add_bool_feature f.tag (some f.is_global)) ∧
    (indic_basic_features.filter (fun f => f.is_global)).map (fun f => f.tag) =
      [HB_TAG 'n' 'u' 'k' 't', HB_TAG 'r' 'k' 'r' 'f', HB_TAG 'v' 'a' 't' 'u'] ∧
    indic_basic_features.length = 12 ∧
    (indic_basic_features.map (fun f => f.tag)).get? _NUKT = some (HB_TAG 'n' 'u' 'k' 't') ∧
    (indic_basic_features.map (fun f => f.tag)).get? AKHN = some (HB_TAG 'a' 'k' 'h' 'n') ∧
    (indic_basic_features.map (fun f => f.tag)).get? RPHF = some (HB_TAG 'r' 'p' 'h' 'f') ∧
    (indic_basic_features.map (fun f => f.tag)).get? _RKRF = some (HB_TAG 'r' 'k' 'r' 'f') ∧
    (indic_basic_features.map (fun f => f.tag)).get? PREF = some (HB_TAG 'p' 'r' 'e' 'f') ∧
    (indic_basic_features.map (fun f => f.tag)).get? BLWF = some (HB_TAG 'b' 'l' 'w' 'f') ∧
    (indic_basic_features.map (fun f => f.tag)).get? HALF = some (HB_TAG 'h' 'a' 'l' 'f') ∧
    (indic_basic_features.map (fun f => f.tag)).get? ABVF = some (HB_TAG 'a' 'b' 'v' 'f') ∧
    (indic_basic_features.map (fun f => f.tag)).get? PSTF = some (HB_TAG 'p' 's' 't' 'f') ∧
    (indic_basic_features.map (fun f => f.tag)).get? CFAR = some (HB_TAG 'c' 'f' 'a' 'r') ∧
    (indic_basic_features.map (fun f => f.tag)).get? CJCT = some (HB_TAG 'c' 'j' 'c' 't') ∧
    (indic_basic_features.map (fun f => f.tag)).get? VATU = some (HB_TAG 'v' 'a' 't' 'u') := by
  refine ⟨rfl, ?_, rfl, ?_, ?_, ?_, ?_, ?_, ?_, ?_, ?_, ?_, ?_, ?_, ?_⟩ <;> decide

/-- C18, as amended: after the pause invoking `final_reordering`, and with no pause between
them, `collect_features` adds the nine other features `init`, `pres`, `abvs`, `blws`, `psts`,
`haln`, `dist`, `abvm`, `blwm` in that order, `init` with the global flag off and the other
eight as global features; these ten calls end the plan of 37 calls. -/
theorem collect_features_other :
    collect_features_indic.length = 37 ∧
    collect_features_indic.drop 27 =
      [map_builder_call_t.add_gsub_pause (some pause_callback_t.final_reordering),
       map_builder_call_t.add_bool_feature (HB_TAG 'i' 'n' 'i' 't') (some false),
       map_builder_call_t.add_bool_feature (HB_TAG 'p' 'r' 'e' 's') (some true),
       map_builder_call_t.add_bool_feature (HB_TAG 'a' 'b' 'v' 's') (some true),
       map_builder_call_t.add_bool_feature (HB_TAG 'b' 'l' 'w' 's') (some true),
       map_builder_call_t.add_bool_feature (HB_TAG 'p' 's' 't' 's') (some true),
       map_builder_call_t.add_bool_feature (HB_TAG 'h' 'a' 'l' 'n') (some true),
       map_builder_call_t.add_bool_feature (HB_TAG 'd' 'i' 's' 't') (some true),
       map_builder_call_t.add_bool_feature (HB_TAG 'a' 'b' 'v' 'm') (some true),
       map_builder_call_t.add_bool_feature (HB_TAG 'b' 'l' 'w' 'm') (some true)] ∧
    (∀ c ∈ collect_features_indic.take 27,
      c ≠ map_builder_call_t.add_gsub_pause (some pause_callback_t.final_reordering)) := by
  refine ⟨rfl, rfl, ?_⟩
  decide

/-- Counterexample to C18 as stated: not every other feature is added as a global feature,
`init` being added with the flag off. -/
theorem collect_features_init_not_global :
    ¬ (∀ f ∈ indic_other_features, f.is_global = true) := by
  decide


/-! ## Base selection without joiners -/

theorem stops_base_scan_iff (g : hb_glyph_info_t) :
    stops_base_scan g = true ↔
      is_consonant g = true ∧ g.indic_position ≠ POS_BELOW_C ∧
        g.indic_position ≠ POS_POST_C := by
  unfold stops_base_scan
  simp [and_assoc]

/-- What the backward scan returns when it meets no joiner: the greatest index at which the
scan stops, else the least index of a consonant-like glyph, else the candidate it was given. -/
theorem find_base_last_of_no_joiner (info : List hb_glyph_info_t) (limit : Nat) :
    ∀ i base, limit ≤ i →
      (∀ k, limit ≤ k → k ≤ i → is_joiner (getInfo info k) = false) →
      (∀ b, limit ≤ b → b ≤ i → stops_base_scan (getInfo info b) = true →
        (∀ k, b < k → k ≤ i → stops_base_scan (getInfo info k) = false) →
        find_base_last info limit i base = b) ∧
      ((∀ k, limit ≤ k → k ≤ i → stops_base_scan (getInfo info k) = false) →
        (∀ b, limit ≤ b → b ≤ i → is_consonant (getInfo info b) = true →
          (∀ k, limit ≤ k → k < b → is_consonant (getInfo info k) = false) →
          find_base_last info limit i base = b) ∧
        ((∀ k, limit ≤ k → k ≤ i → is_consonant (getInfo info k) = false) →
          find_base_last info limit i base = base)) := by
  intro i
  induction i with
  | zero =>
    intro base hl hnj
    have hl0 : limit = 0 := by omega
    subst hl0
    refine ⟨fun b _ hb2 hs _ => ?_, fun _ => ⟨fun b _ hb2 hc _ => ?_, fun hn => ?_⟩⟩
    · have hb0 : b = 0 := by omega
      subst hb0
      unfold find_base_last
      rw [if_pos ((stops_base_scan_iff _).mp hs).1]
    · have hb0 : b = 0 := by omega
      subst hb0
      unfold find_base_last
      rw [if_pos hc]
    · unfold find_base_last
      rw [if_neg (by rw [hn 0 (Nat.le_refl _) (Nat.le_refl _)]; simp)]
  | succ i ih =>
    intro base hl hnj
    by_cases hlim : limit < i + 1
    · have ihb := fun base' => ih base' (by omega) (fun k hk1 hk2 => hnj k hk1 (by omega))
      refine ⟨fun b hb1 hb2 hs hgt => ?_, fun hns => ⟨fun b hb1 hb2 hc hlt => ?_, fun hn => ?_⟩⟩
      · unfold find_base_last
        by_cases hbi : b = i + 1
        · subst hbi
          obtain ⟨s1, s2, s3⟩ := (stops_base_scan_iff _).mp hs
          rw [if_pos s1, if_pos ⟨s2, s3⟩]
        · have hnot := hgt (i + 1) (by omega) (Nat.le_refl _)
          by_cases hc : is_consonant (getInfo info (i + 1)) = true
          · rw [if_pos hc, if_neg (fun h => by
              have := (stops_base_scan_iff (getInfo info (i + 1))).mpr ⟨hc, h.1, h.2⟩
              rw [hnot] at this
              exact Bool.noConfusion this), if_pos hlim]
            exact (ihb (i + 1)).1 b hb1 (by omega) hs (fun k hk1 hk2 => hgt k hk1 (by omega))
          · rw [if_neg hc, if_neg (by rw [hnj (i + 1) (by omega) (Nat.le_refl _)]; simp),
              if_pos hlim]
            exact (ihb base).1 b hb1 (by omega) hs (fun k hk1 hk2 => hgt k hk1 (by omega))
      · unfold find_base_last
        have hnot := hns (i + 1) (by omega) (Nat.le_refl _)
        by_cases hci : is_consonant (getInfo info (i + 1)) = true
        · rw [if_pos hci, if_neg (fun h => by
            have := (stops_base_scan_iff (getInfo info (i + 1))).mpr ⟨hci, h.1, h.2⟩
            rw [hnot] at this
            exact Bool.noConfusion this), if_pos hlim]
          have ih2 := ((ihb (i + 1)).2 (fun k hk1 hk2 => hns k hk1 (by omega)))
          by_cases hbi : b = i + 1
          · subst hbi
            exact ih2.2 (fun k hk1 hk2 => hlt k hk1 (by omega))
          · exact ih2.1 b hb1 (by omega) hc hlt
        · rw [if_neg hci, if_neg (by rw [hnj (i + 1) (by omega) (Nat.le_refl _)]; simp),
            if_pos hlim]
          have hbi : b ≠ i + 1 := fun e => hci (e ▸ hc)
          exact ((ihb base).2 (fun k hk1 hk2 => hns k hk1 (by omega))).1 b hb1 (by omega)
            hc hlt
      · unfold find_base_last
        rw [if_neg (by rw [hn (i + 1) (by omega) (Nat.le_refl _)]; simp),
          if_neg (by rw [hnj (i + 1) (by omega) (Nat.le_refl _)]; simp), if_pos hlim]
        exact ((ihb base).2 (fun k hk1 hk2 => hns k hk1 (by omega))).2
          (fun k hk1 hk2 => hn k hk1 (by omega))
    · have hli : limit = i + 1 := by omega
      refine ⟨fun b hb1 hb2 hs _ => ?_, fun hns => ⟨fun b hb1 hb2 hc _ => ?_, fun hn => ?_⟩⟩
      · have hbi : b = i + 1 := by omega
        subst hbi
        obtain ⟨s1, s2, s3⟩ := (stops_base_scan_iff _).mp hs
        unfold find_base_last
        rw [if_pos s1, if_pos ⟨s2, s3⟩]
      · have hbi : b = i + 1 := by omega
        subst hbi
        unfold find_base_last
        rw [if_pos hc]
        split_ifs <;> rfl
      · unfold find_base_last
        rw [if_neg (by rw [hn (i + 1) (by omega) (Nat.le_refl _)]; simp),
          if_neg (by rw [hnj (i + 1) (by omega) (Nat.le_refl _)]; simp), if_neg hlim]

/-- Before the reph step every glyph before the base has `POS_PRE_C`. -/
theorem getInfo_assign_positions_pre (a : List hb_glyph_info_t) {start end_ base i : Nat}
    (hl : end_ ≤ a.length) (hbe : base ≤ end_) (h1 : start ≤ i) (h2 : i < base) :
    getInfo (assign_positions a start end_ base false) i =
      { getInfo a i with indic_position := POS_PRE_C } := by
  unfold assign_positions
  simp only
  obtain ⟨l0, g0⟩ := forRange_setPos_spec POS_PRE_C start base a
  have q1 : getInfo (if base < end_ then
      setPos (forRange start base (fun i info => setPos info i POS_PRE_C) a) base POS_BASE_C
      else forRange start base (fun i info => setPos info i POS_PRE_C) a) i =
      { getInfo a i with indic_position := POS_PRE_C } := by
    split_ifs
    · rw [getInfo_setPos, if_neg (by omega), g0, if_pos ⟨h1, h2, by omega⟩]
    · rw [g0, if_pos ⟨h1, h2, by omega⟩]
  generalize (if base < end_ then
      setPos (forRange start base (fun i info => setPos info i POS_PRE_C) a) base POS_BASE_C
      else forRange start base (fun i info => setPos info i POS_PRE_C) a) = s1 at q1 ⊢
  rw [if_neg (by simp)]
  rcases mark_final_consonant_cases s1 base end_ with h | ⟨j, hj, _, _, h⟩
  · rw [h]; exact q1
  · rw [h, getInfo_setPos, if_neg (by omega)]
    exact q1

theorem find_base_of_not_khmer (script : Nat) (basic_mask_array : Nat → Nat)
    (info : List hb_glyph_info_t) (start end_ : Nat) (hk : script ≠ HB_SCRIPT_KHMER) :
    (find_base script basic_mask_array info start end_).1 =
      if find_base_last info (base_scan_limit basic_mask_array info start end_) (end_ - 1)
          (if reph_precondition basic_mask_array info start end_ then start else end_) <
          start then start
      else find_base_last info (base_scan_limit basic_mask_array info start end_) (end_ - 1)
          (if reph_precondition basic_mask_array info start end_ then start else end_) := by
  unfold find_base base_scan_limit
  simp only
  rw [if_neg hk]

/-- C20: base selection for a script other than Khmer on a syllable (`start < end ≤ len`)
that contains no joiner, `limit` being `start + 2` when the reph precondition holds and
`start` otherwise.  If some consonant-like glyph at an index in `[limit, end)` has a position
other than `POS_BELOW_C` and `POS_POST_C`, the base is the one of greatest index; otherwise,
if some consonant-like glyph exists in `[limit, end)`, the base is the one of least index.
Position assignment then gives the glyph at the base `POS_BASE_C` and every glyph in
`[start, base)` `POS_PRE_C`: that is the state before the reph step, which only adds
`POS_RA_TO_BECOME_REPH` at `start` when reph was decided. -/
theorem find_base_of_no_joiner (script : Nat) (basic_mask_array : Nat → Nat)
    (info : List hb_glyph_info_t) (start end_ : Nat) (hse : start < end_)
    (he : end_ ≤ info.length) (hk : script ≠ HB_SCRIPT_KHMER)
    (hnj : ∀ i, start ≤ i → i < end_ → is_joiner (getInfo info i) = false) :
    (∀ b, base_scan_limit basic_mask_array info start end_ ≤ b → b < end_ →
      stops_base_scan (getInfo info b) = true →
      (∀ k, b < k → k < end_ → stops_base_scan (getInfo info k) = false) →
      (find_base script basic_mask_array info start end_).1 = b) ∧
    ((∀ k, base_scan_limit basic_mask_array info start end_ ≤ k → k < end_ →
        stops_base_scan (getInfo info k) = false) →
      ∀ b, base_scan_limit basic_mask_array info start end_ ≤ b → b < end_ →
        is_consonant (getInfo info b) = true →
        (∀ k, base_scan_limit basic_mask_array info start end_ ≤ k → k < b →
          is_consonant (getInfo info k) = false) →
        (find_base script basic_mask_array info start end_).1 = b) ∧
    ((find_base script basic_mask_array info start end_).1 < end_ →
      getInfo (assign_positions info start end_
          (find_base script basic_mask_array info start end_).1 false)
          (find_base script basic_mask_array info start end_).1 =
        { getInfo info (find_base script basic_mask_array info start end_).1 with
          indic_position := POS_BASE_C }) ∧
    (∀ i, start ≤ i → i < (find_base script basic_mask_array info start end_).1 →
      getInfo (assign_positions info start end_
          (find_base script basic_mask_array info start end_).1 false) i =
        { getInfo info i with indic_position := POS_PRE_C }) ∧
    assign_positions info start end_ (find_base script basic_mask_array info start end_).1
        (find_base script basic_mask_array info start end_).2 =
      (if (find_base script basic_mask_array info start end_).2 = true then
        setPos (assign_positions info start end_
          (find_base script basic_mask_array info start end_).1 false) start
          POS_RA_TO_BECOME_REPH
      else assign_positions info start end_
        (find_base script basic_mask_array info start end_).1 false) := by
  obtain ⟨hb1, hb2⟩ := find_base_bounds script basic_mask_array info hse
  have hlim1 : start ≤ base_scan_limit basic_mask_array info start end_ := by
    unfold base_scan_limit
    split_ifs <;> omega
  have hlim2 : base_scan_limit basic_mask_array info start end_ ≤ end_ - 1 := by
    unfold base_scan_limit
    split_ifs with h
    · have := reph_precondition_bound h
      omega
    · omega
  have hscan := find_base_last_of_no_joiner info
    (base_scan_limit basic_mask_array info start end_) (end_ - 1)
    (if reph_precondition basic_mask_array info start end_ then start else end_) hlim2
    (fun k hk1 hk2 => hnj k (by omega) (by omega))
  have hfb := find_base_of_not_khmer script basic_mask_array info start end_ hk
  refine ⟨fun b h1 h2 h3 h4 => ?_, fun hns b h1 h2 h3 h4 => ?_, fun hlt => ?_,
    fun i h1 h2 => ?_, ?_⟩
  · rw [hfb, hscan.1 b h1 (by omega) h3 (fun k hk1 hk2 => h4 k hk1 (by omega)),
      if_neg (by omega)]
  · rw [hfb, ((hscan.2 (fun k hk1 hk2 => hns k hk1 (by omega))).1 b h1 (by omega) h3 h4),
      if_neg (by omega)]
  · exact getInfo_assign_positions_base info false hlt he (fun h => Bool.noConfusion h)
  · exact getInfo_assign_positions_pre info he hb2 h1 h2
  · cases (find_base script basic_mask_array info start end_).2 with
    | true => rw [if_pos rfl, assign_positions_true]
    | false => rw [if_neg (by simp)]

/-- Witness of C20 on scenario S3: the second consonant, at index 2, is the base. -/
theorem find_base_of_no_joiner_witness :
    (0 < 4 ∧ 4 ≤ (example_ka_h_ssa_i POS_BELOW_M).length ∧
      HB_SCRIPT_DEVANAGARI ≠ HB_SCRIPT_KHMER ∧
      (∀ i, 0 ≤ i → i < 4 →
        is_joiner (getInfo (example_ka_h_ssa_i POS_BELOW_M) i) = false) ∧
      base_scan_limit example_masks (example_ka_h_ssa_i POS_BELOW_M) 0 4 ≤ 2 ∧ 2 < 4 ∧
      stops_base_scan (getInfo (example_ka_h_ssa_i POS_BELOW_M) 2) = true ∧
      (∀ k, 2 < k → k < 4 →
        stops_base_scan (getInfo (example_ka_h_ssa_i POS_BELOW_M) k) = false)) ∧
    (find_base HB_SCRIPT_DEVANAGARI example_masks (example_ka_h_ssa_i POS_BELOW_M) 0 4).1 =
      2 :=
  have hnj : ∀ i, 0 ≤ i → i < 4 →
      is_joiner (getInfo (example_ka_h_ssa_i POS_BELOW_M) i) = false := by
    intro i _ h
    interval_cases i <;> decide
  have hgt : ∀ k, 2 < k → k < 4 →
      stops_base_scan (getInfo (example_ka_h_ssa_i POS_BELOW_M) k) = false := by
    intro k h1 h2
    have : k = 3 := by omega
    subst this
    decide
  ⟨⟨by decide, by decide, by decide, hnj, by decide, by decide, by decide, hgt⟩,
    (find_base_of_no_joiner HB_SCRIPT_DEVANAGARI example_masks
      (example_ka_h_ssa_i POS_BELOW_M) 0 4 (by decide) (by decide) (by decide) hnj).1 2
      (by decide) (by decide) (by decide) hgt⟩


/-! ## A second run of both passes -/

theorem scanDown_eq_of_forall (p : Nat → Bool) {lo : Nat} :
    ∀ j, lo ≤ j → (∀ k, lo < k → k ≤ j → p k = false) → scanDown p lo j = lo := by
  intro j
  induction j with
  | zero =>
    intro h _
    have : lo = 0 := by omega
    subst this
    rfl
  | succ j ih =>
    intro h hp
    by_cases hlo : lo = j + 1
    · subst hlo
      exact scanDown_of_le p (Nat.le_refl _)
    · unfold scanDown
      rw [if_pos ⟨by omega, hp (j + 1) (by omega) (Nat.le_refl _)⟩]
      exact ih (by omega) (fun k h1 h2 => hp k h1 (by omega))

theorem old_spec_halant_move_of_no_consonant (chosen_script : Nat) (a : List hb_glyph_info_t)
    {base end_ : Nat}
    (h : ∀ k, base < k → k < end_ → is_consonant (getInfo a k) = false) :
    old_spec_halant_move chosen_script a base end_ = a := by
  unfold old_spec_halant_move
  split_ifs with ho
  · cases hf : findFrom (fun i => (getInfo a i).indic_category == OT_H) (base + 1) end_ with
    | none => rfl
    | some i =>
      obtain ⟨f1, f2, _, _⟩ := findFrom_some hf
      simp only
      rw [scanDown_eq_of_forall (fun j => is_consonant (getInfo a j)) (end_ - 1) (by omega)
        (fun k h1 h2 => h k (by omega) (by omega))]
      rw [if_neg (by omega)]
  · rfl

theorem reattach_halants_of_no_consonant (a : List hb_glyph_info_t) {base end_ : Nat}
    (h : ∀ k, base < k → k < end_ → is_consonant (getInfo a k) = false) :
    reattach_halants a base end_ = a := by
  unfold reattach_halants
  apply forRange_induction (fun s : Nat × List hb_glyph_info_t => s.2 = a)
  · rfl
  · intro i s h1 h2 hs
    have hs : s.2 = a := hs
    split_ifs with hh hc
    · exact hs
    · rw [hs, h i (by omega) h2] at hc
      exact absurd hc (by simp)
    · exact hs

theorem mark_final_consonant_of_no_consonant (a : List hb_glyph_info_t) {base end_ : Nat}
    (h : ∀ k, base < k → k < end_ → is_consonant (getInfo a k) = false) :
    mark_final_consonant a base end_ = a := by
  rcases mark_final_consonant_cases a base end_ with h1 | ⟨j, j1, j2, j3, _⟩
  · exact h1
  · rw [h j (by omega) j2] at j3
    exact absurd j3 (by simp)

/-- What position assignment leaves at each index when no consonant follows the base. -/
theorem assign_positions_spec (a : List hb_glyph_info_t) {start end_ base : Nat}
    (has_reph : Bool) (hse : start < end_) (hl : end_ ≤ a.length) (hb1 : start ≤ base)
    (hb2 : base ≤ end_) (h : ∀ k, base < k → k < end_ → is_consonant (getInfo a k) = false) :
    (assign_positions a start end_ base has_reph).length = a.length ∧
    ∀ k, getInfo (assign_positions a start end_ base has_reph) k =
      if start ≤ k ∧ k ≤ base ∧ k < end_ then
        { getInfo a k with indic_position := assigned_position start base has_reph k }
      else getInfo a k := by
  obtain ⟨l0, g0⟩ := forRange_setPos_spec POS_PRE_C start base a
  unfold assign_positions
  simp only
  have key : (if base < end_ then
      setPos (forRange start base (fun i info => setPos info i POS_PRE_C) a) base POS_BASE_C
      else forRange start base (fun i info => setPos info i POS_PRE_C) a).length = a.length ∧
      ∀ k, getInfo (if base < end_ then
        setPos (forRange start base (fun i info => setPos info i POS_PRE_C) a) base POS_BASE_C
        else forRange start base (fun i info => setPos info i POS_PRE_C) a) k =
        if start ≤ k ∧ k ≤ base ∧ k < end_ then
          { getInfo a k with
            indic_position := assigned_position start base false k }
        else getInfo a k := by
    unfold assigned_position
    split_ifs with hbe
    · refine ⟨by rw [length_setPos, l0], fun k => ?_⟩
      rw [getInfo_setPos, g0, g0]
      by_cases hk : base = k
      · subst hk
        rw [if_pos ⟨rfl, by omega⟩, if_neg (by omega)]
        rw [if_pos ⟨hb1, Nat.le_refl _, hbe⟩]
        simp
      · rw [if_neg (by omega)]
        by_cases hc : start ≤ k ∧ k < base ∧ k < a.length
        · rw [if_pos hc, if_pos ⟨hc.1, by omega, by omega⟩]
          simp [Ne.symm hk]
        · rw [if_neg hc, if_neg (by omega)]
    · refine ⟨l0, fun k => ?_⟩
      rw [g0]
      by_cases hc : start ≤ k ∧ k < base ∧ k < a.length
      · rw [if_pos hc, if_pos ⟨hc.1, by omega, by omega⟩]
        simp [show k ≠ base by omega]
      · rw [if_neg hc, if_neg (by omega)]
  obtain ⟨l1, g1⟩ := key
  generalize (if base < end_ then
      setPos (forRange start base (fun i info => setPos info i POS_PRE_C) a) base POS_BASE_C
      else forRange start base (fun i info => setPos info i POS_PRE_C) a) = s1 at l1 g1 ⊢
  rw [mark_final_consonant_of_no_consonant s1 (fun k h1 h2 => by
    rw [g1, if_neg (by omega)]; exact h k h1 h2)]
  cases has_reph with
  | false =>
    rw [if_neg (by simp)]
    exact ⟨l1, g1⟩
  | true =>
    rw [if_pos rfl]
    refine ⟨by rw [length_setPos, l1], fun k => ?_⟩
    rw [getInfo_setPos, g1, g1]
    by_cases hk : start = k
    · subst hk
      rw [if_pos ⟨rfl, by omega⟩, if_pos ⟨Nat.le_refl _, hb1, hse⟩]
      simp [assigned_position, hb1, hse]
    · rw [if_neg (by omega)]
      by_cases hc : start ≤ k ∧ k ≤ base ∧ k < end_
      · rw [if_pos hc, if_pos hc]
        simp [assigned_position, Ne.symm hk]
      · rw [if_neg hc, if_neg hc]

/-- The attachment loop, for any loop body that acts as the plain one while no glyph it has
passed carries `POS_PRE_M`: each glyph of an attached category after `start` takes the position
its predecessor has at the end, every other glyph is kept. -/
theorem attach_loop_spec (body : Nat → List hb_glyph_info_t → List hb_glyph_info_t)
    (a : List hb_glyph_info_t) {start end_ : Nat}
    (hbody : ∀ i s, start < i → i < end_ →
      (∀ k, start ≤ k → k < i → (getInfo s k).indic_position ≠ POS_PRE_M) →
      body i s = if is_attached_category (getInfo s i).indic_category then
        setPos s i (getInfo s (i - 1)).indic_position else s)
    (hnp : ∀ k, start ≤ k → k < end_ → (getInfo a k).indic_position = POS_PRE_M →
      start < k ∧ is_attached_category (getInfo a k).indic_category = true) :
    (forRange (start + 1) end_ body a).length = a.length ∧
    ∀ k, getInfo (forRange (start + 1) end_ body a) k =
      if start < k ∧ k < end_ ∧ k < a.length ∧
          is_attached_category (getInfo a k).indic_category = true then
        { getInfo a k with
          indic_position := (getInfo (forRange (start + 1) end_ body a) (k - 1)).indic_position }
      else getInfo a k := by
  by_cases hse : start + 1 ≤ end_
  · have key := forRange_induction_idx
      (fun i (s : List hb_glyph_info_t) => s.length = a.length ∧
        (∀ k, i ≤ k → getInfo s k = getInfo a k) ∧
        (∀ k, k < i → getInfo s k =
          if start < k ∧ k < end_ ∧ k < a.length ∧
              is_attached_category (getInfo a k).indic_category = true then
            { getInfo a k with indic_position := (getInfo s (k - 1)).indic_position }
          else getInfo a k) ∧
        (∀ k, start ≤ k → k < i → (getInfo s k).indic_position ≠ POS_PRE_M))
      (start + 1) end_ body a hse
      ⟨rfl, fun _ _ => rfl, fun k hk => by rw [if_neg (by omega)], fun k h1 h2 hp => by
        have := (hnp k h1 (by omega) hp).1
        omega⟩ ?_
    · obtain ⟨k1, k2, k3, _⟩ := key
      refine ⟨k1, fun k => ?_⟩
      by_cases hk : k < end_
      · exact k3 k hk
      · rw [k2 k (by omega), if_neg (by omega)]
    · intro i s h1 h2 ⟨p1, p2, p3, p4⟩
      rw [hbody i s (by omega) h2 p4]
      have hi : getInfo s i = getInfo a i := p2 i (Nat.le_refl _)
      split_ifs with hc
      · have hil : i < a.length := by
          by_contra hn
          rw [hi, getInfo_of_le (by omega)] at hc
          exact absurd hc (by decide)
        refine ⟨by rw [length_setPos, p1], fun k hk => ?_, fun k hk => ?_,
          fun k hk1 hk2 => ?_⟩
        · rw [getInfo_setPos, if_neg (by omega)]
          exact p2 k (by omega)
        · have e1 : getInfo (setPos s i (getInfo s (i - 1)).indic_position) (k - 1) =
              getInfo s (k - 1) := by
            rw [getInfo_setPos, if_neg (by omega)]
          rw [e1]
          by_cases hki : i = k
          · subst hki
            rw [getInfo_setPos, if_pos ⟨rfl, by omega⟩, hi,
              if_pos ⟨by omega, h2, hil, by rw [← hi]; exact hc⟩]
          · rw [getInfo_setPos, if_neg (by omega)]
            exact p3 k (by omega)
        · rw [position_getInfo_setPos]
          by_cases hki : i = k
          · subst hki
            rw [if_pos ⟨rfl, by omega⟩]
            exact p4 (i - 1) (by omega) (by omega)
          · rw [if_neg (by omega)]
            exact p4 k hk1 (by omega)
      · refine ⟨p1, fun k hk => p2 k (by omega), fun k hk => ?_, fun k hk1 hk2 => ?_⟩
        · by_cases hki : k = i
          · subst hki
            rw [hi, if_neg]
            rw [← hi]
            intro hx
            exact hc hx.2.2.2
          · exact p3 k (by omega)
        · by_cases hki : k = i
          · subst hki
            intro hp
            rw [hi] at hp hc
            exact hc (hnp k hk1 h2 hp).2
          · exact p4 k hk1 (by omega)
  · rw [forRange_of_le _ _ (by omega)]
    exact ⟨rfl, fun k => by rw [if_neg (by omega)]⟩

/-- The attachment pass when no glyph enters with `POS_PRE_M` other than glyphs of an attached
category after `start`: both option settings act alike. -/
theorem attach_marks_spec (opts : indic_options_t) (a : List hb_glyph_info_t)
    {start end_ : Nat}
    (hnp : ∀ k, start ≤ k → k < end_ → (getInfo a k).indic_position = POS_PRE_M →
      start < k ∧ is_attached_category (getInfo a k).indic_category = true) :
    (attach_marks opts a start end_).length = a.length ∧
    ∀ k, getInfo (attach_marks opts a start end_) k =
      if start < k ∧ k < end_ ∧ k < a.length ∧
          is_attached_category (getInfo a k).indic_category = true then
        { getInfo a k with
          indic_position := (getInfo (attach_marks opts a start end_) (k - 1)).indic_position }
      else getInfo a k := by
  unfold attach_marks
  split_ifs with ho
  · exact attach_loop_spec _ a (fun i s _ _ _ => rfl) hnp
  · refine attach_loop_spec _ a (fun i s h1 h2 h3 => ?_) hnp
    simp only
    split_ifs with hc hd
    · exfalso
      have hd2 := hd.2
      rw [position_getInfo_setPos] at hd2
      split_ifs at hd2 with hx
      · simp only [beq_iff_eq] at hd2
        exact h3 (i - 1) (by omega) (by omega) hd2
      · rw [getInfo_of_le (by omega)] at hc
        exact absurd hc (by decide)
    · rfl
    · rfl

theorem findFrom_eq_some {p : Nat → Bool} {lo hi i : Nat} (h1 : lo ≤ i) (h2 : i < hi)
    (h3 : p i = true) (h4 : ∀ k, lo ≤ k → k < i → p k = false) :
    findFrom p lo hi = some i := by
  cases h : findFrom p lo hi with
  | none =>
    have := findFrom_none h i h1 h2
    rw [h3] at this
    exact absurd this (by simp)
  | some j =>
    obtain ⟨j1, j2, j3, j4⟩ := findFrom_some h
    congr 1
    by_contra hne
    rcases Nat.lt_or_gt_of_ne hne with hlt | hgt
    · rw [h4 j j1 hlt] at j3
      exact absurd j3 (by simp)
    · rw [j4 i h1 hgt] at h3
      exact absurd h3 (by simp)

theorem findFrom_eq_none {p : Nat → Bool} {lo hi : Nat}
    (h : ∀ k, lo ≤ k → k < hi → p k = false) : findFrom p lo hi = none := by
  cases hf : findFrom p lo hi with
  | none => rfl
  | some j =>
    obtain ⟨j1, j2, j3, _⟩ := findFrom_some hf
    rw [h j j1 j2] at j3
    exact absurd j3 (by simp)

theorem is_consonant_congr {g h : hb_glyph_info_t} (e : h.indic_category = g.indic_category) :
    is_consonant h = is_consonant g := by
  unfold is_consonant
  rw [e]

theorem is_joiner_congr {g h : hb_glyph_info_t} (e : h.indic_category = g.indic_category) :
    is_joiner h = is_joiner g := by
  unfold is_joiner
  rw [e]

theorem is_consonant_of_ra {g : hb_glyph_info_t} (h : g.indic_category = OT_Ra) :
    is_consonant g = true := by
  unfold is_consonant
  rw [h]
  rfl

theorem mark_pref_cfar_of_no_consonant (basic_mask_array : Nat → Nat)
    (a : List hb_glyph_info_t) {end_ base : Nat}
    (h : ∀ k, base < k → k < end_ → is_consonant (getInfo a k) = false) :
    mark_pref_cfar basic_mask_array a end_ base = a := by
  unfold mark_pref_cfar
  split_ifs with hc
  · rw [findFrom_eq_none]
    intro k k1 k2
    have := h (k + 1) (by omega) (by omega)
    cases hr : (getInfo a (k + 1)).indic_category == OT_Ra with
    | false => simp
    | true =>
      rw [is_consonant_of_ra (by simpa using hr)] at this
      exact absurd this (by simp)
  · rfl

theorem apply_joiner_effects_of_no_joiner (basic_mask_array : Nat → Nat)
    (a : List hb_glyph_info_t) {start end_ : Nat}
    (h : ∀ k, start < k → k < end_ → is_joiner (getInfo a k) = false) :
    apply_joiner_effects basic_mask_array a start end_ = a := by
  unfold apply_joiner_effects
  apply forRange_induction (fun s : List hb_glyph_info_t => s = a)
  · rfl
  · intro i s h1 h2 hs
    have hs : s = a := hs
    subst hs
    rw [if_neg (by rw [h i (by omega) h2]; simp)]

theorem bubble_pass_of_sorted (l : List hb_glyph_info_t)
    (h : l.Pairwise (fun x y => x.indic_position.toNat ≤ y.indic_position.toNat)) :
    bubble_pass l = l := by
  cases l with
  | nil => rfl
  | cons a rest => exact bubble_carry_of_sorted a rest h

theorem hb_bubble_sort_of_sorted (l : List hb_glyph_info_t)
    (h : l.Pairwise (fun x y => x.indic_position.toNat ≤ y.indic_position.toNat)) :
    hb_bubble_sort l = l := by
  unfold hb_bubble_sort
  generalize l.length = n
  induction n with
  | zero => rfl
  | succ n ih => rw [Function.iterate_succ_apply, bubble_pass_of_sorted l h, ih]

theorem sort_range_of_sorted (a : List hb_glyph_info_t) {start end_ : Nat} (hse : start ≤ end_)
    (hl : end_ ≤ a.length)
    (h : ∀ i j, start ≤ i → i < j → j < end_ →
      (getInfo a i).indic_position.toNat ≤ (getInfo a j).indic_position.toNat) :
    sort_range a start end_ = a := by
  have hp : (syllable_glyphs a start end_).Pairwise
      (fun x y => x.indic_position.toNat ≤ y.indic_position.toNat) := by
    rw [List.pairwise_iff_getElem]
    intro i j hi hj hij
    rw [getElem_syllable_glyphs a hi, getElem_syllable_glyphs a hj]
    rw [length_syllable_glyphs a hl] at hj
    exact h _ _ (by omega) (by omega) (by omega)
  unfold sort_range
  have e := hb_bubble_sort_of_sorted _ hp
  unfold syllable_glyphs at e
  rw [e]
  exact (buffer_split a hse).symm

theorem set_mask_self (g : hb_glyph_info_t) {m : Nat} (h : m = g.mask) :
    { g with mask := m } = g := by
  subst h
  rfl

theorem set_position_self (g : hb_glyph_info_t) {p : indic_position_t}
    (h : p = g.indic_position) : { g with indic_position := p } = g := by
  subst h
  rfl

theorem assigned_position_ne_pre_m (start base : Nat) (has_reph : Bool) (k : Nat) :
    assigned_position start base has_reph k ≠ POS_PRE_M := by
  unfold assigned_position
  split_ifs <;> decide

theorem settled_base_bounds {script : Nat} {basic_mask_array : Nat → Nat} {pref_mask : Nat}
    {info : List hb_glyph_info_t} {start end_ base : Nat} {has_reph : Bool}
    (h : SettledSyllable script basic_mask_array pref_mask info start end_ base has_reph) :
    start ≤ base ∧ base ≤ end_ := by
  have hb := find_base_bounds script basic_mask_array info h.range.1
  rw [h.find] at hb
  exact hb

/-- On a settled syllable the steps before the sort change nothing. -/
theorem before_sort_of_settled (opts : indic_options_t) (chosen_script : Nat) {script : Nat}
    {basic_mask_array : Nat → Nat} {pref_mask : Nat}
    {info : List hb_glyph_info_t} {start end_ base : Nat} {has_reph : Bool}
    (h : SettledSyllable script basic_mask_array pref_mask info start end_ base has_reph) :
    initial_reordering_before_sort opts chosen_script script basic_mask_array info start end_ =
      (info, base) := by
  obtain ⟨hse, hl⟩ := h.range
  obtain ⟨hb1, hb2⟩ := settled_base_bounds h
  obtain ⟨lA, gA⟩ := assign_positions_spec info has_reph hse hl hb1 hb2 h.no_consonant
  have cA : ∀ k, (getInfo (assign_positions info start end_ base has_reph) k).indic_category =
      (getInfo info k).indic_category := by
    intro k
    rw [gA]
    split_ifs <;> rfl
  have hnp : ∀ k, start ≤ k → k < end_ →
      (getInfo (assign_positions info start end_ base has_reph) k).indic_position = POS_PRE_M →
      start < k ∧ is_attached_category
        (getInfo (assign_positions info start end_ base has_reph) k).indic_category = true := by
    intro k k1 k2 hp
    exfalso
    rw [gA] at hp
    split_ifs at hp
    · exact assigned_position_ne_pre_m _ _ _ _ hp
    · exact h.no_pre_m k k1 k2 hp
  obtain ⟨lB, gB⟩ := attach_marks_spec opts _ hnp
  have eB : attach_marks opts (assign_positions info start end_ base has_reph) start end_ =
      info := by
    apply list_ext_getInfo (by rw [lB, lA])
    intro k _
    induction k using Nat.strong_induction_on with
    | _ k ih =>
      rw [gB]
      split_ifs with hc
      · rw [lA] at hc
        have hk1 : k - 1 < info.length := by omega
        rw [ih (k - 1) (by omega) hk1,
          ← h.attached k hc.1 hc.2.1 (by rw [← cA]; exact hc.2.2.2), gA]
        split_ifs <;> rfl
      · rw [gA]
        split_ifs with hd
        · apply set_position_self
          symm
          apply h.assigned k hd.1 hd.2.1 hd.2.2
          by_cases hks : k = start
          · exact Or.inl hks
          · right
            rw [← cA]
            cases hx : is_attached_category
              (getInfo (assign_positions info start end_ base has_reph) k).indic_category with
            | false => rfl
            | true => exact absurd ⟨by omega, hd.2.2, by omega, hx⟩ hc
        · rfl
  unfold initial_reordering_before_sort
  simp only
  rw [h.find]
  simp only
  rw [old_spec_halant_move_of_no_consonant _ _ (fun k k1 k2 => by
    rw [is_consonant_congr (cA k)]; exact h.no_consonant k k1 k2), eB,
    reattach_halants_of_no_consonant info h.no_consonant]

theorem sort_syllable_of_settled {script : Nat}
    {basic_mask_array : Nat → Nat} {pref_mask : Nat}
    {info : List hb_glyph_info_t} {start end_ base : Nat} {has_reph : Bool}
    (h : SettledSyllable script basic_mask_array pref_mask info start end_ base has_reph) :
    sort_syllable info start end_ base = (info, base) := by
  obtain ⟨hse, hl⟩ := h.range
  obtain ⟨hb1, hb2⟩ := settled_base_bounds h
  unfold sort_syllable
  split_ifs with hs
  · simp only
    rw [sort_range_of_sorted info (by omega) hl (h.sorted hs)]
    by_cases hbe : base < end_
    · rw [findFrom_eq_some hb1 hbe (by simp [h.at_base hbe])
        (fun k k1 k2 => by simpa using h.before_base k k1 k2)]
      rfl
    · have : base = end_ := by omega
      subst this
      rw [findFrom_eq_none (fun k k1 k2 => by simpa using h.before_base k k1 k2)]
      rfl
  · rfl

theorem initial_reordering_masks_of_settled {script : Nat}
    {basic_mask_array : Nat → Nat} {pref_mask : Nat}
    {info : List hb_glyph_info_t} {start end_ base : Nat} {has_reph : Bool}
    (h : SettledSyllable script basic_mask_array pref_mask info start end_ base has_reph) :
    initial_reordering_masks basic_mask_array info start end_ base = info := by
  obtain ⟨hse, hl⟩ := h.range
  obtain ⟨hb1, hb2⟩ := settled_base_bounds h
  obtain ⟨l1, g1⟩ := reph_mask_loop_spec (basic_mask_array RPHF) end_ (end_ - start) start info
  have e1 : reph_mask_loop (basic_mask_array RPHF) end_ (end_ - start) start info = info := by
    apply list_ext_getInfo l1
    intro k _
    rw [g1]
    split_ifs with hc
    · exact set_mask_self _ (h.reph k hc.1 hc.2.2.2)
    · rfl
  have e2 : setup_zone_masks basic_mask_array info start end_ base = info := by
    have hch := setup_zone_masks_changed (keepsAllButMask_maskStepRel basic_mask_array) info
      hb1 hb2
    apply list_ext_getInfo hch.1
    intro k hk
    by_cases hc : start ≤ k ∧ k < end_
    · rw [getInfo_setup_zone_masks basic_mask_array info hb1 hc.1 hc.2 hk]
      exact set_mask_self _ (h.zone k hc.1 hc.2)
    · exact (hch.2 k).2 hc
  unfold initial_reordering_masks setup_syllable_masks
  simp only
  rw [e1, e2, mark_pref_cfar_of_no_consonant basic_mask_array info h.no_consonant,
    apply_joiner_effects_of_no_joiner basic_mask_array info
      (fun k k1 k2 => h.no_joiner k (by omega) k2)]

/-- Initial reordering leaves a settled syllable as it is. -/
theorem initial_reordering_of_settled (opts : indic_options_t) (chosen_script : Nat)
    {script : Nat} {basic_mask_array : Nat → Nat} {pref_mask : Nat}
    {info : List hb_glyph_info_t} {start end_ base : Nat} {has_reph : Bool}
    (h : SettledSyllable script basic_mask_array pref_mask info start end_ base has_reph) :
    initial_reordering_consonant_syllable opts chosen_script script basic_mask_array info
      start end_ = info := by
  unfold initial_reordering_consonant_syllable
  simp only
  rw [before_sort_of_settled opts chosen_script h]
  simp only
  rw [sort_syllable_of_settled h]
  exact initial_reordering_masks_of_settled h

theorem reph_precondition_halant {basic_mask_array : Nat → Nat} {info : List hb_glyph_info_t}
    {start end_ : Nat} (h : reph_precondition basic_mask_array info start end_ = true) :
    (getInfo info start).indic_category = OT_Ra ∧
    (getInfo info (start + 1)).indic_category = OT_H := by
  unfold reph_precondition at h
  simp only [Bool.and_eq_true, beq_iff_eq] at h
  exact ⟨h.1.1.2, h.1.2⟩

theorem settled_reph_run {script : Nat} {basic_mask_array : Nat → Nat} {pref_mask : Nat}
    {info : List hb_glyph_info_t} {start end_ base : Nat} {has_reph : Bool}
    (h : SettledSyllable script basic_mask_array pref_mask info start end_ base has_reph)
    (h0 : (getInfo info start).indic_position = POS_RA_TO_BECOME_REPH) :
    start + 1 < end_ ∧ (getInfo info (start + 1)).indic_position = POS_RA_TO_BECOME_REPH := by
  obtain ⟨hse, hl⟩ := h.range
  obtain ⟨hb1, hb2⟩ := settled_base_bounds h
  have ha := h.assigned start (Nat.le_refl _) hb1 hse (Or.inl rfl)
  rw [h0] at ha
  have hr : has_reph = true := by
    unfold assigned_position at ha
    split_ifs at ha with hc
    exact hc.1
  have hf : (find_base script basic_mask_array info start end_).2 = true := by
    rw [h.find]
    exact hr
  obtain ⟨hp, _⟩ := find_base_has_reph hf
  have hbd := reph_precondition_bound hp
  refine ⟨by omega, ?_⟩
  have := h.attached (start + 1) (by omega) (by omega) (by
    rw [(reph_precondition_halant hp).2]
    rfl)
  rw [this]
  exact h0

/-- Final reordering of a settled syllable moves no glyph and sets no mask: it is the last
`merge_clusters` call alone. -/
theorem final_reordering_of_settled (opts : indic_options_t) (init_mask : Nat)
    {script : Nat} {basic_mask_array : Nat → Nat} {pref_mask : Nat}
    {info : List hb_glyph_info_t} {start end_ base : Nat} {has_reph : Bool}
    (h : SettledSyllable script basic_mask_array pref_mask info start end_ base has_reph) :
    final_reordering_syllable opts script info init_mask pref_mask start end_ =
      merge_clusters info (if opts.uniscribe_bug_compatible then base else start) end_ := by
  obtain ⟨hse, hl⟩ := h.range
  obtain ⟨hb1, hb2⟩ := settled_base_bounds h
  have hfb : final_find_base info start end_ = base := by
    unfold final_find_base
    by_cases hbe : base < end_
    · rw [findFrom_eq_some hb1 hbe (by simp [h.at_base hbe])
        (fun k k1 k2 => by simpa using h.before_base k k1 k2)]
      rfl
    · have : base = end_ := by omega
      subst this
      rw [findFrom_eq_none (fun k k1 k2 => by simpa using h.before_base k k1 k2)]
      rfl
  have hrot : final_reordering_rotations opts script info pref_mask start end_ =
      { info := info, start_of_last_cluster := base } := by
    unfold final_reordering_rotations
    simp only
    rw [hfb, final_reorder_matras_of_no_pre_m _ end_ (fun k k1 k2 =>
      h.no_pre_m k k1 (by omega))]
    have hreph : final_reorder_reph opts script
        { info := info, start_of_last_cluster := base } start end_ base =
        { info := info, start_of_last_cluster := base } := by
      unfold final_reorder_reph
      rw [if_neg]
      rintro ⟨_, c2, c3⟩
      exact c3 (settled_reph_run h c2).2
    rw [hreph]
    unfold final_reorder_pref
    split_ifs with hc
    · rw [findFrom_eq_none (fun k k1 k2 => by
        simp only
        rw [h.pref k (by omega) k2]
        rfl)]
    · rfl
  unfold final_reordering_syllable
  rw [final_reordering_moves_eq, hrot]
  have hinit : final_apply_init init_mask info start = info := by
    unfold final_apply_init
    rw [if_neg]
    rintro ⟨c1, _⟩
    exact h.no_pre_m start (Nat.le_refl _) hse c1
  simp only [hinit]
  unfold finish_clusters
  cases ho : opts.uniscribe_bug_compatible with
  | false =>
    simp only [Bool.not_false, Bool.false_eq_true, if_true, if_false]
    rw [cluster_boundary_loop_of_no_boundary]
    intro k k1 k2
    rintro ⟨_, c2⟩
    have := h.no_joiner k (by omega) (by omega)
    unfold is_joiner at this
    rw [c2] at this
    exact absurd this (by decide)
  | true =>
    simp only [Bool.not_true, Bool.false_eq_true, if_true, if_false]

/-! ### Base selection when every consonant stops the scan -/

theorem find_base_last_greatest (info : List hb_glyph_info_t) (limit : Nat) :
    ∀ i base, limit ≤ i →
      (∀ k, limit ≤ k → k ≤ i → is_joiner (getInfo info k) = false) →
      (∀ k, limit ≤ k → k ≤ i → is_consonant (getInfo info k) = true →
        stops_base_scan (getInfo info k) = true) →
      ∀ k, limit ≤ k → k ≤ i → is_consonant (getInfo info k) = true →
        k ≤ find_base_last info limit i base ∧ find_base_last info limit i base ≤ i := by
  intro i
  induction i with
  | zero =>
    intro base h0 _ _ k k1 k2 k3
    have : k = 0 := by omega
    subst this
    unfold find_base_last
    rw [if_pos k3]
    exact ⟨Nat.le_refl _, Nat.le_refl _⟩
  | succ i ih =>
    intro base h0 hnj hst k k1 k2 k3
    unfold find_base_last
    by_cases hc : is_consonant (getInfo info (i + 1)) = true
    · have hs := (stops_base_scan_iff _).1 (hst (i + 1) h0 (Nat.le_refl _) hc)
      rw [if_pos hc, if_pos ⟨hs.2.1, hs.2.2⟩]
      exact ⟨k2, Nat.le_refl _⟩
    · have hk : k ≠ i + 1 := by
        intro e
        subst e
        exact hc k3
      rw [if_neg hc, if_neg (by rw [hnj (i + 1) h0 (Nat.le_refl _)]; simp),
        if_pos (by omega)]
      have := ih base (by omega) (fun j j1 j2 => hnj j j1 (by omega))
        (fun j j1 j2 => hst j j1 (by omega)) k k1 (by omega) k3
      exact ⟨this.1, by omega⟩

theorem base_scan_limit_bounds (basic_mask_array : Nat → Nat) (info : List hb_glyph_info_t)
    {start end_ : Nat} (hse : start < end_) :
    start ≤ base_scan_limit basic_mask_array info start end_ ∧
    base_scan_limit basic_mask_array info start end_ ≤ end_ - 1 := by
  unfold base_scan_limit
  split_ifs with h
  · have := reph_precondition_bound h
    omega
  · omega

/-- What base selection has found, for a script other than Khmer, when the syllable holds no
joiner and every consonant stops the scan: the consonant of greatest index, none at `start + 1`
under the reph precondition, or `end_` when there is no consonant. -/
theorem find_base_facts (script : Nat) (basic_mask_array : Nat → Nat)
    (a : List hb_glyph_info_t) {start end_ : Nat} (hse : start < end_)
    (hk : script ≠ HB_SCRIPT_KHMER)
    (hnj : ∀ k, start ≤ k → k < end_ → is_joiner (getInfo a k) = false)
    (hst : ∀ k, start ≤ k → k < end_ → is_consonant (getInfo a k) = true →
      stops_base_scan (getInfo a k) = true) :
    (∀ k, (find_base script basic_mask_array a start end_).1 < k → k < end_ →
      is_consonant (getInfo a k) = false) ∧
    ((find_base script basic_mask_array a start end_).1 < end_ →
      is_consonant (getInfo a (find_base script basic_mask_array a start end_).1) = true) ∧
    ((find_base script basic_mask_array a start end_).1 = end_ →
      ∀ k, start ≤ k → k < end_ → is_consonant (getInfo a k) = false) ∧
    (reph_precondition basic_mask_array a start end_ = true →
      (find_base script basic_mask_array a start end_).1 ≠ start + 1 ∧
      (find_base script basic_mask_array a start end_).1 < end_) := by
  obtain ⟨hl1, hl2⟩ := base_scan_limit_bounds basic_mask_array a hse
  have hfb := find_base_of_not_khmer script basic_mask_array a start end_ hk
  have hgr := find_base_last_greatest a (base_scan_limit basic_mask_array a start end_)
    (end_ - 1) (if reph_precondition basic_mask_array a start end_ then start else end_) hl2
    (fun k k1 k2 => hnj k (by omega) (by omega))
    (fun k k1 k2 => hst k (by omega) (by omega))
  have hsp := find_base_last_spec a (base_scan_limit basic_mask_array a start end_)
    (end_ - 1) (if reph_precondition basic_mask_array a start end_ then start else end_) hl2
  generalize find_base_last a (base_scan_limit basic_mask_array a start end_)
    (end_ - 1) (if reph_precondition basic_mask_array a start end_ then start else end_) = r0
    at hfb hgr hsp
  generalize (find_base script basic_mask_array a start end_).1 = b at hfb ⊢
  cases hp : reph_precondition basic_mask_array a start end_ with
  | true =>
    have hlim : base_scan_limit basic_mask_array a start end_ = start + 2 := by
      unfold base_scan_limit
      rw [hp]
      rfl
    rw [hlim] at hgr hsp hl2
    rw [hp] at hsp
    simp only [if_true] at hsp
    have hb : b = r0 := by
      rw [hfb]
      rcases hsp with h | h
      · rw [h, if_neg (by omega)]
      · rw [if_neg (by omega)]
    obtain ⟨hra, hh⟩ := reph_precondition_halant hp
    refine ⟨fun k k1 k2 => ?_, fun _ => ?_, fun he => ?_, fun _ => ?_⟩
    · cases hc : is_consonant (getInfo a k) with
      | false => rfl
      | true =>
        exfalso
        by_cases hk2 : start + 2 ≤ k
        · have := (hgr k hk2 (by omega) hc).1
          omega
        · have hk1 : k = start + 1 := by
            rcases hsp with h | h <;> omega
          subst hk1
          unfold is_consonant at hc
          rw [hh] at hc
          exact absurd hc (by decide)
    · rcases hsp with h | h
      · rw [hb, h]
        exact is_consonant_of_ra hra
      · rw [hb]
        exact h.2.2
    · rcases hsp with h | h <;> omega
    · rcases hsp with h | h <;> omega
  | false =>
    have hlim : base_scan_limit basic_mask_array a start end_ = start := by
      unfold base_scan_limit
      rw [hp]
      rfl
    rw [hlim] at hgr hsp hl2
    rw [hp] at hsp
    simp only [Bool.false_eq_true, if_false] at hsp
    have hb : b = r0 := by
      rw [hfb]
      rcases hsp with h | h
      · rw [h, if_neg (by omega)]
      · rw [if_neg (by omega)]
    refine ⟨fun k k1 k2 => ?_, fun hlt => ?_, fun he k k1 k2 => ?_,
      fun h => Bool.noConfusion h⟩
    · cases hc : is_consonant (getInfo a k) with
      | false => rfl
      | true =>
        exfalso
        have := (hgr k (by omega) (by omega) hc).1
        omega
    · rcases hsp with h | h
      · omega
      · rw [hb]
        exact h.2.2
    · cases hc : is_consonant (getInfo a k) with
      | false => rfl
      | true =>
        exfalso
        have := (hgr k (by omega) (by omega) hc).2
        omega

theorem stops_base_scan_of_not_consonant {g : hb_glyph_info_t}
    (h : is_consonant g = false) : stops_base_scan g = false := by
  unfold stops_base_scan
  rw [h]
  rfl

/-- The base that base selection finds, for a script other than Khmer, when the syllable holds
no joiner and every consonant stops the scan. -/
theorem find_base_eq (script : Nat) (basic_mask_array : Nat → Nat)
    (a : List hb_glyph_info_t) {start end_ b : Nat} (hse : start < end_)
    (hk : script ≠ HB_SCRIPT_KHMER)
    (hnj : ∀ k, start ≤ k → k < end_ → is_joiner (getInfo a k) = false)
    (hst : ∀ k, start ≤ k → k < end_ → is_consonant (getInfo a k) = true →
      stops_base_scan (getInfo a k) = true)
    (hb1 : start ≤ b) (hb2 : b ≤ end_)
    (hgt : ∀ k, b < k → k < end_ → is_consonant (getInfo a k) = false)
    (hb : b < end_ → is_consonant (getInfo a b) = true)
    (hnone : b = end_ → ∀ k, start ≤ k → k < end_ → is_consonant (getInfo a k) = false)
    (hpre : reph_precondition basic_mask_array a start end_ = true → b ≠ start + 1) :
    (find_base script basic_mask_array a start end_).1 = b := by
  obtain ⟨hl1, hl2⟩ := base_scan_limit_bounds basic_mask_array a hse
  have hfb := find_base_of_not_khmer script basic_mask_array a start end_ hk
  have hscan := find_base_last_of_no_joiner a (base_scan_limit basic_mask_array a start end_)
    (end_ - 1) (if reph_precondition basic_mask_array a start end_ then start else end_) hl2
    (fun k k1 k2 => hnj k (by omega) (by omega))
  rw [hfb]
  cases hp : reph_precondition basic_mask_array a start end_ with
  | true =>
    have hlim : base_scan_limit basic_mask_array a start end_ = start + 2 := by
      unfold base_scan_limit
      rw [hp]
      rfl
    rw [hlim] at hscan hl2 ⊢
    rw [hp] at hscan
    simp only [if_true] at hscan ⊢
    obtain ⟨hra, _⟩ := reph_precondition_halant hp
    have hbe : b < end_ := by
      by_contra hc
      have := hnone (by omega) start (Nat.le_refl _) hse
      rw [is_consonant_of_ra hra] at this
      exact absurd this (by simp)
    have hne := hpre hp
    by_cases hbs : b = start
    · rw [(hscan.2 (fun k k1 k2 => stops_base_scan_of_not_consonant
        (hgt k (by omega) (by omega)))).2 (fun k k1 k2 => hgt k (by omega) (by omega)),
        if_neg (by omega)]
      exact hbs.symm
    · rw [hscan.1 b (by omega) (by omega) (hst b hb1 hbe (hb hbe))
        (fun k k1 k2 => stops_base_scan_of_not_consonant (hgt k k1 (by omega))),
        if_neg (by omega)]
  | false =>
    have hlim : base_scan_limit basic_mask_array a start end_ = start := by
      unfold base_scan_limit
      rw [hp]
      rfl
    rw [hlim] at hscan hl2 ⊢
    rw [hp] at hscan
    simp only [Bool.false_eq_true, if_false] at hscan ⊢
    by_cases hbe : b < end_
    · rw [hscan.1 b hb1 (by omega) (hst b hb1 hbe (hb hbe))
        (fun k k1 k2 => stops_base_scan_of_not_consonant (hgt k k1 (by omega))),
        if_neg (by omega)]
    · have hbe2 : b = end_ := by omega
      rw [(hscan.2 (fun k k1 k2 => stops_base_scan_of_not_consonant
        (hnone hbe2 k k1 (by omega)))).2 (fun k k1 k2 => hnone hbe2 k k1 (by omega)),
        if_neg (by omega)]
      exact hbe2.symm

theorem reph_precondition_congr (basic_mask_array : Nat → Nat) {a b : List hb_glyph_info_t}
    {start : Nat} (end_ : Nat)
    (h0 : (getInfo b start).indic_category = (getInfo a start).indic_category)
    (h1 : (getInfo b (start + 1)).indic_category = (getInfo a (start + 1)).indic_category)
    (h2 : (getInfo b (start + 2)).indic_category = (getInfo a (start + 2)).indic_category) :
    reph_precondition basic_mask_array b start end_ =
      reph_precondition basic_mask_array a start end_ := by
  unfold reph_precondition
  rw [h0, h1, is_joiner_congr h2]

theorem settled_position_ge {p : indic_position_t} (h : is_settled_position p = true) :
    3 ≤ p.toNat ∧ p ≠ POS_BELOW_C ∧ p ≠ POS_POST_C := by
  cases p <;> simp_all [is_settled_position, indic_position_t.toNat]

/-- The state before the sort, for a script other than Khmer, of a syllable that holds no
joiner and in which every glyph not of an attached category enters with a settled position. -/
theorem before_sort_facts (opts : indic_options_t) (chosen_script script : Nat)
    (basic_mask_array : Nat → Nat) (info : List hb_glyph_info_t) {start end_ b : Nat}
    {r : Bool} (hse : start < end_) (hl : end_ ≤ info.length) (hk : script ≠ HB_SCRIPT_KHMER)
    (hnj : ∀ k, start ≤ k → k < end_ → is_joiner (getInfo info k) = false)
    (hpos : ∀ k, start ≤ k → k < end_ →
      is_attached_category (getInfo info k).indic_category = false →
      is_settled_position (getInfo info k).indic_position = true)
    (hf : find_base script basic_mask_array info start end_ = (b, r)) :
    ∃ B, initial_reordering_before_sort opts chosen_script script basic_mask_array info
        start end_ = (B, b) ∧
      B.length = info.length ∧
      (∀ k, getInfo B k =
        { getInfo info k with indic_position := (getInfo B k).indic_position }) ∧
      (∀ k, ¬ (start ≤ k ∧ k < end_) → getInfo B k = getInfo info k) ∧
      (∀ k, start < k → k < end_ →
        is_attached_category (getInfo info k).indic_category = true →
        (getInfo B k).indic_position = (getInfo B (k - 1)).indic_position) ∧
      (∀ k, start ≤ k → k ≤ b → k < end_ →
        (k = start ∨ is_attached_category (getInfo info k).indic_category = false) →
        (getInfo B k).indic_position = assigned_position start b r k) ∧
      (∀ i j, start ≤ i → i ≤ j → j < b →
        (getInfo B i).indic_position.toNat ≤ (getInfo B j).indic_position.toNat) ∧
      (∀ k, start ≤ k → k < b → (getInfo B k).indic_position.toNat ≤ 2 ∧
        (getInfo B k).indic_position ≠ POS_PRE_M) ∧
      (b < end_ → (getInfo B b).indic_position = POS_BASE_C) ∧
      (∀ k, b ≤ k → k < end_ → 3 ≤ (getInfo B k).indic_position.toNat) := by
  have hst : ∀ k, start ≤ k → k < end_ → is_consonant (getInfo info k) = true →
      stops_base_scan (getInfo info k) = true := by
    intro k k1 k2 hc
    have := settled_position_ge (hpos k k1 k2 (not_attached_of_consonant hc))
    exact (stops_base_scan_iff _).2 ⟨hc, this.2.1, this.2.2⟩
  obtain ⟨hb1, hb2⟩ := find_base_bounds script basic_mask_array info hse
  obtain ⟨f1, f2, f3, f4⟩ := find_base_facts script basic_mask_array info hse hk hnj hst
  have hr : r = true → b ≠ start := by
    intro h
    have := (@find_base_has_reph script basic_mask_array info start end_
      (by rw [hf]; exact h)).2
    rw [hf] at this
    exact this
  rw [hf] at hb1 hb2 f1 f2 f3 f4
  simp only at hb1 hb2 f1 f2 f3 f4
  obtain ⟨lA, gA⟩ := assign_positions_spec info r hse hl hb1 hb2 f1
  have cA : ∀ k, (getInfo (assign_positions info start end_ b r) k).indic_category =
      (getInfo info k).indic_category := by
    intro k
    rw [gA]
    split_ifs <;> rfl
  have hnp : ∀ k, start ≤ k → k < end_ →
      (getInfo (assign_positions info start end_ b r) k).indic_position = POS_PRE_M →
      start < k ∧ is_attached_category
        (getInfo (assign_positions info start end_ b r) k).indic_category = true := by
    intro k k1 k2 hp
    rw [gA] at hp
    split_ifs at hp with hc
    · exact absurd hp (assigned_position_ne_pre_m _ _ _ _)
    · rw [cA]
      cases hx : is_attached_category (getInfo info k).indic_category with
      | true => exact ⟨by omega, rfl⟩
      | false =>
        have := hpos k k1 k2 hx
        rw [hp] at this
        exact absurd this (by decide)
  obtain ⟨lB, gB⟩ := attach_marks_spec opts _ hnp
  have cB : ∀ k, (getInfo (attach_marks opts (assign_positions info start end_ b r)
      start end_) k).indic_category = (getInfo info k).indic_category := by
    intro k
    rw [gB]
    split_ifs
    · exact cA k
    · exact cA k
  have hbs : initial_reordering_before_sort opts chosen_script script basic_mask_array info
      start end_ = (attach_marks opts (assign_positions info start end_ b r) start end_, b) := by
    unfold initial_reordering_before_sort
    simp only
    rw [hf]
    simp only
    rw [old_spec_halant_move_of_no_consonant _ _ (fun k k1 k2 => by
      rw [is_consonant_congr (cA k)]; exact f1 k k1 k2),
      reattach_halants_of_no_consonant _ (fun k k1 k2 => by
      rw [is_consonant_congr (cB k)]; exact f1 k k1 k2)]
  refine ⟨_, hbs, by rw [lB, lA], ?_⟩
  generalize attach_marks opts (assign_positions info start end_ b r) start end_ = B
    at gB cB
  rw [lA] at gB
  have hatt : ∀ k, start < k → k < end_ →
      is_attached_category (getInfo info k).indic_category = true →
      (getInfo B k).indic_position = (getInfo B (k - 1)).indic_position := by
    intro k k1 k2 k3
    have e := gB k
    rw [if_pos ⟨k1, k2, by omega, by rw [cA]; exact k3⟩] at e
    rw [e]
  have hnon : ∀ k, (k ≤ start ∨ end_ ≤ k ∨
        is_attached_category (getInfo info k).indic_category = false) →
      getInfo B k = getInfo (assign_positions info start end_ b r) k := by
    intro k hk
    rw [gB, if_neg]
    rintro ⟨c1, c2, _, c4⟩
    rw [cA] at c4
    rcases hk with h | h | h
    · omega
    · omega
    · rw [h] at c4
      exact absurd c4 (by simp)
  have hass : ∀ k, start ≤ k → k ≤ b → k < end_ →
      (k = start ∨ is_attached_category (getInfo info k).indic_category = false) →
      (getInfo B k).indic_position = assigned_position start b r k := by
    intro k k1 k2 k3 k4
    rw [hnon k (by rcases k4 with h | h; exact Or.inl (by omega); exact Or.inr (Or.inr h)),
      gA, if_pos ⟨k1, k2, k3⟩]
  have hpre : ∀ k, start ≤ k → k < b →
      (getInfo B k).indic_position = POS_PRE_C ∨
      (getInfo B k).indic_position = POS_RA_TO_BECOME_REPH := by
    intro k
    induction k using Nat.strong_induction_on with
    | _ k ih =>
      intro k1 k2
      by_cases hc : k = start ∨ is_attached_category (getInfo info k).indic_category = false
      · rw [hass k k1 (by omega) (by omega) hc]
        unfold assigned_position
        split_ifs with h1 h2
        · exact Or.inr rfl
        · omega
        · exact Or.inl rfl
      · have hc1 : start < k := by omega
        have hc2 : is_attached_category (getInfo info k).indic_category = true := by
          cases hx : is_attached_category (getInfo info k).indic_category with
          | true => rfl
          | false => exact absurd (Or.inr hx) hc
        rw [hatt k hc1 (by omega) hc2]
        exact ih (k - 1) (by omega) (by omega) (by omega)
  have hstep : ∀ k, start < k → k < b →
      (getInfo B (k - 1)).indic_position.toNat ≤ (getInfo B k).indic_position.toNat := by
    intro k k1 k2
    cases hx : is_attached_category (getInfo info k).indic_category with
    | true => rw [hatt k k1 (by omega) hx]
    | false =>
      have e : (getInfo B k).indic_position = POS_PRE_C := by
        rw [hass k (by omega) (by omega) (by omega) (Or.inr hx)]
        unfold assigned_position
        rw [if_neg (by omega), if_neg (by omega)]
      rw [e]
      rcases hpre (k - 1) (by omega) (by omega) with h | h
      · rw [h]
      · rw [h]
        decide
  have hbase : b < end_ → (getInfo B b).indic_position = POS_BASE_C := by
    intro hbe
    rw [hass b hb1 (Nat.le_refl _) hbe (Or.inr (not_attached_of_consonant (f2 hbe)))]
    unfold assigned_position
    rw [if_neg, if_pos rfl]
    rintro ⟨c1, c2⟩
    exact hr c1 c2
  refine ⟨fun k => ?_, fun k hk => ?_, hatt, hass, ?_, fun k k1 k2 => ?_, hbase, ?_⟩
  · have e := gB k
    generalize getInfo B k = g at e ⊢
    rw [e]
    split_ifs
    · rw [gA]
      split_ifs <;> rfl
    · rw [gA]
      split_ifs <;> rfl
  · rw [hnon k (by omega), gA, if_neg (by omega)]
  · intro i j
    induction j with
    | zero =>
      intro i1 i2 _
      have : i = 0 := by omega
      subst this
      exact Nat.le_refl _
    | succ j ih =>
      intro i1 i2 i3
      by_cases hij : i = j + 1
      · subst hij
        exact Nat.le_refl _
      · exact Nat.le_trans (ih i1 (by omega) (by omega)) (hstep (j + 1) (by omega) i3)
  · rcases hpre k k1 k2 with h | h <;> (rw [h]; decide)
  · intro k
    induction k using Nat.strong_induction_on with
    | _ k ih =>
      intro k1 k2
      by_cases hkb : k = b
      · subst hkb
        rw [hbase k2]
        decide
      · cases hx : is_attached_category (getInfo info k).indic_category with
        | true =>
          rw [hatt k (by omega) k2 hx]
          exact ih (k - 1) (by omega) (by omega) (by omega)
        | false =>
          rw [hnon k (Or.inr (Or.inr hx)), gA, if_neg (by omega)]
          exact (settled_position_ge (hpos k (by omega) k2 hx)).1

/-! ### The sort of a syllable whose head is already in order -/

theorem bubble_carry_sorted_head (S : List hb_glyph_info_t) :
    ∀ (a : hb_glyph_info_t) (P : List hb_glyph_info_t),
      (a :: P).Pairwise (fun x y => x.indic_position.toNat ≤ y.indic_position.toNat) →
      (∀ x ∈ a :: P, ∀ y ∈ S, x.indic_position.toNat ≤ y.indic_position.toNat) →
      bubble_carry a (P ++ S) = a :: (P ++ bubble_pass S) := by
  intro a P
  induction P generalizing a with
  | nil =>
    intro _ hle
    cases S with
    | nil => rfl
    | cons s S' =>
      have := hle a (List.mem_cons_self _ _) s (List.mem_cons_self _ _)
      simp only [List.nil_append, bubble_carry, bubble_pass, compare_indic_order_gt]
      rw [if_neg (by simp; omega)]
  | cons p P' ih =>
    intro hs hle
    have hap : a.indic_position.toNat ≤ p.indic_position.toNat :=
      (List.pairwise_cons.1 hs).1 p (List.mem_cons_self _ _)
    show bubble_carry a (p :: (P' ++ S)) = a :: p :: (P' ++ bubble_pass S)
    rw [bubble_carry, if_neg (by simp [compare_indic_order_gt]; omega),
      ih p (List.pairwise_cons.1 hs).2
        (fun x hx y hy => hle x (List.mem_cons_of_mem _ hx) y hy)]

theorem bubble_pass_sorted_head (P S : List hb_glyph_info_t)
    (hs : P.Pairwise (fun x y => x.indic_position.toNat ≤ y.indic_position.toNat))
    (hle : ∀ x ∈ P, ∀ y ∈ S, x.indic_position.toNat ≤ y.indic_position.toNat) :
    bubble_pass (P ++ S) = P ++ bubble_pass S := by
  cases P with
  | nil => rfl
  | cons a P' => exact bubble_carry_sorted_head S a P' hs hle

theorem iterate_bubble_pass_sorted_head (P : List hb_glyph_info_t)
    (hs : P.Pairwise (fun x y => x.indic_position.toNat ≤ y.indic_position.toNat)) (n : Nat) :
    ∀ S : List hb_glyph_info_t,
      (∀ x ∈ P, ∀ y ∈ S, x.indic_position.toNat ≤ y.indic_position.toNat) →
      Nat.iterate bubble_pass n (P ++ S) = P ++ Nat.iterate bubble_pass n S := by
  induction n with
  | zero => intro S _; rfl
  | succ n ih =>
    intro S hle
    rw [Function.iterate_succ_apply, Function.iterate_succ_apply, bubble_pass_sorted_head P S hs hle]
    exact ih (bubble_pass S) (fun x hx y hy => hle x hx y ((bubble_pass_perm S).mem_iff.1 hy))

theorem iterate_bubble_pass_of_sorted (l : List hb_glyph_info_t)
    (h : l.Pairwise (fun x y => x.indic_position.toNat ≤ y.indic_position.toNat)) (n : Nat) :
    Nat.iterate bubble_pass n l = l := by
  induction n with
  | zero => rfl
  | succ n ih => rw [Function.iterate_succ_apply, bubble_pass_of_sorted l h, ih]

/-- A sorted head that is no greater than the rest stays where it is. -/
theorem hb_bubble_sort_sorted_head (P S : List hb_glyph_info_t)
    (hs : P.Pairwise (fun x y => x.indic_position.toNat ≤ y.indic_position.toNat))
    (hle : ∀ x ∈ P, ∀ y ∈ S, x.indic_position.toNat ≤ y.indic_position.toNat) :
    hb_bubble_sort (P ++ S) = P ++ hb_bubble_sort S := by
  have h1 : hb_bubble_sort (P ++ S) =
      P ++ Nat.iterate bubble_pass (P.length + S.length) S := by
    unfold hb_bubble_sort
    rw [List.length_append]
    exact iterate_bubble_pass_sorted_head P hs _ S hle
  rw [h1, Function.iterate_add_apply]
  have h2 : Nat.iterate bubble_pass S.length S = hb_bubble_sort S := rfl
  rw [h2, iterate_bubble_pass_of_sorted _ (hb_bubble_sort_sorted S)]

theorem position_toNat_injective {p q : indic_position_t} (h : p.toNat = q.toNat) : p = q := by
  cases p <;> cases q <;> first | rfl | exact absurd h (by decide)

theorem filter_position_split (k : indic_position_t) :
    ∀ l : List hb_glyph_info_t,
      l.Pairwise (fun x y => x.indic_position.toNat ≤ y.indic_position.toNat) →
      (∀ g ∈ l, k.toNat ≤ g.indic_position.toNat) →
      l.filter (fun g => decide (g.indic_position = k)) ++
        l.filter (fun g => !decide (g.indic_position = k)) = l := by
  intro l
  induction l with
  | nil => intro _ _; rfl
  | cons a l ih =>
    intro hs hk
    obtain ⟨hs1, hs2⟩ := List.pairwise_cons.1 hs
    by_cases ha : a.indic_position = k
    · rw [List.filter_cons_of_pos (by simpa using ha),
        List.filter_cons_of_neg (by simpa using ha), List.cons_append,
        ih hs2 (fun g hg => hk g (List.mem_cons_of_mem _ hg))]
    · have hlt : k.toNat < a.indic_position.toNat := by
        have h1 := hk a (List.mem_cons_self _ _)
        have h2 : k.toNat ≠ a.indic_position.toNat := fun e =>
          ha (position_toNat_injective e).symm
        omega
      have hne : ∀ g ∈ l, g.indic_position ≠ k := by
        intro g hg e
        have := hs1 g hg
        rw [e] at this
        omega
      rw [List.filter_cons_of_neg (by simpa using ha),
        List.filter_cons_of_pos (by simpa using ha),
        List.filter_eq_nil_iff.2 (fun g hg => by simpa using hne g hg), List.nil_append,
        List.filter_eq_self.2 (fun g hg => by simpa using hne g hg)]

theorem flatMap_filter_of_ne (k : indic_position_t) (l : List hb_glyph_info_t) :
    ∀ ks : List indic_position_t, (∀ p ∈ ks, p ≠ k) →
      ks.flatMap (fun p => (l.filter (fun g => !decide (g.indic_position = k))).filter
        (fun g => decide (g.indic_position = p))) =
      ks.flatMap (fun p => l.filter (fun g => decide (g.indic_position = p))) := by
  intro ks
  induction ks with
  | nil => intro _; rfl
  | cons p ks ih =>
    intro h
    rw [List.flatMap_cons, List.flatMap_cons, ih (fun q hq => h q (List.mem_cons_of_mem _ hq)),
      List.filter_filter]
    congr 1
    apply List.filter_congr
    intro g _
    have hp := h p (List.mem_cons_self _ _)
    by_cases hg : g.indic_position = p
    · simp [hg, hp]
    · simp [hg]

/-- A list in position order is the concatenation, over the positions in their order, of its
glyphs of each position. -/
theorem flatMap_filter_of_sorted :
    ∀ ks : List indic_position_t, ks.Pairwise (fun p q => p.toNat < q.toNat) →
      ∀ l : List hb_glyph_info_t,
        l.Pairwise (fun x y => x.indic_position.toNat ≤ y.indic_position.toNat) →
        (∀ g ∈ l, g.indic_position ∈ ks) →
        ks.flatMap (fun p => l.filter (fun g => decide (g.indic_position = p))) = l := by
  intro ks
  induction ks with
  | nil =>
    intro _ l _ hm
    cases l with
    | nil => rfl
    | cons a l => exact absurd (hm a (List.mem_cons_self _ _)) (List.not_mem_nil _)
  | cons k ks ih =>
    intro hks l hs hm
    obtain ⟨hk1, hk2⟩ := List.pairwise_cons.1 hks
    have hk : ∀ g ∈ l, k.toNat ≤ g.indic_position.toNat := by
      intro g hg
      rcases List.mem_cons.1 (hm g hg) with e | e
      · rw [e]
      · exact Nat.le_of_lt (hk1 _ e)
    have hne : ∀ p ∈ ks, p ≠ k := by
      intro p hp e
      have := hk1 p hp
      rw [e] at this
      omega
    rw [List.flatMap_cons, ← flatMap_filter_of_ne k l ks hne,
      ih hk2 _ (hs.filter _) (fun g hg => by
        obtain ⟨g1, g2⟩ := List.mem_filter.1 hg
        rcases List.mem_cons.1 (hm g g1) with e | e
        · simp [e] at g2
        · exact e)]
    exact filter_position_split k l hs hk

theorem attachedChain_of_none {l : List hb_glyph_info_t} (prev : Option indic_position_t)
    (h : AttachedChain none l) : AttachedChain prev l := by
  cases l with
  | nil => trivial
  | cons g l => exact ⟨fun ha => absurd (h.1 ha) (by simp), h.2⟩

theorem attachedChain_append :
    ∀ (l₁ : List hb_glyph_info_t) (prev : Option indic_position_t) (l₂ : List hb_glyph_info_t),
      AttachedChain prev l₁ → AttachedChain none l₂ → AttachedChain prev (l₁ ++ l₂) := by
  intro l₁
  induction l₁ with
  | nil => intro prev l₂ _ h2; exact attachedChain_of_none prev h2
  | cons g l ih => intro prev l₂ h1 h2; exact ⟨h1.1, ih _ _ h1.2 h2⟩

theorem attachedChain_filter (p : indic_position_t) :
    ∀ (l : List hb_glyph_info_t) (prev : Option indic_position_t), AttachedChain prev l →
      AttachedChain (if prev = some p then prev else none)
        (l.filter (fun g => decide (g.indic_position = p))) := by
  intro l
  induction l with
  | nil => intro _ _; trivial
  | cons g l ih =>
    intro prev h
    by_cases hg : g.indic_position = p
    · rw [List.filter_cons_of_pos (by simpa using hg)]
      refine ⟨fun ha => ?_, ?_⟩
      · have := h.1 ha
        rw [if_pos (by rw [this, hg])]
        exact this
      · have := ih (some g.indic_position) h.2
        rw [if_pos (by rw [hg])] at this
        exact this
    · rw [List.filter_cons_of_neg (by simpa using hg)]
      have := ih (some g.indic_position) h.2
      rw [if_neg (by simpa using hg)] at this
      exact attachedChain_of_none _ this

theorem attachedChain_flatMap_filter (l : List hb_glyph_info_t)
    (prev : Option indic_position_t) (h : AttachedChain prev l) :
    ∀ ks : List indic_position_t, (∀ p ∈ ks, prev ≠ some p) →
      AttachedChain none
        (ks.flatMap (fun p => l.filter (fun g => decide (g.indic_position = p)))) := by
  intro ks
  induction ks with
  | nil => intro _; trivial
  | cons k ks ih =>
    intro hk
    rw [List.flatMap_cons]
    apply attachedChain_append
    · have := attachedChain_filter k l prev h
      rw [if_neg (hk k (List.mem_cons_self _ _))] at this
      exact this
    · exact ih (fun p hp => hk p (List.mem_cons_of_mem _ hp))

/-- The sort keeps every glyph of an attached category behind a glyph of its own position,
when no glyph sorts before `POS_BASE_C`. -/
theorem hb_bubble_sort_attachedChain (S : List hb_glyph_info_t)
    (hS : ∀ g ∈ S, 3 ≤ g.indic_position.toNat)
    (hch : AttachedChain (some POS_BASE_C) S) :
    AttachedChain (some POS_BASE_C) (hb_bubble_sort S) := by
  have rep := flatMap_filter_of_sorted
    [POS_BASE_C, POS_BELOW_C, POS_ABOVE_C, POS_POST_C, POS_ABOVE_M, POS_BELOW_M, POS_POST_M,
      POS_FINAL_C, POS_SMVD] (by decide) (hb_bubble_sort S) (hb_bubble_sort_sorted S)
    (fun g hg => by
      have := hS g ((hb_bubble_sort_perm S).mem_iff.1 hg)
      revert this
      cases g.indic_position <;> simp [indic_position_t.toNat])
  simp only [hb_bubble_sort_filter] at rep
  rw [← rep, List.flatMap_cons]
  apply attachedChain_append
  · have := attachedChain_filter POS_BASE_C S _ hch
    rw [if_pos rfl] at this
    exact this
  · exact attachedChain_flatMap_filter S _ hch _ (by decide)

theorem attachedChain_getInfo :
    ∀ (l : List hb_glyph_info_t) (prev : Option indic_position_t), AttachedChain prev l →
      ∀ i, i + 1 < l.length →
        is_attached_category (getInfo l (i + 1)).indic_category = true →
        (getInfo l (i + 1)).indic_position = (getInfo l i).indic_position := by
  intro l
  induction l with
  | nil => intro _ _ i hi; simp at hi
  | cons g l ih =>
    intro prev h i hi ha
    cases i with
    | zero =>
      cases l with
      | nil => simp at hi
      | cons g2 l2 =>
        have := h.2.1 ha
        simp only [Option.some.injEq] at this
        exact this.symm
    | succ i =>
      exact ih _ h.2 i (by simpa using hi) ha

theorem attachedChain_getInfo_zero {l : List hb_glyph_info_t} {p : indic_position_t}
    (h : AttachedChain (some p) l) (hl : 0 < l.length)
    (ha : is_attached_category (getInfo l 0).indic_category = true) :
    (getInfo l 0).indic_position = p := by
  cases l with
  | nil => simp at hl
  | cons g l =>
    have := h.1 ha
    simp only [Option.some.injEq] at this
    exact this.symm

theorem syllable_glyphs_split (a : List hb_glyph_info_t) {start c end_ : Nat}
    (h1 : start ≤ c) (h2 : c ≤ end_) :
    syllable_glyphs a start end_ = syllable_glyphs a start c ++ syllable_glyphs a c end_ := by
  unfold syllable_glyphs
  have e1 : end_ - start = (c - start) + (end_ - c) := by omega
  have e2 : c = start + (c - start) := by omega
  rw [e1, List.take_add, List.drop_drop]
  congr 3
  omega

theorem getInfo_syllable_glyphs (a : List hb_glyph_info_t) {start end_ i : Nat}
    (hl : end_ ≤ a.length) (hi : i < end_ - start) :
    getInfo (syllable_glyphs a start end_) i = getInfo a (start + i) := by
  have hlen := @length_syllable_glyphs a start end_ hl
  rw [getInfo_eq_getElem (by omega), getElem_syllable_glyphs a (by omega)]

theorem getInfo_append_left (x y : List hb_glyph_info_t) {i : Nat} (h : i < x.length) :
    getInfo (x ++ y) i = getInfo x i := by
  unfold getInfo
  exact List.getD_append x y default i h

theorem getInfo_append_right (x y : List hb_glyph_info_t) {i : Nat} (h : x.length ≤ i) :
    getInfo (x ++ y) i = getInfo y (i - x.length) := by
  unfold getInfo
  exact List.getD_append_right x y default i h

theorem getInfo_mem {l : List hb_glyph_info_t} {i : Nat} (h : i < l.length) :
    getInfo l i ∈ l := by
  rw [getInfo_eq_getElem h]
  exact List.getElem_mem _

theorem syllable_glyphs_cons (a : List hb_glyph_info_t) {lo hi : Nat} (h1 : lo < hi)
    (h2 : hi ≤ a.length) :
    syllable_glyphs a lo hi = getInfo a lo :: syllable_glyphs a (lo + 1) hi := by
  have hlen := @length_syllable_glyphs a lo hi h2
  have hlen1 := @length_syllable_glyphs a (lo + 1) hi h2
  apply List.ext_getElem
  · rw [List.length_cons, hlen, hlen1]
    omega
  · intro i hi1 hi2
    rw [getElem_syllable_glyphs a hi1]
    cases i with
    | zero => rfl
    | succ i =>
      rw [List.getElem_cons_succ, getElem_syllable_glyphs a (by
        rw [List.length_cons] at hi2; omega)]
      congr 1
      omega

theorem attachedChain_syllable_glyphs (a : List hb_glyph_info_t) {hi : Nat}
    (hl : hi ≤ a.length) :
    ∀ n lo, lo + n = hi → 1 ≤ lo →
      (∀ k, lo ≤ k → k < hi → is_attached_category (getInfo a k).indic_category = true →
        (getInfo a k).indic_position = (getInfo a (k - 1)).indic_position) →
      AttachedChain (some (getInfo a (lo - 1)).indic_position) (syllable_glyphs a lo hi) := by
  intro n
  induction n with
  | zero =>
    intro lo h1 _ _
    have : syllable_glyphs a lo hi = [] := by
      apply List.eq_nil_of_length_eq_zero
      rw [length_syllable_glyphs a hl]
      omega
    rw [this]
    trivial
  | succ n ih =>
    intro lo h1 h2 h
    rw [syllable_glyphs_cons a (by omega) hl]
    refine ⟨fun ha => ?_, ?_⟩
    · rw [h lo (Nat.le_refl _) (by omega) ha]
    · have := ih (lo + 1) (by omega) (by omega) (fun k k1 k2 => h k (by omega) k2)
      rw [Nat.add_sub_cancel] at this
      exact this

/-- The sort step on a syllable whose glyphs up to the base are in order and sort before the
rest: the glyphs up to the base stay, the glyphs after the base are rearranged among
themselves, and every glyph of an attached category after the base still follows a glyph of its
own position. -/
theorem sort_syllable_facts (B : List hb_glyph_info_t) {start end_ b : Nat}
    (hse : start < end_) (hl : end_ ≤ B.length) (hb1 : start ≤ b) (hb2 : b ≤ end_)
    (hmono : ∀ i j, start ≤ i → i ≤ j → j < b →
      (getInfo B i).indic_position.toNat ≤ (getInfo B j).indic_position.toNat)
    (hle2 : ∀ k, start ≤ k → k < b → (getInfo B k).indic_position.toNat ≤ 2)
    (hbase : b < end_ → (getInfo B b).indic_position = POS_BASE_C)
    (hpost : ∀ k, b ≤ k → k < end_ → 3 ≤ (getInfo B k).indic_position.toNat)
    (hatt : ∀ k, b < k → k < end_ →
      is_attached_category (getInfo B k).indic_category = true →
      (getInfo B k).indic_position = (getInfo B (k - 1)).indic_position) :
    ∃ Sd, sort_syllable B start end_ b = (Sd, b) ∧ Sd.length = B.length ∧
      (∀ k, (k ≤ b ∨ end_ ≤ k) → getInfo Sd k = getInfo B k) ∧
      (∀ k, b < k → k < end_ → ∃ j, b < j ∧ j < end_ ∧ getInfo Sd k = getInfo B j) ∧
      (∀ k, b < k → k < end_ →
        is_attached_category (getInfo Sd k).indic_category = true →
        (getInfo Sd k).indic_position = (getInfo Sd (k - 1)).indic_position) ∧
      (end_ - start < 64 → ∀ i j, start ≤ i → i < j → j < end_ →
        (getInfo Sd i).indic_position.toNat ≤ (getInfo Sd j).indic_position.toNat) := by
  have hfind : ∀ Sd : List hb_glyph_info_t, (∀ k, k ≤ b → getInfo Sd k = getInfo B k) →
      (findFrom (fun i => (getInfo Sd i).indic_position == POS_BASE_C) start end_).getD end_ =
        b := by
    intro Sd hSd
    have hne : ∀ k, start ≤ k → k < b →
        ((getInfo Sd k).indic_position == POS_BASE_C) = false := by
      intro k k1 k2
      have := hle2 k k1 k2
      rw [hSd k (by omega)]
      cases hp : (getInfo B k).indic_position <;> simp_all [indic_position_t.toNat]
    by_cases hbe : b < end_
    · rw [findFrom_eq_some hb1 hbe (by simp [hSd b (Nat.le_refl _), hbase hbe]) hne]
      rfl
    · have : b = end_ := by omega
      subst this
      rw [findFrom_eq_none hne]
      rfl
  by_cases hcase : end_ - start < 64 ∧ b < end_
  · obtain ⟨hs, hbe⟩ := hcase
    have hsplit := @syllable_glyphs_split B start (b + 1) end_ (by omega) (by omega)
    have hlQ := @length_syllable_glyphs B start (b + 1) (by omega)
    have hlS := @length_syllable_glyphs B (b + 1) end_ hl
    have hQs : (syllable_glyphs B start (b + 1)).Pairwise
        (fun x y => x.indic_position.toNat ≤ y.indic_position.toNat) := by
      rw [List.pairwise_iff_getElem]
      intro i j hi hj hij
      rw [getElem_syllable_glyphs B hi, getElem_syllable_glyphs B hj]
      rw [hlQ] at hj
      by_cases hjb : start + j < b
      · exact hmono _ _ (by omega) (by omega) hjb
      · have e : start + j = b := by omega
        rw [e, hbase hbe]
        have := hle2 (start + i) (by omega) (by omega)
        exact Nat.le_trans this (by decide)
    have hQS : ∀ x ∈ syllable_glyphs B start (b + 1), ∀ y ∈ syllable_glyphs B (b + 1) end_,
        x.indic_position.toNat ≤ y.indic_position.toNat := by
      intro x hx y hy
      obtain ⟨i, i1, i2, _, rfl⟩ := mem_syllable_glyphs hx
      obtain ⟨j, j1, j2, _, rfl⟩ := mem_syllable_glyphs hy
      have h3 := hpost j (by omega) j2
      by_cases hib : i < b
      · have := hle2 i i1 hib
        omega
      · have e : i = b := by omega
        rw [e, hbase hbe]
        exact h3
    have hch : AttachedChain (some POS_BASE_C) (syllable_glyphs B (b + 1) end_) := by
      have := attachedChain_syllable_glyphs B hl (end_ - (b + 1)) (b + 1) (by omega)
        (by omega) (fun k k1 k2 => hatt k (by omega) k2)
      rw [Nat.add_sub_cancel, hbase hbe] at this
      exact this
    have hT := hb_bubble_sort_attachedChain _
      (fun g hg => by
        obtain ⟨j, j1, j2, _, rfl⟩ := mem_syllable_glyphs hg
        exact hpost j (by omega) j2) hch
    obtain ⟨hout, hsyl⟩ := sort_range_parts B (Nat.le_of_lt hse) hl
    rw [hsplit, hb_bubble_sort_sorted_head _ _ hQs hQS] at hsyl
    have hlen : (sort_range B start end_).length = B.length := hout.1
    have hlT : (hb_bubble_sort (syllable_glyphs B (b + 1) end_)).length = end_ - (b + 1) := by
      rw [length_hb_bubble_sort, hlS]
    have hget : ∀ k, start ≤ k → k < end_ → getInfo (sort_range B start end_) k =
        getInfo (syllable_glyphs B start (b + 1) ++
          hb_bubble_sort (syllable_glyphs B (b + 1) end_)) (k - start) := by
      intro k k1 k2
      rw [← hsyl, getInfo_syllable_glyphs _ (by rw [hlen]; exact hl) (by omega)]
      congr 1
      omega
    have hpre : ∀ k, (k ≤ b ∨ end_ ≤ k) → getInfo (sort_range B start end_) k =
        getInfo B k := by
      intro k hk
      by_cases hin : start ≤ k ∧ k < end_
      · rw [hget k hin.1 hin.2, getInfo_append_left _ _ (by rw [hlQ]; omega),
          getInfo_syllable_glyphs B (by omega) (by omega)]
        congr 1
        omega
      · exact sameOutside_getInfo_eq hout (by omega)
    have hsuf : ∀ k, b < k → k < end_ → getInfo (sort_range B start end_) k =
        getInfo (hb_bubble_sort (syllable_glyphs B (b + 1) end_)) (k - (b + 1)) := by
      intro k k1 k2
      rw [hget k (by omega) k2, getInfo_append_right _ _ (by rw [hlQ]; omega), hlQ]
      congr 1
      omega
    have hsort : sort_syllable B start end_ b = (sort_range B start end_, b) := by
      unfold sort_syllable
      rw [if_pos hs]
      simp only
      rw [hfind _ (fun k hk => hpre k (Or.inl hk))]
    refine ⟨_, hsort, hlen, hpre, fun k k1 k2 => ?_, fun k k1 k2 ha => ?_,
      fun _ i j i1 i2 i3 => ?_⟩
    · have hm := getInfo_mem (l := hb_bubble_sort (syllable_glyphs B (b + 1) end_))
        (i := k - (b + 1)) (by rw [hlT]; omega)
      rw [← hsuf k k1 k2] at hm
      obtain ⟨j, j1, j2, _, e⟩ := mem_syllable_glyphs
        ((hb_bubble_sort_perm _).mem_iff.1 hm)
      exact ⟨j, by omega, j2, e.symm⟩
    · rw [hsuf k k1 k2] at ha ⊢
      by_cases hk : k = b + 1
      · subst hk
        rw [Nat.add_sub_cancel, hpre b (Or.inl (Nat.le_refl _)), hbase hbe]
        rw [Nat.sub_self] at ha ⊢
        exact attachedChain_getInfo_zero hT (by rw [hlT]; omega) ha
      · rw [hsuf (k - 1) (by omega) (by omega)]
        have e1 : k - (b + 1) = (k - 1 - (b + 1)) + 1 := by omega
        rw [e1] at ha ⊢
        exact attachedChain_getInfo _ _ hT _ (by rw [hlT]; omega) ha
    · have hp := hb_bubble_sort_sorted (syllable_glyphs B start end_)
      rw [← (sort_range_parts B (Nat.le_of_lt hse) hl).2, List.pairwise_iff_getElem] at hp
      have hls := @length_syllable_glyphs (sort_range B start end_) start end_
        (by rw [hlen]; exact hl)
      have := hp (i - start) (j - start) (by rw [hls]; omega) (by rw [hls]; omega) (by omega)
      rw [getElem_syllable_glyphs, getElem_syllable_glyphs] at this
      have e1 : start + (i - start) = i := by omega
      have e2 : start + (j - start) = j := by omega
      rw [e1, e2] at this
      exact this
  · have hsort : sort_syllable B start end_ b = (B, b) := by
      unfold sort_syllable
      split_ifs with hs
      · have hbe : b = end_ := by omega
        simp only
        rw [sort_range_of_sorted B (Nat.le_of_lt hse) hl
          (fun i j i1 i2 i3 => hmono i j i1 (by omega) (by omega)),
          hfind B (fun _ _ => rfl)]
      · rfl
    refine ⟨B, hsort, rfl, fun _ _ => rfl, fun k k1 k2 => ⟨k, k1, k2, rfl⟩, hatt,
      fun hs i j i1 i2 i3 => ?_⟩
    exact hmono i j i1 (by omega) (by omega)


/-- The masks part of initial reordering when no consonant follows the base and the syllable
holds no joiner: each glyph of the syllable gets the mask of its zone, and the glyphs of the
leading run of `POS_RA_TO_BECOME_REPH` the `rphf` mask before it. -/
theorem initial_reordering_masks_spec (basic_mask_array : Nat → Nat)
    (a : List hb_glyph_info_t) {start end_ b : Nat} (hl : end_ ≤ a.length)
    (hb1 : start ≤ b) (hb2 : b ≤ end_)
    (hnc : ∀ k, b < k → k < end_ → is_consonant (getInfo a k) = false)
    (hnj : ∀ k, start < k → k < end_ → is_joiner (getInfo a k) = false) :
    (initial_reordering_masks basic_mask_array a start end_ b).length = a.length ∧
    (∀ k, ¬ (start ≤ k ∧ k < end_) →
      getInfo (initial_reordering_masks basic_mask_array a start end_ b) k = getInfo a k) ∧
    ∀ k, start ≤ k → k < end_ → ∃ m,
      getInfo (initial_reordering_masks basic_mask_array a start end_ b) k =
        { getInfo a k with mask := m ||| zone_mask basic_mask_array b k } ∧
      ((∀ j, start ≤ j → j ≤ k → (getInfo a j).indic_position = POS_RA_TO_BECOME_REPH) →
        m = (getInfo a k).mask ||| basic_mask_array RPHF) ∧
      (¬ (∀ j, start ≤ j → j ≤ k → (getInfo a j).indic_position = POS_RA_TO_BECOME_REPH) →
        m = (getInfo a k).mask) := by
  obtain ⟨l1, g1⟩ := reph_mask_loop_spec (basic_mask_array RPHF) end_ (end_ - start) start a
  have hch := setup_zone_masks_changed (keepsAllButMask_maskStepRel basic_mask_array)
    (reph_mask_loop (basic_mask_array RPHF) end_ (end_ - start) start a) hb1 hb2
  have hz : ∀ k, start ≤ k → k < end_ →
      getInfo (setup_zone_masks basic_mask_array
        (reph_mask_loop (basic_mask_array RPHF) end_ (end_ - start) start a) start end_ b) k =
      { getInfo (reph_mask_loop (basic_mask_array RPHF) end_ (end_ - start) start a) k with
        mask := (getInfo (reph_mask_loop (basic_mask_array RPHF) end_ (end_ - start) start a)
          k).mask ||| zone_mask basic_mask_array b k } :=
    fun k k1 k2 => getInfo_setup_zone_masks basic_mask_array _ hb1 k1 k2 (by rw [l1]; omega)
  have hcat : ∀ k, (getInfo (setup_zone_masks basic_mask_array
        (reph_mask_loop (basic_mask_array RPHF) end_ (end_ - start) start a) start end_ b)
        k).indic_category = (getInfo a k).indic_category := by
    intro k
    by_cases hk : start ≤ k ∧ k < end_
    · rw [hz k hk.1 hk.2, g1]
      split_ifs <;> rfl
    · rw [(hch.2 k).2 hk, g1]
      split_ifs <;> rfl
  have hm : initial_reordering_masks basic_mask_array a start end_ b =
      setup_zone_masks basic_mask_array
        (reph_mask_loop (basic_mask_array RPHF) end_ (end_ - start) start a) start end_ b := by
    unfold initial_reordering_masks setup_syllable_masks
    simp only
    rw [mark_pref_cfar_of_no_consonant basic_mask_array _ (fun k k1 k2 => by
      rw [is_consonant_congr (hcat k)]; exact hnc k k1 k2),
      apply_joiner_effects_of_no_joiner basic_mask_array _ (fun k k1 k2 => by
      rw [is_joiner_congr (hcat k)]; exact hnj k k1 k2)]
  rw [hm]
  refine ⟨by rw [hch.1, l1], fun k hk => ?_, fun k k1 k2 => ?_⟩
  · rw [(hch.2 k).2 hk, g1, if_neg (by omega)]
  · rw [hz k k1 k2, g1]
    by_cases hrun : ∀ j, start ≤ j → j ≤ k →
        (getInfo a j).indic_position = POS_RA_TO_BECOME_REPH
    · rw [if_pos ⟨k1, by omega, by omega, fun j j1 j2 => ⟨by omega, hrun j j1 j2⟩⟩]
      exact ⟨_, rfl, fun _ => rfl, fun h => absurd hrun h⟩
    · rw [if_neg (fun h => hrun (fun j j1 j2 => (h.2.2.2 j j1 j2).2))]
      exact ⟨_, rfl, fun h => absurd h hrun, fun _ => rfl⟩

theorem or_or_self (x z : Nat) : (x ||| z) ||| z = x ||| z := by
  rw [Nat.or_assoc, Nat.or_self]

theorem or_or_or_self (x r z : Nat) : ((x ||| r) ||| z) ||| r = (x ||| r) ||| z := by
  apply Nat.eq_of_testBit_eq
  intro i
  simp only [Nat.testBit_or]
  cases x.testBit i <;> cases r.testBit i <;> cases z.testBit i <;> rfl

theorem assigned_position_stops (start base : Nat) (has_reph : Bool) (k : Nat) :
    assigned_position start base has_reph k ≠ POS_BELOW_C ∧
    assigned_position start base has_reph k ≠ POS_POST_C := by
  unfold assigned_position
  split_ifs <;> exact ⟨by decide, by decide⟩

/-- Initial reordering leaves a settled syllable, for a script other than Khmer, when the
syllable holds no joiner, every glyph not of an attached category enters with a settled
position, and no glyph enters with a bit of `pref_mask`, which shares no bit with the
post-base masks. -/
theorem initial_reordering_settles (opts : indic_options_t) (chosen_script script : Nat)
    (basic_mask_array : Nat → Nat) (pref_mask : Nat) (info : List hb_glyph_info_t)
    {start end_ : Nat} (hse : start < end_) (hl : end_ ≤ info.length)
    (hk : script ≠ HB_SCRIPT_KHMER)
    (hnj : ∀ k, start ≤ k → k < end_ → is_joiner (getInfo info k) = false)
    (hpos : ∀ k, start ≤ k → k < end_ →
      is_attached_category (getInfo info k).indic_category = false →
      is_settled_position (getInfo info k).indic_position = true)
    (hpm : ∀ k, start ≤ k → k < end_ → (getInfo info k).mask &&& pref_mask = 0)
    (hpz : pref_mask &&& (basic_mask_array BLWF ||| basic_mask_array ABVF |||
      basic_mask_array PSTF ||| basic_mask_array CJCT) = 0) :
    ∃ b r, SettledSyllable script basic_mask_array pref_mask
      (initial_reordering_consonant_syllable opts chosen_script script basic_mask_array info
        start end_) start end_ b r := by
  cases hf : find_base script basic_mask_array info start end_ with
  | mk b r =>
  have hst : ∀ k, start ≤ k → k < end_ → is_consonant (getInfo info k) = true →
      stops_base_scan (getInfo info k) = true := by
    intro k k1 k2 hc
    have := settled_position_ge (hpos k k1 k2 (not_attached_of_consonant hc))
    exact (stops_base_scan_iff _).2 ⟨hc, this.2.1, this.2.2⟩
  obtain ⟨hb1, hb2⟩ := find_base_bounds script basic_mask_array info hse
  obtain ⟨f1, f2, f3, f4⟩ := find_base_facts script basic_mask_array info hse hk hnj hst
  have i2 := find_base_has_reph_iff script basic_mask_array info start end_
  rw [hf] at hb1 hb2 f1 f2 f3 f4 i2
  simp only at hb1 hb2 f1 f2 f3 f4 i2
  obtain ⟨B, hB, lB, eB, oB, attB, assB, monoB, le2B, baseB, postB⟩ :=
    before_sort_facts opts chosen_script script basic_mask_array info hse hl hk hnj hpos hf
  have cB : ∀ k, (getInfo B k).indic_category = (getInfo info k).indic_category :=
    fun k => by rw [eB k]
  have mB : ∀ k, (getInfo B k).mask = (getInfo info k).mask := fun k => by rw [eB k]
  obtain ⟨Sd, hSd, lSd, preSd, sufSd, attSd, sortedSd⟩ :=
    sort_syllable_facts B hse (by rw [lB]; exact hl) hb1 hb2 monoB
      (fun k k1 k2 => (le2B k k1 k2).1) baseB postB
      (fun k k1 k2 ha => attB k (by omega) k2 (by rw [← cB]; exact ha))
  have horig : ∀ k, start ≤ k → k < end_ →
      ∃ j, start ≤ j ∧ j < end_ ∧ (b ≤ k → b ≤ j) ∧ (k < b → j < b) ∧
        getInfo Sd k = getInfo B j := by
    intro k k1 k2
    by_cases hkb : k ≤ b
    · exact ⟨k, k1, k2, fun h => h, fun h => h, preSd k (Or.inl hkb)⟩
    · obtain ⟨j, j1, j2, e⟩ := sufSd k (by omega) k2
      exact ⟨j, by omega, j2, fun _ => by omega, fun h => by omega, e⟩
  have hncS : ∀ k, b < k → k < end_ → is_consonant (getInfo Sd k) = false := by
    intro k k1 k2
    obtain ⟨j, j1, j2, e⟩ := sufSd k k1 k2
    rw [e, is_consonant_congr (cB j)]
    exact f1 j j1 j2
  have hnjS : ∀ k, start ≤ k → k < end_ → is_joiner (getInfo Sd k) = false := by
    intro k k1 k2
    obtain ⟨j, j1, j2, _, _, e⟩ := horig k k1 k2
    rw [e, is_joiner_congr (cB j)]
    exact hnj j j1 j2
  obtain ⟨lY, oY, gY⟩ := initial_reordering_masks_spec basic_mask_array Sd
    (by rw [lSd, lB]; exact hl) hb1 hb2 hncS (fun k k1 k2 => hnjS k (by omega) k2)
  have hY : initial_reordering_consonant_syllable opts chosen_script script basic_mask_array
      info start end_ = initial_reordering_masks basic_mask_array Sd start end_ b := by
    unfold initial_reordering_consonant_syllable
    simp only
    rw [hB]
    simp only
    rw [hSd]
  rw [hY]
  generalize initial_reordering_masks basic_mask_array Sd start end_ b = Y at lY oY gY
  have cY : ∀ k, (getInfo Y k).indic_category = (getInfo Sd k).indic_category := by
    intro k
    by_cases hin : start ≤ k ∧ k < end_
    · obtain ⟨m, e, _⟩ := gY k hin.1 hin.2
      rw [e]
    · rw [oY k hin]
  have pY : ∀ k, (getInfo Y k).indic_position = (getInfo Sd k).indic_position := by
    intro k
    by_cases hin : start ≤ k ∧ k < end_
    · obtain ⟨m, e, _⟩ := gY k hin.1 hin.2
      rw [e]
    · rw [oY k hin]
  have cYi : ∀ k, (k ≤ b ∨ end_ ≤ k) →
      (getInfo Y k).indic_category = (getInfo info k).indic_category :=
    fun k hk => by rw [cY, preSd k hk, cB]
  have pYB : ∀ k, (k ≤ b ∨ end_ ≤ k) →
      (getInfo Y k).indic_position = (getInfo B k).indic_position :=
    fun k hk => by rw [pY, preSd k hk]
  have hncY : ∀ k, b < k → k < end_ → is_consonant (getInfo Y k) = false :=
    fun k k1 k2 => by rw [is_consonant_congr (cY k)]; exact hncS k k1 k2
  have hnjY : ∀ k, start ≤ k → k < end_ → is_joiner (getInfo Y k) = false :=
    fun k k1 k2 => by rw [is_joiner_congr (cY k)]; exact hnjS k k1 k2
  have hbY : b < end_ → is_consonant (getInfo Y b) = true :=
    fun h => by rw [is_consonant_congr (cYi b (Or.inl (Nat.le_refl _)))]; exact f2 h
  have hnoneY : b = end_ → ∀ k, start ≤ k → k < end_ → is_consonant (getInfo Y k) = false :=
    fun h k k1 k2 => by
      rw [is_consonant_congr (cYi k (Or.inl (by omega)))]
      exact f3 h k k1 k2
  have hpreY : reph_precondition basic_mask_array Y start end_ = true → b ≠ start + 1 := by
    intro hp e
    have hbd := reph_precondition_bound hp
    have hc := hbY (by omega)
    unfold is_consonant at hc
    rw [e, (reph_precondition_halant hp).2] at hc
    exact absurd hc (by decide)
  have hassY : ∀ k, start ≤ k → k ≤ b → k < end_ →
      (k = start ∨ is_attached_category (getInfo Y k).indic_category = false) →
      (getInfo Y k).indic_position = assigned_position start b r k := by
    intro k k1 k2 k3 hor
    rw [pYB k (Or.inl k2)]
    apply assB k k1 k2 k3
    rw [← cYi k (Or.inl k2)]
    exact hor
  have hstY : ∀ k, start ≤ k → k < end_ → is_consonant (getInfo Y k) = true →
      stops_base_scan (getInfo Y k) = true := by
    intro k k1 k2 hc
    have hkb : k ≤ b := by
      by_contra hn
      rw [hncY k (by omega) k2] at hc
      exact absurd hc (by simp)
    have hp := hassY k k1 hkb k2 (Or.inr (not_attached_of_consonant hc))
    have := assigned_position_stops start b r k
    rw [← hp] at this
    exact (stops_base_scan_iff _).2 ⟨hc, this.1, this.2⟩
  have h1 : (find_base script basic_mask_array Y start end_).1 = b :=
    find_base_eq script basic_mask_array Y hse hk hnjY hstY hb1 hb2 hncY hbY hnoneY hpreY
  have h2 : (find_base script basic_mask_array Y start end_).2 = r := by
    have i1 := find_base_has_reph_iff script basic_mask_array Y start end_
    rw [h1] at i1
    have hpp : (reph_precondition basic_mask_array Y start end_ = true ∧ b ≠ start) ↔
        (reph_precondition basic_mask_array info start end_ = true ∧ b ≠ start) := by
      by_cases h2b : start + 2 ≤ b
      · rw [reph_precondition_congr basic_mask_array end_
          (cYi start (Or.inl (by omega))) (cYi (start + 1) (Or.inl (by omega)))
          (cYi (start + 2) (Or.inl (by omega)))]
      · constructor
        · rintro ⟨c1, c2⟩
          exact absurd (show b = start + 1 by omega) (hpreY c1)
        · rintro ⟨c1, c2⟩
          exact absurd (show b = start + 1 by omega) (f4 c1).1
    exact Bool.eq_iff_iff.2 (i1.trans (hpp.trans i2.symm))
  have hbaseY : b < end_ → (getInfo Y b).indic_position = POS_BASE_C :=
    fun h => by rw [pYB b (Or.inl (Nat.le_refl _))]; exact baseB h
  refine ⟨b, r,
    { range := ⟨hse, by rw [lY, lSd, lB]; exact hl⟩
      find := Prod.ext h1 h2
      no_joiner := hnjY
      no_consonant := hncY
      assigned := hassY
      attached := ?_
      no_pre_m := ?_
      sorted := fun hs i j i1 i2 i3 => by rw [pY, pY]; exact sortedSd hs i j i1 i2 i3
      before_base := ?_
      at_base := hbaseY
      zone := ?_
      reph := ?_
      pref := ?_ }⟩
  · intro k k1 k2 ha
    by_cases hkb : k ≤ b
    · rw [pYB k (Or.inl hkb), pYB (k - 1) (Or.inl (by omega))]
      exact attB k k1 k2 (by rw [← cYi k (Or.inl hkb)]; exact ha)
    · rw [pY, pY]
      exact attSd k (by omega) k2 (by rw [← cY]; exact ha)
  · intro k k1 k2
    obtain ⟨j, j1, j2, j3, j4, e⟩ := horig k k1 k2
    rw [pY, e]
    by_cases hjb : j < b
    · exact (le2B j j1 hjb).2
    · have := postB j (by omega) j2
      intro hp
      rw [hp] at this
      exact absurd this (by decide)
  · intro k k1 k2
    rw [pYB k (Or.inl (by omega))]
    have := (le2B k k1 k2).1
    intro hp
    rw [hp] at this
    exact absurd this (by decide)
  · intro k k1 k2
    obtain ⟨m, e, _⟩ := gY k k1 k2
    rw [e]
    exact or_or_self _ _
  · intro k k1 hrun
    have k2 := (hrun k k1 (Nat.le_refl _)).1
    obtain ⟨m, e, hm, _⟩ := gY k k1 k2
    rw [e, hm (fun j j1 j2 => by rw [← pY]; exact (hrun j j1 j2).2)]
    exact or_or_or_self _ _ _
  · intro k k1 k2
    obtain ⟨m, e, _, hm⟩ := gY k (by omega) k2
    have hnr : ¬ (∀ j, start ≤ j → j ≤ k →
        (getInfo Sd j).indic_position = POS_RA_TO_BECOME_REPH) := by
      intro h
      have := h b hb1 (by omega)
      rw [preSd b (Or.inl (Nat.le_refl _)), baseB (by omega)] at this
      exact absurd this (by decide)
    obtain ⟨j, j1, j2, e2⟩ := sufSd k k1 k2
    rw [e, hm hnr, e2, mB]
    have hz : zone_mask basic_mask_array b k = basic_mask_array BLWF |||
        basic_mask_array ABVF ||| basic_mask_array PSTF ||| basic_mask_array CJCT := by
      unfold zone_mask
      rw [if_neg (by omega), if_neg (by omega)]
    show ((getInfo info j).mask ||| zone_mask basic_mask_array b k) &&& pref_mask = 0
    rw [hz, or_and_of_disjoint _ hpz]
    exact hpm j (by omega) j2

/-! ### A second run on the result of the first -/

theorem find_base_last_congr {a b : List hb_glyph_info_t}
    (hc : ∀ k, (getInfo b k).indic_category = (getInfo a k).indic_category)
    (hp : ∀ k, (getInfo b k).indic_position = (getInfo a k).indic_position) (limit : Nat) :
    ∀ i base, find_base_last b limit i base = find_base_last a limit i base := by
  intro i
  induction i with
  | zero =>
    intro base
    unfold find_base_last
    rw [is_consonant_congr (hc 0)]
  | succ i ih =>
    intro base
    unfold find_base_last
    rw [is_consonant_congr (hc (i + 1)), is_joiner_congr (hc (i + 1)), hp (i + 1), ih, ih]

/-- Base selection reads categories and positions only. -/
theorem find_base_congr (script : Nat) (basic_mask_array : Nat → Nat)
    {a b : List hb_glyph_info_t} (start end_ : Nat)
    (hc : ∀ k, (getInfo b k).indic_category = (getInfo a k).indic_category)
    (hp : ∀ k, (getInfo b k).indic_position = (getInfo a k).indic_position) :
    find_base script basic_mask_array b start end_ =
      find_base script basic_mask_array a start end_ := by
  unfold find_base
  simp only [reph_precondition_congr basic_mask_array end_ (hc start) (hc (start + 1))
    (hc (start + 2)), find_base_last_congr hc hp]

/-- A buffer that differs from a settled one in cluster values only is settled. -/
theorem settled_congr {script : Nat} {basic_mask_array : Nat → Nat} {pref_mask : Nat}
    {a b : List hb_glyph_info_t} {start end_ base : Nat} {has_reph : Bool}
    (h : SettledSyllable script basic_mask_array pref_mask a start end_ base has_reph)
    (hl : b.length = a.length)
    (hc : ∀ k, (getInfo b k).indic_category = (getInfo a k).indic_category)
    (hp : ∀ k, (getInfo b k).indic_position = (getInfo a k).indic_position)
    (hm : ∀ k, (getInfo b k).mask = (getInfo a k).mask) :
    SettledSyllable script basic_mask_array pref_mask b start end_ base has_reph where
  range := ⟨h.range.1, by rw [hl]; exact h.range.2⟩
  find := by rw [find_base_congr script basic_mask_array start end_ hc hp]; exact h.find
  no_joiner := fun k k1 k2 => by rw [is_joiner_congr (hc k)]; exact h.no_joiner k k1 k2
  no_consonant := fun k k1 k2 => by
    rw [is_consonant_congr (hc k)]; exact h.no_consonant k k1 k2
  assigned := fun k k1 k2 k3 k4 => by
    rw [hp]
    rw [hc] at k4
    exact h.assigned k k1 k2 k3 k4
  attached := fun k k1 k2 k3 => by
    rw [hp, hp]
    rw [hc] at k3
    exact h.attached k k1 k2 k3
  no_pre_m := fun k k1 k2 => by rw [hp]; exact h.no_pre_m k k1 k2
  sorted := fun hs i j i1 i2 i3 => by rw [hp, hp]; exact h.sorted hs i j i1 i2 i3
  before_base := fun k k1 k2 => by rw [hp]; exact h.before_base k k1 k2
  at_base := fun hb => by rw [hp]; exact h.at_base hb
  zone := fun k k1 k2 => by rw [hm]; exact h.zone k k1 k2
  reph := fun k k1 hrun => by
    rw [hm]
    exact h.reph k k1 (fun j j1 j2 => by rw [← hp]; exact hrun j j1 j2)
  pref := fun k k1 k2 => by rw [hm]; exact h.pref k k1 k2

theorem settled_merge_clusters {script : Nat} {basic_mask_array : Nat → Nat}
    {pref_mask : Nat} {a : List hb_glyph_info_t} {start end_ base : Nat} {has_reph : Bool}
    (h : SettledSyllable script basic_mask_array pref_mask a start end_ base has_reph)
    (x y : Nat) :
    SettledSyllable script basic_mask_array pref_mask (merge_clusters a x y) start end_ base
      has_reph := by
  obtain ⟨c, hc⟩ := merge_clusters_spec a x y
  refine settled_congr h (length_merge_clusters a x y) (fun k => ?_) (fun k => ?_)
    (fun k => ?_)
  · rw [hc]; split_ifs <;> rfl
  · rw [hc]; split_ifs <;> rfl
  · rw [hc]; split_ifs <;> rfl

theorem foldl_min_cluster_of_constant (c : Nat) :
    ∀ l : List hb_glyph_info_t, (∀ g ∈ l, g.cluster = c) →
      l.foldl (fun c g => min c g.cluster) c = c := by
  intro l
  induction l with
  | nil => intro _; rfl
  | cons g l ih =>
    intro h
    rw [List.foldl_cons, h g (List.mem_cons_self _ _), Nat.min_self]
    exact ih (fun g2 hg2 => h g2 (List.mem_cons_of_mem _ hg2))

/-- Merging the clusters of a range a second time changes nothing. -/
theorem merge_clusters_idem (a : List hb_glyph_info_t) (x y : Nat) :
    merge_clusters (merge_clusters a x y) x y = merge_clusters a x y := by
  by_cases hxy : x < y
  · obtain ⟨c, hc⟩ := merge_clusters_spec a x y
    have hlen := length_merge_clusters a x y
    generalize merge_clusters a x y = M at hc hlen
    apply list_ext_getInfo (length_merge_clusters M x y)
    intro k hk
    unfold merge_clusters
    rw [if_pos hxy, getInfo_map_range M _ hxy k]
    split_ifs with hin
    · have hx : x < a.length := by omega
      have e0 : (getInfo M x).cluster = c := by
        rw [hc, if_pos ⟨Nat.le_refl _, hxy, hx⟩]
      have hfold := foldl_min_cluster_of_constant c
        ((M.drop (x + 1)).take (y - (x + 1))) (fun g hg => by
          obtain ⟨i, i1, i2, i3, e⟩ := @mem_syllable_glyphs M (x + 1) y g hg
          rw [← e, hc, if_pos ⟨by omega, i2, by omega⟩])
      rw [e0, hfold]
      have ek : (getInfo M k).cluster = c := by
        rw [hc, if_pos ⟨hin.1, hin.2.1, by omega⟩]
      rw [← ek]
    · rfl
  · unfold merge_clusters
    rw [if_neg hxy, if_neg hxy]

/-- C19, as amended: for a script other than Khmer and a syllable (`start < end ≤ len`) that
holds no joiner, in which every glyph whose category is not one of the attached ones (ZWNJ,
ZWJ, N, RS, H) enters with a position other than `POS_RA_TO_BECOME_REPH`, `POS_PRE_M`,
`POS_PRE_C`, `POS_BELOW_C` and `POS_POST_C`, and in which no glyph enters with a bit of
`pref_mask`, that mask sharing no bit with the post-base masks (`blwf`, `abvf`, `pstf`,
`cjct`): running initial reordering followed by final reordering, and then both again on the
result, gives the very buffer the first run gave, so glyph order, `indic_position` values,
masks and cluster values are all as the first run left them.  This holds for both option
settings, every script tag and every mask table. -/
theorem reorder_syllable_twice (opts : indic_options_t) (chosen_script script : Nat)
    (basic_mask_array : Nat → Nat) (init_mask pref_mask : Nat) (info : List hb_glyph_info_t)
    (start end_ : Nat) (hse : start < end_) (hl : end_ ≤ info.length)
    (hk : script ≠ HB_SCRIPT_KHMER)
    (hnj : ∀ k, start ≤ k → k < end_ → is_joiner (getInfo info k) = false)
    (hpos : ∀ k, start ≤ k → k < end_ →
      is_attached_category (getInfo info k).indic_category = false →
      is_settled_position (getInfo info k).indic_position = true)
    (hpm : ∀ k, start ≤ k → k < end_ → (getInfo info k).mask &&& pref_mask = 0)
    (hpz : pref_mask &&& (basic_mask_array BLWF ||| basic_mask_array ABVF |||
      basic_mask_array PSTF ||| basic_mask_array CJCT) = 0) :
    reorder_syllable opts chosen_script script basic_mask_array init_mask pref_mask
      (reorder_syllable opts chosen_script script basic_mask_array init_mask pref_mask info
        start end_) start end_ =
    reorder_syllable opts chosen_script script basic_mask_array init_mask pref_mask info
      start end_ := by
  obtain ⟨b, r, hY⟩ := initial_reordering_settles opts chosen_script script basic_mask_array
    pref_mask info hse hl hk hnj hpos hpm hpz
  have e1 : reorder_syllable opts chosen_script script basic_mask_array init_mask pref_mask
      info start end_ =
      merge_clusters (initial_reordering_consonant_syllable opts chosen_script script
        basic_mask_array info start end_)
        (if opts.uniscribe_bug_compatible then b else start) end_ :=
    final_reordering_of_settled opts init_mask hY
  have hX := settled_merge_clusters hY (if opts.uniscribe_bug_compatible then b else start)
    end_
  rw [e1]
  unfold reorder_syllable
  rw [initial_reordering_of_settled opts chosen_script hX,
    final_reordering_of_settled opts init_mask hX, merge_clusters_idem]

/-- Witness of the amended C19 on scenario S1 (Ra, H, Ka) in Devanagari. -/
theorem reorder_syllable_twice_witness :
    (0 < 3 ∧ 3 ≤ example_ra_h_ka.length ∧ HB_SCRIPT_DEVANAGARI ≠ HB_SCRIPT_KHMER ∧
      (∀ k, 0 ≤ k → k < 3 → is_joiner (getInfo example_ra_h_ka k) = false) ∧
      (∀ k, 0 ≤ k → k < 3 →
        is_attached_category (getInfo example_ra_h_ka k).indic_category = false →
        is_settled_position (getInfo example_ra_h_ka k).indic_position = true) ∧
      (∀ k, 0 ≤ k → k < 3 → (getInfo example_ra_h_ka k).mask &&& example_masks PREF = 0) ∧
      example_masks PREF &&& (example_masks BLWF ||| example_masks ABVF |||
        example_masks PSTF ||| example_masks CJCT) = 0) ∧
    reorder_syllable ⟨false⟩ 0 HB_SCRIPT_DEVANAGARI example_masks 1 (example_masks PREF)
      (reorder_syllable ⟨false⟩ 0 HB_SCRIPT_DEVANAGARI example_masks 1 (example_masks PREF)
        example_ra_h_ka 0 3) 0 3 =
    reorder_syllable ⟨false⟩ 0 HB_SCRIPT_DEVANAGARI example_masks 1 (example_masks PREF)
      example_ra_h_ka 0 3 :=
  have hnj : ∀ k, 0 ≤ k → k < 3 → is_joiner (getInfo example_ra_h_ka k) = false := by
    intro k _ h
    interval_cases k <;> decide
  have hpos : ∀ k, 0 ≤ k → k < 3 →
      is_attached_category (getInfo example_ra_h_ka k).indic_category = false →
      is_settled_position (getInfo example_ra_h_ka k).indic_position = true := by
    intro k _ h
    interval_cases k <;> decide
  have hpm : ∀ k, 0 ≤ k → k < 3 →
      (getInfo example_ra_h_ka k).mask &&& example_masks PREF = 0 := by
    intro k _ h
    interval_cases k <;> decide
  ⟨⟨by decide, by decide, by decide, hnj, hpos, hpm, by decide⟩,
    reorder_syllable_twice ⟨false⟩ 0 HB_SCRIPT_DEVANAGARI example_masks 1 (example_masks PREF)
      example_ra_h_ka 0 3 (by decide) (by decide) (by decide) hnj hpos hpm (by decide)⟩

/-- C19 as stated fails on scenario S2 (Ka, pre-base matra I) in Devanagari: the first run
leaves the matra in front with `POS_PRE_M`, and the second run, which finds it before the base,
gives it `POS_PRE_C`. -/
theorem reorder_syllable_twice_changes_position :
    (getInfo (reorder_syllable ⟨false⟩ 0 HB_SCRIPT_DEVANAGARI example_masks 1
      (example_masks PREF) example_ka_i 0 2) 0).indic_position = POS_PRE_M ∧
    (getInfo (reorder_syllable ⟨false⟩ 0 HB_SCRIPT_DEVANAGARI example_masks 1
      (example_masks PREF)
      (reorder_syllable ⟨false⟩ 0 HB_SCRIPT_DEVANAGARI example_masks 1 (example_masks PREF)
        example_ka_i 0 2) 0 2) 0).indic_position = POS_PRE_C := by
  decide

/-- Why the amended C19 leaves Khmer out: on the Khmer syllable C, M, C, Coeng, whose glyphs
enter with settled positions, the coeng has `POS_BASE_C` after the first run and
`POS_FINAL_C` after the second. -/
theorem reorder_syllable_twice_khmer :
    (getInfo (reorder_syllable ⟨false⟩ 0 HB_SCRIPT_KHMER example_masks 1
      (example_masks PREF) example_khmer_ka_i_kha_coeng 0 4) 1).indic_position = POS_BASE_C ∧
    (getInfo (reorder_syllable ⟨false⟩ 0 HB_SCRIPT_KHMER example_masks 1
      (example_masks PREF)
      (reorder_syllable ⟨false⟩ 0 HB_SCRIPT_KHMER example_masks 1 (example_masks PREF)
        example_khmer_ka_i_kha_coeng 0 4) 0 4) 1).indic_position = POS_FINAL_C := by
  decide!

/-- Why the amended C19 asks for settled positions: on C, M, C with the last consonant entering
with `POS_BELOW_C`, the first consonant is the base after the first run and a pre-base
consonant after the second, which takes the final consonant of the first run for the base. -/
theorem reorder_syllable_twice_below_consonant :
    (getInfo (reorder_syllable ⟨false⟩ 0 HB_SCRIPT_DEVANAGARI example_masks 1
      (example_masks PREF) example_ka_aa_below 0 3) 0).indic_position = POS_BASE_C ∧
    (getInfo (reorder_syllable ⟨false⟩ 0 HB_SCRIPT_DEVANAGARI example_masks 1
      (example_masks PREF)
      (reorder_syllable ⟨false⟩ 0 HB_SCRIPT_DEVANAGARI example_masks 1 (example_masks PREF)
        example_ka_aa_below 0 3) 0 3) 0).indic_position = POS_PRE_C := by
  decide


/-! ## Base selection that finds no consonant -/

theorem is_consonant_of_joiner {g : hb_glyph_info_t} (h : is_joiner g = true) :
    is_consonant g = false := by
  unfold is_joiner at h
  unfold is_consonant
  cases hc : g.indic_category <;> simp_all

/-- The backward scan returns the candidate it was given when it meets no consonant before it
ends, be it at a joiner `j` or at `limit`. -/
theorem find_base_last_of_no_consonant (info : List hb_glyph_info_t) (limit j : Nat) :
    ∀ i base, limit ≤ i →
      (∀ k, limit ≤ k → j < k → k ≤ i → is_consonant (getInfo info k) = false) →
      (j < limit ∨ (j ≤ i ∧ is_joiner (getInfo info j) = true)) →
      find_base_last info limit i base = base := by
  intro i
  induction i with
  | zero =>
    intro base h0 _ hj
    have hl : limit = 0 := by omega
    unfold find_base_last
    rcases hj with hj | ⟨hj1, hj2⟩
    · omega
    · have : j = 0 := by omega
      subst this
      rw [if_neg (by rw [is_consonant_of_joiner hj2]; simp)]
  | succ i ih =>
    intro base h0 hnc hj
    unfold find_base_last
    by_cases hji : j = i + 1
    · rcases hj with hj | ⟨_, hj2⟩
      · omega
      · subst hji
        rw [if_neg (by rw [is_consonant_of_joiner hj2]; simp), if_pos hj2]
    · have hlt : j < i + 1 := by
        rcases hj with hj | ⟨hj1, _⟩ <;> omega
      rw [if_neg (by rw [hnc (i + 1) h0 hlt (Nat.le_refl _)]; simp)]
      split_ifs with c1 c2
      · rfl
      · exact ih base (by omega) (fun k k1 k2 k3 => hnc k k1 k2 (by omega))
          (by rcases hj with hj | ⟨hj1, hj2⟩
              · exact Or.inl hj
              · exact Or.inr ⟨by omega, hj2⟩)
      · rfl

/-- C21, as amended: base selection for a script other than Khmer on a syllable
(`start < end ≤ len`) without reph, whose backward scan from `end - 1` meets a joiner before any
consonant-like glyph or finds no consonant-like glyph at all: the base is `end`, that is, no
glyph of the syllable is the base and there is no reph; position assignment gives every
glyph of `[start, end)` `POS_PRE_C` and none `POS_BASE_C`, and `POS_PRE_C` is the position
every glyph of the syllable has when initial reordering is over. -/
theorem find_base_without_consonant (opts : indic_options_t) (chosen_script script : Nat)
    (basic_mask_array : Nat → Nat) (info : List hb_glyph_info_t) (start end_ : Nat)
    (hse : start < end_) (he : end_ ≤ info.length) (hk : script ≠ HB_SCRIPT_KHMER)
    (hpre : reph_precondition basic_mask_array info start end_ = false)
    (h : (∀ k, start ≤ k → k < end_ → is_consonant (getInfo info k) = false) ∨
      ∃ j, start ≤ j ∧ j < end_ ∧ is_joiner (getInfo info j) = true ∧
        ∀ k, j < k → k < end_ → is_consonant (getInfo info k) = false) :
    find_base script basic_mask_array info start end_ = (end_, false) ∧
    (∀ i, start ≤ i → i < end_ →
      getInfo (assign_positions info start end_ end_ false) i =
        { getInfo info i with indic_position := POS_PRE_C }) ∧
    (∀ i, start ≤ i → i < end_ →
      (getInfo (initial_reordering_consonant_syllable opts chosen_script script
        basic_mask_array info start end_) i).indic_position = POS_PRE_C) := by
  have hlim : base_scan_limit basic_mask_array info start end_ = start := by
    unfold base_scan_limit
    rw [hpre]
    rfl
  have hscan : find_base_last info start (end_ - 1) end_ = end_ := by
    rcases h with h | ⟨j, j1, j2, j3, j4⟩
    · cases start with
      | zero =>
        -- no index lies below the limit: use the joiner-free form with a consonant-free range
        have : ∀ i base, (∀ k, k ≤ i → is_consonant (getInfo info k) = false) →
            find_base_last info 0 i base = base := by
          intro i
          induction i with
          | zero =>
            intro base hc
            unfold find_base_last
            rw [if_neg (by rw [hc 0 (Nat.le_refl _)]; simp)]
          | succ i ih =>
            intro base hc
            unfold find_base_last
            rw [if_neg (by rw [hc (i + 1) (Nat.le_refl _)]; simp)]
            split_ifs
            · rfl
            · exact ih base (fun k hk => hc k (by omega))
            · rfl
        exact this (end_ - 1) end_ (fun k hk => h k (Nat.zero_le _) (by omega))
      | succ s =>
        exact find_base_last_of_no_consonant info (s + 1) s (end_ - 1) end_ (by omega)
          (fun k k1 _ k3 => h k k1 (by omega)) (Or.inl (Nat.lt_succ_self _))
    · exact find_base_last_of_no_consonant info start j (end_ - 1) end_ (by omega)
        (fun k _ k2 k3 => j4 k k2 (by omega)) (Or.inr ⟨by omega, j3⟩)
  have h1 : (find_base script basic_mask_array info start end_).1 = end_ := by
    rw [find_base_of_not_khmer script basic_mask_array info start end_ hk, hlim, hpre]
    simp only [Bool.false_eq_true, if_false]
    rw [hscan, if_neg (by omega)]
  have h2 : (find_base script basic_mask_array info start end_).2 = false := by
    cases hx : (find_base script basic_mask_array info start end_).2 with
    | false => rfl
    | true =>
      have := (find_base_has_reph hx).1
      rw [hpre] at this
      exact absurd this (by simp)
  have hf : find_base script basic_mask_array info start end_ = (end_, false) :=
    Prod.ext h1 h2
  have hA : ∀ i, start ≤ i → i < end_ →
      getInfo (assign_positions info start end_ end_ false) i =
        { getInfo info i with indic_position := POS_PRE_C } :=
    fun i i1 i2 => getInfo_assign_positions_pre info he (Nat.le_refl _) i1 i2
  refine ⟨hf, hA, ?_⟩
  have hB : ∀ i, start ≤ i → i < end_ →
      (getInfo (initial_reordering_before_sort opts chosen_script script basic_mask_array
        info start end_).1 i).indic_position = POS_PRE_C := by
    unfold initial_reordering_before_sort
    simp only
    rw [hf]
    simp only
    rw [old_spec_halant_move_of_no_consonant _ _ (fun k k1 k2 => by omega),
      reattach_halants_of_no_consonant _ (fun k k1 k2 => by omega)]
    apply attach_marks_rule
      (fun s => ∀ i, start ≤ i → i < end_ → (getInfo s i).indic_position = POS_PRE_C)
    · intro i i1 i2
      rw [hA i i1 i2]
    · intro s i' k k1 k2 k3 k4 _ hs i i1 i2
      rw [position_getInfo_setPos]
      split_ifs
      · exact hs k k3 (by omega)
      · exact hs i i1 i2
  intro i i1 i2
  have hre := after_sort_reordered opts chosen_script script basic_mask_array info hse he
  have hl1 : (initial_reordering_before_sort opts chosen_script script basic_mask_array info
      start end_).1.length = info.length :=
    (initial_reordering_before_sort_reordered
      (keepsAllButPositionAndMask_stepRel basic_mask_array).toPositionStepRel opts
      chosen_script script basic_mask_array info hse he).1.1
  obtain ⟨x, hx, e⟩ := reordered_mem hre _
    (getInfo_mem_syllable_glyphs _ i1 i2 (by rw [hre.1.1, hl1]; omega))
  obtain ⟨k, hk1, hk2, _, hk4⟩ := mem_syllable_glyphs hx
  rw [e.2, ← hk4]
  exact hB k hk1 hk2

/-- Witness of the amended C21 on U+0915 U+200D: the scan meets the ZWJ first. -/
theorem find_base_without_consonant_witness :
    (0 < 2 ∧ 2 ≤ example_ka_zwj.length ∧ HB_SCRIPT_DEVANAGARI ≠ HB_SCRIPT_KHMER ∧
      reph_precondition example_masks example_ka_zwj 0 2 = false ∧
      ((∀ k, 0 ≤ k → k < 2 → is_consonant (getInfo example_ka_zwj k) = false) ∨
        ∃ j, 0 ≤ j ∧ j < 2 ∧ is_joiner (getInfo example_ka_zwj j) = true ∧
          ∀ k, j < k → k < 2 → is_consonant (getInfo example_ka_zwj k) = false)) ∧
    find_base HB_SCRIPT_DEVANAGARI example_masks example_ka_zwj 0 2 = (2, false) :=
  have hj : (∀ k, 0 ≤ k → k < 2 → is_consonant (getInfo example_ka_zwj k) = false) ∨
      ∃ j, 0 ≤ j ∧ j < 2 ∧ is_joiner (getInfo example_ka_zwj j) = true ∧
        ∀ k, j < k → k < 2 → is_consonant (getInfo example_ka_zwj k) = false :=
    Or.inr ⟨1, by decide, by decide, by decide, fun k k1 k2 => by omega⟩
  ⟨⟨by decide, by decide, by decide, by decide, hj⟩,
    (find_base_without_consonant ⟨false⟩ 0 HB_SCRIPT_DEVANAGARI example_masks
      example_ka_zwj 0 2 (by decide) (by decide) (by decide) (by decide) hj).1⟩

/-- C21 as stated fails on U+0915 U+200D in Devanagari, a syllable without reph whose scan
meets the ZWJ before any consonant: the base is `end` = 2, not `start` = 0, and the glyph at
`start` ends with `POS_PRE_C`, not `POS_BASE_C`. -/
theorem find_base_ka_zwj :
    reph_precondition example_masks example_ka_zwj 0 2 = false ∧
    is_joiner (getInfo example_ka_zwj 1) = true ∧
    (find_base HB_SCRIPT_DEVANAGARI example_masks example_ka_zwj 0 2).1 = 2 ∧
    (getInfo (assign_positions example_ka_zwj 0 2
      (find_base HB_SCRIPT_DEVANAGARI example_masks example_ka_zwj 0 2).1
      (find_base HB_SCRIPT_DEVANAGARI example_masks example_ka_zwj 0 2).2) 0).indic_position =
      POS_PRE_C ∧
    (getInfo (initial_reordering_consonant_syllable ⟨false⟩ 0 HB_SCRIPT_DEVANAGARI
      example_masks example_ka_zwj 0 2) 0).indic_position = POS_PRE_C := by
  decide

/-! ## The pre-base reordering consonant with nothing to anchor it -/

/-- With no glyph of category M, H or Coeng before the base, and at least two glyphs before
it, the target of the pre-base reordering consonant is `start + 1`: the scan of source lines
943–946 runs down to `start + 1` and nothing sets the target back to the base. -/
theorem find_pref_target_of_no_anchor (info : List hb_glyph_info_t) {start base : Nat}
    (end_ : Nat) (hb : start + 2 ≤ base)
    (h : ∀ k, start ≤ k → k < base →
      is_matra_halant_coeng (getInfo info k).indic_category = false) :
    find_pref_target info start end_ base = start + 1 := by
  have hh : is_halant_or_coeng (getInfo info start) = false := by
    have := h start (Nat.le_refl _) (by omega)
    unfold is_matra_halant_coeng at this
    unfold is_halant_or_coeng
    cases hc : (getInfo info start).indic_category <;> simp_all
  unfold find_pref_target
  simp only
  rw [scanDown_eq_of_forall _ base (by omega) (fun k k1 k2 => h (k - 1) (by omega) (by omega))]
  rw [if_neg]
  rw [Nat.add_sub_cancel, hh]
  simp

/-- C26 fails on two pre-base consonants, the base and a `pref` glyph (Malayalam, `pref_mask`
the `pref` bit): the base is at index 2, the target computed is index 1, and final reordering
leaves the `pref` glyph U+0D30 at index 1, between the two pre-base consonants, not immediately
before the base U+0D17. -/
theorem final_reorder_pref_without_anchor :
    final_find_base example_pref_without_anchor 0 4 = 2 ∧
    find_pref_target example_pref_without_anchor 0 4 2 = 1 ∧
    (final_reordering_syllable ⟨false⟩ HB_SCRIPT_MALAYALAM example_pref_without_anchor 1
      (example_masks PREF) 0 4).map (fun g => g.codepoint) =
      [0x0D15, 0x0D30, 0x0D16, 0x0D17] := by
  decide

/-! ## Final reordering reads the glyph at `end` -/

/-- C27 fails in Oriya (reph after main, default mode): two buffers that hold the same
syllable in `[0, 4)` and differ only in the position of the glyph at index 4 end final
reordering of `[0, 4)` with the reph in different slots, because reph step 3 reads
`info[new_reph_pos + 1]` up to `info[end]`.  With the buffer ending at `end` the slot read lies
outside the buffer. -/
theorem final_reordering_reads_glyph_at_end :
    syllable_glyphs (example_reph_ka_i_h_then POS_POST_C) 0 4 =
      syllable_glyphs (example_reph_ka_i_h_then POS_BASE_C) 0 4 ∧
    (syllable_glyphs (final_reordering_syllable ⟨false⟩ HB_SCRIPT_ORIYA
      (example_reph_ka_i_h_then POS_POST_C) 1 (example_masks PREF) 0 4) 0 4).map
      (fun g => g.codepoint) = [0x0B15, 0x0B3F, 0x0B4D, 0x0B30] ∧
    (syllable_glyphs (final_reordering_syllable ⟨false⟩ HB_SCRIPT_ORIYA
      (example_reph_ka_i_h_then POS_BASE_C) 1 (example_masks PREF) 0 4) 0 4).map
      (fun g => g.codepoint) = [0x0B15, 0x0B3F, 0x0B30, 0x0B4D] ∧
    find_new_reph_pos ⟨false⟩ HB_SCRIPT_ORIYA (example_reph_ka_i_h_then POS_POST_C) 0 4 1 = 3 ∧
    find_new_reph_pos ⟨false⟩ HB_SCRIPT_ORIYA (example_reph_ka_i_h_then POS_BASE_C) 0 4 1 = 2 := by
  decide

/-! ## Re-attachment after the base -/

/-- C28 fails on the Khmer word U+1781 U+17D2 U+1798 U+17C2 U+179A (default mode, new-spec
tag), whichever of the categories C and Ra the last consonant has: the base is the first glyph;
when the re-attachment pass starts the pre-base matra at index 3 has `POS_PRE_M` and the
consonant at index 2 has `POS_BELOW_C`; the pass, meeting the final consonant at index 4 with
the coeng of index 1 still recorded as last halant, gives both `POS_FINAL_C`; so the matra is
not sorted to the front and stays at index 3, after the base. -/
theorem initial_reordering_khmer_word :
    [OT_C, OT_Ra].map (fun c =>
      (initial_reordering_before_attach 0 HB_SCRIPT_KHMER example_masks (example_khmer_word c)
        0 5).2) = [0, 0] ∧
    [OT_C, OT_Ra].map (fun c =>
      (attach_marks ⟨false⟩ (initial_reordering_before_attach 0 HB_SCRIPT_KHMER example_masks
        (example_khmer_word c) 0 5).1 0 5).map (fun g => g.indic_position)) =
      [[POS_BASE_C, POS_BASE_C, POS_BELOW_C, POS_PRE_M, POS_FINAL_C],
       [POS_BASE_C, POS_BASE_C, POS_BELOW_C, POS_PRE_M, POS_FINAL_C]] ∧
    [OT_C, OT_Ra].map (fun c =>
      (reattach_halants (attach_marks ⟨false⟩ (initial_reordering_before_attach 0
        HB_SCRIPT_KHMER example_masks (example_khmer_word c) 0 5).1 0 5) 0 5).map
        (fun g => g.indic_position)) =
      [[POS_BASE_C, POS_FINAL_C, POS_FINAL_C, POS_FINAL_C, POS_FINAL_C],
       [POS_BASE_C, POS_FINAL_C, POS_FINAL_C, POS_FINAL_C, POS_FINAL_C]] ∧
    [OT_C, OT_Ra].map (fun c =>
      (initial_reordering_consonant_syllable ⟨false⟩ 0 HB_SCRIPT_KHMER example_masks
        (example_khmer_word c) 0 5).map (fun g => (g.codepoint, g.indic_position))) =
      [[(0x1781, POS_BASE_C), (0x17D2, POS_FINAL_C), (0x1798, POS_FINAL_C),
         (0x17C2, POS_FINAL_C), (0x179A, POS_FINAL_C)],
       [(0x1781, POS_BASE_C), (0x17D2, POS_FINAL_C), (0x1798, POS_FINAL_C),
         (0x17C2, POS_FINAL_C), (0x179A, POS_FINAL_C)]] := by
  decide!

/-! ## Masks in final reordering -/

theorem keepsMask_stepRel : FinalStepRel 0 (fun g h => h.mask = g.mask) where
  refl := fun _ => rfl
  trans := fun _ _ _ h1 h2 => h2.trans h1
  or_init := fun g => Nat.or_zero g.mask
  set_cluster := fun _ _ => rfl

/-- The general-category test of the `init` pass fails exactly for the categories that are none
of the five letter and the three mark categories. -/
theorem is_letter_or_mark_eq_false_iff (c : hb_unicode_general_category_t) :
    is_letter_or_mark c = false ↔
      (c ≠ hb_unicode_general_category_t.UPPERCASE_LETTER ∧
        c ≠ hb_unicode_general_category_t.LOWERCASE_LETTER ∧
        c ≠ hb_unicode_general_category_t.TITLECASE_LETTER ∧
        c ≠ hb_unicode_general_category_t.MODIFIER_LETTER ∧
        c ≠ hb_unicode_general_category_t.OTHER_LETTER ∧
        c ≠ hb_unicode_general_category_t.SPACING_MARK ∧
        c ≠ hb_unicode_general_category_t.ENCLOSING_MARK ∧
        c ≠ hb_unicode_general_category_t.NON_SPACING_MARK) := by
  cases c <;> decide

/-- C22: for every buffer, script, option setting and masks, and every syllable
(`start < end ≤ len`): the moves of final reordering only rearrange the glyphs of the syllable,
each glyph kept as it is, masks included; and the mask at every index of the result is the mask
found there once the moves are done, except that at index `start` the `init` mask is OR-ed in,
exactly when the glyph that sits at `start` after the moves has `POS_PRE_M` and either
`start = 0` or the general category of the glyph at `start - 1` is none of uppercase,
lowercase, titlecase, modifier, other letter, spacing mark, enclosing mark, non-spacing mark. -/
theorem final_reordering_init_mask (opts : indic_options_t) (script : Nat)
    (info : List hb_glyph_info_t) (init_mask pref_mask : Nat) (start end_ : Nat)
    (hse : start < end_) (he : end_ ≤ info.length) :
    Reordered Eq start end_ info
      (final_reordering_rotations opts script info pref_mask start end_).info ∧
    ∀ k, (getInfo (final_reordering_syllable opts script info init_mask pref_mask start end_)
        k).mask =
      if k = start ∧
          (getInfo (final_reordering_rotations opts script info pref_mask start end_).info
            start).indic_position = POS_PRE_M ∧
          (start = 0 ∨
            ((getInfo info (start - 1)).general_category ≠
                hb_unicode_general_category_t.UPPERCASE_LETTER ∧
              (getInfo info (start - 1)).general_category ≠
                hb_unicode_general_category_t.LOWERCASE_LETTER ∧
              (getInfo info (start - 1)).general_category ≠
                hb_unicode_general_category_t.TITLECASE_LETTER ∧
              (getInfo info (start - 1)).general_category ≠
                hb_unicode_general_category_t.MODIFIER_LETTER ∧
              (getInfo info (start - 1)).general_category ≠
                hb_unicode_general_category_t.OTHER_LETTER ∧
              (getInfo info (start - 1)).general_category ≠
                hb_unicode_general_category_t.SPACING_MARK ∧
              (getInfo info (start - 1)).general_category ≠
                hb_unicode_general_category_t.ENCLOSING_MARK ∧
              (getInfo info (start - 1)).general_category ≠
                hb_unicode_general_category_t.NON_SPACING_MARK)) then
        (getInfo (final_reordering_rotations opts script info pref_mask start end_).info
          k).mask ||| init_mask
      else
        (getInfo (final_reordering_rotations opts script info pref_mask start end_).info
          k).mask := by
  obtain ⟨h1, h2, h3⟩ := final_reordering_rotations_rotated opts script info pref_mask
    (Nat.le_of_lt hse)
  have hre : Reordered Eq start end_ info
      (final_reordering_rotations opts script info pref_mask start end_).info :=
    rotatedWithin_reordered (fun _ => rfl) (fun _ _ _ a b => a.trans b) he h1
  refine ⟨hre, fun k => ?_⟩
  have hlen := hre.1.1
  have hg : start ≠ 0 →
      getInfo (final_reordering_rotations opts script info pref_mask start end_).info
        (start - 1) = getInfo info (start - 1) :=
    fun h0 => sameOutside_getInfo_eq hre.1 (Or.inl (by omega))
  have hch : ChangedWithin (fun g h => h.mask = g.mask) start end_
      (final_reordering_moves opts script info init_mask pref_mask start end_).info
      (finish_clusters opts
        (final_reordering_moves opts script info init_mask pref_mask start end_)
        start end_) :=
    finish_clusters_changed keepsMask_stepRel opts
      (final_reordering_moves opts script info init_mask pref_mask start end_)
      (by rw [final_reordering_moves_eq]; exact h2)
      (by rw [final_reordering_moves_eq]; exact h3)
  have hfin := @changedWithin_pointwise (fun g h => h.mask = g.mask) (fun _ => rfl)
    _ _ _ _ hch k
  have hout : (getInfo (final_reordering_syllable opts script info init_mask pref_mask
      start end_) k).mask =
      (getInfo (final_apply_init init_mask
        (final_reordering_rotations opts script info pref_mask start end_).info start)
        k).mask := by
    unfold final_reordering_syllable
    rw [hfin, final_reordering_moves_eq]
  rw [hout]
  generalize (final_reordering_rotations opts script info pref_mask start end_).info = rot
    at hlen hg ⊢
  have hiff := is_letter_or_mark_eq_false_iff (getInfo info (start - 1)).general_category
  unfold final_apply_init
  by_cases hc : (getInfo rot start).indic_position = POS_PRE_M ∧
      (start = 0 ∨ is_letter_or_mark (getInfo info (start - 1)).general_category = false)
  · have hc2 : (getInfo rot start).indic_position = POS_PRE_M ∧
        (start = 0 ∨ is_letter_or_mark (getInfo rot (start - 1)).general_category = false) := by
      refine ⟨hc.1, ?_⟩
      rcases hc.2 with h0 | h0
      · exact Or.inl h0
      · by_cases hz : start = 0
        · exact Or.inl hz
        · rw [hg hz]
          exact Or.inr h0
    rw [if_pos hc2, getInfo_orMask]
    by_cases hk : k = start
    · subst hk
      rw [if_pos ⟨rfl, by omega⟩,
        if_pos ⟨rfl, hc.1, hc.2.imp id hiff.mp⟩]
    · rw [if_neg (fun h => hk h.1.symm), if_neg (fun h => hk h.1)]
  · have hc2 : ¬ ((getInfo rot start).indic_position = POS_PRE_M ∧
        (start = 0 ∨
          is_letter_or_mark (getInfo rot (start - 1)).general_category = false)) := by
      rintro ⟨c1, c2⟩
      apply hc
      refine ⟨c1, ?_⟩
      rcases c2 with h0 | h0
      · exact Or.inl h0
      · by_cases hz : start = 0
        · exact Or.inl hz
        · rw [hg hz] at h0
          exact Or.inr h0
    rw [if_neg hc2, if_neg (fun h => hc ⟨h.2.1, h.2.2.imp id hiff.mpr⟩)]

/-- Witness of C22: the syllable `[1, 3)` of a pre-base matra and its base.  After a space the
`init` mask (here the bit 1) is OR-ed into the matra at `start`, whose mask was 0; after a
letter it is not. -/
theorem final_reordering_init_mask_witness :
    (1 < 3 ∧ 3 ≤ (example_i_ka_after hb_unicode_general_category_t.SPACE_SEPARATOR).length) ∧
    ((getInfo (final_reordering_syllable ⟨false⟩ HB_SCRIPT_DEVANAGARI
        (example_i_ka_after hb_unicode_general_category_t.SPACE_SEPARATOR) 1
        (example_masks PREF) 1 3) 1).mask =
      (getInfo (final_reordering_rotations ⟨false⟩ HB_SCRIPT_DEVANAGARI
        (example_i_ka_after hb_unicode_general_category_t.SPACE_SEPARATOR)
        (example_masks PREF) 1 3).info 1).mask ||| 1 ∧
      (getInfo (final_reordering_syllable ⟨false⟩ HB_SCRIPT_DEVANAGARI
        (example_i_ka_after hb_unicode_general_category_t.SPACE_SEPARATOR) 1
        (example_masks PREF) 1 3) 1).mask = 1) ∧
    ((getInfo (final_reordering_syllable ⟨false⟩ HB_SCRIPT_DEVANAGARI
        (example_i_ka_after hb_unicode_general_category_t.OTHER_LETTER) 1
        (example_masks PREF) 1 3) 1).mask =
      (getInfo (final_reordering_rotations ⟨false⟩ HB_SCRIPT_DEVANAGARI
        (example_i_ka_after hb_unicode_general_category_t.OTHER_LETTER)
        (example_masks PREF) 1 3).info 1).mask ∧
      (getInfo (final_reordering_syllable ⟨false⟩ HB_SCRIPT_DEVANAGARI
        (example_i_ka_after hb_unicode_general_category_t.OTHER_LETTER) 1
        (example_masks PREF) 1 3) 1).mask = 0) :=
  ⟨⟨by decide, by decide⟩,
    ⟨((final_reordering_init_mask ⟨false⟩ HB_SCRIPT_DEVANAGARI
        (example_i_ka_after hb_unicode_general_category_t.SPACE_SEPARATOR) 1
        (example_masks PREF) 1 3 (by decide) (by decide)).2 1).trans
        (if_pos (by decide)),
      by decide⟩,
    ⟨((final_reordering_init_mask ⟨false⟩ HB_SCRIPT_DEVANAGARI
        (example_i_ka_after hb_unicode_general_category_t.OTHER_LETTER) 1
        (example_masks PREF) 1 3 (by decide) (by decide)).2 1).trans
        (if_neg (by decide)),
      by decide⟩⟩

/-! ## Reph step 2 -/

/-- The upward scan stops at the first index that satisfies the test. -/
theorem scanUp_eq_of_first (p : Nat → Bool) {hi h : Nat} (hp : p h = true) (hh : h ≤ hi) :
    ∀ n j, j ≤ h → h - j ≤ n → (∀ k, j ≤ k → k < h → p k = false) →
      scanUp p hi n j = h := by
  intro n
  induction n with
  | zero =>
    intro j h1 h2 _
    unfold scanUp
    omega
  | succ n ih =>
    intro j h1 h2 h3
    unfold scanUp
    by_cases hj : j = h
    · subst hj
      rw [if_neg (by rw [hp]; simp)]
    · rw [if_pos ⟨by omega, h3 j (Nat.le_refl _) (by omega)⟩]
      exact ih (j + 1) (by omega) (by omega) (fun k a b => h3 k (by omega) b)

theorem reph_pos_of_script_ne_after_postscript {script : Nat}
    (hs : script ≠ HB_SCRIPT_KANNADA ∧ script ≠ HB_SCRIPT_TAMIL ∧ script ≠ HB_SCRIPT_TELUGU) :
    reph_pos_of_script script ≠ reph_position_t.REPH_AFTER_POSTSCRIPT := by
  unfold reph_pos_of_script
  split_ifs with h1 h2 h3 h4
  · simp
  · simp
  · simp
  · rcases h4 with h | h | h
    · exact absurd h hs.1
    · exact absurd h hs.2.1
    · exact absurd h hs.2.2
  · simp

/-- C25: for every script other than Kannada, Tamil and Telugu and every syllable
(`end ≤ len`) with no `POS_PRE_M` glyph, whose glyph at `start` has `POS_RA_TO_BECOME_REPH` and
in which `h` is the first index in `(start, base)` with a halant or coeng (`base` is the base
found again by final reordering): when the glyph at `start + 1` does not have
`POS_RA_TO_BECOME_REPH`, the matra pass followed by the reph pass yields the buffer in which the
glyph of `start` has moved to `p`, where `p` is `h + 1` when `h + 1 < base` and the glyph at
`h + 1` is a joiner and `h` otherwise, the glyphs of `(start, p]` have each shifted left by one
and every other glyph stayed; the start of the last cluster becomes `start`.  And for every
state whose glyph at `start + 1` has `POS_RA_TO_BECOME_REPH` the reph pass changes nothing. -/
theorem final_reorder_reph_step_2 (opts : indic_options_t) (script : Nat)
    (info : List hb_glyph_info_t) (start end_ h : Nat)
    (he : end_ ≤ info.length)
    (hs : script ≠ HB_SCRIPT_KANNADA ∧ script ≠ HB_SCRIPT_TAMIL ∧ script ≠ HB_SCRIPT_TELUGU)
    (hm : ∀ k, start ≤ k → k < end_ → (getInfo info k).indic_position ≠ POS_PRE_M)
    (hr : (getInfo info start).indic_position = POS_RA_TO_BECOME_REPH)
    (h1 : start < h) (h2 : h < final_find_base info start end_)
    (hh : is_halant_or_coeng (getInfo info h) = true)
    (hfirst : ∀ k, start < k → k < h → is_halant_or_coeng (getInfo info k) = false) :
    ((getInfo info (start + 1)).indic_position ≠ POS_RA_TO_BECOME_REPH →
      ∀ p, p = (if h + 1 < final_find_base info start end_ ∧
          is_joiner (getInfo info (h + 1)) = true then h + 1 else h) →
        final_reorder_reph opts script
            (final_reorder_matras ⟨info, final_find_base info start end_⟩ start end_
              (final_find_base info start end_))
            start end_ (final_find_base info start end_) =
          ⟨move_forward info start p, start⟩ ∧
        ∀ k, getInfo (move_forward info start p) k =
          if k < start then getInfo info k
          else if k < p then getInfo info (k + 1)
          else if k = p then getInfo info start
          else getInfo info k) ∧
    (∀ (s : final_state_t) (base : Nat),
      (getInfo s.info (start + 1)).indic_position = POS_RA_TO_BECOME_REPH →
        final_reorder_reph opts script s start end_ base = s) := by
  constructor
  · intro hn p hp
    have hb := final_find_base_bounds info (show start ≤ end_ by
      by_contra hc
      have e : final_find_base info start end_ = end_ := by
        unfold final_find_base findFrom
        rw [show end_ - start = 0 by omega]
        rfl
      omega)
    generalize final_find_base info start end_ = base at h2 hp hb ⊢
    have hmat : final_reorder_matras ⟨info, base⟩ start end_ base = ⟨info, base⟩ :=
      final_reorder_matras_of_no_pre_m ⟨info, base⟩ end_ (fun k a b => hm k a (by omega))
    have hpb : h ≤ p ∧ p < base := by
      rw [hp]
      split_ifs with hc
      · exact ⟨by omega, hc.1⟩
      · exact ⟨Nat.le_refl _, h2⟩
    have hfind : find_new_reph_pos opts script info start end_ base = p := by
      unfold find_new_reph_pos
      simp only
      rw [if_neg (reph_pos_of_script_ne_after_postscript hs),
        scanUp_eq_of_first (fun j => is_halant_or_coeng (getInfo info j)) hh (Nat.le_of_lt h2)
          (base - (start + 1)) (start + 1) (by omega) (by omega)
          (fun k a b => hfirst k (by omega) b),
        if_pos ⟨h2, hh⟩]
      exact hp.symm
    refine ⟨?_, getInfo_move_forward info (by omega) (by omega)⟩
    rw [hmat]
    unfold final_reorder_reph
    rw [if_pos ⟨by omega, hr, hn⟩, hfind]
  · intro s base hq
    unfold final_reorder_reph
    rw [if_neg (fun hc => hc.2.2 hq)]

/-- Witness of C25: the reph of U+0930 U+094D U+0915 U+094D U+200D U+0916 lands after the
ZWJ that follows the first explicit halant. -/
theorem final_reorder_reph_step_2_witness :
    (getInfo example_reph_ka_h_zwj_kha (0 + 1)).indic_position ≠ POS_RA_TO_BECOME_REPH ∧
    final_reorder_reph ⟨false⟩ HB_SCRIPT_DEVANAGARI
        (final_reorder_matras
          ⟨example_reph_ka_h_zwj_kha, final_find_base example_reph_ka_h_zwj_kha 0 5⟩ 0 5
          (final_find_base example_reph_ka_h_zwj_kha 0 5))
        0 5 (final_find_base example_reph_ka_h_zwj_kha 0 5) =
      ⟨move_forward example_reph_ka_h_zwj_kha 0 3, 0⟩ ∧
    (move_forward example_reph_ka_h_zwj_kha 0 3).map (fun g => g.codepoint) =
      [0x0915, 0x094D, 0x200D, 0x0930, 0x0916] :=
  ⟨by decide,
    ((final_reorder_reph_step_2 ⟨false⟩ HB_SCRIPT_DEVANAGARI example_reph_ka_h_zwj_kha 0 5 2
      (by decide) (by decide)
      (by intro k _ hk; interval_cases k <;> decide)
      (by decide) (by decide) (by decide) (by decide)
      (by intro k h1 h2; interval_cases k; decide)).1 (by decide) 3 (by decide)).1,
    by decide⟩


/-! ## The pre-base matra pass -/

theorem getInfo_append_cons (X Y : List hb_glyph_info_t) (x : hb_glyph_info_t) :
    getInfo (X ++ x :: Y) X.length = x := by
  unfold getInfo
  simp only [List.getD_eq_getElem?_getD]
  rw [List.getElem?_append_right (Nat.le_refl _)]
  simp

/-- The rotation of `move_forward` on a buffer split at its two indices. -/
theorem move_forward_append (X M Y : List hb_glyph_info_t) (x g : hb_glyph_info_t) :
    move_forward (X ++ x :: (M ++ g :: Y)) X.length (X.length + 1 + M.length) =
      X ++ (M ++ g :: x :: Y) := by
  unfold move_forward
  rw [getInfo_append_cons]
  have e1 : (X ++ x :: (M ++ g :: Y)).take X.length = X := by simp
  have e2 : (X ++ x :: (M ++ g :: Y)).drop (X.length + 1) = M ++ g :: Y := by
    rw [show X ++ x :: (M ++ g :: Y) = (X ++ [x]) ++ (M ++ g :: Y) by simp]
    rw [show X.length + 1 = (X ++ [x]).length by simp, List.drop_left]
  have e3 : (X ++ x :: (M ++ g :: Y)).drop (X.length + 1 + M.length + 1) = Y := by
    rw [show X ++ x :: (M ++ g :: Y) = (X ++ x :: (M ++ [g])) ++ Y by simp]
    rw [show X.length + 1 + M.length + 1 = (X ++ x :: (M ++ [g])).length by
      simp; omega, List.drop_left]
  rw [e1, e2, e3, show X.length + 1 + M.length - X.length = (M ++ [g]).length by simp; omega]
  rw [show M ++ g :: Y = (M ++ [g]) ++ Y by simp, List.take_left]
  simp

/-- The loop of the matra pass in list form: run over the glyphs `X` in front of the target,
it leaves the first `start` of them, then brings the others that are not `POS_PRE_M` together
in front of the glyphs already passed, and those that are `POS_PRE_M` behind the target
glyph `g`. -/
theorem matra_move_loop_list (start : Nat) (g : hb_glyph_info_t) (D : List hb_glyph_info_t) :
    ∀ (n : Nat) (X NP P : List hb_glyph_info_t) (c : Nat), X.length = n →
      (matra_move_loop start n (X ++ (NP ++ g :: (P ++ D)), X.length + NP.length, c)).1 =
        X.take start ++ (((X.drop start).filter (fun x => x.indic_position != POS_PRE_M) ++ NP) ++
          g :: (((X.drop start).filter (fun x => x.indic_position == POS_PRE_M) ++ P) ++ D)) := by
  intro n
  induction n with
  | zero =>
    intro X NP P c hX
    have : X = [] := List.length_eq_zero.mp hX
    subst this
    simp [matra_move_loop]
  | succ n ih =>
    intro X NP P c hX
    obtain ⟨X1, x, rfl⟩ : ∃ X1 x, X = X1 ++ [x] := by
      rcases List.eq_nil_or_concat X with h | ⟨L, b, h⟩
      · subst h
        simp at hX
      · exact ⟨L, b, by simpa using h⟩
    have hX1 : X1.length = n := by simpa using hX
    unfold matra_move_loop
    by_cases hs : start < n + 1
    · rw [if_pos hs]
      have hread : getInfo ((X1 ++ [x]) ++ (NP ++ g :: (P ++ D))) n = x := by
        rw [← hX1, List.append_assoc]
        exact getInfo_append_cons X1 _ x
      simp only
      rw [hread]
      have htake : (X1 ++ [x]).take start = X1.take start := by
        rw [List.take_append_of_le_length (by omega)]
      have hdrop : (X1 ++ [x]).drop start = X1.drop start ++ [x] := by
        rw [List.drop_append_of_le_length (by omega)]
      rw [htake, hdrop, List.filter_append, List.filter_append]
      by_cases hp : x.indic_position = POS_PRE_M
      · rw [if_pos hp]
        have hmove : move_forward ((X1 ++ [x]) ++ (NP ++ g :: (P ++ D)))
            n ((X1 ++ [x]).length + NP.length) = X1 ++ (NP ++ g :: ((x :: P) ++ D)) := by
          have := move_forward_append X1 NP (P ++ D) x g
          rw [← hX1]
          simpa using this
        rw [hmove]
        have hidx : (X1 ++ [x]).length + NP.length - 1 = X1.length + NP.length := by
          simp only [List.length_append, List.length_cons, List.length_nil]
          omega
        rw [hidx, ih X1 NP (x :: P) _ hX1]
        simp [hp]
      · rw [if_neg hp]
        have e : (X1 ++ [x]) ++ (NP ++ g :: (P ++ D)) = X1 ++ ((x :: NP) ++ g :: (P ++ D)) := by
          simp
        have hidx : (X1 ++ [x]).length + NP.length = X1.length + (x :: NP).length := by
          simp only [List.length_append, List.length_cons, List.length_nil]
          omega
        rw [e, hidx, ih X1 (x :: NP) P _ hX1]
        simp [hp]
    · rw [if_neg hs]
      simp only
      rw [List.take_of_length_le (by omega), List.drop_of_length_le (by omega)]
      simp

/-- C24 (amended): on a syllable with `start < base ≤ end ≤ len`, let `a` be the index where
the scan back from `base - 1` to `start` for a glyph of category M, H or Coeng stops.  If the
glyph at `a` is a halant or coeng whose position is not `POS_PRE_M`, let `t` be `a + 1` when
`a + 1 < end` and the glyph at `a + 1` is a joiner, and `a` otherwise; then the matra pass
yields the buffer that keeps everything before `start` and after `t`, and holds in `[start, t]`
first the glyphs of `[start, t)` that are not `POS_PRE_M`, in their order, then the glyph that
was at `t`, then the glyphs of `[start, t)` that are `POS_PRE_M`, in their order.  If the glyph
at `a` is not such a halant, the pass changes nothing. -/
theorem final_reorder_matras_order (info : List hb_glyph_info_t) (start end_ base solc : Nat)
    (hsb : start < base) (hbe : base ≤ end_) (he : end_ ≤ info.length) :
    ∀ a, a = scanDown (fun j => is_matra_halant_coeng (getInfo info j).indic_category) start
        (base - 1) →
      (is_halant_or_coeng (getInfo info a) = true ∧
          (getInfo info a).indic_position ≠ POS_PRE_M →
        ∀ t, t = (if a + 1 < end_ ∧ is_joiner (getInfo info (a + 1)) = true then a + 1
            else a) →
          (final_reorder_matras ⟨info, solc⟩ start end_ base).info =
            info.take start ++
              ((syllable_glyphs info start t).filter (fun x => x.indic_position != POS_PRE_M) ++
                getInfo info t ::
                  ((syllable_glyphs info start t).filter
                      (fun x => x.indic_position == POS_PRE_M) ++
                    info.drop (t + 1)))) ∧
      (¬ (is_halant_or_coeng (getInfo info a) = true ∧
          (getInfo info a).indic_position ≠ POS_PRE_M) →
        final_reorder_matras ⟨info, solc⟩ start end_ base = ⟨info, solc⟩) := by
  intro a ha
  have ha1 : start ≤ a := by
    rw [ha]
    exact scanDown_ge _ _ _ (by omega)
  have ha2 : a ≤ base - 1 := by
    rw [ha]
    exact scanDown_le _ _ _
  constructor
  · intro hc t ht
    have ht1 : a ≤ t ∧ t < end_ := by
      rw [ht]
      split_ifs with hj
      · exact ⟨by omega, hj.1⟩
      · exact ⟨Nat.le_refl _, by omega⟩
    unfold final_reorder_matras
    rw [if_pos hsb]
    simp only
    rw [← ha, if_pos hc]
    simp only
    rw [← ht]
    have hlen : (info.take t).length = t := by
      rw [List.length_take]
      omega
    have hsplit : info = info.take t ++ ([] ++ getInfo info t :: ([] ++ info.drop (t + 1))) := by
      have hg : getInfo info t = info[t] := by
        unfold getInfo
        rw [List.getD_eq_getElem?_getD, List.getElem?_eq_getElem (by omega)]
        rfl
      rw [hg]
      simp
    have hloop := matra_move_loop_list start (getInfo info t) (info.drop (t + 1)) t
      (info.take t) [] [] solc hlen
    rw [← hsplit, hlen] at hloop
    have e1 : (info.take t).take start = info.take start := by
      rw [List.take_take, Nat.min_eq_left (by omega)]
    have e2 : (info.take t).drop start = syllable_glyphs info start t := by
      unfold syllable_glyphs
      rw [List.drop_take]
    rw [e1, e2] at hloop
    simpa using hloop
  · intro hc
    unfold final_reorder_matras
    rw [if_pos hsb]
    simp only
    rw [← ha, if_neg hc]

/-- Witness of C24: the matra of U+0915 U+094D U+200D U+0937 U+093F lands after the ZWJ that
follows the explicit halant. -/
theorem final_reorder_matras_order_witness :
    (is_halant_or_coeng (getInfo example_i_ka_h_zwj_ssa 2) = true ∧
      (getInfo example_i_ka_h_zwj_ssa 2).indic_position ≠ POS_PRE_M) ∧
    (final_reorder_matras ⟨example_i_ka_h_zwj_ssa, 4⟩ 0 5 4).info =
      example_i_ka_h_zwj_ssa.take 0 ++
        ((syllable_glyphs example_i_ka_h_zwj_ssa 0 3).filter
            (fun x => x.indic_position != POS_PRE_M) ++
          getInfo example_i_ka_h_zwj_ssa 3 ::
            ((syllable_glyphs example_i_ka_h_zwj_ssa 0 3).filter
                (fun x => x.indic_position == POS_PRE_M) ++
              example_i_ka_h_zwj_ssa.drop (3 + 1))) ∧
    (final_reorder_matras ⟨example_i_ka_h_zwj_ssa, 4⟩ 0 5 4).info.map (fun g => g.codepoint) =
      [0x0915, 0x094D, 0x200D, 0x093F, 0x0937] :=
  ⟨by decide,
    ((final_reorder_matras_order example_i_ka_h_zwj_ssa 0 5 4 4 (by decide) (by decide)
      (by decide) 2 (by decide)).1 (by decide)) 3 (by decide),
    by decide⟩

/-- Counterexample to C24 as stated: in the syllable `[0, 2)` of `example_matra_h_then_zwj`,
which has no base, the scan stops at the halant at index 1 whose position is not `POS_PRE_M`,
and the glyph at index 2, the first of the next syllable, is a joiner, so that `t` as stated
is 2; yet the pass puts the matra at index 1, leaves the joiner at index 2, and the last slot
of `[0, 2]` does not hold a `POS_PRE_M` glyph. -/
theorem final_reorder_matras_next_syllable_joiner :
    final_find_base example_matra_h_then_zwj 0 2 = 2 ∧
    scanDown (fun j => is_matra_halant_coeng (getInfo example_matra_h_then_zwj j).indic_category)
      0 (2 - 1) = 1 ∧
    is_halant_or_coeng (getInfo example_matra_h_then_zwj 1) = true ∧
    (getInfo example_matra_h_then_zwj 1).indic_position ≠ POS_PRE_M ∧
    is_joiner (getInfo example_matra_h_then_zwj (1 + 1)) = true ∧
    (syllable_glyphs example_matra_h_then_zwj 0 2).filter
      (fun x => x.indic_position == POS_PRE_M) = [getInfo example_matra_h_then_zwj 0] ∧
    (final_reorder_matras ⟨example_matra_h_then_zwj, 2⟩ 0 2 2).info.map
      (fun g => (g.codepoint, g.indic_position)) =
      [(0x094D, POS_PRE_C), (0x093F, POS_PRE_M), (0x200D, POS_PRE_C)] ∧
    (getInfo (final_reorder_matras ⟨example_matra_h_then_zwj, 2⟩ 0 2 2).info 2).indic_position ≠
      POS_PRE_M ∧
    (final_reorder_matras ⟨example_matra_h_then_zwj, 2⟩ 0 2 2).info ≠
      example_matra_h_then_zwj.take 0 ++
        ((syllable_glyphs example_matra_h_then_zwj 0 2).filter
            (fun x => x.indic_position != POS_PRE_M) ++
          getInfo example_matra_h_then_zwj 2 ::
            ((syllable_glyphs example_matra_h_then_zwj 0 2).filter
                (fun x => x.indic_position == POS_PRE_M) ++
              example_matra_h_then_zwj.drop (2 + 1))) := by
  decide


/-! ## The two variants of the attachment pass -/

/-- The downward scan stops at the first index, coming from above, that satisfies the test. -/
theorem scanDown_eq_of_first (p : Nat → Bool) {lo m : Nat} (hp : p m = true) (hm : lo < m) :
    ∀ j, m ≤ j → (∀ k, m < k → k ≤ j → p k = false) → scanDown p lo j = m := by
  intro j
  induction j with
  | zero =>
    intro h _
    omega
  | succ j ih =>
    intro h1 h2
    unfold scanDown
    by_cases hj : j + 1 = m
    · rw [if_neg (by rw [hj, hp]; simp)]
      exact hj
    · rw [if_pos ⟨by omega, h2 (j + 1) (by omega) (Nat.le_refl _)⟩]
      exact ih (by omega) (fun k a b => h2 k a (by omega))

/-- A loop whose step `i` writes at most the glyph at `i` leaves the glyphs before its first
index alone. -/
theorem foldl_range'_getInfo_below
    (body : Nat → List hb_glyph_info_t → List hb_glyph_info_t)
    (hbody : ∀ i s k, k ≠ i → getInfo (body i s) k = getInfo s k) :
    ∀ (n lo : Nat) (s : List hb_glyph_info_t) (k : Nat), k < lo →
      getInfo ((List.range' lo n).foldl (fun s i => body i s) s) k = getInfo s k := by
  intro n lo s k hk
  exact foldl_range'_induction (fun _ t => getInfo t k = getInfo s k) body n lo s rfl
    (fun i t h1 _ hp => by
      show getInfo (body i t) k = getInfo s k
      rw [hbody i t k (by omega)]
      exact hp)

/-- Two loops agree when their steps agree wherever the step of the second does not leave a
halant with `POS_PRE_M` at its index, and the second loop ends with no such halant. -/
theorem foldl_range'_attach_eq
    (bodyC bodyD : Nat → List hb_glyph_info_t → List hb_glyph_info_t)
    (hC : ∀ i s, ¬ ((getInfo (bodyD i s) i).indic_category = OT_H ∧
      (getInfo (bodyD i s) i).indic_position = POS_PRE_M) → bodyC i s = bodyD i s)
    (hD : ∀ i s k, k ≠ i → getInfo (bodyD i s) k = getInfo s k) :
    ∀ (n lo : Nat) (s : List hb_glyph_info_t),
      (∀ i, lo ≤ i → i < lo + n →
        (getInfo ((List.range' lo n).foldl (fun s i => bodyD i s) s) i).indic_category = OT_H →
        (getInfo ((List.range' lo n).foldl (fun s i => bodyD i s) s) i).indic_position ≠
          POS_PRE_M) →
      (List.range' lo n).foldl (fun s i => bodyC i s) s =
        (List.range' lo n).foldl (fun s i => bodyD i s) s := by
  intro n
  induction n with
  | zero => intro lo s _; rfl
  | succ n ih =>
    intro lo s h
    rw [List.range'_succ, List.foldl_cons, List.foldl_cons]
    rw [List.range'_succ, List.foldl_cons] at h
    have hlo := h lo (Nat.le_refl _) (by omega)
    rw [foldl_range'_getInfo_below bodyD hD n (lo + 1) (bodyD lo s) lo (by omega)] at hlo
    rw [hC lo s (fun hc => hlo hc.1 hc.2)]
    exact ih (lo + 1) (bodyD lo s) (fun i h1 h2 => h i (by omega) (by omega))

theorem getInfo_attach_uniscribe_halant_ne (s : List hb_glyph_info_t) (start i k : Nat)
    (hk : k ≠ i) : getInfo (attach_uniscribe_halant s start i) k = getInfo s k := by
  unfold attach_uniscribe_halant
  simp only
  split_ifs
  · rw [getInfo_setPos, if_neg (fun h => hk h.1.symm)]
  · rfl

/-- With no halant left with `POS_PRE_M` by the default attachment pass, the
Uniscribe-compatible pass does the same as the default one. -/
theorem attach_marks_eq_of_no_pre_m_halant (a : List hb_glyph_info_t) (start end_ : Nat)
    (h : ∀ i, start < i → i < end_ →
      (getInfo (attach_marks ⟨false⟩ a start end_) i).indic_category = OT_H →
      (getInfo (attach_marks ⟨false⟩ a start end_) i).indic_position ≠ POS_PRE_M) :
    attach_marks ⟨true⟩ a start end_ = attach_marks ⟨false⟩ a start end_ := by
  unfold attach_marks at h ⊢
  simp only [Bool.not_true, Bool.not_false, Bool.false_eq_true, if_false, if_true] at h ⊢
  unfold forRange at h ⊢
  refine foldl_range'_attach_eq _ _ ?_ ?_ (end_ - (start + 1)) (start + 1) a ?_
  · intro i s hc
    split_ifs with h1 h2
    · exfalso
      apply hc
      simp only [if_pos h1]
      simpa using h2
    · rfl
    · rfl
  · intro i s k hk
    split_ifs
    · rw [getInfo_setPos, if_neg (fun h => hk h.1.symm)]
    · rfl
  · intro i h1 h2
    exact h i (by omega) (by omega)

/-- The Uniscribe-compatible attachment pass on any buffer: a halant after `start` whose
predecessor ends with `POS_PRE_M` ends with the position of the nearest glyph before it, not
before `start`, whose position is not `POS_PRE_M`; if there is none it ends with `POS_PRE_M`. -/
theorem attach_marks_uniscribe_halant (a : List hb_glyph_info_t) (start end_ : Nat) :
    ∀ m, start < m → m < end_ → m < a.length → (getInfo a m).indic_category = OT_H →
      (getInfo (attach_marks ⟨true⟩ a start end_) (m - 1)).indic_position = POS_PRE_M →
      (∀ j, start ≤ j → j < m →
        (getInfo (attach_marks ⟨true⟩ a start end_) j).indic_position ≠ POS_PRE_M →
        (∀ k, j < k → k < m →
          (getInfo (attach_marks ⟨true⟩ a start end_) k).indic_position = POS_PRE_M) →
        (getInfo (attach_marks ⟨true⟩ a start end_) m).indic_position =
          (getInfo (attach_marks ⟨true⟩ a start end_) j).indic_position) ∧
      ((∀ k, start ≤ k → k < m →
          (getInfo (attach_marks ⟨true⟩ a start end_) k).indic_position = POS_PRE_M) →
        (getInfo (attach_marks ⟨true⟩ a start end_) m).indic_position = POS_PRE_M) := by
  intro m0 hm1 hm2 hm3 hm4
  unfold attach_marks
  simp only [Bool.not_true, Bool.false_eq_true, if_false]
  have hbody_ne : ∀ (i : Nat) (s : List hb_glyph_info_t) (k : Nat), k ≠ i →
      getInfo (if is_attached_category (getInfo s i).indic_category = true then
          if ((getInfo (setPos s i (getInfo s (i - 1)).indic_position) i).indic_category ==
                OT_H) = true ∧
              ((getInfo (setPos s i (getInfo s (i - 1)).indic_position) i).indic_position ==
                POS_PRE_M) = true then
            attach_uniscribe_halant (setPos s i (getInfo s (i - 1)).indic_position) start i
          else setPos s i (getInfo s (i - 1)).indic_position
        else s) k = getInfo s k := by
    intro i s k hk
    split_ifs
    · rw [getInfo_attach_uniscribe_halant_ne _ _ _ _ hk, getInfo_setPos,
        if_neg (fun h => hk h.1.symm)]
    · rw [getInfo_setPos, if_neg (fun h => hk h.1.symm)]
    · rfl
  have hinv := forRange_induction_idx
    (fun i (s : List hb_glyph_info_t) =>
      s.length = a.length ∧ (∀ k, i ≤ k → getInfo s k = getInfo a k) ∧
      ∀ m, start < m → m < i → m < a.length → (getInfo a m).indic_category = OT_H →
        (getInfo s (m - 1)).indic_position = POS_PRE_M →
        (∀ j, start ≤ j → j < m → (getInfo s j).indic_position ≠ POS_PRE_M →
          (∀ k, j < k → k < m → (getInfo s k).indic_position = POS_PRE_M) →
          (getInfo s m).indic_position = (getInfo s j).indic_position) ∧
        ((∀ k, start ≤ k → k < m → (getInfo s k).indic_position = POS_PRE_M) →
          (getInfo s m).indic_position = POS_PRE_M))
    (start + 1) end_
    (fun i (s : List hb_glyph_info_t) =>
      if is_attached_category (getInfo s i).indic_category = true then
        if ((getInfo (setPos s i (getInfo s (i - 1)).indic_position) i).indic_category ==
              OT_H) = true ∧
            ((getInfo (setPos s i (getInfo s (i - 1)).indic_position) i).indic_position ==
              POS_PRE_M) = true then
          attach_uniscribe_halant (setPos s i (getInfo s (i - 1)).indic_position) start i
        else setPos s i (getInfo s (i - 1)).indic_position
      else s)
    a (by omega) ⟨rfl, fun _ _ => rfl, fun m h1 h2 => by omega⟩
    (by
      intro i s hi1 hi2 ⟨p1, p2, p3⟩
      beta_reduce
      refine ⟨?_, ?_, ?_⟩
      · split_ifs
        · unfold attach_uniscribe_halant
          simp only
          split_ifs
          · unfold setPos
            simp [p1]
          · unfold setPos
            simp [p1]
        · unfold setPos
          simp [p1]
        · exact p1
      · intro k hk
        rw [hbody_ne i s k (by omega)]
        exact p2 k (by omega)
      · intro m h1 h2 h3 h4
        by_cases hmi : m = i
        · subst hmi
          have hcat : (getInfo s m).indic_category = OT_H := by
            rw [p2 m (Nat.le_refl _)]
            exact h4
          have hatt : is_attached_category (getInfo s m).indic_category = true := by
            rw [hcat]
            rfl
          rw [hbody_ne m s (m - 1) (by omega)]
          intro hpre
          have hread : ∀ k, getInfo (setPos s m (getInfo s (m - 1)).indic_position) k =
              if m = k ∧ m < s.length then
                { getInfo s m with indic_position := (getInfo s (m - 1)).indic_position }
              else getInfo s k := fun k => getInfo_setPos s m k _
          have hcond : ((getInfo (setPos s m (getInfo s (m - 1)).indic_position)
                m).indic_category == OT_H) = true ∧
              ((getInfo (setPos s m (getInfo s (m - 1)).indic_position) m).indic_position ==
                POS_PRE_M) = true := by
            rw [hread m, if_pos ⟨rfl, by omega⟩]
            simp [hcat, hpre]
          rw [if_pos hatt, if_pos hcond]
          have hlow : ∀ k, k < m →
              getInfo (attach_uniscribe_halant
                (setPos s m (getInfo s (m - 1)).indic_position) start m) k = getInfo s k := by
            intro k hk
            rw [getInfo_attach_uniscribe_halant_ne _ _ _ _ (by omega), hread k,
              if_neg (by omega)]
          constructor
          · intro j hj1 hj2 hj3 hj4
            rw [hlow j hj2] at hj3 ⊢
            have hscan : scanDown (fun j =>
                (getInfo (setPos s m (getInfo s (m - 1)).indic_position)
                  (j - 1)).indic_position != POS_PRE_M) start m = j + 1 := by
              apply scanDown_eq_of_first _ _ (by omega) m (by omega)
              · intro k hk1 hk2
                have := hj4 (k - 1) (by omega) (by omega)
                rw [hlow (k - 1) (by omega)] at this
                show ((getInfo (setPos s m (getInfo s (m - 1)).indic_position)
                  (k - 1)).indic_position != POS_PRE_M) = false
                rw [hread (k - 1), if_neg (by omega), this]
                rfl
              · show ((getInfo (setPos s m (getInfo s (m - 1)).indic_position)
                  (j + 1 - 1)).indic_position != POS_PRE_M) = true
                rw [Nat.add_sub_cancel, hread j, if_neg (by omega)]
                simpa using hj3
            unfold attach_uniscribe_halant
            simp only
            rw [hscan, if_pos (by omega), Nat.add_sub_cancel, getInfo_setPos,
              if_pos ⟨rfl, by unfold setPos; simp; omega⟩, hread j, if_neg (by omega)]
          · intro hall
            have hscan : scanDown (fun j =>
                (getInfo (setPos s m (getInfo s (m - 1)).indic_position)
                  (j - 1)).indic_position != POS_PRE_M) start m = start := by
              apply scanDown_eq_of_forall _ m (by omega)
              intro k hk1 hk2
              have := hall (k - 1) (by omega) (by omega)
              rw [hlow (k - 1) (by omega)] at this
              show ((getInfo (setPos s m (getInfo s (m - 1)).indic_position)
                (k - 1)).indic_position != POS_PRE_M) = false
              rw [hread (k - 1), if_neg (by omega), this]
              rfl
            unfold attach_uniscribe_halant
            simp only
            rw [hscan, if_neg (by omega), hread m, if_pos ⟨rfl, by omega⟩]
            exact hpre
        · have hk : ∀ k, k ≤ m → getInfo (if is_attached_category
                (getInfo s i).indic_category = true then
              if ((getInfo (setPos s i (getInfo s (i - 1)).indic_position) i).indic_category ==
                    OT_H) = true ∧
                  ((getInfo (setPos s i (getInfo s (i - 1)).indic_position)
                    i).indic_position == POS_PRE_M) = true then
                attach_uniscribe_halant (setPos s i (getInfo s (i - 1)).indic_position) start i
              else setPos s i (getInfo s (i - 1)).indic_position
            else s) k = getInfo s k := fun k hk => hbody_ne i s k (by omega)
          rw [hk (m - 1) (by omega), hk m (Nat.le_refl _)]
          intro hpre
          obtain ⟨q1, q2⟩ := p3 m h1 (by omega) h3 h4 hpre
          constructor
          · intro j hj1 hj2 hj3 hj4
            rw [hk j (by omega)] at hj3 ⊢
            exact q1 j hj1 hj2 hj3 (fun k a b => by
              have := hj4 k a b
              rw [hk k (by omega)] at this
              exact this)
          · intro hall
            exact q2 (fun k a b => by
              have := hall k a b
              rw [hk k (by omega)] at this
              exact this))
  exact hinv.2.2 m0 hm1 hm2 hm3 hm4

/-- Position assignment leaves the first glyph of the syllable with `POS_PRE_C`, `POS_BASE_C`
or `POS_RA_TO_BECOME_REPH`. -/
theorem position_assign_positions_start (a : List hb_glyph_info_t) {start end_ base : Nat}
    (has_reph : Bool) (hse : start < end_) (he : end_ ≤ a.length) (hb1 : start ≤ base)
    (hb2 : base ≤ end_) :
    (getInfo (assign_positions a start end_ base has_reph) start).indic_position = POS_PRE_C ∨
    (getInfo (assign_positions a start end_ base has_reph) start).indic_position = POS_BASE_C ∨
    (getInfo (assign_positions a start end_ base has_reph) start).indic_position =
      POS_RA_TO_BECOME_REPH := by
  have hfalse : (getInfo (assign_positions a start end_ base false) start).indic_position =
        POS_PRE_C ∨
      (getInfo (assign_positions a start end_ base false) start).indic_position =
        POS_BASE_C := by
    unfold assign_positions
    simp only [Bool.false_eq_true, if_false]
    obtain ⟨l0, g0⟩ := forRange_setPos_spec POS_PRE_C start base a
    have hm := mark_final_consonant_changed keepsAllButPosition_positionRel
      (if base < end_ then
        setPos (forRange start base (fun i info => setPos info i POS_PRE_C) a) base POS_BASE_C
       else forRange start base (fun i info => setPos info i POS_PRE_C) a)
      (base + 1) end_ base (Nat.le_refl _)
    rw [(hm.2 start).2 (by omega)]
    by_cases hsb : start < base
    · left
      have e : getInfo (if base < end_ then
          setPos (forRange start base (fun i info => setPos info i POS_PRE_C) a) base
            POS_BASE_C
          else forRange start base (fun i info => setPos info i POS_PRE_C) a) start =
          getInfo (forRange start base (fun i info => setPos info i POS_PRE_C) a) start := by
        split_ifs
        · rw [getInfo_setPos, if_neg (by omega)]
        · rfl
      rw [e, g0, if_pos ⟨Nat.le_refl _, hsb, by omega⟩]
    · right
      have hbs : base = start := by omega
      subst hbs
      rw [if_pos hse, position_getInfo_setPos, if_pos ⟨rfl, by omega⟩]
  cases has_reph with
  | false =>
    rcases hfalse with h | h
    · exact Or.inl h
    · exact Or.inr (Or.inl h)
  | true =>
    right
    right
    rw [assign_positions_true, position_getInfo_setPos]
    have hl := (assign_positions_changed keepsAllButPosition_positionRel a false hse hb1
      hb2).1
    rw [if_pos ⟨rfl, by omega⟩]

/-- Below `m` and from `start` on, where the property holds, there is a nearest index where it
holds. -/
theorem exists_nearest_below (P : Nat → Prop) {start : Nat} (h0 : P start) :
    ∀ m, start < m → ∃ j, start ≤ j ∧ j < m ∧ P j ∧ ∀ k, j < k → k < m → ¬ P k := by
  intro m
  induction m with
  | zero => intro h; omega
  | succ m ih =>
    intro h
    by_cases hp : P m
    · exact ⟨m, by omega, by omega, hp, fun k a b => by omega⟩
    · have hsm : start < m := by
        rcases Nat.lt_or_ge start m with h1 | h1
        · exact h1
        · have : start = m := by omega
          subst this
          exact absurd h0 hp
      obtain ⟨j, j1, j2, j3, j4⟩ := ih hsm
      refine ⟨j, j1, by omega, j3, fun k a b => ?_⟩
      by_cases hk : k = m
      · subst hk
        exact hp
      · exact j4 k a (by omega)

/-- The buffer on which the attachment pass starts has the length of the input, and its glyph
at `start` does not have `POS_PRE_M`. -/
theorem initial_reordering_before_attach_facts (chosen_script script : Nat)
    (basic_mask_array : Nat → Nat) (info : List hb_glyph_info_t) {start end_ : Nat}
    (hse : start < end_) (he : end_ ≤ info.length) :
    (initial_reordering_before_attach chosen_script script basic_mask_array info
      start end_).1.length = info.length ∧
    (getInfo (initial_reordering_before_attach chosen_script script basic_mask_array info
      start end_).1 start).indic_position ≠ POS_PRE_M := by
  unfold initial_reordering_before_attach
  simp only
  obtain ⟨hb1, hb2⟩ := find_base_bounds script basic_mask_array info hse
  have s1 := assign_positions_changed keepsAllButPosition_positionRel info
    (find_base script basic_mask_array info start end_).2 hse hb1 hb2
  have s2 := old_spec_halant_move_reordered keepsAllButPosition_positionRel chosen_script
    (assign_positions info start end_ (find_base script basic_mask_array info start end_).1
      (find_base script basic_mask_array info start end_).2) start end_
    (find_base script basic_mask_array info start end_).1 (by omega)
    (by rw [s1.1]; exact he)
  refine ⟨by rw [s2.1.1, s1.1], ?_⟩
  have hp := position_assign_positions_start info
    (find_base script basic_mask_array info start end_).2 hse he hb1 hb2
  have hmove : getInfo (old_spec_halant_move chosen_script
      (assign_positions info start end_ (find_base script basic_mask_array info start end_).1
        (find_base script basic_mask_array info start end_).2)
      (find_base script basic_mask_array info start end_).1 end_) start =
      getInfo (assign_positions info start end_
        (find_base script basic_mask_array info start end_).1
        (find_base script basic_mask_array info start end_).2) start := by
    rcases old_spec_halant_move_cases chosen_script
      (assign_positions info start end_ (find_base script basic_mask_array info start end_).1
        (find_base script basic_mask_array info start end_).2)
      (find_base script basic_mask_array info start end_).1 end_ with h | ⟨i, j, h1, h2, h3, h⟩
    · rw [h]
    · rw [h, getInfo_move_forward _ (Nat.le_of_lt h2) (by rw [s1.1]; omega),
        if_pos (by omega)]
  rw [hmove]
  rcases hp with h | h | h <;> rw [h] <;> decide

theorem getInfo_attach_marks_start (opts : indic_options_t) (a : List hb_glyph_info_t)
    (start end_ : Nat) :
    getInfo (attach_marks opts a start end_) start = getInfo a start := by
  unfold attach_marks forRange
  split_ifs
  · refine foldl_range'_getInfo_below _ ?_ _ _ a start (by omega)
    intro i s k hk
    split_ifs
    · rw [getInfo_setPos, if_neg (fun h => hk h.1.symm)]
    · rfl
  · refine foldl_range'_getInfo_below _ ?_ _ _ a start (by omega)
    intro i s k hk
    simp only
    split_ifs
    · rw [getInfo_attach_uniscribe_halant_ne _ _ _ _ hk, getInfo_setPos,
        if_neg (fun h => hk h.1.symm)]
    · rw [getInfo_setPos, if_neg (fun h => hk h.1.symm)]
    · rfl

/-- C23: for every script, mask array, buffer and syllable (`end ≤ len`), with `S` the
buffer on which the attachment pass starts.  (1) If the default attachment pass on `S` leaves no
glyph of category H after `start` with `POS_PRE_M`, then
`initial_reordering_consonant_syllable` returns the same buffer with the option on and off.
(2) In compatible mode, a glyph of category H at an index `m` after `start` whose predecessor
has `POS_PRE_M` when the pass reaches `m` ends the pass with the position of the glyph at `j`,
where `j` is the nearest index before `m` in the syllable whose glyph does not have `POS_PRE_M`;
such an index exists.  (3) For U+092B U+093F U+094D, whatever position the halant enters
with, compatible mode yields the order U+093F U+092B U+094D and default mode the order
U+093F U+094D U+092B. -/
theorem initial_reordering_uniscribe_variants (chosen_script script : Nat)
    (basic_mask_array : Nat → Nat) (info : List hb_glyph_info_t) (start end_ : Nat)
    (he : end_ ≤ info.length) :
    ((∀ i, start < i → i < end_ →
        (getInfo (attach_marks ⟨false⟩
          (initial_reordering_before_attach chosen_script script basic_mask_array info
            start end_).1 start end_) i).indic_category = OT_H →
        (getInfo (attach_marks ⟨false⟩
          (initial_reordering_before_attach chosen_script script basic_mask_array info
            start end_).1 start end_) i).indic_position ≠ POS_PRE_M) →
      initial_reordering_consonant_syllable ⟨true⟩ chosen_script script basic_mask_array info
          start end_ =
        initial_reordering_consonant_syllable ⟨false⟩ chosen_script script basic_mask_array
          info start end_) ∧
    (∀ m, start < m → m < end_ →
      (getInfo (initial_reordering_before_attach chosen_script script basic_mask_array info
        start end_).1 m).indic_category = OT_H →
      (getInfo (attach_marks ⟨true⟩
        (initial_reordering_before_attach chosen_script script basic_mask_array info
          start end_).1 start end_) (m - 1)).indic_position = POS_PRE_M →
      ∃ j, start ≤ j ∧ j < m ∧
        (getInfo (attach_marks ⟨true⟩
          (initial_reordering_before_attach chosen_script script basic_mask_array info
            start end_).1 start end_) j).indic_position ≠ POS_PRE_M ∧
        (∀ k, j < k → k < m →
          (getInfo (attach_marks ⟨true⟩
            (initial_reordering_before_attach chosen_script script basic_mask_array info
              start end_).1 start end_) k).indic_position = POS_PRE_M) ∧
        (getInfo (attach_marks ⟨true⟩
          (initial_reordering_before_attach chosen_script script basic_mask_array info
            start end_).1 start end_) m).indic_position =
          (getInfo (attach_marks ⟨true⟩
            (initial_reordering_before_attach chosen_script script basic_mask_array info
              start end_).1 start end_) j).indic_position) ∧
    (∀ p,
      (initial_reordering_consonant_syllable ⟨true⟩ 0 HB_SCRIPT_DEVANAGARI example_masks
        (example_pha_i_h p) 0 3).map (fun g => g.codepoint) = [0x093F, 0x092B, 0x094D] ∧
      (initial_reordering_consonant_syllable ⟨false⟩ 0 HB_SCRIPT_DEVANAGARI example_masks
        (example_pha_i_h p) 0 3).map (fun g => g.codepoint) = [0x093F, 0x094D, 0x092B]) := by
  refine ⟨?_, ?_, ?_⟩
  · intro h
    have hatt := attach_marks_eq_of_no_pre_m_halant _ start end_ h
    unfold initial_reordering_before_attach at hatt
    simp only at hatt
    unfold initial_reordering_consonant_syllable initial_reordering_before_sort
    simp only
    rw [hatt]
  · intro m hm1 hm2 hm3 hm4
    obtain ⟨hl, hs⟩ := initial_reordering_before_attach_facts chosen_script script
      basic_mask_array info (show start < end_ by omega) he
    generalize (initial_reordering_before_attach chosen_script script basic_mask_array info
      start end_).1 = S at hm3 hm4 hl hs ⊢
    have hs2 : (getInfo (attach_marks ⟨true⟩ S start end_) start).indic_position ≠
        POS_PRE_M := by
      rw [getInfo_attach_marks_start]
      exact hs
    obtain ⟨j, j1, j2, j3, j4⟩ := exists_nearest_below
      (fun k => (getInfo (attach_marks ⟨true⟩ S start end_) k).indic_position ≠ POS_PRE_M)
      hs2 m hm1
    have j5 : ∀ k, j < k → k < m →
        (getInfo (attach_marks ⟨true⟩ S start end_) k).indic_position = POS_PRE_M :=
      fun k a b => not_not.mp (j4 k a b)
    exact ⟨j, j1, j2, j3, j5,
      (attach_marks_uniscribe_halant S start end_ m hm1 hm2 (by omega) hm3 hm4).1 j j1 j2 j3
        j5⟩
  · intro p
    cases p <;> decide

/-- Witness of C23: on U+0930 U+094D U+0915 no halant inherits `POS_PRE_M` and the two
variants agree; on U+092B U+093F U+094D the halant at index 2 inherits `POS_PRE_M` and in
compatible mode ends with the position of a glyph before the matra. -/
theorem initial_reordering_uniscribe_variants_witness :
    (3 ≤ example_ra_h_ka.length ∧
      initial_reordering_consonant_syllable ⟨true⟩ 0 HB_SCRIPT_DEVANAGARI example_masks
          example_ra_h_ka 0 3 =
        initial_reordering_consonant_syllable ⟨false⟩ 0 HB_SCRIPT_DEVANAGARI example_masks
          example_ra_h_ka 0 3) ∧
    ((getInfo (initial_reordering_before_attach 0 HB_SCRIPT_DEVANAGARI example_masks
        (example_pha_i_h POS_SMVD) 0 3).1 2).indic_category = OT_H ∧
      (getInfo (attach_marks ⟨true⟩
        (initial_reordering_before_attach 0 HB_SCRIPT_DEVANAGARI example_masks
          (example_pha_i_h POS_SMVD) 0 3).1 0 3) (2 - 1)).indic_position = POS_PRE_M ∧
      ∃ j, 0 ≤ j ∧ j < 2 ∧
        (getInfo (attach_marks ⟨true⟩
          (initial_reordering_before_attach 0 HB_SCRIPT_DEVANAGARI example_masks
            (example_pha_i_h POS_SMVD) 0 3).1 0 3) j).indic_position ≠ POS_PRE_M ∧
        (∀ k, j < k → k < 2 →
          (getInfo (attach_marks ⟨true⟩
            (initial_reordering_before_attach 0 HB_SCRIPT_DEVANAGARI example_masks
              (example_pha_i_h POS_SMVD) 0 3).1 0 3) k).indic_position = POS_PRE_M) ∧
        (getInfo (attach_marks ⟨true⟩
          (initial_reordering_before_attach 0 HB_SCRIPT_DEVANAGARI example_masks
            (example_pha_i_h POS_SMVD) 0 3).1 0 3) 2).indic_position =
          (getInfo (attach_marks ⟨true⟩
            (initial_reordering_before_attach 0 HB_SCRIPT_DEVANAGARI example_masks
              (example_pha_i_h POS_SMVD) 0 3).1 0 3) j).indic_position) :=
  ⟨⟨by decide,
      (initial_reordering_uniscribe_variants 0 HB_SCRIPT_DEVANAGARI example_masks
        example_ra_h_ka 0 3 (by decide)).1
        (by intro i h1 h2; interval_cases i <;> decide)⟩,
    ⟨by decide, by decide,
      (initial_reordering_uniscribe_variants 0 HB_SCRIPT_DEVANAGARI example_masks
        (example_pha_i_h POS_SMVD) 0 3 (by decide)).2.1 2 (by decide) (by decide) (by decide)
        (by decide)⟩⟩


/-! ## Overlong syllables: the masks -/

theorem getInfo_clearMask_ne (a : List hb_glyph_info_t) {i k : Nat} (m : Nat) (h : k ≠ i) :
    getInfo (clearMask a i m) k = getInfo a k := by
  rw [getInfo_clearMask, if_neg (fun hc => h hc.1.symm)]

/-- The walk back from a joiner leaves alone every glyph above its first index and every glyph
below a consonant it meets: it stops at that consonant. -/
theorem getInfo_joiner_walk_back_of_stop (basic_mask_array : Nat → Nat) (non_joiner : Bool)
    (start : Nat) :
    ∀ (j₀ : Nat) (a : List hb_glyph_info_t) (t : Nat),
      (j₀ < t ∨ ∃ k, t < k ∧ k ≤ j₀ ∧ is_consonant (getInfo a k) = true) →
      getInfo (joiner_walk_back basic_mask_array non_joiner start j₀ a) t = getInfo a t := by
  intro j₀
  induction j₀ with
  | zero =>
    intro a t h
    have ht : t ≠ 0 := by
      rcases h with h | ⟨k, k1, k2, _⟩ <;> omega
    unfold joiner_walk_back
    simp only
    split_ifs
    · rw [getInfo_clearMask_ne _ _ ht, getInfo_clearMask_ne _ _ ht]
    · rw [getInfo_clearMask_ne _ _ ht]
  | succ j₀ ih =>
    intro a t h
    unfold joiner_walk_back
    simp only
    have hstep : ∃ a', a' = (if non_joiner = true then
          clearMask (clearMask a (j₀ + 1) (basic_mask_array CJCT)) (j₀ + 1)
            (basic_mask_array HALF)
        else clearMask a (j₀ + 1) (basic_mask_array CJCT)) ∧
        (∀ k, k ≠ j₀ + 1 → getInfo a' k = getInfo a k) ∧
        (∀ k, is_consonant (getInfo a' k) = is_consonant (getInfo a k)) := by
      refine ⟨_, rfl, ?_⟩
      cases non_joiner with
      | true =>
        simp only [if_true]
        refine ⟨fun k hk => ?_, fun k => ?_⟩
        · rw [getInfo_clearMask_ne _ _ hk, getInfo_clearMask_ne _ _ hk]
        · rw [is_consonant_of_keeps (shrinks_clearMask _ _ _ k).1,
            is_consonant_of_keeps (shrinks_clearMask _ _ _ k).1]
      | false =>
        simp only [Bool.false_eq_true, if_false]
        exact ⟨fun k hk => getInfo_clearMask_ne _ _ hk,
          fun k => is_consonant_of_keeps (shrinks_clearMask _ _ _ k).1⟩
    obtain ⟨a', ha', e2, c2⟩ := hstep
    rw [← ha']
    have ht : t ≠ j₀ + 1 := by
      rcases h with h | ⟨k, k1, k2, _⟩ <;> omega
    by_cases hcond : start < j₀ + 1 ∧ is_consonant (getInfo a' (j₀ + 1)) = false
    · rw [if_pos hcond, ih a' t ?_, e2 t ht]
      rcases h with h | ⟨k, k1, k2, k3⟩
      · exact Or.inl (by omega)
      · by_cases hk : k = j₀ + 1
        · subst hk
          rw [c2, k3] at hcond
          exact absurd hcond.2 (by simp)
        · exact Or.inr ⟨k, k1, by omega, by rw [c2]; exact k3⟩
    · rw [if_neg hcond]
      exact e2 t ht

/-- The joiner pass leaves alone a glyph when between it and every joiner after it in the
syllable there is a consonant. -/
theorem getInfo_apply_joiner_effects_of_unreached (basic_mask_array : Nat → Nat)
    (x : List hb_glyph_info_t) (start end_ t : Nat)
    (h : ∀ J, t < J → J < end_ → is_joiner (getInfo x J) = true →
      ∃ k, t < k ∧ k < J ∧ is_consonant (getInfo x k) = true) :
    getInfo (apply_joiner_effects basic_mask_array x start end_) t = getInfo x t := by
  unfold apply_joiner_effects
  have hinv := forRange_induction
    (fun s => (∀ k, KeepsAllButMask (getInfo x k) (getInfo s k)) ∧ getInfo s t = getInfo x t)
    (start + 1) end_
    (fun i info =>
      if is_joiner (getInfo info i) then
        joiner_walk_back basic_mask_array ((getInfo info i).indic_category == OT_ZWNJ) start
          (i - 1) info
      else info) x
    ⟨fun _ => ⟨⟨rfl, rfl, rfl, rfl, rfl⟩, rfl⟩, rfl⟩
    (by
      intro i s hi1 hi2 ⟨p1, p2⟩
      beta_reduce
      split_ifs with hj
      · have hspec := (joiner_walk_back_spec basic_mask_array
          ((getInfo s i).indic_category == OT_ZWNJ) start (i - 1) s (by omega)).1
        refine ⟨fun k => (keepsAllButMask_maskStepRel basic_mask_array).trans _ _ _ (p1 k)
          (hspec k).1, ?_⟩
        rw [getInfo_joiner_walk_back_of_stop _ _ _ _ _ _ ?_, p2]
        by_cases hti : i ≤ t
        · exact Or.inl (by omega)
        · have hjx : is_joiner (getInfo x i) = true := by
            rw [← is_joiner_of_keeps (p1 i)]
            exact hj
          obtain ⟨k, k1, k2, k3⟩ := h i (by omega) hi2 hjx
          exact Or.inr ⟨k, k1, by omega, by rw [is_consonant_of_keeps (p1 k)]; exact k3⟩
      · exact ⟨p1, p2⟩)
  exact hinv.2

theorem testBit_getInfo_orMask (a : List hb_glyph_info_t) (i m k b : Nat)
    (h : (getInfo a k).mask.testBit b = true) :
    (getInfo (orMask a i m) k).mask.testBit b = true := by
  rw [getInfo_orMask]
  split_ifs with hc
  · rw [hc.1]
    simp only [Nat.testBit_or, h, Bool.true_or]
  · exact h

/-- The `pref`/`cfar` marking clears no mask bit. -/
theorem mark_pref_cfar_keeps_bits (basic_mask_array : Nat → Nat) (a : List hb_glyph_info_t)
    (end_ base k b : Nat) (h : (getInfo a k).mask.testBit b = true) :
    (getInfo (mark_pref_cfar basic_mask_array a end_ base) k).mask.testBit b = true := by
  unfold mark_pref_cfar
  split_ifs
  · split
    · exact h
    · simp only
      apply forRange_induction (fun s => (getInfo s k).mask.testBit b = true)
      · exact testBit_getInfo_orMask _ _ _ _ _ (testBit_getInfo_orMask _ _ _ _ _ h)
      · intro i s _ _ hs
        exact testBit_getInfo_orMask _ _ _ _ _ hs
  · exact h

/-- The mask set-up ORs into each glyph of the syllable the mask of its zone, and the `rphf`
mask into the glyphs of the leading run with `POS_RA_TO_BECOME_REPH`. -/
theorem setup_syllable_masks_bits (basic_mask_array : Nat → Nat) (a : List hb_glyph_info_t)
    {start end_ base i : Nat} (hb1 : start ≤ base) (he : end_ ≤ a.length) (his : start ≤ i)
    (hie : i < end_) (b : Nat)
    (h : (zone_mask basic_mask_array base i).testBit b = true ∨
      ((∀ j, start ≤ j → j ≤ i → (getInfo a j).indic_position = POS_RA_TO_BECOME_REPH) ∧
        (basic_mask_array RPHF).testBit b = true)) :
    (getInfo (setup_syllable_masks basic_mask_array a start end_ base) i).mask.testBit b =
      true := by
  unfold setup_syllable_masks
  simp only
  obtain ⟨hl, hg⟩ := reph_mask_loop_spec (basic_mask_array RPHF) end_ (end_ - start) start a
  rw [getInfo_setup_zone_masks basic_mask_array _ hb1 his hie (by rw [hl]; omega)]
  simp only [Nat.testBit_or]
  rcases h with h | ⟨h1, h2⟩
  · rw [h]
    simp
  · rw [hg i, if_pos ⟨his, by omega, by omega, fun j j1 j2 => ⟨by omega, h1 j j1 j2⟩⟩]
    simp only [Nat.testBit_or, h2, Bool.or_true, Bool.true_or]

/-- C5: for every syllable of 64 or more glyphs whose chosen script tag is not an old-Indic
tag, initial reordering leaves the order of the glyphs in `[start, end)` unchanged (every slot
holds the glyph it held, up to `indic_position` and `mask`), yet still continues: the
selected base glyph, when there is one, has `POS_BASE_C`, and the feature masks are OR-ed into
the glyphs.  Of the mask of a glyph's zone (`half | akhn | cjct` before the base,
`akhn | cjct` at the base, `blwf | abvf | pstf | cjct` after it), and of `rphf` for a glyph in
the leading run of glyphs with `POS_RA_TO_BECOME_REPH`, every bit outside `cjct | half` is set
in the outgoing mask of every glyph; and every bit, those of `cjct` and `half` included, is
set in the outgoing mask of every glyph that the joiner pass does not reach, that is, when
between the glyph and every joiner after it in the syllable there is a consonant. -/
theorem initial_reordering_long_syllable (opts : indic_options_t)
    (chosen_script script : Nat) (basic_mask_array : Nat → Nat) (info : List hb_glyph_info_t)
    (start end_ : Nat) (hse : start < end_) (he : end_ ≤ info.length)
    (hlong : 64 ≤ end_ - start) (hnew : IS_OLD_INDIC_TAG chosen_script = false) :
    (∀ i, start ≤ i → i < end_ →
      KeepsAllButPositionAndMask (getInfo info i)
        (getInfo (initial_reordering_consonant_syllable opts chosen_script script
          basic_mask_array info start end_) i)) ∧
    ((find_base script basic_mask_array info start end_).1 < end_ →
      (getInfo (initial_reordering_consonant_syllable opts chosen_script script
        basic_mask_array info start end_)
        (find_base script basic_mask_array info start end_).1).indic_position = POS_BASE_C) ∧
    (∀ i, start ≤ i → i < end_ → ∀ b, b < 32 →
      (basic_mask_array CJCT ||| basic_mask_array HALF).testBit b = false →
      ((zone_mask basic_mask_array
          (find_base script basic_mask_array info start end_).1 i).testBit b = true ∨
        ((∀ j, start ≤ j → j ≤ i →
            (getInfo (initial_reordering_consonant_syllable opts chosen_script script
              basic_mask_array info start end_) j).indic_position = POS_RA_TO_BECOME_REPH) ∧
          (basic_mask_array RPHF).testBit b = true)) →
      (getInfo (initial_reordering_consonant_syllable opts chosen_script script
        basic_mask_array info start end_) i).mask.testBit b = true) ∧
    (∀ i, start ≤ i → i < end_ →
      (∀ J, i < J → J < end_ → is_joiner (getInfo info J) = true →
        ∃ k, i < k ∧ k < J ∧ is_consonant (getInfo info k) = true) →
      ∀ b,
        ((zone_mask basic_mask_array
            (find_base script basic_mask_array info start end_).1 i).testBit b = true ∨
          ((∀ j, start ≤ j → j ≤ i →
              (getInfo (initial_reordering_consonant_syllable opts chosen_script script
                basic_mask_array info start end_) j).indic_position =
                POS_RA_TO_BECOME_REPH) ∧
            (basic_mask_array RPHF).testBit b = true)) →
        (getInfo (initial_reordering_consonant_syllable opts chosen_script script
          basic_mask_array info start end_) i).mask.testBit b = true) := by
  obtain ⟨hb1, hb2⟩ := find_base_bounds script basic_mask_array info hse
  have hpre := before_sort_changed_of_new
    (keepsAllButPositionAndMask_stepRel basic_mask_array).toPositionStepRel
    opts chosen_script script basic_mask_array info hse hnew
  have hbase : (initial_reordering_before_sort opts chosen_script script basic_mask_array info
      start end_).2 = (find_base script basic_mask_array info start end_).1 := rfl
  have hout : initial_reordering_consonant_syllable opts chosen_script script basic_mask_array
      info start end_ = initial_reordering_masks basic_mask_array
        (initial_reordering_before_sort opts chosen_script script basic_mask_array info
          start end_).1 start end_ (find_base script basic_mask_array info start end_).1 := by
    unfold initial_reordering_consonant_syllable
    simp only
    rw [sort_syllable_of_long _ _ hlong, hbase]
  rw [hout]
  generalize hP : (initial_reordering_before_sort opts chosen_script script basic_mask_array
    info start end_).1 = pre at *
  generalize hB : (find_base script basic_mask_array info start end_).1 = base at *
  have hm1 := initial_reordering_masks_changed
    (keepsAllButPositionAndMask_stepRel basic_mask_array).toMaskStepRel
    (keepsAllButPositionAndMask_stepRel basic_mask_array).or_rphf pre hb1 hb2
  have hm2 := initial_reordering_masks_changed (keepsAllButMask_maskStepRel basic_mask_array)
    (fun _ => ⟨⟨rfl, rfl, rfl, rfl, rfl⟩, rfl⟩) pre hb1 hb2
  have hlp : end_ ≤ pre.length := by
    rw [hpre.1]
    exact he
  -- the bits the mask set-up ORs in
  have hset : ∀ i, start ≤ i → i < end_ → ∀ b,
      ((zone_mask basic_mask_array base i).testBit b = true ∨
        ((∀ j, start ≤ j → j ≤ i →
            (getInfo (initial_reordering_masks basic_mask_array pre start end_ base)
              j).indic_position = POS_RA_TO_BECOME_REPH) ∧
          (basic_mask_array RPHF).testBit b = true)) →
      (getInfo (setup_syllable_masks basic_mask_array pre start end_ base) i).mask.testBit b =
        true := by
    intro i h1 h2 b hz
    apply setup_syllable_masks_bits basic_mask_array pre hb1 hlp h1 h2 b
    rcases hz with hz | ⟨hr, hz⟩
    · exact Or.inl hz
    · refine Or.inr ⟨fun j j1 j2 => ?_, hz⟩
      rw [← ((hm2.2 j).1 j1 (by omega)).2]
      exact hr j j1 j2
  refine ⟨fun i h1 h2 => ?_, fun hb => ?_, fun i h1 h2 b hb hc hz => ?_,
    fun i h1 h2 hun b hz => ?_⟩
  · exact ((changedWithin_trans (keepsAllButPositionAndMask_stepRel basic_mask_array).trans
      hpre hm1).2 i).1 h1 h2
  · have hpos := (before_sort_base_position opts chosen_script script basic_mask_array info
      hse he (by rw [hB]; exact hb)).1
    rw [hP, hB] at hpos
    have := ((hm2.2 base).1 hb1 hb).2
    rw [this, hpos]
  · have hz2 := hset i h1 h2 b hz
    unfold initial_reordering_masks
    simp only
    have hR := (keepsMaskBitsOutside_stepRel basic_mask_array).toMaskStepRel
    have hpc : ChangedWithin _ start end_ _ _ :=
      mark_pref_cfar_changed hR (setup_syllable_masks basic_mask_array pre start end_ base) hb1
    have hch := changedWithin_trans hR.trans hpc (apply_joiner_effects_changed hR _ start end_)
    exact ((hch.2 i).1 h1 h2).2 b hb hz2 hc
  · have hz2 := hset i h1 h2 b hz
    unfold initial_reordering_masks
    simp only
    have hK := (keepsAllButMask_maskStepRel basic_mask_array)
    have hcat : ∀ k, (getInfo (mark_pref_cfar basic_mask_array
        (setup_syllable_masks basic_mask_array pre start end_ base) end_ base)
        k).indic_category = (getInfo info k).indic_category := by
      intro k
      have c1 := changedWithin_pointwise
        (keepsAllButPositionAndMask_stepRel basic_mask_array).refl hpre k
      have c2 := changedWithin_pointwise hK.refl
        (changedWithin_trans hK.trans
          (setup_syllable_masks_changed hK (fun _ => ⟨⟨rfl, rfl, rfl, rfl, rfl⟩, rfl⟩) pre hb1
            hb2)
          (mark_pref_cfar_changed hK
            (setup_syllable_masks basic_mask_array pre start end_ base) hb1)) k
      rw [c2.1.2.2.1, c1.2.2.1]
    rw [getInfo_apply_joiner_effects_of_unreached]
    · exact mark_pref_cfar_keeps_bits _ _ _ _ _ _ hz2
    · intro J J1 J2 J3
      have hj : is_joiner (getInfo info J) = true := by
        unfold is_joiner at J3 ⊢
        rw [← hcat J]
        exact J3
      obtain ⟨k, k1, k2, k3⟩ := hun J J1 J2 hj
      refine ⟨k, k1, k2, ?_⟩
      unfold is_consonant at k3 ⊢
      rw [hcat k]
      exact k3

/-- Witness of C5 on the overlong syllable of 67 glyphs that begins with a reph: the base, the
last glyph, has `POS_BASE_C`, and the outgoing mask of the first glyph, which heads the reph
run, lies before the base and is reached by no joiner, has the `rphf` bit (bit 3 of
`example_masks`), the `half` bit (bit 7) and the `cjct` bit (bit 11). -/
theorem initial_reordering_long_syllable_witness :
    (0 < 67 ∧ 67 ≤ example_long_reph_syllable.length ∧ 64 ≤ 67 - 0 ∧
      IS_OLD_INDIC_TAG 0 = false) ∧
    (find_base HB_SCRIPT_DEVANAGARI example_masks example_long_reph_syllable 0 67).1 = 66 ∧
    (getInfo (initial_reordering_consonant_syllable ⟨false⟩ 0 HB_SCRIPT_DEVANAGARI
      example_masks example_long_reph_syllable 0 67)
      (find_base HB_SCRIPT_DEVANAGARI example_masks example_long_reph_syllable 0 67).1
      ).indic_position = POS_BASE_C ∧
    (getInfo (initial_reordering_consonant_syllable ⟨false⟩ 0 HB_SCRIPT_DEVANAGARI
      example_masks example_long_reph_syllable 0 67) 0).mask.testBit 3 = true ∧
    (getInfo (initial_reordering_consonant_syllable ⟨false⟩ 0 HB_SCRIPT_DEVANAGARI
      example_masks example_long_reph_syllable 0 67) 0).mask.testBit 7 = true ∧
    (getInfo (initial_reordering_consonant_syllable ⟨false⟩ 0 HB_SCRIPT_DEVANAGARI
      example_masks example_long_reph_syllable 0 67) 0).mask.testBit 11 = true :=
  have hnj : ∀ g ∈ example_long_reph_syllable, is_joiner g = false := by decide!
  have hun : ∀ J, 0 < J → J < 67 → is_joiner (getInfo example_long_reph_syllable J) = true →
      ∃ k, 0 < k ∧ k < J ∧ is_consonant (getInfo example_long_reph_syllable k) = true :=
    fun J _ h2 hj => by
      rw [hnj _ (getInfo_mem (show J < example_long_reph_syllable.length from h2))] at hj
      exact absurd hj (by simp)
  ⟨⟨by decide, by decide!, by decide, by decide⟩, by decide!,
    (initial_reordering_long_syllable ⟨false⟩ 0 HB_SCRIPT_DEVANAGARI example_masks
      example_long_reph_syllable 0 67 (by decide) (by decide!) (by decide) (by decide)).2.1
      (by decide!),
    (initial_reordering_long_syllable ⟨false⟩ 0 HB_SCRIPT_DEVANAGARI example_masks
      example_long_reph_syllable 0 67 (by decide) (by decide!) (by decide) (by decide)).2.2.2
      0 (by decide) (by decide) hun 3
      (Or.inr ⟨fun j _ j2 => by
        have : j = 0 := by omega
        subst this
        decide!, by decide⟩),
    (initial_reordering_long_syllable ⟨false⟩ 0 HB_SCRIPT_DEVANAGARI example_masks
      example_long_reph_syllable 0 67 (by decide) (by decide!) (by decide) (by decide)).2.2.2
      0 (by decide) (by decide) hun 7 (Or.inl (by decide!)),
    (initial_reordering_long_syllable ⟨false⟩ 0 HB_SCRIPT_DEVANAGARI example_masks
      example_long_reph_syllable 0 67 (by decide) (by decide!) (by decide) (by decide)).2.2.2
      0 (by decide) (by decide) hun 11 (Or.inl (by decide!))⟩

/-! ## Attached glyphs after the base -/

/-- A glyph of an attached category that follows the base need not share its `POS_BASE_C`: in
U+0915 U+094D U+092F the halant first takes `POS_BASE_C` from the base and is then re-attached
to the post-base consonant after it, so that the positions end as `POS_BASE_C`, `POS_POST_C`,
`POS_POST_C`. -/
theorem initial_reordering_ka_h_ya :
    (initial_reordering_consonant_syllable ⟨false⟩ 0 HB_SCRIPT_DEVANAGARI example_masks
      example_ka_h_ya 0 3).map (fun g => (g.codepoint, g.indic_position)) =
      [(0x0915, POS_BASE_C), (0x094D, POS_POST_C), (0x092F, POS_POST_C)] := by
  decide

end Indic
